import Mathlib

/-!
# BlockwiseDB: page file, buffer pool and record manager

A shallow embedding of the storage stack of the repository.

* `assign2_buffer_manager/storage_mgr.c`: the page file.  The file behind the
  `FILE *` stream is a list of bytes; block `n` of the page file lives at byte
  offset `(n + 1) * PAGE_SIZE`, the first physical page holding the page count
  as decimal text.
* `assign2_buffer_manager/buffer_mgr.c` (and its renamed copy
  `assign3_record_manager/buffer_mgr.c`, which has the same control flow
  statement for statement): the buffer pool.  The frame memory `pagedata` is
  one flat list of `totalPages * PAGE_SIZE` bytes, the four parallel arrays
  are lists, a pointer into `pagedata` is a byte offset.
* `assign4_b+_tree_indexing/record_mgr.c`: the record manager (tables, records,
  attribute values, scans).

Conventions.  C `int` values are `Int` (array sizes and indices that the code
keeps non-negative are `Nat`); signed overflow, which is undefined in C, is
outside the model.  `char` values are `Nat` byte values.  `malloc`/`calloc`
succeed and the stream operations `fseek`/`fread`/`fwrite` succeed whenever
the bytes they address exist; a stream is an unbuffered view of its file.
`PAGE_SIZE` (declared in a header outside the sources) is a parameter.
-/

namespace BlockwiseDB

/-! # Definitions -/

/-! ## Return codes and enumerations -/

/-- Modelled from the spec: the header that declares the return codes is missing
from the sources; these are the codes the three layers return (the spec lists
them as a flat set).  All of them are non-negative integers in C. -/
inductive RC where
  | RC_OK
  | RC_FILE_NOT_FOUND
  | RC_FILE_HANDLE_NOT_INIT
  | RC_WRITE_FAILED
  | RC_READ_FAILED
  | RC_READ_NON_EXISTING_PAGE
  | RC_DESTROY_FAILED
  | RC_MEMORY_ALLOCATION_FAIL
  | RC_BUFFERPOOL_FULL
  | RC_BUFFERPOOL_IN_USE
  | RC_CLOSE_FAILED
  | RC_RECORD_NOT_FOUND
  | RC_ERROR
  | RC_GENERAL_ERROR
  | RC_INVALID_HEADER
  | RC_RM_NO_MORE_TUPLES
  | RC_IM_KEY_NOT_FOUND
  | RC_IM_NO_MORE_ENTRIES
  deriving DecidableEq, Repr

/-- Modelled from the spec: `buffer_mgr.h` is missing from the sources; the
recognised strategy tags are FIFO, LRU, CLOCK and LRU-K. -/
inductive ReplacementStrategy where
  | RS_FIFO
  | RS_LRU
  | RS_CLOCK
  | RS_LRU_K
  deriving DecidableEq, Repr

/-- Modelled from the spec: the sentinel page number of an empty frame (its
declaration is missing from the sources); it is negative, so it is no page number. -/
def NO_PAGE : Int := -1

/-! ## Loops and memory primitives -/

/-- A counting loop `for (i = start; i < start + fuel; i++) if (p i) break;`:
the first index at which `p` holds, if any. -/
def firstIdx (p : Nat → Bool) : Nat → Nat → Option Nat
  | 0, _ => none
  | k + 1, i => if p i then some i else firstIdx p k (i + 1)

/-- The C library call `memmove(&xs[dst], &xs[src], n * sizeof xs[0])`. -/
def memmove {α : Type} (xs : List α) (dst src n : Nat) : List α :=
  xs.take dst ++ (xs.drop src).take n ++ xs.drop (dst + n)

/-- Copy `src` over the bytes of `mem` starting at offset `off`
(`memcpy(mem + off, src, src.length)`), one byte after the other; a byte that
would fall outside `mem` is not stored. -/
def memcpy (mem : List Nat) (off : Nat) : List Nat → List Nat
  | [] => mem
  | b :: bs => memcpy (mem.set off b) (off + 1) bs

/-- The `n` bytes of `mem` starting at offset `off`. -/
def bytesAt (mem : List Nat) (off n : Nat) : List Nat :=
  (mem.drop off).take n

/-- The bytes of frame `i` of the pool memory. -/
def frameBytes (PAGE_SIZE : Nat) (pagedata : List Nat) (i : Nat) : List Nat :=
  bytesAt pagedata (i * PAGE_SIZE) PAGE_SIZE

/-! ## Page file (`assign2_buffer_manager/storage_mgr.c`) -/

/-- Modelled from the spec: `struct SM_FileHandle` (declared in `storage_mgr.h`,
missing from the sources) with the fields the code uses: total page count,
current page, and the stream, here the content of the file behind it. -/
structure SM_FileHandle where
  totalNumPages : Int
  curPagePos : Int
  mgmtInfo : List Nat
  deriving DecidableEq, Repr

/-- Effect of `fseek(f, off, SEEK_SET); fwrite(buf, 1, buf.length, f)` on the
file content: a seek past the end leaves a hole of zero bytes. -/
def fwriteAt (file : List Nat) (off : Nat) (buf : List Nat) : List Nat :=
  file.take off ++ List.replicate (off - file.length) 0 ++ buf ++ file.drop (off + buf.length)

/-- The C library function `isspace` in the C locale. -/
def isspace (c : Nat) : Bool :=
  c == 32 || (9 ≤ c && c ≤ 13)

/-- Digit loop of `atoi`. -/
def atoiDigits : List Nat → Int → Int
  | [], acc => acc
  | c :: cs, acc => if 48 ≤ c ∧ c ≤ 57 then atoiDigits cs (acc * 10 + (c - 48 : Nat)) else acc

/-- Sign and digits of `atoi`, after the leading white space. -/
def atoiSigned : List Nat → Int
  | [] => 0
  | c :: cs =>
    if c = 45 then - atoiDigits cs 0
    else if c = 43 then atoiDigits cs 0
    else atoiDigits (c :: cs) 0

/-- The C library function `atoi` on a byte buffer. -/
def atoi : List Nat → Int
  | [] => 0
  | c :: cs => if isspace c then atoi cs else atoiSigned (c :: cs)

/-- Decimal digits (as characters) of a natural number, as printed by `%d`. -/
def decimalDigits (n : Nat) : List Nat :=
  (Nat.toDigits 10 n).map Char.toNat

/-- Text written by `snprintf(buf, size, "%d", n)`, terminator excluded. -/
def formatInt (n : Int) : List Nat :=
  if n < 0 then 45 :: decimalDigits n.natAbs else decimalDigits n.natAbs

/-- `createPageFile`: an existing file is opened read-only, so the `fputc`
calls do not change it; a missing file is created with `PAGE_SIZE` zero bytes. -/
def createPageFile (PAGE_SIZE : Nat) (existing : Option (List Nat)) : RC × List Nat :=
  match existing with
  | some file => (RC.RC_OK, file)
  | none => (RC.RC_OK, List.replicate PAGE_SIZE 0)

/-- `openPageFile`: the page count is read from the first physical page. -/
def openPageFile (PAGE_SIZE : Nat) (existing : Option (List Nat)) : RC × Option SM_FileHandle :=
  match existing with
  | none => (RC.RC_FILE_NOT_FOUND, none)
  | some file =>
    let pageBuffer := bytesAt file 0 PAGE_SIZE
    if pageBuffer.length ≠ PAGE_SIZE then (RC.RC_READ_FAILED, none)
    else (RC.RC_OK, some { totalNumPages := atoi pageBuffer, curPagePos := 0, mgmtInfo := file })

/-- `closePageFile`: the page count is printed into the stack buffer
`pageBuffer` (whose other bytes keep whatever the stack held) and the whole
buffer is written over the first physical page. -/
def closePageFile (PAGE_SIZE : Nat) (pageBuffer : List Nat) (fileHandle : SM_FileHandle) :
    RC × SM_FileHandle :=
  let text := (formatInt fileHandle.totalNumPages).take (PAGE_SIZE - 1)
  let buf := (memcpy pageBuffer 0 (text ++ [0])).take PAGE_SIZE
  (RC.RC_OK, { fileHandle with mgmtInfo := fwriteAt fileHandle.mgmtInfo 0 buf })

/-- `readBlock`: returns the status, the handle and the content of `memPage`.
A short read leaves the bytes that were available in `memPage`. -/
def readBlock (PAGE_SIZE : Nat) (pageNum : Int) (fileHandle : SM_FileHandle)
    (memPage : List Nat) : RC × SM_FileHandle × List Nat :=
  if pageNum < 0 ∨ pageNum ≥ fileHandle.totalNumPages then
    (RC.RC_READ_NON_EXISTING_PAGE, fileHandle, memPage)
  else
    let got := bytesAt fileHandle.mgmtInfo ((pageNum + 1).toNat * PAGE_SIZE) PAGE_SIZE
    if got.length ≠ PAGE_SIZE then (RC.RC_READ_FAILED, fileHandle, memcpy memPage 0 got)
    else (RC.RC_OK, { fileHandle with curPagePos := pageNum }, got)

/-- `writeBlock`: no check against `totalNumPages`, and `totalNumPages` is not updated. -/
def writeBlock (PAGE_SIZE : Nat) (pageNum : Int) (fHandle : SM_FileHandle)
    (memPage : List Nat) : RC × SM_FileHandle :=
  if pageNum < 0 then (RC.RC_WRITE_FAILED, fHandle)
  else
    (RC.RC_OK, { fHandle with
      mgmtInfo := fwriteAt fHandle.mgmtInfo ((pageNum + 1).toNat * PAGE_SIZE) memPage
      curPagePos := pageNum })

/-- `appendEmptyBlock`: a zero page is written at the physical end of the file. -/
def appendEmptyBlock (PAGE_SIZE : Nat) (fHandle : SM_FileHandle) : RC × SM_FileHandle :=
  (RC.RC_OK, { fHandle with
    mgmtInfo := fHandle.mgmtInfo ++ List.replicate PAGE_SIZE 0
    totalNumPages := fHandle.totalNumPages + 1
    curPagePos := fHandle.totalNumPages + 1 - 1 })

/-- The `while` loop of `ensureCapacity`, with the number of iterations left as fuel. -/
def ensureCapacityLoop (PAGE_SIZE : Nat) (numberOfPages : Int) :
    Nat → SM_FileHandle → RC × SM_FileHandle
  | 0, fHandle => (RC.RC_OK, fHandle)
  | k + 1, fHandle =>
    if fHandle.totalNumPages < numberOfPages then
      let r := appendEmptyBlock PAGE_SIZE fHandle
      if r.1 ≠ RC.RC_OK then r else ensureCapacityLoop PAGE_SIZE numberOfPages k r.2
    else (RC.RC_OK, fHandle)

/-- `ensureCapacity`: each iteration raises `totalNumPages` by one, so
`numberOfPages - totalNumPages` iterations are enough for the loop to exit. -/
def ensureCapacity (PAGE_SIZE : Nat) (numberOfPages : Int) (fHandle : SM_FileHandle) :
    RC × SM_FileHandle :=
  ensureCapacityLoop PAGE_SIZE numberOfPages (numberOfPages - fHandle.totalNumPages).toNat fHandle

/-! ## Buffer pool (`assign2_buffer_manager/buffer_mgr.c`) -/

/-- The management data of a pool (`struct Bufferpool`); the unused field
`accessTime` is left out. -/
structure Bufferpool where
  numRead : Int
  numWrite : Int
  totalPages : Nat
  updatedStrategy : ReplacementStrategy
  free_space : Nat
  updatedOrder : List Int
  bitdirty : List Bool
  fix_count : List Int
  pagenum : List Int
  pagedata : List Nat
  fhl : SM_FileHandle
  deriving DecidableEq, Repr

/-- Modelled from the spec: `struct BM_PageHandle` (declared in `buffer_mgr.h`,
missing from the sources): the page number and the pointer into the frame
memory (`none` is the null pointer, `some off` is `pagedata + off`). -/
structure BM_PageHandle where
  pageNum : Int
  data : Option Nat
  deriving DecidableEq, Repr

/-- `initBufferPool`: opens the page file and sets every frame empty. -/
def initBufferPool (PAGE_SIZE : Nat) (pageFile : Option (List Nat)) (numPages : Int)
    (strategy : ReplacementStrategy) : RC × Option Bufferpool :=
  if numPages ≤ 0 then (RC.RC_ERROR, none)
  else
    match openPageFile PAGE_SIZE pageFile with
    | (RC.RC_OK, some fh) =>
      (RC.RC_OK, some
        { numRead := 0
          numWrite := 0
          totalPages := numPages.toNat
          updatedStrategy := strategy
          free_space := numPages.toNat
          updatedOrder := List.replicate numPages.toNat NO_PAGE
          bitdirty := List.replicate numPages.toNat false
          fix_count := List.replicate numPages.toNat 0
          pagenum := List.replicate numPages.toNat NO_PAGE
          pagedata := List.replicate (numPages.toNat * PAGE_SIZE) 0
          fhl := fh })
    | (rcode, _) => (rcode, none)

/-- One iteration body of the loop of `writeDirtyPages`, for frame `j`. -/
def writeDirtyPage (PAGE_SIZE : Nat) (bpl : Bufferpool) (j : Nat) : RC × Bufferpool :=
  if bpl.bitdirty.getD j false then
    let r := ensureCapacity PAGE_SIZE (bpl.pagenum.getD j 0 + 1) bpl.fhl
    if r.1 ≠ RC.RC_OK then (r.1, { bpl with fhl := r.2 })
    else
      let w := writeBlock PAGE_SIZE (bpl.pagenum.getD j 0) r.2 (frameBytes PAGE_SIZE bpl.pagedata j)
      if w.1 ≠ RC.RC_OK then (RC.RC_WRITE_FAILED, { bpl with fhl := w.2 })
      else (RC.RC_OK, { bpl with fhl := w.2, numWrite := bpl.numWrite + 1 })
  else (RC.RC_OK, bpl)

/-- The loop of `writeDirtyPages` over the frames `j, j + 1, ...` (`fuel` frames left). -/
def writeDirtyPagesLoop (PAGE_SIZE : Nat) : Nat → Nat → Bufferpool → RC × Bufferpool
  | 0, _, bpl => (RC.RC_OK, bpl)
  | k + 1, j, bpl =>
    let r := writeDirtyPage PAGE_SIZE bpl j
    if r.1 ≠ RC.RC_OK then r else writeDirtyPagesLoop PAGE_SIZE k (j + 1) r.2

/-- `writeDirtyPages`: every dirty frame is written to its block; the dirty flags stay set. -/
def writeDirtyPages (PAGE_SIZE : Nat) (bpl : Bufferpool) : RC × Bufferpool :=
  writeDirtyPagesLoop PAGE_SIZE bpl.totalPages 0 bpl

/-- `shutdownBufferPool`.  The result is the status and the pool data at the
return; after `RC_OK` the C code has released the pool, and the returned value
only records the final counters and the closed file.  `pageBuffer` is the
prior content of the stack buffer of `closePageFile`. -/
def shutdownBufferPool (PAGE_SIZE : Nat) (pageBuffer : List Nat) (bpl : Bufferpool) :
    RC × Bufferpool :=
  match firstIdx (fun i => bpl.fix_count.getD i 0 != 0) bpl.totalPages 0 with
  | some _ => (RC.RC_BUFFERPOOL_IN_USE, bpl)
  | none =>
    let r := writeDirtyPages PAGE_SIZE bpl
    if r.1 ≠ RC.RC_OK then r
    else
      let c := closePageFile PAGE_SIZE pageBuffer r.2.fhl
      if c.1 ≠ RC.RC_OK then (RC.RC_CLOSE_FAILED, { r.2 with fhl := c.2 })
      else (RC.RC_OK, { r.2 with fhl := c.2 })

/-- `ensureFileSize`: a file shorter than `requiredSize` gets a zero byte at
offset `requiredSize - 1`. -/
def ensureFileSize (file : List Nat) (requiredSize : Int) : List Nat :=
  if (file.length : Int) < requiredSize then fwriteAt file (requiredSize - 1).toNat [0] else file

/-- One iteration body of the loop of `forceFlushPool`, for frame `i`.  The
page is written through a second stream on the same file, at byte offset
`pagenum[i] * PAGE_SIZE`; a negative offset makes `fseek` fail and the write
lands at the current position, which is the end of the file. -/
def flushFrame (PAGE_SIZE : Nat) (bpl : Bufferpool) (i : Nat) : Bufferpool :=
  if bpl.fix_count.getD i 0 = 0 ∧ bpl.bitdirty.getD i false = true then
    let p := bpl.pagenum.getD i 0
    let file := ensureFileSize bpl.fhl.mgmtInfo ((p + 1) * PAGE_SIZE)
    let off := if p * PAGE_SIZE < 0 then file.length else (p * PAGE_SIZE).toNat
    { bpl with
      fhl := { bpl.fhl with mgmtInfo := fwriteAt file off (frameBytes PAGE_SIZE bpl.pagedata i) }
      bitdirty := bpl.bitdirty.set i false
      numWrite := bpl.numWrite + 1 }
  else bpl

/-- The loop of `forceFlushPool` over the frames `i, i + 1, ...`. -/
def forceFlushPoolLoop (PAGE_SIZE : Nat) : Nat → Nat → Bufferpool → Bufferpool
  | 0, _, bpl => bpl
  | k + 1, i, bpl => forceFlushPoolLoop PAGE_SIZE k (i + 1) (flushFrame PAGE_SIZE bpl i)

/-- `forceFlushPool`. -/
def forceFlushPool (PAGE_SIZE : Nat) (bpl : Bufferpool) : RC × Bufferpool :=
  (RC.RC_OK, forceFlushPoolLoop PAGE_SIZE bpl.totalPages 0 bpl)

/-- The `for` loop of `ShiftUpdatedOrder`, from index `i` with `fuel` iterations left. -/
def shiftLoop (order : List Int) : Nat → Nat → List Int
  | 0, _ => order
  | k + 1, i => shiftLoop (order.set i (order.getD (i + 1) 0)) k (i + 1)

/-- `ShiftUpdatedOrder` on the array `updatedOrder`. -/
def ShiftUpdatedOrder (start end_ : Nat) (bp : Bufferpool) (newPageNum : Int) : Bufferpool :=
  { bp with updatedOrder := (shiftLoop bp.updatedOrder (end_ - start) start).set end_ newPageNum }

/-- `UpdateBufferPoolStats`. -/
def UpdateBufferPoolStats (bp : Bufferpool) (memoryAddress : Nat) (pageNum : Int) : Bufferpool :=
  { bp with
    pagenum := bp.pagenum.set memoryAddress pageNum
    numRead := bp.numRead + 1
    fix_count := bp.fix_count.set memoryAddress (bp.fix_count.getD memoryAddress 0 + 1)
    bitdirty := bp.bitdirty.set memoryAddress false }

/-- `markDirty`. -/
def markDirty (bpl : Bufferpool) (page : BM_PageHandle) : RC × Bufferpool :=
  match firstIdx (fun i => bpl.pagenum.getD i 0 == page.pageNum) bpl.totalPages 0 with
  | some i =>
    if !(bpl.bitdirty.getD i false) then (RC.RC_OK, { bpl with bitdirty := bpl.bitdirty.set i true })
    else (RC.RC_OK, bpl)
  | none => (RC.RC_OK, bpl)

/-- `forcePage`: the write is only simulated by a message; no byte reaches the file. -/
def forcePage (bpl : Bufferpool) (page : BM_PageHandle) : RC × Bufferpool :=
  match firstIdx (fun i => bpl.pagenum.getD i 0 == page.pageNum) bpl.totalPages 0 with
  | some i =>
    (RC.RC_OK, { bpl with bitdirty := bpl.bitdirty.set i false, numWrite := bpl.numWrite + 1 })
  | none => (RC.RC_WRITE_FAILED, bpl)

/-- `unpinPage`. -/
def unpinPage (bufferPool : Bufferpool) (page : BM_PageHandle) : RC × Bufferpool :=
  match firstIdx (fun i => bufferPool.pagenum.getD i 0 == page.pageNum) bufferPool.totalPages 0 with
  | some i =>
    if bufferPool.fix_count.getD i 0 > 0 then
      (RC.RC_OK, { bufferPool with
        fix_count := bufferPool.fix_count.set i (bufferPool.fix_count.getD i 0 - 1) })
    else (RC.RC_OK, bufferPool)
  | none => (RC.RC_OK, bufferPool)

/-- First part of `pinPage`: the page is found in frame `i` among the used frames. -/
def pinPageHit (PAGE_SIZE : Nat) (buffer_pool : Bufferpool) (pageNum : Int) (i : Nat) :
    RC × Bufferpool × BM_PageHandle :=
  let bp1 := { buffer_pool with
    fix_count := buffer_pool.fix_count.set i (buffer_pool.fix_count.getD i 0 + 1) }
  let page1 : BM_PageHandle := { pageNum := pageNum, data := some (i * PAGE_SIZE) }
  if buffer_pool.updatedStrategy = ReplacementStrategy.RS_LRU then
    let lastPosition := buffer_pool.totalPages - buffer_pool.free_space - 1
    match firstIdx (fun j => bp1.updatedOrder.getD j 0 == pageNum) (lastPosition + 1) 0 with
    | some swap_location =>
      (RC.RC_OK,
        { bp1 with
          updatedOrder :=
            (memmove bp1.updatedOrder swap_location (swap_location + 1)
              (lastPosition - swap_location)).set lastPosition pageNum },
        page1)
    | none => (RC.RC_OK, bp1, page1)
  else (RC.RC_OK, bp1, page1)

/-- Second part of `pinPage`: the page goes into the first unused frame.  The
status of `readBlock` is not looked at (it is never negative); a failed read
leaves the zero bytes of `calloc` in the buffer. -/
def pinPageEmpty (PAGE_SIZE : Nat) (buffer_pool : Bufferpool) (pageNum : Int) :
    RC × Bufferpool × BM_PageHandle :=
  let r := readBlock PAGE_SIZE pageNum buffer_pool.fhl (List.replicate PAGE_SIZE 0)
  let memory_address := buffer_pool.totalPages - buffer_pool.free_space
  let record_pointer := memory_address * PAGE_SIZE
  (RC.RC_OK,
    { buffer_pool with
      fhl := r.2.1
      pagedata := memcpy buffer_pool.pagedata record_pointer r.2.2
      free_space := buffer_pool.free_space - 1
      updatedOrder := buffer_pool.updatedOrder.set memory_address pageNum
      pagenum := buffer_pool.pagenum.set memory_address pageNum
      numRead := buffer_pool.numRead + 1
      fix_count := buffer_pool.fix_count.set memory_address
        (buffer_pool.fix_count.getD memory_address 0 + 1)
      bitdirty := buffer_pool.bitdirty.set memory_address false },
    { pageNum := pageNum, data := some record_pointer })

/-- Inner `do ... while` of the victim search: the first frame that holds
`swap_page` with fix count zero. -/
def victimFrame (buffer_pool : Bufferpool) (swap_page : Int) : Option Nat :=
  firstIdx (fun i => buffer_pool.pagenum.getD i 0 == swap_page && buffer_pool.fix_count.getD i 0 == 0)
    buffer_pool.totalPages 0

/-- Outer `do ... while` of the victim search: the first position `j` of
`updatedOrder` whose page has an unpinned frame.  (`totalPages` is positive,
so the `do ... while` loops run like `while` loops.) -/
def victimOrder (buffer_pool : Bufferpool) : Option Nat :=
  firstIdx (fun j => (victimFrame buffer_pool (buffer_pool.updatedOrder.getD j 0)).isSome)
    buffer_pool.totalPages 0

/-- Third part of `pinPage`: no unused frame is left; a victim is looked for,
written back when dirty, and replaced. -/
def pinPageEvict (PAGE_SIZE : Nat) (buffer_pool : Bufferpool) (page : BM_PageHandle)
    (pageNum : Int) : RC × Bufferpool × BM_PageHandle :=
  let r := readBlock PAGE_SIZE pageNum buffer_pool.fhl (List.replicate PAGE_SIZE 0)
  let bp0 := { buffer_pool with fhl := r.2.1 }
  let page_handle := r.2.2
  if buffer_pool.updatedStrategy = ReplacementStrategy.RS_FIFO
      ∨ buffer_pool.updatedStrategy = ReplacementStrategy.RS_LRU then
    match victimOrder bp0 with
    | none => (RC.RC_BUFFERPOOL_FULL, bp0, page)
    | some swap_location =>
      match victimFrame bp0 (bp0.updatedOrder.getD swap_location 0) with
      | none => (RC.RC_BUFFERPOOL_FULL, bp0, page)
      | some memory_address =>
        let record_pointer := memory_address * PAGE_SIZE
        let bp1 :=
          if bp0.bitdirty.getD memory_address false then
            let e := ensureCapacity PAGE_SIZE (bp0.pagenum.getD memory_address 0 + 1) bp0.fhl
            let w := writeBlock PAGE_SIZE (bp0.pagenum.getD memory_address 0) e.2
              (frameBytes PAGE_SIZE bp0.pagedata memory_address)
            { bp0 with fhl := w.2, numWrite := bp0.numWrite + 1 }
          else bp0
        let bp2 := { bp1 with pagedata := memcpy bp1.pagedata record_pointer page_handle }
        let bp3 := ShiftUpdatedOrder swap_location (bp2.totalPages - 1) bp2 pageNum
        (RC.RC_OK, UpdateBufferPoolStats bp3 memory_address pageNum,
          { pageNum := pageNum, data := some record_pointer })
  else (RC.RC_BUFFERPOOL_FULL, bp0, page)

/-- `pinPage`. -/
def pinPage (PAGE_SIZE : Nat) (buffer_pool : Bufferpool) (page : BM_PageHandle) (pageNum : Int) :
    RC × Bufferpool × BM_PageHandle :=
  let void_page := decide (buffer_pool.free_space = buffer_pool.totalPages)
  let hit :=
    if void_page then none
    else firstIdx (fun i => buffer_pool.pagenum.getD i 0 == pageNum)
      (buffer_pool.totalPages - buffer_pool.free_space) 0
  match hit with
  | some i => pinPageHit PAGE_SIZE buffer_pool pageNum i
  | none =>
    if void_page ∨ (0 < buffer_pool.free_space ∧ buffer_pool.free_space ≤ buffer_pool.totalPages) then
      pinPageEmpty PAGE_SIZE buffer_pool pageNum
    else if buffer_pool.free_space = 0 then
      pinPageEvict PAGE_SIZE buffer_pool page pageNum
    else (RC.RC_BUFFERPOOL_FULL, buffer_pool, page)

/-- `getNumReadIO`. -/
def getNumReadIO (bpl : Bufferpool) : Int := bpl.numRead

/-- `getNumWriteIO`. -/
def getNumWriteIO (bpl : Bufferpool) : Int := bpl.numWrite

/-! ## Calls on a pool, reachable pool states and their invariant -/

/-- A call of the public interface on an initialised pool. -/
inductive PoolOp where
  | pinPage (page : BM_PageHandle) (pageNum : Int)
  | unpinPage (page : BM_PageHandle)
  | markDirty (page : BM_PageHandle)
  | forcePage (page : BM_PageHandle)
  | forceFlushPool
  deriving DecidableEq, Repr

/-- Page numbers handed to `pinPage` and `markDirty` are page numbers, that is,
non-negative (`NO_PAGE` is the sentinel of an empty frame, not a page). -/
def PoolOp.valid : PoolOp → Prop
  | PoolOp.pinPage _ pageNum => 0 ≤ pageNum
  | PoolOp.markDirty page => 0 ≤ page.pageNum
  | _ => True

/-- The pool after a call. -/
def applyOp (PAGE_SIZE : Nat) (bp : Bufferpool) : PoolOp → Bufferpool
  | PoolOp.pinPage page pageNum => (pinPage PAGE_SIZE bp page pageNum).2.1
  | PoolOp.unpinPage page => (unpinPage bp page).2
  | PoolOp.markDirty page => (markDirty bp page).2
  | PoolOp.forcePage page => (forcePage bp page).2
  | PoolOp.forceFlushPool => (forceFlushPool PAGE_SIZE bp).2

/-- The status returned by a call. -/
def statusOp (PAGE_SIZE : Nat) (bp : Bufferpool) : PoolOp → RC
  | PoolOp.pinPage page pageNum => (pinPage PAGE_SIZE bp page pageNum).1
  | PoolOp.unpinPage page => (unpinPage bp page).1
  | PoolOp.markDirty page => (markDirty bp page).1
  | PoolOp.forcePage page => (forcePage bp page).1
  | PoolOp.forceFlushPool => (forceFlushPool PAGE_SIZE bp).1

/-- The pool after a sequence of calls. -/
def runOps (PAGE_SIZE : Nat) (bp : Bufferpool) (ops : List PoolOp) : Bufferpool :=
  ops.foldl (applyOp PAGE_SIZE) bp

/-- Pool states reachable from `initBufferPool` by calls of `pinPage`,
`unpinPage`, `markDirty`, `forcePage` and `forceFlushPool`. -/
inductive Reachable (PAGE_SIZE : Nat) : Bufferpool → Prop where
  | init (pageFile : Option (List Nat)) (numPages : Int) (strategy : ReplacementStrategy)
      (bp : Bufferpool)
      (h : initBufferPool PAGE_SIZE pageFile numPages strategy = (RC.RC_OK, some bp)) :
      Reachable PAGE_SIZE bp
  | step (bp : Bufferpool) (op : PoolOp) (h : Reachable PAGE_SIZE bp) (hv : op.valid) :
      Reachable PAGE_SIZE (applyOp PAGE_SIZE bp op)

/-- Number of frames in use (`totalPages - free_space`). -/
def usedFrames (bp : Bufferpool) : Nat := bp.totalPages - bp.free_space

/-- Page numbers of the frames in use. -/
def usedPages (bp : Bufferpool) : List Int := bp.pagenum.take (usedFrames bp)

/-- The part of `updatedOrder` that belongs to the frames in use, oldest first. -/
def usedOrder (bp : Bufferpool) : List Int := bp.updatedOrder.take (usedFrames bp)

/-- Page `p` is held by some frame. -/
def resident (bp : Bufferpool) (p : Int) : Prop :=
  ∃ i, i < bp.totalPages ∧ bp.pagenum.getD i 0 = p

/-- No frame is empty. -/
def noEmptyFrame (bp : Bufferpool) : Prop :=
  ∀ i, i < bp.totalPages → bp.pagenum.getD i 0 ≠ NO_PAGE

/-- Structural invariant of reachable pool states. -/
structure PoolInv (PAGE_SIZE : Nat) (bp : Bufferpool) : Prop where
  total_pos : 0 < bp.totalPages
  free_le : bp.free_space ≤ bp.totalPages
  len_dirty : bp.bitdirty.length = bp.totalPages
  len_fix : bp.fix_count.length = bp.totalPages
  len_data : bp.pagedata.length = bp.totalPages * PAGE_SIZE
  pagenum_drop : bp.pagenum.drop (usedFrames bp) = List.replicate bp.free_space NO_PAGE
  order_drop : bp.updatedOrder.drop (usedFrames bp) = List.replicate bp.free_space NO_PAGE
  len_pagenum : bp.pagenum.length = bp.totalPages
  len_order : bp.updatedOrder.length = bp.totalPages
  used_nonneg : ∀ x, x ∈ usedPages bp → 0 ≤ x
  nodup : (usedPages bp).Nodup
  perm : (usedOrder bp).Perm (usedPages bp)
  fix_nonneg : ∀ i, 0 ≤ bp.fix_count.getD i 0
  fix_unused : ∀ i, usedFrames bp ≤ i → bp.fix_count.getD i 0 = 0
  dirty_unused : ∀ i, usedFrames bp ≤ i → bp.bitdirty.getD i false = false

/-! ## Decidability and concrete pools used in the worked examples -/

instance (op : PoolOp) : Decidable op.valid := by
  cases op <;> unfold PoolOp.valid <;> infer_instance

instance (bp : Bufferpool) (p : Int) : Decidable (resident bp p) := by
  unfold resident; infer_instance

instance (bp : Bufferpool) : Decidable (noEmptyFrame bp) := by
  unfold noEmptyFrame; infer_instance

/-- The pool right after `initBufferPool` on a page file made by `createPageFile`. -/
def coldPool (PAGE_SIZE n : Nat) (s : ReplacementStrategy) : Bufferpool :=
  { numRead := 0, numWrite := 0, totalPages := n, updatedStrategy := s, free_space := n,
    updatedOrder := List.replicate n NO_PAGE, bitdirty := List.replicate n false,
    fix_count := List.replicate n 0, pagenum := List.replicate n NO_PAGE,
    pagedata := List.replicate (n * PAGE_SIZE) 0,
    fhl := { totalNumPages := 0, curPagePos := 0, mgmtInfo := List.replicate PAGE_SIZE 0 } }

/-- A page handle carrying page number `p`. -/
def handleOf (p : Int) : BM_PageHandle := { pageNum := p, data := none }

/-- The calls `pinPage(p); unpinPage(p)`. -/
def pinUnpin (p : Int) : List PoolOp :=
  [PoolOp.pinPage (handleOf p) p, PoolOp.unpinPage (handleOf p)]

/-- Three-frame FIFO pool (pages of 4 bytes) after pin/unpin of pages 0, 1, 2. -/
def fifoPool012 : Bufferpool :=
  runOps 4 (coldPool 4 3 ReplacementStrategy.RS_FIFO) (pinUnpin 0 ++ pinUnpin 1 ++ pinUnpin 2)

/-- Three-frame LRU pool (pages of 4 bytes) after pin/unpin of pages 0, 1, 2, 0. -/
def lruPool0120 : Bufferpool :=
  runOps 4 (coldPool 4 3 ReplacementStrategy.RS_LRU)
    (pinUnpin 0 ++ pinUnpin 1 ++ pinUnpin 2 ++ pinUnpin 0)

/-- One-frame pool with the reserved strategy tag `RS_CLOCK` after pin/unpin of page 0. -/
def clockPool0 : Bufferpool :=
  runOps 4 (coldPool 4 1 ReplacementStrategy.RS_CLOCK) (pinUnpin 0)

/-- The call is a `pinPage` or an `unpinPage`. -/
def PoolOp.isPinOrUnpin : PoolOp → Prop
  | PoolOp.pinPage _ _ => True
  | PoolOp.unpinPage _ => True
  | _ => False

instance (op : PoolOp) : Decidable op.isPinOrUnpin := by
  cases op <;> unfold PoolOp.isPinOrUnpin <;> infer_instance

/-- The page numbers handed to `pinPage` in a sequence of calls, in call order. -/
def pinnedPages : List PoolOp → List Int
  | [] => []
  | PoolOp.pinPage _ p :: ops => p :: pinnedPages ops
  | _ :: ops => pinnedPages ops

/-- The call, made in state `bp`, is not a `pinPage` that fails. -/
def pinOK (PAGE_SIZE : Nat) (bp : Bufferpool) : PoolOp → Prop
  | PoolOp.pinPage page p => (pinPage PAGE_SIZE bp page p).1 = RC.RC_OK
  | _ => True

instance (PAGE_SIZE : Nat) (bp : Bufferpool) (op : PoolOp) : Decidable (pinOK PAGE_SIZE bp op) := by
  cases op <;> unfold pinOK <;> infer_instance

/-- Every `pinPage` call of the sequence, started in state `bp`, returned `RC_OK`. -/
def allPinsOK (PAGE_SIZE : Nat) : Bufferpool → List PoolOp → Prop
  | _, [] => True
  | bp, op :: ops => pinOK PAGE_SIZE bp op ∧ allPinsOK PAGE_SIZE (applyOp PAGE_SIZE bp op) ops

instance decAllPinsOK (PAGE_SIZE : Nat) :
    ∀ (bp : Bufferpool) (ops : List PoolOp), Decidable (allPinsOK PAGE_SIZE bp ops)
  | _, [] => isTrue trivial
  | bp, op :: ops =>
    have := decAllPinsOK PAGE_SIZE (applyOp PAGE_SIZE bp op) ops
    inferInstanceAs
      (Decidable (pinOK PAGE_SIZE bp op ∧ allPinsOK PAGE_SIZE (applyOp PAGE_SIZE bp op) ops))

/-- The call, made in state `bp`, is a `pinPage` of a page that is not resident: 1, else 0. -/
def missOf (bp : Bufferpool) : PoolOp → Nat
  | PoolOp.pinPage _ p => if resident bp p then 0 else 1
  | _ => 0

/-- Number of `pinPage` calls of the sequence, started in state `bp`, that were
misses (the page was not resident at the time of the call). -/
def missCount (PAGE_SIZE : Nat) : Bufferpool → List PoolOp → Nat
  | _, [] => 0
  | bp, op :: ops => missOf bp op + missCount PAGE_SIZE (applyOp PAGE_SIZE bp op) ops

/-- The page numbers of the `pinPage` calls of the sequence (started in state
`bp`) that returned `RC_OK`, oldest first. -/
def pinHistory (PAGE_SIZE : Nat) : Bufferpool → List PoolOp → List Int
  | _, [] => []
  | bp, PoolOp.pinPage page p :: ops =>
    (if (pinPage PAGE_SIZE bp page p).1 = RC.RC_OK then [p] else [])
      ++ pinHistory PAGE_SIZE (applyOp PAGE_SIZE bp (PoolOp.pinPage page p)) ops
  | bp, op :: ops => pinHistory PAGE_SIZE (applyOp PAGE_SIZE bp op) ops

/-- In the pin history `hist`, page `b` has been pinned after the last pin of
page `a` (so `a` is the less recently pinned of the two). -/
def pinnedAfter (hist : List Int) (a b : Int) : Prop :=
  ∃ A B, hist = A ++ b :: B ∧ a ∉ B

/-- Block `v` of the page file behind `fh` holds the bytes `data`: the block
lies inside the page count of the handle and inside the file, and the
`PAGE_SIZE` bytes at its offset `(v + 1) * PAGE_SIZE` are `data`. -/
def blockStored (PAGE_SIZE : Nat) (fh : SM_FileHandle) (v : Int) (data : List Nat) : Prop :=
  0 ≤ v ∧ v < fh.totalNumPages
    ∧ (v + 1).toNat * PAGE_SIZE + PAGE_SIZE ≤ fh.mgmtInfo.length
    ∧ bytesAt fh.mgmtInfo ((v + 1).toNat * PAGE_SIZE) PAGE_SIZE = data

/-- Three-frame FIFO pool after `pinPage(0)` without an unpin. -/
def fifoPoolPinned0 : Bufferpool :=
  runOps 4 (coldPool 4 3 ReplacementStrategy.RS_FIFO) [PoolOp.pinPage (handleOf 0) 0]

/-- Modelled from the spec: record identifier `RID = (page, slot)` (declared in a
header missing from the sources). -/
structure RID where
  page : Int
  slot : Int
  deriving DecidableEq, Repr

/-- Modelled from the spec: a record is its identifier and its bytes (`struct
Record` is declared in a header missing from the sources). -/
structure Record where
  id : RID
  data : List Nat
  deriving DecidableEq, Repr

/-- Modelled from the spec: the attribute types INT, FLOAT, STRING, BOOL (the
enumeration is declared in a header missing from the sources). -/
inductive DataType where
  | DT_INT
  | DT_FLOAT
  | DT_STRING
  | DT_BOOL
  deriving DecidableEq, Repr

/-- Modelled from the spec: the enumeration value of a data type, as stored in
the table header and as used for indexing by `getAttrPos`.  The numbering
INT 0, FLOAT 1, STRING 2, BOOL 3 is the order in which the spec lists the types
and the one that the array `sizes` of `getAttrPos` is written for (`Index
corresponds to DataType enum`). -/
def DataType.toInt : DataType → Int
  | DataType.DT_INT => 0
  | DataType.DT_FLOAT => 1
  | DataType.DT_STRING => 2
  | DataType.DT_BOOL => 3

/-- The data type with a given enumeration value (`DT_INT` for a value outside 0..3). -/
def DataType.ofInt (n : Int) : DataType :=
  if n = 1 then DataType.DT_FLOAT
  else if n = 2 then DataType.DT_STRING
  else if n = 3 then DataType.DT_BOOL
  else DataType.DT_INT

/-- Modelled from the spec: table schema (`struct Schema` is declared in a header
missing from the sources) with the fields the code uses; attribute names are
C strings without the terminator. -/
structure Schema where
  numAttr : Int
  attrNames : List (List Nat)
  dataTypes : List DataType
  typeLength : List Int
  keyAttrs : List Int
  keySize : Int
  deriving DecidableEq, Repr

/-- Modelled from the spec: per-table state `TableManager` (declared in a header
missing from the sources) with the five counters of the spec; the buffer pool
and the page handle the table owns are held by value. -/
structure TableManager where
  totalTuples : Int
  recSize : Int
  firstFreePageNum : Int
  firstFreeSlotNum : Int
  firstDataPageNum : Int
  bufferManagerPtr : Bufferpool
  pageHandlePtr : BM_PageHandle
  deriving DecidableEq, Repr

/-- Modelled from the spec: table handle `RM_TableData` (declared in a header
missing from the sources): the schema and the management data. -/
structure RM_TableData where
  schema : Schema
  mgmtData : TableManager
  deriving DecidableEq, Repr

/-- Modelled from the spec: the declaration of `struct PageHeader` is missing
from the sources.  The spec lists its fields in the order `page_identifier`
(a byte), `total_tuples`, `free_slot_count`, `next_free_slot_index`,
`prev_free_page_index`, `next_free_page_index`, `prev_data_page_index`,
`next_data_page_index`; with a one-byte first field and 4-byte aligned `int`
fields the structure occupies 32 bytes. -/
def sizeofPageHeader : Nat := 32

/-- Byte offset of `pageIdentifier` in `PageHeader`. -/
def offPageIdentifier : Nat := 0

/-- Byte offset of `totalTuples` in `PageHeader`. -/
def offTotalTuples : Nat := 4

/-- Byte offset of `freeSlotCnt` in `PageHeader`. -/
def offFreeSlotCnt : Nat := 8

/-- Byte offset of `nextFreeSlotInd` in `PageHeader`. -/
def offNextFreeSlotInd : Nat := 12

/-- Byte offset of `prevFreePageIndex` in `PageHeader`. -/
def offPrevFreePageIndex : Nat := 16

/-- Byte offset of `nextFreePageIndex` in `PageHeader`. -/
def offNextFreePageIndex : Nat := 20

/-- Byte offset of `prevDataPageIndex` in `PageHeader`. -/
def offPrevDataPageIndex : Nat := 24

/-- Byte offset of `nextDataPageIndex` in `PageHeader`. -/
def offNextDataPageIndex : Nat := 28

/-- The length limit of an attribute name in the table header. -/
def MAX_ATTR_NAME_LEN : Nat := 15

/-- The four bytes of a C `int`, least significant first. -/
def encodeInt (n : Int) : List Nat :=
  let u := (n % 4294967296).toNat
  [u % 256, u / 256 % 256, u / 65536 % 256, u / 16777216 % 256]

/-- The C `int` held by four bytes, least significant first. -/
def decodeInt (bs : List Nat) : Int :=
  let u := bs.getD 0 0 + 256 * bs.getD 1 0 + 65536 * bs.getD 2 0 + 16777216 * bs.getD 3 0
  if u < 2147483648 then (u : Int) else (u : Int) - 4294967296

/-- Read an `int` at a byte offset: `*(int *)(mem + off)`. -/
def readInt (mem : List Nat) (off : Nat) : Int :=
  decodeInt (bytesAt mem off 4)

/-- Store an `int` at a byte offset: `*(int *)(mem + off) = n`. -/
def writeInt (mem : List Nat) (off : Nat) (n : Int) : List Nat :=
  memcpy mem off (encodeInt n)

/-- The C library call `strncpy(dst, src, n)` as the `n` bytes it stores: the
string, cut at `n` bytes or padded with zero bytes. -/
def strncpyBytes (src : List Nat) (n : Nat) : List Nat :=
  src.take n ++ List.replicate (n - src.length) 0

/-- The C string starting at a byte offset (`strdup(mem + off)`). -/
def cstringAt (mem : List Nat) (off : Nat) : List Nat :=
  (mem.drop off).takeWhile (fun c => c != 0)

/-- On-disk width of one attribute, the `switch` of `getRecordSize`. -/
def attrSize (dt : DataType) (typeLength : Int) : Int :=
  match dt with
  | DataType.DT_STRING => typeLength
  | DataType.DT_INT => 4
  | DataType.DT_FLOAT => 4
  | DataType.DT_BOOL => 1

/-- The summation loop of `getRecordSize` over the attributes `i, i + 1, ...`.
(In C every addition `totalSize += ... * sizeof(...)` is made in `size_t` and
stored back into the `int`; the stored value is this sum as long as the sum is
a non-negative C `int`, that is for non-negative type lengths and widths that
sum to at most 2147483647.  Theorems on the record size carry that bound.) -/
def recordSizeLoop (schema : Schema) : Nat → Nat → Int → Int
  | 0, _, totalSize => totalSize
  | k + 1, i, totalSize =>
    recordSizeLoop schema k (i + 1)
      (totalSize + attrSize (schema.dataTypes.getD i DataType.DT_INT) (schema.typeLength.getD i 0))

/-- `getRecordSize`: the sum of the attribute widths, padded to a multiple of 4
(`%` is the C remainder, which truncates towards zero).  (The value is the one
of the C function when the type lengths are non-negative and the padded sum is
a C `int`, i.e. the widths sum to at most 2147483644; beyond that the `size_t`
sums of the code wrap on conversion to `int` and this sum does not.) -/
def getRecordSize (schema : Schema) : Int :=
  let totalSize := recordSizeLoop schema schema.numAttr.toNat 0 0
  let padding := Int.tmod totalSize 4
  if padding ≠ 0 then totalSize + (4 - padding) else totalSize

/-- The attribute loop of `populateSchemaDetails`: name, data type, type length. -/
def populateAttrs (schema : Schema) : Nat → Nat → List Nat → Nat → List Nat × Nat
  | 0, _, mem, ptr => (mem, ptr)
  | k + 1, i, mem, ptr =>
    let m1 := memcpy mem ptr (strncpyBytes (schema.attrNames.getD i []) MAX_ATTR_NAME_LEN)
    let m2 := writeInt m1 (ptr + MAX_ATTR_NAME_LEN) (schema.dataTypes.getD i DataType.DT_INT).toInt
    let m3 := writeInt m2 (ptr + MAX_ATTR_NAME_LEN + 4) (schema.typeLength.getD i 0)
    populateAttrs schema k (i + 1) m3 (ptr + MAX_ATTR_NAME_LEN + 4 + 4)

/-- The key loop of `populateSchemaDetails`. -/
def populateKeys (schema : Schema) : Nat → Nat → List Nat → Nat → List Nat × Nat
  | 0, _, mem, ptr => (mem, ptr)
  | k + 1, i, mem, ptr =>
    populateKeys schema k (i + 1) (writeInt mem ptr (schema.keyAttrs.getD i 0)) (ptr + 4)

/-- `populateSchemaDetails` on the memory `mem`, writing from offset `ptr`. -/
def populateSchemaDetails (mem : List Nat) (ptr : Nat) (schema : Schema) : List Nat × Nat :=
  let r := populateAttrs schema schema.numAttr.toNat 0 mem ptr
  populateKeys schema schema.keySize.toNat 0 r.1 r.2

/-- `prepareTableHeader`: seven `int`s, then the schema details.  Returns the
memory and the initial table counters `(totalTuples, recSize, firstFreePageNum,
firstFreeSlotNum, firstDataPageNum)`. -/
def prepareTableHeader (mem : List Nat) (ptr : Nat) (schema : Schema) : List Nat :=
  let m1 := writeInt mem ptr 0
  let m2 := writeInt m1 (ptr + 4) (getRecordSize schema)
  let m3 := writeInt m2 (ptr + 8) 1
  let m4 := writeInt m3 (ptr + 12) 0
  let m5 := writeInt m4 (ptr + 16) (-1)
  let m6 := writeInt m5 (ptr + 20) schema.numAttr
  let m7 := writeInt m6 (ptr + 24) schema.keySize
  (populateSchemaDetails m7 (ptr + 28) schema).1

/-- `createTable`: returns the status and the content of the table file.
`existing` is the file of that name before the call (if any), `pageBuffer` the
prior content of the stack buffer of `closePageFile`. -/
def createTable (PAGE_SIZE : Nat) (pageBuffer : List Nat) (existing : Option (List Nat))
    (schema : Schema) : RC × Option (List Nat) :=
  let c := createPageFile PAGE_SIZE existing
  if c.1 ≠ RC.RC_OK then (c.1, some c.2)
  else
    match initBufferPool PAGE_SIZE (some c.2) 3 ReplacementStrategy.RS_FIFO with
    | (RC.RC_OK, some bufferPool) =>
      let pin := pinPage PAGE_SIZE bufferPool { pageNum := 0, data := none } 0
      if pin.1 ≠ RC.RC_OK then (pin.1, some pin.2.1.fhl.mgmtInfo)
      else
        let pageHandle := pin.2.2
        let bp1 := { pin.2.1 with
          pagedata := prepareTableHeader pin.2.1.pagedata (pageHandle.data.getD 0) schema }
        let d := markDirty bp1 pageHandle
        if d.1 ≠ RC.RC_OK then (d.1, some d.2.fhl.mgmtInfo)
        else
          let u := unpinPage d.2 pageHandle
          if u.1 ≠ RC.RC_OK then (u.1, some u.2.fhl.mgmtInfo)
          else
            let s := shutdownBufferPool PAGE_SIZE pageBuffer u.2
            (s.1, some s.2.fhl.mgmtInfo)
    | (result, _) => (result, some c.2)

/-- The attribute loop of `openTable`. -/
def loadAttrs (mem : List Nat) : Nat → Nat → List (List Nat) × List DataType × List Int × Nat
  | 0, ptr => ([], [], [], ptr)
  | k + 1, ptr =>
    let r := loadAttrs mem k (ptr + MAX_ATTR_NAME_LEN + 4 + 4)
    (cstringAt mem ptr :: r.1,
      DataType.ofInt (readInt mem (ptr + MAX_ATTR_NAME_LEN)) :: r.2.1,
      readInt mem (ptr + MAX_ATTR_NAME_LEN + 4) :: r.2.2.1, r.2.2.2)

/-- The key loop of `openTable`. -/
def loadKeys (mem : List Nat) : Nat → Nat → List Int
  | 0, _ => []
  | k + 1, ptr => readInt mem ptr :: loadKeys mem k (ptr + 4)

/-- `openTable`: the table counters and the schema are read from page 0. -/
def openTable (PAGE_SIZE : Nat) (tableFile : Option (List Nat)) : RC × Option RM_TableData :=
  match initBufferPool PAGE_SIZE tableFile 3 ReplacementStrategy.RS_FIFO with
  | (RC.RC_OK, some bufferManager) =>
    let pin := pinPage PAGE_SIZE bufferManager { pageNum := 0, data := none } 0
    if pin.1 ≠ RC.RC_OK then (pin.1, none)
    else
      let pageHandle := pin.2.2
      let mem := pin.2.1.pagedata
      let tableHeader := pageHandle.data.getD 0
      let numAttr := readInt mem (tableHeader + 20)
      let keySize := readInt mem (tableHeader + 24)
      let attrs := loadAttrs mem numAttr.toNat (tableHeader + 28)
      let keys := loadKeys mem keySize.toNat attrs.2.2.2
      let u := unpinPage pin.2.1 pageHandle
      if u.1 ≠ RC.RC_OK then (u.1, none)
      else
        (RC.RC_OK, some
          { schema :=
              { numAttr := numAttr, attrNames := attrs.1, dataTypes := attrs.2.1,
                typeLength := attrs.2.2.1, keyAttrs := keys, keySize := keySize }
            mgmtData :=
              { totalTuples := readInt mem tableHeader
                recSize := readInt mem (tableHeader + 4)
                firstFreePageNum := readInt mem (tableHeader + 8)
                firstFreeSlotNum := readInt mem (tableHeader + 12)
                firstDataPageNum := readInt mem (tableHeader + 16)
                bufferManagerPtr := u.2
                pageHandlePtr := pageHandle } })
  | (resultCode, _) => (resultCode, none)

/-- `getNumTuples`. -/
def getNumTuples (rel : RM_TableData) : Int := rel.mgmtData.totalTuples

/-- Slots per page: `(PAGE_SIZE - sizeof(PageHeader)) / (recSize + 2)`.  (The C
expression is evaluated in `size_t` and stored in an `int`; it agrees with this
integer division when `sizeof(PageHeader) ≤ PAGE_SIZE ≤ 2147483647` and
`0 < recSize + 2 ≤ 2147483647`; theorems that compare a slot number with it
for an arbitrary table carry that bound.) -/
def slotsPerPage (PAGE_SIZE : Nat) (recSize : Int) : Int :=
  ((PAGE_SIZE : Int) - sizeofPageHeader) / (recSize + 2)

/-- Address of a slot of the page that starts at offset `page` of the pool
memory: `page + sizeof(PageHeader) + slot * (recSize + 2)`.  (An address before
the start of the pool memory is undefined behaviour in C and outside the model.) -/
def slotAddress (page : Nat) (recSize slot : Int) : Nat :=
  ((page : Int) + (sizeofPageHeader : Int) + slot * (recSize + 2)).toNat

/-- The header update of `insertRecord` on the page at offset `page` of `mem`. -/
def insertHeader (PAGE_SIZE : Nat) (mem : List Nat) (page : Nat) (pageNum recSize : Int) :
    List Nat :=
  if mem.getD (page + offPageIdentifier) 0 ≠ 89 then
    let m1 := mem.set (page + offPageIdentifier) 89
    let m2 := writeInt m1 (page + offTotalTuples) 0
    let m3 := writeInt m2 (page + offFreeSlotCnt) (slotsPerPage PAGE_SIZE recSize - 1)
    let m4 := writeInt m3 (page + offNextFreeSlotInd) 1
    let m5 := writeInt m4 (page + offPrevFreePageIndex) (-1)
    let m6 := writeInt m5 (page + offNextFreePageIndex) (pageNum + 1)
    let m7 := writeInt m6 (page + offPrevDataPageIndex) (-1)
    writeInt m7 (page + offNextDataPageIndex) 1
  else
    let m1 := writeInt mem (page + offTotalTuples) (readInt mem (page + offTotalTuples) + 1)
    let m2 := writeInt m1 (page + offFreeSlotCnt) (readInt m1 (page + offFreeSlotCnt) - 1)
    writeInt m2 (page + offNextFreeSlotInd)
      (if readInt m2 (page + offFreeSlotCnt) > 0 then readInt m2 (page + offNextFreeSlotInd) + 1
       else - readInt m2 (page + offNextFreeSlotInd))

/-- `insertRecord`: returns the status, the table and the record (with its new identifier). -/
def insertRecord (PAGE_SIZE : Nat) (rel : RM_TableData) (record : Record) :
    RC × RM_TableData × Record :=
  let tableMgmt := rel.mgmtData
  let pin := pinPage PAGE_SIZE tableMgmt.bufferManagerPtr tableMgmt.pageHandlePtr
    tableMgmt.firstFreePageNum
  let t1 := { tableMgmt with bufferManagerPtr := pin.2.1, pageHandlePtr := pin.2.2 }
  if pin.1 ≠ RC.RC_OK then (RC.RC_ERROR, { rel with mgmtData := t1 }, record)
  else
    let pageHandle := pin.2.2
    let page := pageHandle.data.getD 0
    let m1 := insertHeader PAGE_SIZE pin.2.1.pagedata page pageHandle.pageNum tableMgmt.recSize
    let positionForNewData := slotAddress page tableMgmt.recSize tableMgmt.firstFreeSlotNum
    let m2 := m1.set positionForNewData 89
    let m3 := memcpy m2 (positionForNewData + 1) (record.data.take tableMgmt.recSize.toNat)
    let m4 := m3.set (positionForNewData + tableMgmt.recSize.toNat + 1) 124
    let record1 := { record with
      id := { page := pageHandle.pageNum, slot := tableMgmt.firstFreeSlotNum } }
    let full := decide (readInt m4 (page + offFreeSlotCnt) = 0)
    let d := markDirty { pin.2.1 with pagedata := m4 } pageHandle
    let u := unpinPage d.2 pageHandle
    let t2 := { tableMgmt with
      firstFreePageNum :=
        if full then tableMgmt.firstFreePageNum + 1 else tableMgmt.firstFreePageNum
      firstFreeSlotNum := if full then 0 else tableMgmt.firstFreeSlotNum + 1
      totalTuples := tableMgmt.totalTuples + 1
      bufferManagerPtr := u.2
      pageHandlePtr := pageHandle }
    (if d.1 = RC.RC_OK ∧ u.1 = RC.RC_OK then RC.RC_OK else RC.RC_ERROR,
      { rel with mgmtData := t2 }, record1)

/-- `getRecord`: returns the status, the table and the caller's record. -/
def getRecord (PAGE_SIZE : Nat) (rel : RM_TableData) (id : RID) (record : Record) :
    RC × RM_TableData × Record :=
  let tableManager := rel.mgmtData
  if id.slot ≥ slotsPerPage PAGE_SIZE tableManager.recSize then
    (RC.RC_RECORD_NOT_FOUND, rel, record)
  else
    let pin := pinPage PAGE_SIZE tableManager.bufferManagerPtr tableManager.pageHandlePtr id.page
    let t1 := { tableManager with bufferManagerPtr := pin.2.1, pageHandlePtr := pin.2.2 }
    if pin.1 ≠ RC.RC_OK then (RC.RC_ERROR, { rel with mgmtData := t1 }, record)
    else
      let pageHandler := pin.2.2
      let recordLocation := slotAddress (pageHandler.data.getD 0) tableManager.recSize id.slot
      let u := unpinPage pin.2.1 pageHandler
      let t2 := { t1 with bufferManagerPtr := u.2 }
      if pin.2.1.pagedata.getD recordLocation 0 ≠ 89 then
        (RC.RC_RECORD_NOT_FOUND, { rel with mgmtData := t2 }, record)
      else
        (u.1, { rel with mgmtData := t2 },
          { id := id
            data := memcpy record.data 0
              (bytesAt pin.2.1.pagedata (recordLocation + 1) tableManager.recSize.toNat) })

/-- `updateRecord`. -/
def updateRecord (PAGE_SIZE : Nat) (rel : RM_TableData) (record : Record) : RC × RM_TableData :=
  let tableManager := rel.mgmtData
  if record.id.slot ≥ slotsPerPage PAGE_SIZE tableManager.recSize then
    (RC.RC_RECORD_NOT_FOUND, rel)
  else
    let pin := pinPage PAGE_SIZE tableManager.bufferManagerPtr tableManager.pageHandlePtr
      record.id.page
    let t1 := { tableManager with bufferManagerPtr := pin.2.1, pageHandlePtr := pin.2.2 }
    if pin.1 ≠ RC.RC_OK then (RC.RC_ERROR, { rel with mgmtData := t1 })
    else
      let pageHandle := pin.2.2
      let targetSlot := slotAddress (pageHandle.data.getD 0) tableManager.recSize record.id.slot
      if pin.2.1.pagedata.getD targetSlot 0 ≠ 89 then
        let u := unpinPage pin.2.1 pageHandle
        (RC.RC_RECORD_NOT_FOUND, { rel with mgmtData := { t1 with bufferManagerPtr := u.2 } })
      else
        let m1 := memcpy pin.2.1.pagedata (targetSlot + 1)
          (record.data.take tableManager.recSize.toNat)
        let d := markDirty { pin.2.1 with pagedata := m1 } pageHandle
        let u := unpinPage d.2 pageHandle
        (if d.1 ≠ RC.RC_OK ∨ u.1 ≠ RC.RC_OK then RC.RC_ERROR else RC.RC_OK,
          { rel with mgmtData := { t1 with bufferManagerPtr := u.2 } })

/-- `deleteRecord`. -/
def deleteRecord (PAGE_SIZE : Nat) (rel : RM_TableData) (id : RID) : RC × RM_TableData :=
  let tableMgmt := rel.mgmtData
  if id.slot ≥ slotsPerPage PAGE_SIZE tableMgmt.recSize then (RC.RC_RECORD_NOT_FOUND, rel)
  else
    let pin := pinPage PAGE_SIZE tableMgmt.bufferManagerPtr tableMgmt.pageHandlePtr id.page
    let t1 := { tableMgmt with bufferManagerPtr := pin.2.1, pageHandlePtr := pin.2.2 }
    if pin.1 ≠ RC.RC_OK then (pin.1, { rel with mgmtData := t1 })
    else
      let pageHandle := pin.2.2
      let page := pageHandle.data.getD 0
      let recordPosition := slotAddress page tableMgmt.recSize id.slot
      if pin.2.1.pagedata.getD recordPosition 0 ≠ 89 then
        let u := unpinPage pin.2.1 pageHandle
        (RC.RC_RECORD_NOT_FOUND, { rel with mgmtData := { t1 with bufferManagerPtr := u.2 } })
      else
        let m1 := pin.2.1.pagedata.set recordPosition 78
        let tt := readInt m1 (page + offTotalTuples)
        let m2 := writeInt m1 (page + offTotalTuples) (if tt > 0 then tt - 1 else 0)
        let m3 := writeInt m2 (page + offFreeSlotCnt) (readInt m2 (page + offFreeSlotCnt) + 1)
        let t2 := { t1 with
          totalTuples := if tableMgmt.totalTuples > 0 then tableMgmt.totalTuples - 1 else 0 }
        let d := markDirty { pin.2.1 with pagedata := m3 } pageHandle
        if d.1 ≠ RC.RC_OK then
          let u := unpinPage d.2 pageHandle
          (RC.RC_ERROR, { rel with mgmtData := { t2 with bufferManagerPtr := u.2 } })
        else
          let u := unpinPage d.2 pageHandle
          (if u.1 = RC.RC_OK then RC.RC_OK else u.1,
            { rel with mgmtData := { t2 with bufferManagerPtr := u.2 } })

/-! ### A worked table -/

/-- A schema with one `STRING` attribute `a` of the given length, which is also the key. -/
def stringSchema (len : Int) : Schema :=
  { numAttr := 1, attrNames := [[97]], dataTypes := [DataType.DT_STRING], typeLength := [len],
    keyAttrs := [0], keySize := 1 }

/-- A record of `n + 1` bytes (as allocated by `createRecord`), every byte `b`. -/
def constRecord (n b : Nat) : Record :=
  { id := { page := 0, slot := 0 }, data := List.replicate (n + 1) b }

/-- The table handle in an `openTable` result (a table with an empty pool when it failed). -/
def tableOf (r : RC × Option RM_TableData) : RM_TableData :=
  r.2.getD
    { schema := stringSchema 0
      mgmtData :=
        { totalTuples := 0, recSize := 0, firstFreePageNum := 0, firstFreeSlotNum := 0,
          firstDataPageNum := 0, bufferManagerPtr := coldPool 0 0 ReplacementStrategy.RS_FIFO,
          pageHandlePtr := handleOf 0 } }

/-- A freshly created and opened table with records of `len` bytes. -/
def freshTable (PAGE_SIZE : Nat) (len : Nat) : RM_TableData :=
  tableOf (openTable PAGE_SIZE
    (createTable PAGE_SIZE (List.replicate PAGE_SIZE 0) none (stringSchema len)).2)

/-- The table after `insertRecord(r1); deleteRecord(r1.id); insertRecord(r2)`. -/
def tableInsDelIns (PAGE_SIZE : Nat) (len : Nat) : RM_TableData :=
  let i1 := insertRecord PAGE_SIZE (freshTable PAGE_SIZE len) (constRecord len 1)
  let d1 := deleteRecord PAGE_SIZE i1.2.1 i1.2.2.id
  (insertRecord PAGE_SIZE d1.2 (constRecord len 2)).2.1

/-! ## Forced writes: counting and worked pools -/

/-- A store of a client through the `data` pointer of a page handle: the bytes
`bytes` are copied to `pagedata + off`. -/
def clientStore (bp : Bufferpool) (off : Nat) (bytes : List Nat) : Bufferpool :=
  { bp with pagedata := memcpy bp.pagedata off bytes }

/-- Number of frames that `forceFlushPool` finds dirty with fix count zero. -/
def flushCount (bp : Bufferpool) : Nat :=
  ((List.range bp.totalPages).filter
    (fun i => decide (bp.fix_count.getD i 0 = 0) && bp.bitdirty.getD i false)).length

/-- Three-frame FIFO pool (pages of 4 bytes) over a fresh page file after
`pinPage(0)`, a client store of `1 2 3 4` into the frame and `markDirty(0)`:
page 0 is pinned and dirty. -/
def fifoPoolStored0 : Bufferpool :=
  runOps 4
    (clientStore (runOps 4 (coldPool 4 3 ReplacementStrategy.RS_FIFO)
      [PoolOp.pinPage (handleOf 0) 0]) 0 [1, 2, 3, 4])
    [PoolOp.markDirty (handleOf 0)]

/-- The pool `fifoPoolStored0` after `unpinPage(0)`; then pages 1, 2, 3 are
pinned and unpinned (page 0 is evicted and written to block 0), page 0 is
pinned again into frame 1, the client stores `5 6 7 8` into it, `markDirty(0)`
and `unpinPage(0)`. -/
def fifoPoolRestored0 : Bufferpool :=
  runOps 4
    (clientStore
      (runOps 4 fifoPoolStored0
        ([PoolOp.unpinPage (handleOf 0)] ++ pinUnpin 1 ++ pinUnpin 2 ++ pinUnpin 3
          ++ [PoolOp.pinPage (handleOf 0) 0]))
      4 [5, 6, 7, 8])
    [PoolOp.markDirty (handleOf 0), PoolOp.unpinPage (handleOf 0)]

/-! ## Attribute values (`getAttr`, `setAttr`, `getAttrPos`) -/

/-- Modelled from the spec: an attribute value (`struct Value`, a data type tag
with a union, is declared in a header missing from the sources).  `intV` is a
C `int`; `floatV` is a C `float`, held as its 32-bit pattern (the code only
copies it); `stringV` is the memory at the `char *`, byte by byte (the C string
is the part before the first zero byte); `boolV` is a C `bool`. -/
inductive Value where
  | intV (n : Int)
  | floatV (bits : Nat)
  | stringV (s : List Nat)
  | boolV (b : Bool)
  deriving DecidableEq, Repr

/-- The type tag `dt` of a value. -/
def Value.dt : Value → DataType
  | Value.intV _ => DataType.DT_INT
  | Value.floatV _ => DataType.DT_FLOAT
  | Value.stringV _ => DataType.DT_STRING
  | Value.boolV _ => DataType.DT_BOOL

/-- The union member `v.intV`.  (Reading a member other than the stored one
reinterprets the bytes in C; the model yields zero.) -/
def Value.asInt : Value → Int
  | Value.intV n => n
  | _ => 0

/-- The union member `v.floatV`, as a bit pattern. -/
def Value.asFloat : Value → Nat
  | Value.floatV bits => bits
  | _ => 0

/-- The union member `v.stringV`, as the bytes at the pointer. -/
def Value.asString : Value → List Nat
  | Value.stringV s => s
  | _ => []

/-- The union member `v.boolV`. -/
def Value.asBool : Value → Bool
  | Value.boolV b => b
  | _ => false

/-- The array `sizes` of `getAttrPos`: `{sizeof(int), sizeof(float), 0, sizeof(bool)}`. -/
def attrPosSizes : List Int := [4, 4, 0, 1]

/-- The loop of `getAttrPos` over the attributes `i, i + 1, ...`.  (In C the
addition for a STRING, `attrPos += typeLength[i] * sizeof(char)`, is made in
`size_t` and stored back into the `int`, the other additions are made in `int`;
the stored value is this sum as long as every sum the loop passes through is a
non-negative C `int`.  Theorems on the offset carry that bound.) -/
def getAttrPosLoop (schema : Schema) : Nat → Nat → Int → Int
  | 0, _, attrPos => attrPos
  | k + 1, i, attrPos =>
    getAttrPosLoop schema k (i + 1)
      (if schema.dataTypes.getD i DataType.DT_INT = DataType.DT_STRING then
        attrPos + schema.typeLength.getD i 0
       else attrPos + attrPosSizes.getD (schema.dataTypes.getD i DataType.DT_INT).toInt.toNat 0)

/-- `getAttrPos`: byte offset of attribute `attrNum` in a record, `-1` for an
attribute number out of range. -/
def getAttrPos (schema : Schema) (attrNum : Int) : Int :=
  if attrNum < 0 ∨ attrNum ≥ schema.numAttr then -1
  else getAttrPosLoop schema attrNum.toNat 0 0

/-- The four bytes at an offset as an unsigned 32-bit word (the pattern of a `float`). -/
def readWord (mem : List Nat) (off : Nat) : Nat :=
  let bs := bytesAt mem off 4
  bs.getD 0 0 + 256 * bs.getD 1 0 + 65536 * bs.getD 2 0 + 16777216 * bs.getD 3 0

/-- `setAttr`: returns the status and the record. -/
def setAttr (record : Record) (schema : Schema) (attrNum : Int) (value : Value) : RC × Record :=
  if attrNum < 0 ∨ attrNum ≥ schema.numAttr then (RC.RC_GENERAL_ERROR, record)
  else
    let target := (getAttrPos schema attrNum).toNat
    match schema.dataTypes.getD attrNum.toNat DataType.DT_INT with
    | DataType.DT_INT =>
      (RC.RC_OK, { record with data := writeInt record.data target value.asInt })
    | DataType.DT_FLOAT =>
      (RC.RC_OK, { record with data := memcpy record.data target (encodeInt value.asFloat) })
    | DataType.DT_STRING =>
      (RC.RC_OK, { record with
        data := memcpy record.data target
          (value.asString.take (schema.typeLength.getD attrNum.toNat 0).toNat) })
    | DataType.DT_BOOL =>
      (RC.RC_OK, { record with
        data := memcpy record.data target [if value.asBool then 1 else 0] })

/-- `getAttr`: returns the status and the value stored through `*value`.  A
string comes back in a fresh buffer of `typeLength + 1` bytes filled by
`strncpy`. -/
def getAttr (record : Record) (schema : Schema) (attrNum : Int) : RC × Option Value :=
  if attrNum < 0 ∨ attrNum ≥ schema.numAttr then (RC.RC_GENERAL_ERROR, none)
  else
    let baseAddr := (getAttrPos schema attrNum).toNat
    match schema.dataTypes.getD attrNum.toNat DataType.DT_INT with
    | DataType.DT_STRING =>
      let n := (schema.typeLength.getD attrNum.toNat 0).toNat
      (RC.RC_OK, some (Value.stringV
        (strncpyBytes ((bytesAt record.data baseAddr n).takeWhile (fun c => c != 0)) n ++ [0])))
    | DataType.DT_INT => (RC.RC_OK, some (Value.intV (readInt record.data baseAddr)))
    | DataType.DT_FLOAT => (RC.RC_OK, some (Value.floatV (readWord record.data baseAddr)))
    | DataType.DT_BOOL =>
      (RC.RC_OK, some (Value.boolV (decide ((bytesAt record.data baseAddr 1).getD 0 0 ≠ 0))))

/-- On-disk width of an attribute in the words of the spec: INT 4, FLOAT 4,
BOOL 1, STRING `typeLength` bytes. -/
def onDiskWidth (dt : DataType) (typeLength : Int) : Int :=
  match dt with
  | DataType.DT_INT => 4
  | DataType.DT_FLOAT => 4
  | DataType.DT_BOOL => 1
  | DataType.DT_STRING => typeLength

/-- Sum of the on-disk widths of the attributes before `attrNum`. -/
def widthSum (schema : Schema) (attrNum : Nat) : Int :=
  ((List.range attrNum).map
    (fun i => onDiskWidth (schema.dataTypes.getD i DataType.DT_INT)
      (schema.typeLength.getD i 0))).sum

/-- A value is one that C code can hold for an attribute of type `dt` and
length `len`: an `int` in the 32-bit range, a 32-bit `float` pattern, a string
whose memory is readable for `len` bytes, a `bool`. -/
def Value.fits (dt : DataType) (len : Nat) : Value → Prop
  | Value.intV n => dt = DataType.DT_INT ∧ -2147483648 ≤ n ∧ n < 2147483648
  | Value.floatV bits => dt = DataType.DT_FLOAT ∧ bits < 4294967296
  | Value.stringV s => dt = DataType.DT_STRING ∧ len ≤ s.length
  | Value.boolV _ => dt = DataType.DT_BOOL

instance (dt : DataType) (len : Nat) (v : Value) : Decidable (v.fits dt len) := by
  cases v <;> unfold Value.fits <;> infer_instance

/-- Two values are equal, strings being compared as C strings on their first
`len` bytes (`strncmp(a, b, len) == 0`). -/
def Value.sameAs (len : Nat) : Value → Value → Prop
  | Value.intV a, Value.intV b => a = b
  | Value.floatV a, Value.floatV b => a = b
  | Value.boolV a, Value.boolV b => a = b
  | Value.stringV a, Value.stringV b =>
    (a.take len).takeWhile (fun c => c != 0) = (b.take len).takeWhile (fun c => c != 0)
  | _, _ => False

/-- The record after `setAttr(record, schema, i, v i)` for the attribute
numbers `i` of `order`, in that order. -/
def setAttrs (schema : Schema) (v : Nat → Value) (order : List Nat) (record : Record) : Record :=
  order.foldl (fun (r : Record) (i : Nat) => (setAttr r schema (i : Int) (v i)).2) record

/-- The schema `(a : INT, b : STRING(5), c : FLOAT, d : BOOL)` with key `a`. -/
def mixedSchema : Schema :=
  { numAttr := 4, attrNames := [[97], [98], [99], [100]],
    dataTypes := [DataType.DT_INT, DataType.DT_STRING, DataType.DT_FLOAT, DataType.DT_BOOL],
    typeLength := [0, 5, 0, 0], keyAttrs := [0], keySize := 1 }

/-- Values for the attributes of `mixedSchema`: `-7`, the string `"hi"` in a
buffer of six bytes, the pattern of `1.0f`, `true`. -/
def mixedValues : Nat → Value
  | 0 => Value.intV (-7)
  | 1 => Value.stringV [104, 105, 0, 0, 0, 0]
  | 2 => Value.floatV 1065353216
  | _ => Value.boolV true

/-- A zeroed record of `n + 1` bytes, as made by `createRecord`. -/
def zeroRecord (n : Nat) : Record := constRecord n 0

/-! ## Calls on a table, reachable table states and their invariant -/

/-- A call of the record interface on an open table. -/
inductive TableOp where
  | insertRecord (record : Record)
  | getRecord (id : RID) (record : Record)
  | updateRecord (record : Record)
  | deleteRecord (id : RID)
  deriving DecidableEq, Repr

/-- The page number of a record identifier handed to the record interface is a
page number, that is, non-negative. -/
def TableOp.valid : TableOp → Prop
  | TableOp.insertRecord _ => True
  | TableOp.getRecord id _ => 0 ≤ id.page
  | TableOp.updateRecord record => 0 ≤ record.id.page
  | TableOp.deleteRecord id => 0 ≤ id.page

instance (op : TableOp) : Decidable op.valid := by
  cases op <;> unfold TableOp.valid <;> infer_instance

/-- The table after a call. -/
def applyTableOp (PAGE_SIZE : Nat) (rel : RM_TableData) : TableOp → RM_TableData
  | TableOp.insertRecord record => (insertRecord PAGE_SIZE rel record).2.1
  | TableOp.getRecord id record => (getRecord PAGE_SIZE rel id record).2.1
  | TableOp.updateRecord record => (updateRecord PAGE_SIZE rel record).2
  | TableOp.deleteRecord id => (deleteRecord PAGE_SIZE rel id).2

/-- The table after a sequence of calls. -/
def runTableOps (PAGE_SIZE : Nat) (rel : RM_TableData) (ops : List TableOp) : RM_TableData :=
  ops.foldl (applyTableOp PAGE_SIZE) rel

/-- Invariant of reachable table states: the pool is well formed, no frame is
pinned between two calls, the strategy is FIFO, and the first-free-page counter
is a page number. -/
structure TableInv (PAGE_SIZE : Nat) (rel : RM_TableData) : Prop where
  pool : PoolInv PAGE_SIZE rel.mgmtData.bufferManagerPtr
  unpinned : ∀ k, rel.mgmtData.bufferManagerPtr.fix_count.getD k 0 = 0
  fifo : rel.mgmtData.bufferManagerPtr.updatedStrategy = ReplacementStrategy.RS_FIFO
  freePage : 0 ≤ rel.mgmtData.firstFreePageNum

/-- The occupancy byte of a slot as the record manager reads it: the byte at
the slot's address `sizeof(PageHeader) + slot * (recSize + 2)` in the page,
once the page has been pinned. -/
def slotByte (PAGE_SIZE : Nat) (rel : RM_TableData) (id : RID) : Nat :=
  let pin := pinPage PAGE_SIZE rel.mgmtData.bufferManagerPtr rel.mgmtData.pageHandlePtr id.page
  pin.2.1.pagedata.getD (slotAddress (pin.2.2.data.getD 0) rel.mgmtData.recSize id.slot) 0

/-- The pool of a table after `pinPage(page)` and `unpinPage` with nothing in between. -/
def pinUnpinPool (PAGE_SIZE : Nat) (rel : RM_TableData) (page : Int) : Bufferpool :=
  let pin := pinPage PAGE_SIZE rel.mgmtData.bufferManagerPtr rel.mgmtData.pageHandlePtr page
  (unpinPage pin.2.1 pin.2.2).2

/-- The table `tableInsDelIns` after a further `insertRecord(r3)`: the record
got the identifier (1, 2) on a page with two slots. -/
def tableOverfull (PAGE_SIZE : Nat) (len : Nat) : RM_TableData :=
  (insertRecord PAGE_SIZE (tableInsDelIns PAGE_SIZE len) (constRecord len 3)).2.1

/-- A schema with one `STRING(12)` attribute named `aaaaY`, which is also the key. -/
def yNameSchema : Schema :=
  { numAttr := 1, attrNames := [[97, 97, 97, 97, 89]], dataTypes := [DataType.DT_STRING],
    typeLength := [12], keyAttrs := [0], keySize := 1 }

/-- A freshly created and opened table with the schema `yNameSchema`. -/
def yNameTable (PAGE_SIZE : Nat) : RM_TableData :=
  tableOf (openTable PAGE_SIZE
    (createTable PAGE_SIZE (List.replicate PAGE_SIZE 0) none yNameSchema).2)

/-- Modelled from the spec: the condition of a scan.  The expression type and
its evaluator `evalExpr` are declared outside the sources; the spec treats the
evaluator as an opaque predicate `eval(record, schema) -> bool`, and a
condition is such a predicate here. -/
def Expr : Type := Record → Schema → Bool

/-- The evaluator on a condition: `evalExpr(record, schema, expr, &result)`
followed by the read of `result->v.boolV`. -/
def evalExpr (record : Record) (schema : Schema) (expr : Expr) : Bool := expr record schema

/-- Modelled from the spec: the scan state `ScanManager` (declared in a header
missing from the sources) with the fields that `startScan` sets. -/
structure ScanManager where
  totalEntries : Int
  currentPageNum : Int
  currentSlotNum : Int
  scanIndex : Int
  conditionExpression : Option Expr

/-- Modelled from the spec: the scan handle `RM_ScanHandle` (declared in a header
missing from the sources): the table it scans and the scan state.  The table
is held by value and handed on from call to call. -/
structure RM_ScanHandle where
  rel : RM_TableData
  mgmtData : ScanManager

/-- `startScan`. -/
def startScan (rel : RM_TableData) (conditionExpression : Option Expr) : RC × RM_ScanHandle :=
  (RC.RC_OK,
    { rel := rel
      mgmtData :=
        { totalEntries := rel.mgmtData.totalTuples
          currentPageNum := rel.mgmtData.firstDataPageNum
          currentSlotNum := -1
          scanIndex := 0
          conditionExpression := conditionExpression } })

/-- The `while` loop of `next`, with the number of iterations left as fuel
(`none`: the fuel ran out before the loop was left). -/
def nextLoop (PAGE_SIZE : Nat) : Nat → RM_ScanHandle → Record → Option (RC × RM_ScanHandle × Record)
  | 0, _, _ => none
  | fuel + 1, scan, record =>
    let scanMgr := scan.mgmtData
    if scanMgr.scanIndex < scanMgr.totalEntries then
      let slot1 := scanMgr.currentSlotNum + 1
      let wrap := decide (slot1 ≥ slotsPerPage PAGE_SIZE scan.rel.mgmtData.recSize)
      let mgr1 := { scanMgr with
        currentPageNum := if wrap then scanMgr.currentPageNum + 1 else scanMgr.currentPageNum
        currentSlotNum := if wrap then 0 else slot1 }
      let g := getRecord PAGE_SIZE scan.rel
        { page := mgr1.currentPageNum, slot := mgr1.currentSlotNum } record
      if g.1 = RC.RC_OK then
        let mgr2 := { mgr1 with scanIndex := mgr1.scanIndex + 1 }
        match mgr2.conditionExpression with
        | some expr =>
          if evalExpr g.2.2 g.2.1.schema expr then
            some (RC.RC_OK, { rel := g.2.1, mgmtData := mgr2 }, g.2.2)
          else nextLoop PAGE_SIZE fuel { rel := g.2.1, mgmtData := mgr2 } g.2.2
        | none => some (RC.RC_OK, { rel := g.2.1, mgmtData := mgr2 }, g.2.2)
      else nextLoop PAGE_SIZE fuel { rel := g.2.1, mgmtData := mgr1 } g.2.2
    else some (RC.RC_RM_NO_MORE_TUPLES, scan, record)

/-- `next`: returns the status, the scan handle and the caller's record. -/
def next (PAGE_SIZE : Nat) (fuel : Nat) (scan : RM_ScanHandle) (record : Record) :
    Option (RC × RM_ScanHandle × Record) :=
  if scan.mgmtData.scanIndex ≥ scan.mgmtData.totalEntries then
    some (RC.RC_RM_NO_MORE_TUPLES, scan, record)
  else nextLoop PAGE_SIZE fuel scan record

/-- The table `yNameTable` after `insertRecord` of one record of bytes `1`. -/
def yNameTableOne (PAGE_SIZE : Nat) : RM_TableData :=
  (insertRecord PAGE_SIZE (yNameTable PAGE_SIZE) (constRecord 12 1)).2.1

/-- The records returned by `n` successive `next` calls of a scan (each call
with the given fuel and a zeroed record of `len + 1` bytes), with their status;
the list ends early when a call does not return. -/
def scanResults (PAGE_SIZE fuel len : Nat) : Nat → RM_ScanHandle → List (RC × RID × List Nat)
  | 0, _ => []
  | n + 1, scan =>
    match next PAGE_SIZE fuel scan (constRecord len 0) with
    | none => []
    | some r => (r.1, r.2.2.id, r.2.2.data) :: scanResults PAGE_SIZE fuel len n r.2.1

/-- A fresh table with the schema `(a : STRING(12))` after `insertRecord` of one
record of bytes `1`. -/
def tableOne (PAGE_SIZE : Nat) : RM_TableData :=
  (insertRecord PAGE_SIZE (freshTable PAGE_SIZE 12) (constRecord 12 1)).2.1

/-! ## Page file of the first assignment (`assign1_storage_manager`)

The two files `sstorage_mgr.c` and `storage_mgr.c` implement the same
interface over a page file without a header page: block `n` lives at byte
offset `n * PAGE_SIZE`. -/

/-- The state of a C stream pointer `FILE *`: the null pointer, a stream that
is open, or a pointer to a stream that `fclose` has released. -/
inductive FileStream where
  | null
  | opened
  | closed
  deriving DecidableEq, Repr

/-- Modelled from the spec: `struct SM_FileHandle` (declared in `storage_mgr.h`,
missing from the sources) as the first assignment uses it.  `fileName` is
`true` when the pointer names the page file and `false` when it is null;
`mgmtInfo` is the stream pointer.  The content of the file is a value of its
own, passed to and returned by the functions that open a stream on it; the
file is not removed while a handle is in use. -/
structure Assign1.SM_FileHandle where
  fileName : Bool
  totalNumPages : Int
  curPagePos : Int
  mgmtInfo : FileStream
  deriving DecidableEq, Repr

/-! ### `sstorage_mgr.c` -/

/-- `createPageFile`: mode `"w"` truncates, then `PAGE_SIZE` zero bytes. -/
def Sstorage.createPageFile (PAGE_SIZE : Nat) : RC × List Nat :=
  (RC.RC_OK, List.replicate PAGE_SIZE 0)

/-- `openPageFile`: the page count is the file size divided by `PAGE_SIZE`. -/
def Sstorage.openPageFile (PAGE_SIZE : Nat) (existing : Option (List Nat)) :
    RC × Option Assign1.SM_FileHandle :=
  match existing with
  | none => (RC.RC_FILE_NOT_FOUND, none)
  | some file =>
    (RC.RC_OK, some
      { fileName := true
        mgmtInfo := FileStream.opened
        totalNumPages := ((file.length / PAGE_SIZE : Nat) : Int)
        curPagePos := 0 })

/-- `closePageFile`: a non-null stream pointer is closed and both pointers are
set to null; a null stream pointer gives `RC_FILE_NOT_FOUND`.  Closing a
stream opened for reading leaves the file as it is, which the returned file
content records. -/
def Sstorage.closePageFile (fHandle : Assign1.SM_FileHandle) (file : List Nat) :
    RC × Assign1.SM_FileHandle × List Nat :=
  if fHandle.mgmtInfo ≠ FileStream.null then
    (RC.RC_OK, { fHandle with mgmtInfo := FileStream.null, fileName := false }, file)
  else (RC.RC_FILE_NOT_FOUND, fHandle, file)

/-- `readBlock`: returns the status, the handle and the content of `memPage`.
The range check comes first; then the block is read through the stream
`mgmtInfo`.  A short read leaves the bytes that were available in `memPage`.
Reading through a null or released stream pointer is undefined behaviour in
C; the model lets that read fail. -/
def Sstorage.readBlock (PAGE_SIZE : Nat) (pageNum : Int) (fHandle : Assign1.SM_FileHandle)
    (file : List Nat) (memPage : List Nat) : RC × Assign1.SM_FileHandle × List Nat :=
  if pageNum < 0 ∨ pageNum ≥ fHandle.totalNumPages then
    (RC.RC_READ_NON_EXISTING_PAGE, fHandle, memPage)
  else
    match fHandle.mgmtInfo with
    | FileStream.opened =>
      let got := bytesAt file (pageNum.toNat * PAGE_SIZE) PAGE_SIZE
      if got.length ≠ PAGE_SIZE then
        (RC.RC_READ_NON_EXISTING_PAGE, fHandle, memcpy memPage 0 got)
      else (RC.RC_OK, { fHandle with curPagePos := pageNum }, memcpy memPage 0 got)
    | _ => (RC.RC_READ_NON_EXISTING_PAGE, fHandle, memPage)

/-- `getBlockPos`. -/
def Sstorage.getBlockPos (fHandle : Assign1.SM_FileHandle) : Int :=
  fHandle.curPagePos

/-- `writeBlock`: returns the status, the handle and the file content.  The
page number may equal `totalNumPages`; the block is written through a second
stream opened with `"r+"`, which is stored in `mgmtInfo` and then closed;
`totalNumPages` is not changed. -/
def Sstorage.writeBlock (PAGE_SIZE : Nat) (pageNum : Int) (fHandle : Assign1.SM_FileHandle)
    (file : List Nat) (memPage : List Nat) : RC × Assign1.SM_FileHandle × List Nat :=
  if pageNum < 0 ∨ pageNum > fHandle.totalNumPages then (RC.RC_WRITE_FAILED, fHandle, file)
  else if fHandle.fileName = false then (RC.RC_FILE_NOT_FOUND, fHandle, file)
  else
    (RC.RC_OK,
      { fHandle with mgmtInfo := FileStream.closed, curPagePos := pageNum },
      fwriteAt file (pageNum.toNat * PAGE_SIZE) memPage)

/-- `appendEmptyBlock`: a second stream appends `PAGE_SIZE` zero bytes and is
closed; the stream pointer of the handle is not touched. -/
def Sstorage.appendEmptyBlock (PAGE_SIZE : Nat) (fHandle : Assign1.SM_FileHandle)
    (file : List Nat) : RC × Assign1.SM_FileHandle × List Nat :=
  if fHandle.fileName = false then (RC.RC_FILE_NOT_FOUND, fHandle, file)
  else
    (RC.RC_OK,
      { fHandle with
        totalNumPages := fHandle.totalNumPages + 1
        curPagePos := fHandle.totalNumPages + 1 - 1 },
      file ++ List.replicate PAGE_SIZE 0)

/-- Repeated `closePageFile` on the same handle: the statuses of the calls and
the final handle and file. -/
def Sstorage.closeTimes : Nat → Assign1.SM_FileHandle → List Nat →
    List RC × Assign1.SM_FileHandle × List Nat
  | 0, fHandle, file => ([], fHandle, file)
  | k + 1, fHandle, file =>
    let r := Sstorage.closePageFile fHandle file
    let rest := Sstorage.closeTimes k r.2.1 r.2.2
    (r.1 :: rest.1, rest.2)

/-! ### `storage_mgr.c` -/

/-- `openPageFile` of `storage_mgr.c`: the current position is the position
of the fresh stream, the page count is the file size divided by `PAGE_SIZE`. -/
def Storage1.openPageFile (PAGE_SIZE : Nat) (existing : Option (List Nat)) :
    RC × Option Assign1.SM_FileHandle :=
  match existing with
  | none => (RC.RC_FILE_NOT_FOUND, none)
  | some file =>
    (RC.RC_OK, some
      { fileName := true
        curPagePos := 0
        totalNumPages := ((file.length / PAGE_SIZE : Nat) : Int)
        mgmtInfo := FileStream.opened })

/-- `closePageFile` of `storage_mgr.c`: a null stream pointer gives
`RC_FILE_NOT_FOUND`; otherwise the stream is closed and `fileName` is set to
null, while `mgmtInfo` keeps pointing to the released stream. -/
def Storage1.closePageFile (fileHandle : Assign1.SM_FileHandle) (file : List Nat) :
    RC × Assign1.SM_FileHandle × List Nat :=
  if fileHandle.mgmtInfo = FileStream.null then (RC.RC_FILE_NOT_FOUND, fileHandle, file)
  else (RC.RC_OK, { fileHandle with mgmtInfo := FileStream.closed, fileName := false }, file)

/-- `appendEmptyBlock` of `storage_mgr.c`: a new stream (kept open and stored
in `mgmtInfo`) appends `PAGE_SIZE` zero bytes; the page count is the position
of that stream, now the end of the file, divided by `PAGE_SIZE`, and the
current position is set to the page count. -/
def Storage1.appendEmptyBlock (PAGE_SIZE : Nat) (fHandle : Assign1.SM_FileHandle)
    (file : List Nat) : RC × Assign1.SM_FileHandle × List Nat :=
  if fHandle.fileName = false then (RC.RC_FILE_NOT_FOUND, fHandle, file)
  else
    let grown := file ++ List.replicate PAGE_SIZE 0
    (RC.RC_OK,
      { fHandle with
        mgmtInfo := FileStream.opened
        totalNumPages := ((grown.length / PAGE_SIZE : Nat) : Int)
        curPagePos := ((grown.length / PAGE_SIZE : Nat) : Int) },
      grown)

/-! ## Index (`assign4_b+_tree_indexing/btree_mgr.c`)

The nodes that `malloc` hands out live in a heap, a list of nodes in
allocation order; a pointer to a node is its position in the heap, `none` is
the null pointer.  The index never reads or writes its page file. -/

/-- Modelled from the spec: `struct BTree` (declared in `btree_mgr.h`, missing
from the sources) with the fields the code uses: the key array, the RID array
and the array `next` of child pointers, of which the code follows only the
last one, `next[numberOfElementsPerNode]`, the link to the next node of the
chain.  A key of 0 marks an empty slot. -/
structure BTree where
  key : List Int
  id : List RID
  next : List (Option Nat)
  deriving DecidableEq, Repr

instance : Inhabited BTree := ⟨{ key := [], id := [], next := [] }⟩

/-- The global variables of `btree_mgr.c` and the heap of nodes.  The count
`numberOfElementsPerNode` is a natural number: `createBtree` fails for a
negative one. -/
structure IndexState where
  numberOfElementsPerNode : Nat
  heap : List BTree
  root : Option Nat
  scan : Option Nat
  currentNumOfIndex : Int
  deriving DecidableEq, Repr

/-- `initializeNode`: the three arrays come from `calloc`, so all keys are 0,
all RIDs are (0, 0) and all child pointers are null. -/
def initializeNode (numElements : Nat) : BTree :=
  { key := List.replicate numElements 0
    id := List.replicate numElements { page := 0, slot := 0 }
    next := List.replicate (numElements + 1) none }

/-- `createBtree`, called in a fresh process (no node allocated, `scan` null,
`currentNumOfIndex` 0): the root node is allocated like the nodes of
`initializeNode`.  `calloc` of a negative count fails, which gives `RC_ERROR`. -/
def createBtree (PAGE_SIZE : Nat) (existing : Option (List Nat)) (n : Int) :
    RC × Option IndexState :=
  if n < 0 then (RC.RC_ERROR, none)
  else
    let result := createPageFile PAGE_SIZE existing
    if result.1 ≠ RC.RC_OK then (result.1, none)
    else
      (RC.RC_OK, some
        { numberOfElementsPerNode := n.toNat
          heap := [initializeNode n.toNat]
          root := some 0
          scan := none
          currentNumOfIndex := 0 })

/-- The binary search loop of `findKey` inside one node, `while (left <= right)`,
with the number of iterations left as fuel: `none` when the fuel runs out,
`some none` when the loop exits without a match, `some (some rid)` on a match. -/
def binarySearch (node : BTree) (k : Int) : Nat → Int → Int → Option (Option RID)
  | 0, left, right => if left ≤ right then none else some none
  | f + 1, left, right =>
    if left ≤ right then
      let mid := left + Int.tdiv (right - left) 2
      if node.key.getD mid.toNat 0 = k then
        some (some (node.id.getD mid.toNat { page := 0, slot := 0 }))
      else if node.key.getD mid.toNat 0 < k then binarySearch node k f (mid + 1) right
      else binarySearch node k f left (mid - 1)
    else some none

/-- The outer loop of `findKey`, `while (current != NULL)`, with the number of
nodes still to be visited as fuel.  The binary search gets
`numberOfElementsPerNode` iterations, which is enough for it to exit. -/
def findKeyLoop (st : IndexState) (k : Int) (result : RID) :
    Nat → Option Nat → Option (RC × RID)
  | _, none => some (RC.RC_IM_KEY_NOT_FOUND, result)
  | 0, some _ => none
  | f + 1, some p =>
    let node := st.heap.getD p default
    match binarySearch node k st.numberOfElementsPerNode 0
        ((st.numberOfElementsPerNode : Int) - 1) with
    | none => none
    | some (some rid) => some (RC.RC_OK, rid)
    | some none => findKeyLoop st k result f (node.next.getD st.numberOfElementsPerNode none)

/-- `findKey` for the key `k` (the field `v.intV` of the argument): the status
and the content of `result`; `none` when the fuel runs out. -/
def findKey (st : IndexState) (k : Int) (result : RID) (fuel : Nat) : Option (RC × RID) :=
  findKeyLoop st k result fuel st.root

/-- The loop of `insertKey` over the chain, with the number of nodes still to
be visited as fuel.  The key goes into the first empty slot of every node
visited; a full node without successor gets `newNode` as its successor. -/
def insertLoop (n : Nat) (k : Int) (rid : RID) (newNode : Nat) :
    Nat → List BTree → Option Nat → Option (List BTree)
  | _, heap, none => some heap
  | 0, _, some _ => none
  | f + 1, heap, some p =>
    let node := heap.getD p default
    match firstIdx (fun i => node.key.getD i 0 == 0) n 0 with
    | some i =>
      let node1 : BTree :=
        { key := node.key.set i k, id := node.id.set i rid, next := node.next.set i none }
      insertLoop n k rid newNode f (heap.set p node1) (node1.next.getD n none)
    | none =>
      if node.next.getD n none = none then
        let fresh := heap.getD newNode default
        let heap1 := heap.set newNode { fresh with next := fresh.next.set n none }
        let cur := heap1.getD p default
        let heap2 := heap1.set p { cur with next := cur.next.set n (some newNode) }
        insertLoop n k rid newNode f heap2 ((heap2.getD p default).next.getD n none)
      else insertLoop n k rid newNode f heap (node.next.getD n none)

/-- The counting loop `for (i = ...; i < numElements; i++) if (key[i] != 0) total++`. -/
def countKeysLoop (node : BTree) : Nat → Nat → Nat → Nat
  | 0, _, total => total
  | j + 1, i, total =>
    countKeysLoop node j (i + 1) (if node.key.getD i 0 ≠ 0 then total + 1 else total)

/-- `calculateTotalKeys`: the non-zero keys of the chain, with the number of
nodes still to be visited as fuel. -/
def calculateTotalKeys (heap : List BTree) (elehigh : Nat) :
    Nat → Option Nat → Nat → Option Nat
  | _, none, totalKeys => some totalKeys
  | 0, some _, _ => none
  | f + 1, some p, totalKeys =>
    let node := heap.getD p default
    calculateTotalKeys heap elehigh f (node.next.getD elehigh none)
      (countKeysLoop node elehigh 0 totalKeys)

/-- The loop of `copyKeys`: the occupied slots of the root node are copied
into the same slots of the new node. -/
def copyKeysLoop (rootNode newNode : Nat) : Nat → Nat → List BTree → List BTree
  | 0, _, heap => heap
  | j + 1, i, heap =>
    let r := heap.getD rootNode default
    if r.key.getD i 0 ≠ 0 then
      let m := heap.getD newNode default
      let m1 : BTree :=
        { m with key := m.key.set i (r.key.getD i 0)
                 id := m.id.set i (r.id.getD i { page := 0, slot := 0 }) }
      copyKeysLoop rootNode newNode j (i + 1) (heap.set newNode m1)
    else copyKeysLoop rootNode newNode j (i + 1) heap

/-- `updateNodePointers`: the new node is linked in behind the root node. -/
def updateNodePointers (rootNode newNode : Nat) (elehigh : Nat) (heap : List BTree) :
    List BTree :=
  let r := heap.getD rootNode default
  let m := heap.getD newNode default
  let heap1 := heap.set newNode { m with next := m.next.set elehigh (r.next.getD elehigh none) }
  let r1 := heap1.getD rootNode default
  heap1.set rootNode { r1 with next := r1.next.set elehigh (some newNode) }

/-- `performCustomOperation`: when the chain holds exactly 6 keys, the root
node is copied into the new node, which is linked in behind the root. -/
def performCustomOperation (heap : List BTree) (rootNode : Option Nat) (newNode : Nat)
    (elehigh : Nat) (fuel : Nat) : Option (List BTree) :=
  match calculateTotalKeys heap elehigh fuel rootNode 0 with
  | none => none
  | some totalKeys =>
    if totalKeys = 6 then
      match rootNode with
      | none => some heap
      | some r =>
        some (updateNodePointers r newNode elehigh (copyKeysLoop r newNode elehigh 0 heap))
    else some heap

/-- `insertKey` for the key `k` (the field `v.intV` of the argument); `none`
when the fuel runs out.  The new node is allocated on every call. -/
def insertKey (st : IndexState) (k : Int) (rid : RID) (fuel : Nat) :
    Option (RC × IndexState) :=
  let newNode := st.heap.length
  let heap0 := st.heap ++ [initializeNode st.numberOfElementsPerNode]
  match insertLoop st.numberOfElementsPerNode k rid newNode fuel heap0 st.root with
  | none => none
  | some heap1 =>
    match performCustomOperation heap1 st.root newNode st.numberOfElementsPerNode fuel with
    | none => none
    | some heap2 => some (RC.RC_OK, { st with heap := heap2 })

/-- The loop of `updateNodeMetadata`: every slot that holds `k` is reset. -/
def updateNodeMetadataLoop (k : Int) : Nat → Nat → BTree → BTree
  | 0, _, node => node
  | j + 1, i, node =>
    if node.key.getD i 0 = k then
      updateNodeMetadataLoop k j (i + 1)
        { node with id := node.id.set i { page := 0, slot := 0 }, key := node.key.set i 0 }
    else updateNodeMetadataLoop k j (i + 1) node

/-- `getTotalElements`: the number of non-zero keys of a node. -/
def getTotalElements (node : BTree) (numElements : Nat) : Nat :=
  countKeysLoop node numElements 0 0

/-- The inner loop of `rearrangeNodeElements`,
`while (key[i + shiftIndex] == 0 && i + shiftIndex < totalElements) shiftIndex++`.
Its condition bounds `i + shiftIndex` by `totalElements`, so a fuel of
`totalElements - (i + shiftIndex)` iterations lets it run to its exit. -/
def skipLoop (node : BTree) (i totalElements : Nat) : Nat → Nat → Nat
  | 0, shiftIndex => shiftIndex
  | f + 1, shiftIndex =>
    if node.key.getD (i + shiftIndex) 0 = 0 ∧ i + shiftIndex < totalElements then
      skipLoop node i totalElements f (shiftIndex + 1)
    else shiftIndex

/-- The outer loop of `rearrangeNodeElements`. -/
def rearrangeLoop (totalElements : Nat) : Nat → Nat → Nat → BTree → BTree
  | 0, _, _, node => node
  | j + 1, i, shiftIndex, node =>
    if node.key.getD i 0 = 0 ∧ i + shiftIndex < totalElements then
      let s := skipLoop node i totalElements (totalElements - (i + shiftIndex)) shiftIndex
      let node1 : BTree :=
        { node with key := node.key.set i (node.key.getD (i + s) 0)
                    id := node.id.set i (node.id.getD (i + s) { page := 0, slot := 0 }) }
      let node2 : BTree :=
        { node1 with key := node1.key.set (i + s) 0
                     id := node1.id.set (i + s) { page := 0, slot := 0 } }
      rearrangeLoop totalElements j (i + 1) s node2
    else rearrangeLoop totalElements j (i + 1) shiftIndex node

/-- `rearrangeNodeElements`. -/
def rearrangeNodeElements (node : BTree) (numElements : Nat) : BTree :=
  rearrangeLoop (getTotalElements node numElements) numElements 0 0 node

/-- The loop of `deleteKey` over the chain, with the number of nodes still to
be visited as fuel. -/
def deleteLoop (n : Nat) (k : Int) : Nat → List BTree → Option Nat → Option (List BTree)
  | _, heap, none => some heap
  | 0, _, some _ => none
  | f + 1, heap, some p =>
    let node := heap.getD p default
    let node1 := updateNodeMetadataLoop k n 0 node
    let node2 := rearrangeNodeElements node1 n
    deleteLoop n k f (heap.set p node2) (node2.next.getD n none)

/-- `deleteKey` for the key `k` (the field `v.intV` of the argument); `none`
when the fuel runs out. -/
def deleteKey (st : IndexState) (k : Int) (fuel : Nat) : Option (RC × IndexState) :=
  match deleteLoop st.numberOfElementsPerNode k fuel st.heap st.root with
  | none => none
  | some heap1 => some (RC.RC_OK, { st with heap := heap1 })

/-- The node chain from `current` on, as the list of its node pointers: `none`
when the chain has not reached the null pointer after `fuel` nodes. -/
def chainFrom (heap : List BTree) (n : Nat) : Nat → Option Nat → Option (List Nat)
  | _, none => some []
  | 0, some _ => none
  | f + 1, some p =>
    match chainFrom heap n f ((heap.getD p default).next.getD n none) with
    | none => none
    | some c => some (p :: c)

/-- The stored entries of a node: the (key, RID) pairs of its slots with a
non-zero key. -/
def nodeEntries (n : Nat) (node : BTree) : List (Int × RID) :=
  ((List.range n).map
    (fun i => (node.key.getD i 0, node.id.getD i { page := 0, slot := 0 }))).filter
      (fun e => e.1 ≠ 0)

/-- The stored entries of the nodes `c`, in order. -/
def chainEntries (heap : List BTree) (n : Nat) (c : List Nat) : List (Int × RID) :=
  (c.map (fun p => nodeEntries n (heap.getD p default))).flatten

/-- Insert the keys `ks` one after the other, each with the RID `(key, 0)`. -/
def insertKeys (fuel : Nat) : List Int → IndexState → Option IndexState
  | [], st => some st
  | k :: ks, st =>
    match insertKey st k { page := k, slot := 0 } fuel with
    | none => none
    | some r => insertKeys fuel ks r.2

/-- The index right after `createBtree` with node capacity `n`. -/
def freshIndex (n : Nat) : IndexState :=
  { numberOfElementsPerNode := n
    heap := [initializeNode n]
    root := some 0
    scan := none
    currentNumOfIndex := 0 }

/-- The index of capacity 2 after the keys 1, 2, 3 have been inserted: the
root node is full and linked to the node allocated by the third `insertKey`. -/
def indexThree : IndexState :=
  { numberOfElementsPerNode := 2
    heap := [{ key := [1, 2]
               id := [{ page := 1, slot := 0 }, { page := 2, slot := 0 }]
               next := [none, none, some 3] },
             initializeNode 2,
             initializeNode 2,
             { key := [3, 0]
               id := [{ page := 3, slot := 0 }, { page := 0, slot := 0 }]
               next := [none, none, none] }]
    root := some 0
    scan := none
    currentNumOfIndex := 0 }

/-- The index of capacity 5 after the keys 1 to 6 have been inserted: the
sixth `insertKey` links its new node behind the full root node, stores the key
6 in it, finds 6 keys in the chain, copies the root node over the new node and
makes the new node its own successor. -/
def indexSix : IndexState :=
  { numberOfElementsPerNode := 5
    heap := [{ key := [1, 2, 3, 4, 5]
               id := [{ page := 1, slot := 0 }, { page := 2, slot := 0 },
                      { page := 3, slot := 0 }, { page := 4, slot := 0 },
                      { page := 5, slot := 0 }]
               next := [none, none, none, none, none, some 6] },
             initializeNode 5, initializeNode 5, initializeNode 5, initializeNode 5,
             initializeNode 5,
             { key := [1, 2, 3, 4, 5]
               id := [{ page := 1, slot := 0 }, { page := 2, slot := 0 },
                      { page := 3, slot := 0 }, { page := 4, slot := 0 },
                      { page := 5, slot := 0 }]
               next := [none, none, none, none, none, some 6] }]
    root := some 0
    scan := none
    currentNumOfIndex := 0 }

/-! ## Closing a table, and the bytes of the table header -/

/-- A value that a C `int` (32 bits, two's complement) can hold. -/
def isInt32 (n : Int) : Prop := -2147483648 ≤ n ∧ n < 2147483648

instance (n : Int) : Decidable (isInt32 n) := by
  unfold isInt32; infer_instance

/-- The bytes that the attribute loop of `populateSchemaDetails` stores for
the attributes `i, i + 1, ...`: per attribute 15 name bytes, the data type and
the type length. -/
def attrBytes (schema : Schema) : Nat → Nat → List Nat
  | 0, _ => []
  | k + 1, i =>
    strncpyBytes (schema.attrNames.getD i []) MAX_ATTR_NAME_LEN
      ++ encodeInt (schema.dataTypes.getD i DataType.DT_INT).toInt
      ++ encodeInt (schema.typeLength.getD i 0)
      ++ attrBytes schema k (i + 1)

/-- The bytes that the key loop of `populateSchemaDetails` stores. -/
def keyBytes (schema : Schema) : Nat → Nat → List Nat
  | 0, _ => []
  | k + 1, i => encodeInt (schema.keyAttrs.getD i 0) ++ keyBytes schema k (i + 1)

/-- The serialised table header of a fresh table: seven `int`s, the
attributes, the key attributes. -/
def headerBytes (schema : Schema) : List Nat :=
  encodeInt 0 ++ encodeInt (getRecordSize schema) ++ encodeInt 1 ++ encodeInt 0
    ++ encodeInt (-1) ++ encodeInt schema.numAttr ++ encodeInt schema.keySize
    ++ attrBytes schema schema.numAttr.toNat 0
    ++ keyBytes schema schema.keySize.toNat 0

/-- A schema as a C program holds it, whose header fits in one page: the
counts are non-negative and the arrays have that many entries, every `int` is
in the 32-bit range, the attribute names are C strings (no zero byte) shorter
than 15 characters, and the serialised header (7 `int`s, 23 bytes per
attribute, 4 bytes per key attribute) is at most `PAGE_SIZE` bytes long. -/
structure Schema.Storable (PAGE_SIZE : Nat) (schema : Schema) : Prop where
  numAttr_int : 0 ≤ schema.numAttr ∧ schema.numAttr < 2147483648
  keySize_int : 0 ≤ schema.keySize ∧ schema.keySize < 2147483648
  len_names : schema.attrNames.length = schema.numAttr.toNat
  len_types : schema.dataTypes.length = schema.numAttr.toNat
  len_lengths : schema.typeLength.length = schema.numAttr.toNat
  len_keys : schema.keyAttrs.length = schema.keySize.toNat
  names : ∀ name, name ∈ schema.attrNames → name.length < MAX_ATTR_NAME_LEN ∧ 0 ∉ name
  lengths_int : ∀ x, x ∈ schema.typeLength → isInt32 x
  keys_int : ∀ x, x ∈ schema.keyAttrs → isInt32 x
  recSize_int : isInt32 (getRecordSize schema)
  fits : 28 + 23 * schema.numAttr.toNat + 4 * schema.keySize.toNat ≤ PAGE_SIZE

/-- `getNumEntries`: the number of non-zero keys in the chain; `none` when the
fuel (nodes still to be visited) runs out. -/
def getNumEntries (st : IndexState) (fuel : Nat) : Option (RC × Nat) :=
  match calculateTotalKeys st.heap st.numberOfElementsPerNode fuel st.root 0 with
  | none => none
  | some totalEntries => some (RC.RC_OK, totalEntries)

/-- The gathering loop of `openTreeScan` inside one node: the slots with a
non-zero key, appended to the arrays `sortedKeys` and `sortedElements` (here
one list of pairs). -/
def gatherNode (node : BTree) : Nat → Nat → List (Int × RID) → List (Int × RID)
  | 0, _, sorted => sorted
  | j + 1, i, sorted =>
    gatherNode node j (i + 1)
      (if node.key.getD i 0 ≠ 0 then
        sorted ++ [(node.key.getD i 0, node.id.getD i { page := 0, slot := 0 })]
      else sorted)

/-- The gathering loop of `openTreeScan` over the chain. -/
def gatherChain (heap : List BTree) (n : Nat) :
    Nat → Option Nat → List (Int × RID) → Option (List (Int × RID))
  | _, none, sorted => some sorted
  | 0, some _, _ => none
  | f + 1, some p, sorted =>
    let node := heap.getD p default
    gatherChain heap n f (node.next.getD n none) (gatherNode node n 0 sorted)

/-- The inner loop of the bubble sort of `openTreeScan`: neighbours `j`,
`j + 1` are swapped when the key at `j` is the greater one. -/
def bubbleInner : Nat → Nat → List (Int × RID) → List (Int × RID)
  | 0, _, sorted => sorted
  | k + 1, j, sorted =>
    let a := sorted.getD j (0, { page := 0, slot := 0 })
    let b := sorted.getD (j + 1) (0, { page := 0, slot := 0 })
    bubbleInner k (j + 1) (if a.1 > b.1 then (sorted.set j b).set (j + 1) a else sorted)

/-- The outer loop of the bubble sort: pass `i` compares the first
`totalKeys - i - 1` pairs of neighbours. -/
def bubbleOuter (totalKeys : Nat) : Nat → Nat → List (Int × RID) → List (Int × RID)
  | 0, _, sorted => sorted
  | k + 1, i, sorted =>
    bubbleOuter totalKeys k (i + 1) (bubbleInner (totalKeys - i - 1) 0 sorted)

/-- The first loop of the write-back inside one node,
`for (i = 0; i < n && count < totalKeys; i++)`: returns the node and `count`. -/
def writeNode (sorted : List (Int × RID)) (totalKeys : Nat) :
    Nat → Nat → Nat → BTree → BTree × Nat
  | 0, _, count, node => (node, count)
  | j + 1, i, count, node =>
    if count < totalKeys then
      let e := sorted.getD count (0, { page := 0, slot := 0 })
      writeNode sorted totalKeys j (i + 1) (count + 1)
        { node with key := node.key.set i e.1, id := node.id.set i e.2 }
    else (node, count)

/-- The second loop of the write-back inside one node,
`for (i = count; i < n; i++)`, which starts at the running count of entries
written so far: the slots `count .. n - 1` get the key -1 and the RID (0, 0). -/
def fillNode : Nat → Nat → BTree → BTree
  | 0, _, node => node
  | j + 1, i, node =>
    fillNode j (i + 1)
      { node with key := node.key.set i (-1), id := node.id.set i { page := 0, slot := 0 } }

/-- The write-back loop of `openTreeScan` over the chain. -/
def writeChain (n : Nat) (sorted : List (Int × RID)) (totalKeys : Nat) :
    Nat → List BTree → Option Nat → Nat → Option (List BTree)
  | _, heap, none, _ => some heap
  | 0, _, some _, _ => none
  | f + 1, heap, some p, count =>
    let w := writeNode sorted totalKeys n 0 count (heap.getD p default)
    let node := fillNode (n - w.2) w.2 w.1
    writeChain n sorted totalKeys f (heap.set p node) (node.next.getD n none) w.2

/-- `openTreeScan`: the scan position is set to the root, the entries of the
chain are gathered, sorted by key and written back slot by slot; `none` when
the fuel of one of the loops over the chain runs out. -/
def openTreeScan (st : IndexState) (fuel : Nat) : Option (RC × IndexState) :=
  let n := st.numberOfElementsPerNode
  match calculateTotalKeys st.heap n fuel st.root 0 with
  | none => none
  | some totalKeys =>
    match gatherChain st.heap n fuel st.root [] with
    | none => none
    | some gathered =>
      let sorted := bubbleOuter totalKeys (totalKeys - 1) 0 gathered
      match writeChain n sorted totalKeys fuel st.heap st.root 0 with
      | none => none
      | some heap1 =>
        some (RC.RC_OK, { st with scan := st.root, currentNumOfIndex := 0, heap := heap1 })

/-- `nextEntry`: the status, the index state and the content of `result`.  An
entry is handed out only while the scan node has a successor. -/
def nextEntry (st : IndexState) (result : RID) : RC × IndexState × RID :=
  let n := st.numberOfElementsPerNode
  match st.scan with
  | none => (RC.RC_IM_NO_MORE_ENTRIES, st, result)
  | some p =>
    if ((st.heap.getD p default).next.getD n none).isSome then
      let atMax := decide ((n : Int) = st.currentNumOfIndex)
      let idx := if atMax then 0 else st.currentNumOfIndex
      let scan := if atMax then (st.heap.getD p default).next.getD n none else some p
      let node := st.heap.getD (scan.getD p) default
      (RC.RC_OK, { st with scan := scan, currentNumOfIndex := idx + 1 },
        node.id.getD idx.toNat { page := 0, slot := 0 })
    else (RC.RC_IM_NO_MORE_ENTRIES, st, result)

/-- The statuses and RIDs of `k` successive `nextEntry` calls. -/
def nextEntries : Nat → IndexState → List (RC × RID)
  | 0, _ => []
  | k + 1, st =>
    let r := nextEntry st { page := -7, slot := -7 }
    (r.1, r.2.2) :: nextEntries k r.2.1

/-- The entries of the chain of an index, in chain order (empty when the
chain does not end within the fuel). -/
def indexEntries (st : IndexState) (fuel : Nat) : List (Int × RID) :=
  match chainFrom st.heap st.numberOfElementsPerNode fuel st.root with
  | none => []
  | some c => chainEntries st.heap st.numberOfElementsPerNode c

/-! ## Statistics interface of the buffer pool -/

/-- `getFrameContents`: the null pointer (`none`) when no frame is in use,
else the array `pagenum`. -/
def getFrameContents (bpl : Bufferpool) : Option (List Int) :=
  if bpl.free_space = bpl.totalPages then none else some bpl.pagenum

/-! ## Pin balance of the record manager -/

/-- A fresh table with records of 20 bytes (`PAGE_SIZE` 80, two slots per
page) after `insertRecord` of four records, which fill the pages 1 and 2, and
then, on page 3, `insertRecord(r5)`, `deleteRecord((3, 0))`, `insertRecord(r6)`,
`deleteRecord((3, 1))`, `insertRecord(r7)`. -/
def tableCrowded : RM_TableData :=
  runTableOps 80 (freshTable 80 20)
    [TableOp.insertRecord (constRecord 20 1), TableOp.insertRecord (constRecord 20 2),
     TableOp.insertRecord (constRecord 20 3), TableOp.insertRecord (constRecord 20 4),
     TableOp.insertRecord (constRecord 20 5), TableOp.deleteRecord { page := 3, slot := 0 },
     TableOp.insertRecord (constRecord 20 6), TableOp.deleteRecord { page := 3, slot := 1 },
     TableOp.insertRecord (constRecord 20 7)]

/-! ## The loop of `next`, one pass at a time -/

/-- One pass through the body of the `while` loop of `next` (the loop condition
holds): the value returned from inside the loop (`Sum.inl`), or the scan handle
and the record at the next test of the loop condition (`Sum.inr`). -/
def nextBody (PAGE_SIZE : Nat) (scan : RM_ScanHandle) (record : Record) :
    (RC × RM_ScanHandle × Record) ⊕ (RM_ScanHandle × Record) :=
  let scanMgr := scan.mgmtData
  let slot1 := scanMgr.currentSlotNum + 1
  let wrap := decide (slot1 ≥ slotsPerPage PAGE_SIZE scan.rel.mgmtData.recSize)
  let mgr1 := { scanMgr with
    currentPageNum := if wrap then scanMgr.currentPageNum + 1 else scanMgr.currentPageNum
    currentSlotNum := if wrap then 0 else slot1 }
  let g := getRecord PAGE_SIZE scan.rel
    { page := mgr1.currentPageNum, slot := mgr1.currentSlotNum } record
  if g.1 = RC.RC_OK then
    let mgr2 := { mgr1 with scanIndex := mgr1.scanIndex + 1 }
    match mgr2.conditionExpression with
    | some expr =>
      if evalExpr g.2.2 g.2.1.schema expr then
        Sum.inl (RC.RC_OK, { rel := g.2.1, mgmtData := mgr2 }, g.2.2)
      else Sum.inr ({ rel := g.2.1, mgmtData := mgr2 }, g.2.2)
    | none => Sum.inl (RC.RC_OK, { rel := g.2.1, mgmtData := mgr2 }, g.2.2)
  else Sum.inr ({ rel := g.2.1, mgmtData := mgr1 }, g.2.2)

/-- The scan handle and the record after `n` passes through the loop of `next`
none of which left the loop (`none` when a pass leaves the loop: by a `return`,
or because the loop condition fails). -/
def scanTurns (PAGE_SIZE : Nat) : Nat → RM_ScanHandle × Record → Option (RM_ScanHandle × Record)
  | 0, c => some c
  | n + 1, c =>
    if c.1.mgmtData.scanIndex < c.1.mgmtData.totalEntries then
      match nextBody PAGE_SIZE c.1 c.2 with
      | Sum.inl _ => none
      | Sum.inr c1 => scanTurns PAGE_SIZE n c1
    else none

/-- A scan that still expects entries, stands on a page at or past the end of
the page file, and whose pool holds only clean frames of zero bytes. -/
def scanStuck (scan : RM_ScanHandle) : Bool :=
  decide (scan.mgmtData.scanIndex < scan.mgmtData.totalEntries)
    && decide (scan.rel.mgmtData.bufferManagerPtr.fhl.totalNumPages ≤ scan.mgmtData.currentPageNum)
    && scan.rel.mgmtData.bufferManagerPtr.pagedata.all (fun b => b == 0)
    && scan.rel.mgmtData.bufferManagerPtr.bitdirty.all (fun b => b == false)

/-- The scan handle after the first `next` of a scan without condition over
the table `tableOverfull` (the handle of `startScan` if that call did not return). -/
def scanOverfull : RM_ScanHandle :=
  match next 64 8 (startScan (tableOverfull 64 12) none).2 (constRecord 12 0) with
  | some r => r.2.1
  | none => (startScan (tableOverfull 64 12) none).2

/-- A pool whose frames hold only zero bytes and none of whose frames is dirty. -/
def ZeroPool (bp : Bufferpool) : Prop :=
  (∀ k, bp.pagedata.getD k 0 = 0) ∧ (∀ k, bp.bitdirty.getD k false = false)

/-! ## The stores of `insertRecord` -/

/-- The stores of `insertRecord` into the pool memory `mem`, for the page at
offset `page`: the header update, the occupancy byte `'Y'`, the `recSize` body
bytes and the terminator. -/
def insertStores (PAGE_SIZE : Nat) (mem : List Nat) (page : Nat) (pageNum recSize slot : Int)
    (data : List Nat) : List Nat :=
  let m1 := insertHeader PAGE_SIZE mem page pageNum recSize
  let positionForNewData := slotAddress page recSize slot
  let m2 := m1.set positionForNewData 89
  let m3 := memcpy m2 (positionForNewData + 1) (data.take recSize.toNat)
  m3.set (positionForNewData + recSize.toNat + 1) 124

/-! ## Inserts among reads and updates -/

/-- A page image has the header of a data page with `c` free slots: the byte
`'Y'` at offset 0 and the field `freeSlotCnt` equal to `c`. -/
def HasHeader (img : List Nat) (c : Int) : Prop :=
  img.getD offPageIdentifier 0 = 89 ∧ readInt img offFreeSlotCnt = c

/-- What the pool and the page file of a table hold while records are inserted
and no record is deleted.  `G` is the first page that has not taken a record
yet: the file ends before it, and a frame that holds it or a later page is a
clean frame of zero bytes.  `hdr = some (F, c)` says that page `F` takes the
next record and has `c` free slots: every frame that holds `F` shows that
header, and so does block `F` of the file unless a dirty frame holds the page. -/
structure CacheInv (PAGE_SIZE : Nat) (G : Int) (hdr : Option (Int × Int)) (bp : Bufferpool) :
    Prop where
  total_le : bp.fhl.totalNumPages ≤ G
  fresh : ∀ i, i < bp.totalPages → G ≤ bp.pagenum.getD i 0 →
    frameBytes PAGE_SIZE bp.pagedata i = List.replicate PAGE_SIZE 0
      ∧ bp.bitdirty.getD i false = false
  head : ∀ F c, hdr = some (F, c) →
    0 ≤ F ∧ F < G
      ∧ (∀ i, i < bp.totalPages → bp.pagenum.getD i 0 = F →
          HasHeader (frameBytes PAGE_SIZE bp.pagedata i) c)
      ∧ ((∀ i, i < bp.totalPages → bp.pagenum.getD i 0 = F → bp.bitdirty.getD i false = false) →
          ∃ d, blockStored PAGE_SIZE bp.fhl F d ∧ HasHeader d c)

/-- Calls that are not a `deleteRecord`, with record identifiers as the record
manager hands them out: a page number that is not negative, and for
`updateRecord` a slot number that is not negative. -/
def TableOp.plain : TableOp → Prop
  | TableOp.insertRecord _ => True
  | TableOp.getRecord id _ => 0 ≤ id.page
  | TableOp.updateRecord record => 0 ≤ record.id.page ∧ 0 ≤ record.id.slot
  | TableOp.deleteRecord _ => False

instance (op : TableOp) : Decidable op.plain := by
  cases op <;> unfold TableOp.plain <;> infer_instance

/-- The number of `insertRecord` calls in a sequence of calls. -/
def insertCount : List TableOp → Nat
  | [] => 0
  | TableOp.insertRecord _ :: ops => insertCount ops + 1
  | _ :: ops => insertCount ops

/-- State of a table that was created on a new file and opened, after calls
none of which is a `deleteRecord`, `q * S + j` of them `insertRecord` calls
(`S` slots per page, `j < S`): the counters, and the pool and the page file
around the page that takes the next record. -/
structure PlainInv (PAGE_SIZE S q j : Nat) (rel : RM_TableData) : Prop where
  table : TableInv PAGE_SIZE rel
  pageSize : PAGE_SIZE ≤ 2147483647
  slots : slotsPerPage PAGE_SIZE rel.mgmtData.recSize = S
  recSize_nonneg : 0 ≤ rel.mgmtData.recSize
  slot_lt : j < S
  tuples : rel.mgmtData.totalTuples = q * S + j
  freePage : rel.mgmtData.firstFreePageNum = 1 + q
  freeSlot : rel.mgmtData.firstFreeSlotNum = j
  cache : CacheInv PAGE_SIZE (if j = 0 then 1 + (q : Int) else 2 + q)
    (if j = 0 then none else some (1 + (q : Int), (S : Int) - j)) rel.mgmtData.bufferManagerPtr

/-- Two inserts with a `getRecord` and an `updateRecord` of the record (1, 0)
between them. -/
def plainOps : List TableOp :=
  [TableOp.insertRecord (constRecord 12 1),
   TableOp.getRecord { page := 1, slot := 0 } (constRecord 12 0),
   TableOp.updateRecord { id := { page := 1, slot := 0 }, data := List.replicate 13 9 },
   TableOp.insertRecord (constRecord 12 2)]

/-! # Theorems -/

/-! ## Facts about the loop and memory primitives -/

theorem firstIdx_some {p : Nat → Bool} {k s i : Nat} (h : firstIdx p k s = some i) :
    s ≤ i ∧ i < s + k ∧ p i = true ∧ ∀ m, s ≤ m → m < i → p m = false := by
  induction k generalizing s with
  | zero => simp [firstIdx] at h
  | succ k ih =>
    unfold firstIdx at h
    by_cases hp : p s = true
    · simp [hp] at h
      subst h
      exact ⟨le_refl _, by omega, hp, fun m h1 h2 => by omega⟩
    · simp [hp] at h
      obtain ⟨h1, h2, h3, h4⟩ := ih h
      refine ⟨by omega, by omega, h3, ?_⟩
      intro m hm1 hm2
      by_cases hms : m = s
      · subst hms; simpa using hp
      · exact h4 m (by omega) hm2

theorem firstIdx_none {p : Nat → Bool} {k s : Nat} (h : firstIdx p k s = none) :
    ∀ m, s ≤ m → m < s + k → p m = false := by
  induction k generalizing s with
  | zero => intro m h1 h2; omega
  | succ k ih =>
    unfold firstIdx at h
    by_cases hp : p s = true
    · simp [hp] at h
    · simp [hp] at h
      intro m hm1 hm2
      by_cases hms : m = s
      · subst hms; simpa using hp
      · exact ih h m (by omega) (by omega)

theorem firstIdx_isSome {p : Nat → Bool} {k s m : Nat} (h1 : s ≤ m) (h2 : m < s + k)
    (hp : p m = true) : ∃ i, firstIdx p k s = some i := by
  cases h : firstIdx p k s with
  | some i => exact ⟨i, rfl⟩
  | none => have := firstIdx_none h m h1 h2; simp [hp] at this

theorem firstIdx_eq_of_unique {p : Nat → Bool} {k s m : Nat} (h1 : s ≤ m) (h2 : m < s + k)
    (hp : p m = true) (hu : ∀ n, s ≤ n → n < s + k → p n = true → n = m) :
    firstIdx p k s = some m := by
  obtain ⟨i, hi⟩ := firstIdx_isSome h1 h2 hp
  obtain ⟨a, b, c, _⟩ := firstIdx_some hi
  rw [hi, hu i a b c]

theorem getElem?_bytesAt (mem : List Nat) (off n k : Nat) :
    (bytesAt mem off n)[k]? = if k < n then mem[off + k]? else none := by
  unfold bytesAt
  by_cases h : k < n
  · simp [h, List.getElem?_take, List.getElem?_drop]
  · simp [h, List.getElem?_take]

theorem length_bytesAt (mem : List Nat) (off n : Nat) :
    (bytesAt mem off n).length = min n (mem.length - off) := by
  simp [bytesAt]

theorem length_memcpy (mem : List Nat) (off : Nat) (src : List Nat) :
    (memcpy mem off src).length = mem.length := by
  induction src generalizing mem off with
  | nil => rfl
  | cons b bs ih => simp [memcpy, ih]

theorem getElem?_memcpy (mem : List Nat) (off : Nat) (src : List Nat) (k : Nat) :
    (memcpy mem off src)[k]? =
      if off ≤ k ∧ k < off + src.length ∧ k < mem.length then src[k - off]? else mem[k]? := by
  induction src generalizing mem off with
  | nil =>
    simp only [memcpy, List.length_nil]
    split
    · omega
    · rfl
  | cons b bs ih =>
    simp only [memcpy, ih, List.length_set, List.length_cons]
    by_cases h1 : off + 1 ≤ k ∧ k < off + 1 + bs.length ∧ k < mem.length
    · have h2 : off ≤ k ∧ k < off + (bs.length + 1) ∧ k < mem.length := by omega
      rw [if_pos h1, if_pos h2]
      have : k - off = (k - (off + 1)) + 1 := by omega
      rw [this, List.getElem?_cons_succ]
    · rw [if_neg h1]
      by_cases h3 : k = off
      · subst h3
        by_cases h4 : k < mem.length
        · have h2 : k ≤ k ∧ k < k + (bs.length + 1) ∧ k < mem.length := by omega
          rw [if_pos h2]
          simp [List.getElem?_set, h4]
        · have h2 : ¬ (k ≤ k ∧ k < k + (bs.length + 1) ∧ k < mem.length) := by omega
          rw [if_neg h2]
          rw [List.getElem?_eq_none (by simp; omega), List.getElem?_eq_none (by omega)]
      · have h2 : ¬ (off ≤ k ∧ k < off + (bs.length + 1) ∧ k < mem.length) := by omega
        rw [if_neg h2]
        rw [List.getElem?_set_ne (by omega)]

theorem bytesAt_memcpy_same (mem : List Nat) (off : Nat) (src : List Nat)
    (h : off + src.length ≤ mem.length) : bytesAt (memcpy mem off src) off src.length = src := by
  apply List.ext_getElem?
  intro k
  rw [getElem?_bytesAt, getElem?_memcpy]
  by_cases hk : k < src.length
  · have : off ≤ off + k ∧ off + k < off + src.length ∧ off + k < mem.length := by omega
    rw [if_pos hk, if_pos this]
    congr 1; omega
  · rw [if_neg hk]
    exact (List.getElem?_eq_none (by omega)).symm

theorem bytesAt_memcpy_disjoint (mem : List Nat) (off : Nat) (src : List Nat) (off2 n : Nat)
    (h : off2 + n ≤ off ∨ off + src.length ≤ off2) :
    bytesAt (memcpy mem off src) off2 n = bytesAt mem off2 n := by
  apply List.ext_getElem?
  intro k
  rw [getElem?_bytesAt, getElem?_bytesAt, getElem?_memcpy]
  by_cases hk : k < n
  · have : ¬ (off ≤ off2 + k ∧ off2 + k < off + src.length ∧ off2 + k < mem.length) := by omega
    simp only [hk, if_true, this, if_false]
  · simp only [hk, if_false]

theorem length_fwriteAt (file : List Nat) (off : Nat) (buf : List Nat) :
    (fwriteAt file off buf).length = max file.length (off + buf.length) := by
  simp [fwriteAt]
  omega

theorem getElem?_fwriteAt (file : List Nat) (off : Nat) (buf : List Nat) (k : Nat) :
    (fwriteAt file off buf)[k]? =
      if k < off then (if k < file.length then file[k]? else some 0)
      else if k < off + buf.length then buf[k - off]? else file[k]? := by
  unfold fwriteAt
  by_cases h1 : k < off
  · rw [if_pos h1]
    by_cases h2 : k < file.length
    · rw [if_pos h2, List.append_assoc, List.append_assoc,
        List.getElem?_append_left (by simp; omega)]
      simp [List.getElem?_take, h1]
    · rw [if_neg h2, List.append_assoc, List.append_assoc,
        List.getElem?_append_right (by simp; omega),
        List.getElem?_append_left (by simp; omega)]
      rw [List.getElem?_replicate]
      simp
      omega
  · rw [if_neg h1]
    by_cases h3 : k < off + buf.length
    · rw [if_pos h3, List.getElem?_append_left (by simp; omega),
        List.getElem?_append_right (by simp; omega)]
      congr 1
      simp
      omega
    · rw [if_neg h3, List.getElem?_append_right (by simp; omega)]
      rw [List.getElem?_drop]
      congr 1
      simp
      omega

theorem bytesAt_fwriteAt_same (file : List Nat) (off : Nat) (buf : List Nat) :
    bytesAt (fwriteAt file off buf) off buf.length = buf := by
  apply List.ext_getElem?
  intro k
  rw [getElem?_bytesAt, getElem?_fwriteAt]
  by_cases hk : k < buf.length
  · rw [if_pos hk, if_neg (by omega), if_pos (by omega)]
    congr 1; omega
  · rw [if_neg hk]
    exact (List.getElem?_eq_none (by omega)).symm

theorem bytesAt_fwriteAt_disjoint (file : List Nat) (off : Nat) (buf : List Nat) (off2 n : Nat)
    (hlen : off2 + n ≤ file.length) (h : off2 + n ≤ off ∨ off + buf.length ≤ off2) :
    bytesAt (fwriteAt file off buf) off2 n = bytesAt file off2 n := by
  apply List.ext_getElem?
  intro k
  rw [getElem?_bytesAt, getElem?_bytesAt, getElem?_fwriteAt]
  by_cases hk : k < n
  · simp only [hk, if_true]
    rcases h with h | h
    · rw [if_pos (by omega), if_pos (by omega)]
    · rw [if_neg (by omega), if_neg (by omega)]
  · simp only [hk, if_false]

theorem bytesAt_append_left (f g : List Nat) (off n : Nat) (h : off + n ≤ f.length) :
    bytesAt (f ++ g) off n = bytesAt f off n := by
  apply List.ext_getElem?
  intro k
  rw [getElem?_bytesAt, getElem?_bytesAt]
  by_cases hk : k < n
  · simp only [hk, if_true]
    rw [List.getElem?_append_left (by omega)]
  · simp only [hk, if_false]

/-! ## The invariant holds in every reachable state -/

theorem getD_set_int (l : List Int) (i j : Nat) (v d : Int) :
    (l.set i v).getD j d = if i = j ∧ j < l.length then v else l.getD j d := by
  simp only [List.getD_eq_getElem?_getD, List.getElem?_set]
  by_cases h : i = j
  · subst h
    by_cases h2 : i < l.length
    · simp [h2]
    · simp [h2, List.getElem?_eq_none (Nat.le_of_not_lt h2)]
  · simp [h]

theorem getD_set_bool (l : List Bool) (i j : Nat) (v d : Bool) :
    (l.set i v).getD j d = if i = j ∧ j < l.length then v else l.getD j d := by
  simp only [List.getD_eq_getElem?_getD, List.getElem?_set]
  by_cases h : i = j
  · subst h
    by_cases h2 : i < l.length
    · simp [h2]
    · simp [h2, List.getElem?_eq_none (Nat.le_of_not_lt h2)]
  · simp [h]

theorem getD_take_int (l : List Int) (n i : Nat) (d : Int) (h : i < n) :
    (l.take n).getD i d = l.getD i d := by
  simp [List.getD_eq_getElem?_getD, List.getElem?_take, h]

theorem mem_of_getD (l : List Int) (i : Nat) (h : i < l.length) : l.getD i 0 ∈ l := by
  rw [List.getD_eq_getElem l 0 h]
  exact List.getElem_mem h

theorem exists_getD_of_mem {l : List Int} {x : Int} (h : x ∈ l) :
    ∃ i, i < l.length ∧ l.getD i 0 = x := by
  obtain ⟨i, hi, hx⟩ := List.mem_iff_getElem.mp h
  exact ⟨i, hi, by rw [List.getD_eq_getElem l 0 hi]; exact hx⟩

theorem Nodup.getD_inj {l : List Int} (hl : l.Nodup) {i j : Nat} (hi : i < l.length)
    (hj : j < l.length) (h : l.getD i 0 = l.getD j 0) : i = j := by
  rw [List.getD_eq_getElem l 0 hi, List.getD_eq_getElem l 0 hj] at h
  exact (List.Nodup.getElem_inj_iff hl).mp h

theorem PoolInv.len_usedPages {PS : Nat} {bp : Bufferpool} (h : PoolInv PS bp) :
    (usedPages bp).length = usedFrames bp := by
  have := h.len_pagenum
  have := h.free_le
  simp [usedPages, usedFrames]
  omega

theorem PoolInv.len_usedOrder {PS : Nat} {bp : Bufferpool} (h : PoolInv PS bp) :
    (usedOrder bp).length = usedFrames bp := by
  have := h.len_order
  have := h.free_le
  simp [usedOrder, usedFrames]
  omega

theorem PoolInv.usedFrames_le {PS : Nat} {bp : Bufferpool} (_h : PoolInv PS bp) :
    usedFrames bp ≤ bp.totalPages := by
  simp [usedFrames]

theorem PoolInv.usedFrames_add {PS : Nat} {bp : Bufferpool} (h : PoolInv PS bp) :
    usedFrames bp + bp.free_space = bp.totalPages := by
  have := h.free_le
  simp [usedFrames]
  omega

theorem PoolInv.pagenum_eq {PS : Nat} {bp : Bufferpool} (h : PoolInv PS bp) :
    bp.pagenum = usedPages bp ++ List.replicate bp.free_space NO_PAGE := by
  rw [← h.pagenum_drop]
  exact (List.take_append_drop _ _).symm

theorem PoolInv.order_eq {PS : Nat} {bp : Bufferpool} (h : PoolInv PS bp) :
    bp.updatedOrder = usedOrder bp ++ List.replicate bp.free_space NO_PAGE := by
  rw [← h.order_drop]
  exact (List.take_append_drop _ _).symm

/-- In a state satisfying the invariant a frame index is in use exactly when
its page number is not the sentinel. -/
theorem PoolInv.pagenum_unused {PS : Nat} {bp : Bufferpool} (h : PoolInv PS bp) (i : Nat)
    (h1 : usedFrames bp ≤ i) (h2 : i < bp.totalPages) : bp.pagenum.getD i 0 = NO_PAGE := by
  have hl := h.len_usedPages
  have ha := h.usedFrames_add
  have he := h.pagenum_eq
  rw [he, List.getD_eq_getElem?_getD, List.getElem?_append_right (by omega),
    List.getElem?_replicate, if_pos (by omega)]
  rfl

theorem PoolInv.pagenum_used {PS : Nat} {bp : Bufferpool} (h : PoolInv PS bp) (i : Nat)
    (h1 : i < usedFrames bp) : 0 ≤ bp.pagenum.getD i 0 := by
  have hl := h.len_usedPages
  apply h.used_nonneg
  rw [← getD_take_int bp.pagenum (usedFrames bp) i 0 h1]
  exact mem_of_getD _ _ (by rw [← hl] at h1; exact h1)

theorem PoolInv.used_of_ne {PS : Nat} {bp : Bufferpool} (h : PoolInv PS bp) (i : Nat)
    (h2 : i < bp.totalPages) (hne : bp.pagenum.getD i 0 ≠ NO_PAGE) : i < usedFrames bp := by
  by_contra hc
  exact hne (h.pagenum_unused i (by omega) h2)

theorem PoolInv.pagenum_inj {PS : Nat} {bp : Bufferpool} (h : PoolInv PS bp) {i j : Nat}
    (hi : i < usedFrames bp) (hj : j < usedFrames bp)
    (he : bp.pagenum.getD i 0 = bp.pagenum.getD j 0) : i = j := by
  have hl := h.len_usedPages
  apply Nodup.getD_inj h.nodup (by omega) (by omega)
  simp only [usedPages]
  rw [getD_take_int _ _ _ _ hi, getD_take_int _ _ _ _ hj]
  exact he

theorem initBufferPool_inv (PS : Nat) (pageFile : Option (List Nat)) (numPages : Int)
    (strategy : ReplacementStrategy) (bp : Bufferpool)
    (h : initBufferPool PS pageFile numPages strategy = (RC.RC_OK, some bp)) : PoolInv PS bp := by
  unfold initBufferPool at h
  split at h
  · simp at h
  · rename_i hn
    split at h
    · rename_i fh hopen
      simp only [Prod.mk.injEq, Option.some.injEq, true_and] at h
      subst h
      have hpos : 0 < numPages.toNat := by omega
      constructor <;> simp [usedPages, usedOrder, usedFrames, hpos]
    · rename_i rcode x hx
      simp only [Prod.mk.injEq] at h
      exact absurd h.2 (by simp)

/-! ## The order array: `memmove`, `ShiftUpdatedOrder` -/

theorem length_memmove (xs : List Int) (dst src n : Nat) (h1 : dst + n ≤ xs.length)
    (h2 : src + n ≤ xs.length) : (memmove xs dst src n).length = xs.length := by
  simp [memmove]
  omega

theorem getElem?_memmove (xs : List Int) (dst src n m : Nat) (h1 : dst + n ≤ xs.length)
    (h2 : src + n ≤ xs.length) :
    (memmove xs dst src n)[m]? =
      if m < dst then xs[m]? else if m < dst + n then xs[src + (m - dst)]? else xs[m]? := by
  unfold memmove
  by_cases c1 : m < dst
  · rw [if_pos c1, List.append_assoc, List.getElem?_append_left (by simp; omega),
      List.getElem?_take, if_pos c1]
  · rw [if_neg c1]
    by_cases c2 : m < dst + n
    · rw [if_pos c2, List.getElem?_append_left (by simp; omega),
        List.getElem?_append_right (by simp; omega), List.getElem?_take, List.getElem?_drop]
      have e1 : (List.take dst xs).length = dst := by simp; omega
      rw [e1, if_pos (by omega)]
    · rw [if_neg c2, List.getElem?_append_right (by simp; omega), List.getElem?_drop]
      congr 1
      simp
      omega

theorem length_shiftLoop (l : List Int) (k s : Nat) : (shiftLoop l k s).length = l.length := by
  induction k generalizing l s with
  | zero => rfl
  | succ k ih => simp [shiftLoop, ih]

theorem getElem?_shiftLoop (l : List Int) (k s m : Nat) (h : s + k < l.length) :
    (shiftLoop l k s)[m]? = if s ≤ m ∧ m < s + k then l[m + 1]? else l[m]? := by
  induction k generalizing l s with
  | zero =>
    simp only [shiftLoop]
    rw [if_neg (by omega)]
  | succ k ih =>
    simp only [shiftLoop]
    rw [ih _ _ (by simp; omega)]
    by_cases c1 : s + 1 ≤ m ∧ m < s + 1 + k
    · rw [if_pos c1, if_pos (by omega), List.getElem?_set_ne (by omega)]
    · rw [if_neg c1]
      by_cases c2 : m = s
      · subst c2
        rw [if_pos (by omega), List.getElem?_set_self (by omega),
          List.getD_eq_getElem l 0 (by omega), List.getElem?_eq_getElem (by omega)]
      · rw [if_neg (by omega), List.getElem?_set_ne (by omega)]

/-- `ShiftUpdatedOrder` removes the entry at `start` and appends the new page number. -/
theorem shift_eq_eraseIdx (l : List Int) (s : Nat) (p : Int) (hs : s < l.length) :
    (shiftLoop l (l.length - 1 - s) s).set (l.length - 1) p = l.eraseIdx s ++ [p] := by
  apply List.ext_getElem?
  intro m
  have hlen : (l.eraseIdx s).length = l.length - 1 := List.length_eraseIdx_of_lt hs
  rw [List.getElem?_set, length_shiftLoop, getElem?_shiftLoop _ _ _ _ (by omega)]
  by_cases c1 : l.length - 1 = m
  · rw [if_pos c1, if_pos (by omega), List.getElem?_append_right (by omega)]
    have : m - (l.eraseIdx s).length = 0 := by omega
    rw [this]
    rfl
  · rw [if_neg c1]
    by_cases c2 : m < l.length - 1
    · rw [List.getElem?_append_left (by omega), List.getElem?_eraseIdx]
      by_cases c3 : m < s
      · rw [if_neg (by omega), if_pos c3]
      · rw [if_pos (by omega), if_neg c3]
    · rw [if_neg (by omega), List.getElem?_eq_none (by omega),
        List.getElem?_eq_none (by simp; omega)]

/-- The order update of an LRU hit moves the entry at `swap` to the end of the used part. -/
theorem lruMove_eq (o r : List Int) (swap : Nat) (p : Int) (hs : swap < o.length) :
    (memmove (o ++ r) swap (swap + 1) (o.length - 1 - swap)).set (o.length - 1) p
      = (o.eraseIdx swap ++ [p]) ++ r := by
  apply List.ext_getElem?
  intro m
  have hlen : (o.eraseIdx swap).length = o.length - 1 := List.length_eraseIdx_of_lt hs
  have hl2 : (o ++ r).length = o.length + r.length := by simp
  have hl3 : (o.eraseIdx swap ++ [p]).length = o.length := by simp [hlen]; omega
  rw [List.getElem?_set, length_memmove _ _ _ _ (by omega) (by omega),
    getElem?_memmove _ _ _ _ _ (by omega) (by omega)]
  by_cases c1 : o.length - 1 = m
  · have R : (o.eraseIdx swap ++ [p] ++ r)[m]? = some p := by
      rw [List.getElem?_append_left (by omega), List.getElem?_append_right (by omega)]
      have : m - (o.eraseIdx swap).length = 0 := by omega
      rw [this]
      rfl
    rw [R, if_pos c1, if_pos (by omega)]
  · rw [if_neg c1]
    by_cases c2 : m < o.length - 1
    · have R : (o.eraseIdx swap ++ [p] ++ r)[m]? = (o.eraseIdx swap)[m]? := by
        rw [List.append_assoc, List.getElem?_append_left (by omega)]
      rw [R, List.getElem?_eraseIdx]
      by_cases c3 : m < swap
      · rw [if_pos c3, if_pos c3, List.getElem?_append_left (by omega)]
      · rw [if_neg c3, if_pos (by omega), if_neg c3, List.getElem?_append_left (by omega)]
        congr 1
        omega
    · have R : (o.eraseIdx swap ++ [p] ++ r)[m]? = r[m - o.length]? := by
        rw [List.getElem?_append_right (by omega), hl3]
      rw [R, if_neg (by omega), if_neg (by omega), List.getElem?_append_right (by omega)]

theorem set_perm_cons_eraseIdx (l : List Int) (i : Nat) (p : Int) (hi : i < l.length) :
    (l.set i p).Perm (p :: l.eraseIdx i) := by
  rw [List.set_eq_take_append_cons_drop, if_pos hi, List.eraseIdx_eq_take_drop_succ]
  exact List.perm_middle

theorem eraseIdx_perm_of_perm {l1 l2 : List Int} (hp : l1.Perm l2) (hn : l2.Nodup) {i j : Nat}
    (hi : i < l1.length) (hj : j < l2.length) (he : l1.getD i 0 = l2.getD j 0) :
    (l1.eraseIdx i).Perm (l2.eraseIdx j) := by
  have hn1 : l1.Nodup := hp.nodup_iff.mpr hn
  rw [List.getD_eq_getElem l1 0 hi, List.getD_eq_getElem l2 0 hj] at he
  rw [← hn1.erase_getElem i hi, ← hn.erase_getElem j hj, he]
  exact hp.erase _

theorem eraseIdx_append_perm (l : List Int) (i : Nat) (hi : i < l.length) :
    (l.eraseIdx i ++ [l.getD i 0]).Perm l := by
  rw [List.getD_eq_getElem l 0 hi]
  refine List.perm_append_comm.trans ?_
  simp only [List.singleton_append]
  rw [List.eraseIdx_eq_take_drop_succ]
  refine List.perm_middle.symm.trans ?_
  rw [← List.drop_eq_getElem_cons hi, List.take_append_drop]

/-! ## Searching the frames -/

theorem PoolInv.usedPages_getD {PS : Nat} {bp : Bufferpool} (_h : PoolInv PS bp) (i : Nat)
    (hi : i < usedFrames bp) : (usedPages bp).getD i 0 = bp.pagenum.getD i 0 :=
  getD_take_int _ _ _ _ hi

theorem PoolInv.usedOrder_getD {PS : Nat} {bp : Bufferpool} (_h : PoolInv PS bp) (i : Nat)
    (hi : i < usedFrames bp) : (usedOrder bp).getD i 0 = bp.updatedOrder.getD i 0 :=
  getD_take_int _ _ _ _ hi

theorem PoolInv.mem_usedPages {PS : Nat} {bp : Bufferpool} (h : PoolInv PS bp) (p : Int) :
    p ∈ usedPages bp ↔ ∃ i, i < usedFrames bp ∧ bp.pagenum.getD i 0 = p := by
  have hl := h.len_usedPages
  constructor
  · intro hm
    obtain ⟨i, hi, hx⟩ := exists_getD_of_mem hm
    exact ⟨i, by omega, by rw [← h.usedPages_getD i (by omega)]; exact hx⟩
  · rintro ⟨i, hi, hx⟩
    rw [← hx, ← h.usedPages_getD i hi]
    exact mem_of_getD _ _ (by omega)

theorem PoolInv.mem_usedOrder {PS : Nat} {bp : Bufferpool} (h : PoolInv PS bp) (p : Int) :
    p ∈ usedOrder bp ↔ ∃ i, i < usedFrames bp ∧ bp.updatedOrder.getD i 0 = p := by
  have hl := h.len_usedOrder
  constructor
  · intro hm
    obtain ⟨i, hi, hx⟩ := exists_getD_of_mem hm
    exact ⟨i, by omega, by rw [← h.usedOrder_getD i (by omega)]; exact hx⟩
  · rintro ⟨i, hi, hx⟩
    rw [← hx, ← h.usedOrder_getD i hi]
    exact mem_of_getD _ _ (by omega)

/-- A page is resident (and is a page) exactly when it is among the pages of the used frames. -/
theorem PoolInv.resident_iff {PS : Nat} {bp : Bufferpool} (h : PoolInv PS bp) (p : Int)
    (hp : p ≠ NO_PAGE) : resident bp p ↔ p ∈ usedPages bp := by
  rw [h.mem_usedPages]
  constructor
  · rintro ⟨i, hi, hx⟩
    exact ⟨i, h.used_of_ne i hi (by rw [hx]; exact hp), hx⟩
  · rintro ⟨i, hi, hx⟩
    exact ⟨i, by have := h.usedFrames_le; omega, hx⟩

theorem PoolInv.hitSearch_some {PS : Nat} {bp : Bufferpool} (h : PoolInv PS bp) (p : Int)
    (i : Nat) (hi : i < usedFrames bp) (hx : bp.pagenum.getD i 0 = p) :
    firstIdx (fun i => bp.pagenum.getD i 0 == p) (usedFrames bp) 0 = some i := by
  apply firstIdx_eq_of_unique (Nat.zero_le _) (by omega) (by simp only [hx, beq_self_eq_true])
  intro n _ hn hpn
  simp only [beq_iff_eq] at hpn
  exact h.pagenum_inj (by omega) hi (by rw [hpn, hx])

theorem PoolInv.hitSearch_none {PS : Nat} {bp : Bufferpool} (h : PoolInv PS bp) (p : Int)
    (hx : p ∉ usedPages bp) :
    firstIdx (fun i => bp.pagenum.getD i 0 == p) (usedFrames bp) 0 = none := by
  cases hc : firstIdx (fun i => bp.pagenum.getD i 0 == p) (usedFrames bp) 0 with
  | none => rfl
  | some i =>
    obtain ⟨_, h2, h3, _⟩ := firstIdx_some hc
    simp only [beq_iff_eq] at h3
    exact absurd ((h.mem_usedPages p).mpr ⟨i, by omega, h3⟩) hx

/-- The search of `unpinPage`, `markDirty` and `forcePage` over all frames finds
the frame of a resident page. -/
theorem PoolInv.fullSearch_some {PS : Nat} {bp : Bufferpool} (h : PoolInv PS bp) (p : Int)
    (hp : p ≠ NO_PAGE) (i : Nat) (hi : i < bp.totalPages) (hx : bp.pagenum.getD i 0 = p) :
    firstIdx (fun i => bp.pagenum.getD i 0 == p) bp.totalPages 0 = some i := by
  apply firstIdx_eq_of_unique (Nat.zero_le _) (by omega) (by simp only [hx, beq_self_eq_true])
  intro n _ hn hpn
  simp only [beq_iff_eq] at hpn
  exact h.pagenum_inj (h.used_of_ne n (by omega) (by rw [hpn]; exact hp))
    (h.used_of_ne i hi (by rw [hx]; exact hp)) (by rw [hpn, hx])

/-! ## `pinPage` by cases -/

theorem pinPage_hit {PS : Nat} {bp : Bufferpool} (h : PoolInv PS bp) (page : BM_PageHandle)
    (p : Int) (i : Nat) (hi : i < usedFrames bp) (hx : bp.pagenum.getD i 0 = p) :
    pinPage PS bp page p = pinPageHit PS bp p i := by
  have hs := h.hitSearch_some p i hi hx
  have hne : bp.free_space ≠ bp.totalPages := by
    have := h.usedFrames_add
    omega
  simp only [usedFrames] at hs
  simp [-List.getD_eq_getElem?_getD, pinPage, hne, hs]

theorem pinPage_empty {PS : Nat} {bp : Bufferpool} (h : PoolInv PS bp) (page : BM_PageHandle)
    (p : Int) (hx : p ∉ usedPages bp) (hf : 0 < bp.free_space) :
    pinPage PS bp page p = pinPageEmpty PS bp p := by
  have hs := h.hitSearch_none p hx
  have hle := h.free_le
  simp only [usedFrames] at hs
  by_cases hv : bp.free_space = bp.totalPages
  · simp [-List.getD_eq_getElem?_getD, pinPage, hv]
  · simp [-List.getD_eq_getElem?_getD, pinPage, hv, hs, hf, hle]

theorem pinPage_evict {PS : Nat} {bp : Bufferpool} (h : PoolInv PS bp) (page : BM_PageHandle)
    (p : Int) (hx : p ∉ usedPages bp) (hf : bp.free_space = 0) :
    pinPage PS bp page p = pinPageEvict PS bp page p := by
  have hs := h.hitSearch_none p hx
  have hpos := h.total_pos
  simp only [usedFrames] at hs
  have hv : ¬ (0 = bp.totalPages) := by omega
  rw [hf, Nat.sub_zero] at hs
  simp [-List.getD_eq_getElem?_getD, pinPage, hf, hs, hv]

/-! ## Calls that do not touch the page table -/

theorem PoolInv.of_fix {PS : Nat} {bp : Bufferpool} (h : PoolInv PS bp) (f : List Int)
    (h1 : f.length = bp.totalPages) (h2 : ∀ i, 0 ≤ f.getD i 0)
    (h3 : ∀ i, usedFrames bp ≤ i → f.getD i 0 = 0) : PoolInv PS { bp with fix_count := f } :=
  { total_pos := h.total_pos, free_le := h.free_le, len_dirty := h.len_dirty, len_fix := h1,
    len_data := h.len_data, pagenum_drop := h.pagenum_drop, order_drop := h.order_drop,
    len_pagenum := h.len_pagenum, len_order := h.len_order, used_nonneg := h.used_nonneg,
    nodup := h.nodup, perm := h.perm, fix_nonneg := h2, fix_unused := h3,
    dirty_unused := h.dirty_unused }

theorem PoolInv.of_dirty {PS : Nat} {bp : Bufferpool} (h : PoolInv PS bp) (d : List Bool)
    (n : Int) (fh : SM_FileHandle)
    (h1 : d.length = bp.totalPages) (h3 : ∀ i, usedFrames bp ≤ i → d.getD i false = false) :
    PoolInv PS { bp with bitdirty := d, numWrite := n, fhl := fh } :=
  { total_pos := h.total_pos, free_le := h.free_le, len_dirty := h1, len_fix := h.len_fix,
    len_data := h.len_data, pagenum_drop := h.pagenum_drop, order_drop := h.order_drop,
    len_pagenum := h.len_pagenum, len_order := h.len_order, used_nonneg := h.used_nonneg,
    nodup := h.nodup, perm := h.perm, fix_nonneg := h.fix_nonneg, fix_unused := h.fix_unused,
    dirty_unused := h3 }

theorem unpinPage_inv {PS : Nat} {bp : Bufferpool} (h : PoolInv PS bp) (page : BM_PageHandle) :
    PoolInv PS (unpinPage bp page).2 := by
  unfold unpinPage
  split
  · rename_i i hi
    split
    · rename_i hpos
      apply h.of_fix
      · simp [h.len_fix]
      · intro k
        rw [getD_set_int]
        split
        · omega
        · exact h.fix_nonneg k
      · intro k hk
        rw [getD_set_int]
        split
        · rename_i hc
          have := h.fix_unused k hk
          rw [← hc.1] at this
          omega
        · exact h.fix_unused k hk
    · exact h
  · exact h

theorem markDirty_inv {PS : Nat} {bp : Bufferpool} (h : PoolInv PS bp) (page : BM_PageHandle)
    (hv : 0 ≤ page.pageNum) : PoolInv PS (markDirty bp page).2 := by
  unfold markDirty
  split
  · rename_i i hi
    obtain ⟨_, h2, h3, _⟩ := firstIdx_some hi
    simp only [beq_iff_eq] at h3
    have hused : i < usedFrames bp :=
      h.used_of_ne i (by omega) (by rw [h3]; unfold NO_PAGE; omega)
    split
    · apply h.of_dirty _ bp.numWrite bp.fhl
      · simp [h.len_dirty]
      · intro k hk
        rw [getD_set_bool, if_neg (by omega)]
        exact h.dirty_unused k hk
    · exact h
  · exact h

theorem forcePage_inv {PS : Nat} {bp : Bufferpool} (h : PoolInv PS bp) (page : BM_PageHandle) :
    PoolInv PS (forcePage bp page).2 := by
  unfold forcePage
  split
  · rename_i i hi
    apply h.of_dirty _ _ bp.fhl
    · simp [h.len_dirty]
    · intro k hk
      rw [getD_set_bool]
      split
      · rfl
      · exact h.dirty_unused k hk
  · exact h

theorem flushFrame_inv {PS : Nat} {bp : Bufferpool} (h : PoolInv PS bp) (i : Nat) :
    PoolInv PS (flushFrame PS bp i) := by
  unfold flushFrame
  split
  · apply h.of_dirty
    · simp [h.len_dirty]
    · intro k hk
      rw [getD_set_bool]
      split
      · rfl
      · exact h.dirty_unused k hk
  · exact h

theorem forceFlushPoolLoop_inv {PS : Nat} (k i : Nat) {bp : Bufferpool} (h : PoolInv PS bp) :
    PoolInv PS (forceFlushPoolLoop PS k i bp) := by
  induction k generalizing i bp with
  | zero => exact h
  | succ k ih => exact ih (i + 1) (flushFrame_inv h i)

/-! ## `pinPage` keeps the invariant -/

theorem set_take_succ (l : List Int) (n : Nat) (p : Int) (hn : n < l.length) :
    (l.set n p).take (n + 1) = l.take n ++ [p] := by
  apply List.ext_getElem?
  intro m
  rw [List.getElem?_take, List.getElem?_set]
  by_cases c1 : m < n
  · rw [if_pos (by omega), if_neg (by omega), List.getElem?_append_left (by simp; omega),
      List.getElem?_take, if_pos c1]
  · by_cases c2 : m = n
    · subst c2
      rw [if_pos (by omega), if_pos rfl, if_pos hn, List.getElem?_append_right (by simp)]
      have e : m - (List.take m l).length = 0 := by
        rw [List.length_take]; omega
      rw [e]
      rfl
    · rw [if_neg (by omega), List.getElem?_eq_none (by simp; omega)]

theorem set_drop_succ (l : List Int) (n : Nat) (p : Int) :
    (l.set n p).drop (n + 1) = l.drop (n + 1) := by
  apply List.ext_getElem?
  intro m
  rw [List.getElem?_drop, List.getElem?_drop, List.getElem?_set_ne (by omega)]

theorem drop_succ_of_drop_replicate (l : List Int) (n k : Nat) (d : Int)
    (h : l.drop n = List.replicate k d) : l.drop (n + 1) = List.replicate (k - 1) d := by
  have : l.drop (n + 1) = (l.drop n).drop 1 := by rw [List.drop_drop]
  rw [this, h]
  simp

theorem pinPageEmpty_inv {PS : Nat} {bp : Bufferpool} (h : PoolInv PS bp) (p : Int)
    (hx : p ∉ usedPages bp) (hf : 0 < bp.free_space) (hp : 0 ≤ p) :
    PoolInv PS (pinPageEmpty PS bp p).2.1 := by
  have hadd := h.usedFrames_add
  have hle := h.free_le
  have hu : bp.totalPages - (bp.free_space - 1) = usedFrames bp + 1 := by
    simp only [usedFrames]; omega
  have hlt : usedFrames bp < bp.totalPages := by omega
  have hP : (bp.pagenum.set (usedFrames bp) p).take (usedFrames bp + 1) = usedPages bp ++ [p] :=
    set_take_succ _ _ _ (by rw [h.len_pagenum]; exact hlt)
  have hO : (bp.updatedOrder.set (usedFrames bp) p).take (usedFrames bp + 1)
      = usedOrder bp ++ [p] :=
    set_take_succ _ _ _ (by rw [h.len_order]; exact hlt)
  constructor
  · exact h.total_pos
  · show bp.free_space - 1 ≤ bp.totalPages
    omega
  · show (bp.bitdirty.set _ false).length = bp.totalPages
    simp [h.len_dirty]
  · show (bp.fix_count.set _ _).length = bp.totalPages
    simp [h.len_fix]
  · show (memcpy bp.pagedata _ _).length = bp.totalPages * PS
    rw [length_memcpy, h.len_data]
  · show (bp.pagenum.set (bp.totalPages - bp.free_space) p).drop
        (bp.totalPages - (bp.free_space - 1)) = List.replicate (bp.free_space - 1) NO_PAGE
    rw [hu]
    show (bp.pagenum.set (usedFrames bp) p).drop (usedFrames bp + 1) = _
    rw [set_drop_succ]
    exact drop_succ_of_drop_replicate _ _ _ _ h.pagenum_drop
  · show (bp.updatedOrder.set (bp.totalPages - bp.free_space) p).drop
        (bp.totalPages - (bp.free_space - 1)) = List.replicate (bp.free_space - 1) NO_PAGE
    rw [hu]
    show (bp.updatedOrder.set (usedFrames bp) p).drop (usedFrames bp + 1) = _
    rw [set_drop_succ]
    exact drop_succ_of_drop_replicate _ _ _ _ h.order_drop
  · show (bp.pagenum.set _ p).length = bp.totalPages
    simp [h.len_pagenum]
  · show (bp.updatedOrder.set _ p).length = bp.totalPages
    simp [h.len_order]
  · show ∀ x, x ∈ (bp.pagenum.set (bp.totalPages - bp.free_space) p).take
        (bp.totalPages - (bp.free_space - 1)) → 0 ≤ x
    rw [hu]
    show ∀ x, x ∈ (bp.pagenum.set (usedFrames bp) p).take (usedFrames bp + 1) → 0 ≤ x
    rw [hP]
    intro x hx2
    rcases List.mem_append.mp hx2 with hx3 | hx3
    · exact h.used_nonneg x hx3
    · simp only [List.mem_singleton] at hx3
      omega
  · show ((bp.pagenum.set (bp.totalPages - bp.free_space) p).take
        (bp.totalPages - (bp.free_space - 1))).Nodup
    rw [hu]
    show ((bp.pagenum.set (usedFrames bp) p).take (usedFrames bp + 1)).Nodup
    rw [hP]
    exact List.Nodup.append h.nodup (List.nodup_singleton p)
      (by intro a ha hb; simp only [List.mem_singleton] at hb; subst hb; exact hx ha)
  · show ((bp.updatedOrder.set (bp.totalPages - bp.free_space) p).take
        (bp.totalPages - (bp.free_space - 1))).Perm
        ((bp.pagenum.set (bp.totalPages - bp.free_space) p).take
        (bp.totalPages - (bp.free_space - 1)))
    rw [hu]
    show ((bp.updatedOrder.set (usedFrames bp) p).take (usedFrames bp + 1)).Perm
        ((bp.pagenum.set (usedFrames bp) p).take (usedFrames bp + 1))
    rw [hP, hO]
    exact List.Perm.append_right _ h.perm
  · intro k
    show 0 ≤ (bp.fix_count.set _ _).getD k 0
    rw [getD_set_int]
    split
    · have := h.fix_nonneg (bp.totalPages - bp.free_space)
      omega
    · exact h.fix_nonneg k
  · intro k hk
    show (bp.fix_count.set _ _).getD k 0 = 0
    have hk2 : usedFrames bp + 1 ≤ k := by rw [← hu]; exact hk
    rw [getD_set_int, if_neg (by simp only [usedFrames] at hk2; omega)]
    exact h.fix_unused k (by omega)
  · intro k hk
    show (bp.bitdirty.set _ _).getD k false = false
    have hk2 : usedFrames bp + 1 ≤ k := by rw [← hu]; exact hk
    rw [getD_set_bool, if_neg (by simp only [usedFrames] at hk2; omega)]
    exact h.dirty_unused k (by omega)

theorem PoolInv.of_order {PS : Nat} {bp : Bufferpool} (h : PoolInv PS bp) (X : List Int)
    (hX : X.Perm (usedOrder bp)) :
    PoolInv PS { bp with updatedOrder := X ++ List.replicate bp.free_space NO_PAGE } := by
  have hlen : X.length = usedFrames bp := by rw [hX.length_eq, h.len_usedOrder]
  have hadd := h.usedFrames_add
  exact
    { total_pos := h.total_pos, free_le := h.free_le, len_dirty := h.len_dirty,
      len_fix := h.len_fix, len_data := h.len_data, pagenum_drop := h.pagenum_drop,
      order_drop := List.drop_left' hlen,
      len_pagenum := h.len_pagenum,
      len_order := by
        show (X ++ List.replicate bp.free_space NO_PAGE).length = bp.totalPages
        simp; omega
      used_nonneg := h.used_nonneg, nodup := h.nodup,
      perm := by
        show ((X ++ List.replicate bp.free_space NO_PAGE).take (usedFrames bp)).Perm (usedPages bp)
        rw [List.take_left' hlen]
        exact hX.trans h.perm
      fix_nonneg := h.fix_nonneg, fix_unused := h.fix_unused, dirty_unused := h.dirty_unused }

/-- A hit under a strategy other than LRU only raises the fix count. -/
theorem pinPageHit_other {PS : Nat} {bp : Bufferpool} (p : Int) (i : Nat)
    (hs : bp.updatedStrategy ≠ ReplacementStrategy.RS_LRU) :
    pinPageHit PS bp p i =
      (RC.RC_OK, { bp with fix_count := bp.fix_count.set i (bp.fix_count.getD i 0 + 1) },
        { pageNum := p, data := some (i * PS) }) := by
  simp [-List.getD_eq_getElem?_getD, pinPageHit, hs]

/-- A hit under LRU raises the fix count and moves the page to the end of the used order. -/
theorem pinPageHit_lru {PS : Nat} {bp : Bufferpool} (h : PoolInv PS bp) (p : Int) (i : Nat)
    (hs : bp.updatedStrategy = ReplacementStrategy.RS_LRU) (hi : i < usedFrames bp)
    (hx : bp.pagenum.getD i 0 = p) :
    ∃ swap, swap < usedFrames bp ∧ bp.updatedOrder.getD swap 0 = p ∧
      pinPageHit PS bp p i =
        (RC.RC_OK,
          { bp with
            fix_count := bp.fix_count.set i (bp.fix_count.getD i 0 + 1)
            updatedOrder := ((usedOrder bp).eraseIdx swap ++ [p])
              ++ List.replicate bp.free_space NO_PAGE },
          { pageNum := p, data := some (i * PS) }) := by
  have hmem : p ∈ usedOrder bp := h.perm.mem_iff.mpr ((h.mem_usedPages p).mpr ⟨i, hi, hx⟩)
  obtain ⟨m, hm, hmx⟩ := (h.mem_usedOrder p).mp hmem
  obtain ⟨swap, hswap⟩ := firstIdx_isSome (p := fun j => bp.updatedOrder.getD j 0 == p)
    (k := usedFrames bp) (Nat.zero_le m) (by omega) (by simp only [hmx, beq_self_eq_true])
  obtain ⟨_, hs2, hs3, _⟩ := firstIdx_some hswap
  simp only [beq_iff_eq] at hs3
  refine ⟨swap, by omega, hs3, ?_⟩
  have hlen := h.len_usedOrder
  have key := lruMove_eq (usedOrder bp) (List.replicate bp.free_space NO_PAGE) swap p
    (by omega)
  rw [← h.order_eq, hlen] at key
  have e1 : bp.totalPages - bp.free_space - 1 + 1 = usedFrames bp := by
    simp only [usedFrames] at hi ⊢; omega
  have e2 : bp.totalPages - bp.free_space - 1 = usedFrames bp - 1 := by
    simp only [usedFrames]
  simp only [pinPageHit, hs, if_true, e1, hswap]
  rw [e2, key]

theorem pinPageHit_inv {PS : Nat} {bp : Bufferpool} (h : PoolInv PS bp) (p : Int) (i : Nat)
    (hi : i < usedFrames bp) (hx : bp.pagenum.getD i 0 = p) :
    PoolInv PS (pinPageHit PS bp p i).2.1 := by
  have hfix : ∀ bp1 : Bufferpool, PoolInv PS bp1 → bp1.fix_count = bp.fix_count →
      usedFrames bp1 = usedFrames bp →
      PoolInv PS { bp1 with fix_count := bp.fix_count.set i (bp.fix_count.getD i 0 + 1) } := by
    intro bp1 h1 e1 e2
    apply h1.of_fix
    · rw [List.length_set, ← e1, h1.len_fix]
    · intro k
      rw [getD_set_int]
      split
      · have := h.fix_nonneg i; omega
      · exact h.fix_nonneg k
    · intro k hk
      rw [getD_set_int, if_neg (by omega)]
      exact h.fix_unused k (by omega)
  by_cases hs : bp.updatedStrategy = ReplacementStrategy.RS_LRU
  · obtain ⟨swap, hsw, hsx, heq⟩ := pinPageHit_lru h p i hs hi hx
    rw [heq]
    have hlen := h.len_usedOrder
    have hperm : ((usedOrder bp).eraseIdx swap ++ [p]).Perm (usedOrder bp) := by
      have := eraseIdx_append_perm (usedOrder bp) swap (by omega)
      rw [h.usedOrder_getD swap hsw, hsx] at this
      exact this
    exact hfix _ (h.of_order _ hperm) rfl rfl
  · rw [pinPageHit_other p i hs]
    exact hfix bp h rfl rfl

/-! ### Eviction -/

theorem victimFrame_some {bp : Bufferpool} {v : Int} {i : Nat} (h : victimFrame bp v = some i) :
    i < bp.totalPages ∧ bp.pagenum.getD i 0 = v ∧ bp.fix_count.getD i 0 = 0 := by
  obtain ⟨_, h2, h3, _⟩ := firstIdx_some h
  simp only [Bool.and_eq_true, beq_iff_eq] at h3
  exact ⟨by omega, h3.1, h3.2⟩

theorem victimFrame_none {bp : Bufferpool} {v : Int} (h : victimFrame bp v = none) (i : Nat)
    (hi : i < bp.totalPages) (hv : bp.pagenum.getD i 0 = v) : bp.fix_count.getD i 0 ≠ 0 := by
  have := firstIdx_none h i (Nat.zero_le _) (by omega)
  simp only [Bool.and_eq_false_iff, beq_eq_false_iff_ne, ne_eq] at this
  rcases this with h1 | h1
  · exact absurd hv h1
  · exact h1

theorem victimOrder_some {bp : Bufferpool} {j : Nat} (h : victimOrder bp = some j) :
    j < bp.totalPages ∧ (∃ i, victimFrame bp (bp.updatedOrder.getD j 0) = some i) ∧
      ∀ m, m < j → victimFrame bp (bp.updatedOrder.getD m 0) = none := by
  obtain ⟨_, h2, h3, h4⟩ := firstIdx_some h
  refine ⟨by omega, Option.isSome_iff_exists.mp h3, ?_⟩
  intro m hm
  have := h4 m (Nat.zero_le _) hm
  simpa using this

theorem victimOrder_none {bp : Bufferpool} (h : victimOrder bp = none) (j : Nat)
    (hj : j < bp.totalPages) : victimFrame bp (bp.updatedOrder.getD j 0) = none := by
  have := firstIdx_none h j (Nat.zero_le _) (by omega)
  simpa using this

/-- The pool after a successful eviction, field by field. -/
theorem pinPageEvict_found {PS : Nat} {bp : Bufferpool} (page : BM_PageHandle) (p : Int)
    (j i : Nat)
    (hs : bp.updatedStrategy = ReplacementStrategy.RS_FIFO
      ∨ bp.updatedStrategy = ReplacementStrategy.RS_LRU)
    (hlen : bp.updatedOrder.length = bp.totalPages)
    (hj : victimOrder bp = some j)
    (hi : victimFrame bp (bp.updatedOrder.getD j 0) = some i) :
    pinPageEvict PS bp page p =
      (RC.RC_OK,
        { numRead := bp.numRead + 1
          numWrite := if bp.bitdirty.getD i false then bp.numWrite + 1 else bp.numWrite
          totalPages := bp.totalPages
          updatedStrategy := bp.updatedStrategy
          free_space := bp.free_space
          updatedOrder := bp.updatedOrder.eraseIdx j ++ [p]
          bitdirty := bp.bitdirty.set i false
          fix_count := bp.fix_count.set i (bp.fix_count.getD i 0 + 1)
          pagenum := bp.pagenum.set i p
          pagedata := memcpy bp.pagedata (i * PS)
            (readBlock PS p bp.fhl (List.replicate PS 0)).2.2
          fhl :=
            if bp.bitdirty.getD i false then
              (writeBlock PS (bp.pagenum.getD i 0)
                (ensureCapacity PS (bp.pagenum.getD i 0 + 1)
                  (readBlock PS p bp.fhl (List.replicate PS 0)).2.1).2
                (frameBytes PS bp.pagedata i)).2
            else (readBlock PS p bp.fhl (List.replicate PS 0)).2.1 },
        { pageNum := p, data := some (i * PS) }) := by
  have hjlt := (victimOrder_some hj).1
  have key := shift_eq_eraseIdx bp.updatedOrder j p (by omega)
  rw [hlen] at key
  have e1 : ∀ fh : SM_FileHandle, victimOrder { bp with fhl := fh } = victimOrder bp :=
    fun _ => rfl
  have e2 : ∀ (fh : SM_FileHandle) (v : Int),
      victimFrame { bp with fhl := fh } v = victimFrame bp v := fun _ _ => rfl
  unfold pinPageEvict
  simp only [hs, if_true, e1, e2, hj, hi, ShiftUpdatedOrder, UpdateBufferPoolStats]
  cases hd : bp.bitdirty.getD i false
  · simp only [Bool.false_eq_true, if_false, key]
  · simp only [if_true, key]

/-- Without a victim (or under a strategy other than FIFO and LRU) the eviction
path reports a full pool and only the file handle may have moved. -/
theorem pinPageEvict_full {PS : Nat} {bp : Bufferpool} (page : BM_PageHandle) (p : Int)
    (hs : ¬ (bp.updatedStrategy = ReplacementStrategy.RS_FIFO
      ∨ bp.updatedStrategy = ReplacementStrategy.RS_LRU) ∨ victimOrder bp = none) :
    pinPageEvict PS bp page p =
      (RC.RC_BUFFERPOOL_FULL,
        { bp with fhl := (readBlock PS p bp.fhl (List.replicate PS 0)).2.1 }, page) := by
  have e1 : ∀ fh : SM_FileHandle, victimOrder { bp with fhl := fh } = victimOrder bp :=
    fun _ => rfl
  unfold pinPageEvict
  by_cases hst : bp.updatedStrategy = ReplacementStrategy.RS_FIFO
      ∨ bp.updatedStrategy = ReplacementStrategy.RS_LRU
  · rcases hs with hs | hs
    · exact absurd hst hs
    · simp only [hst, if_true, e1, hs]
  · simp only [hst, if_false]

theorem PoolInv.full_usedPages {PS : Nat} {bp : Bufferpool} (h : PoolInv PS bp)
    (hf : bp.free_space = 0) : usedPages bp = bp.pagenum := by
  simp only [usedPages, usedFrames, hf, Nat.sub_zero]
  exact List.take_of_length_le (by rw [h.len_pagenum])

theorem PoolInv.full_usedOrder {PS : Nat} {bp : Bufferpool} (h : PoolInv PS bp)
    (hf : bp.free_space = 0) : usedOrder bp = bp.updatedOrder := by
  simp only [usedOrder, usedFrames, hf, Nat.sub_zero]
  exact List.take_of_length_le (by rw [h.len_order])

theorem pinPageEvict_inv {PS : Nat} {bp : Bufferpool} (h : PoolInv PS bp) (page : BM_PageHandle)
    (p : Int) (hx : p ∉ usedPages bp) (hf : bp.free_space = 0) (hp : 0 ≤ p) :
    PoolInv PS (pinPageEvict PS bp page p).2.1 := by
  by_cases hst : bp.updatedStrategy = ReplacementStrategy.RS_FIFO
      ∨ bp.updatedStrategy = ReplacementStrategy.RS_LRU
  swap
  · rw [pinPageEvict_full page p (Or.inl hst)]
    exact h.of_dirty bp.bitdirty bp.numWrite _ h.len_dirty h.dirty_unused
  cases hvo : victimOrder bp with
  | none =>
    rw [pinPageEvict_full page p (Or.inr hvo)]
    exact h.of_dirty bp.bitdirty bp.numWrite _ h.len_dirty h.dirty_unused
  | some j =>
    obtain ⟨hj, ⟨i, hvf⟩, _⟩ := victimOrder_some hvo
    obtain ⟨hi, hpj, hfix⟩ := victimFrame_some hvf
    rw [pinPageEvict_found page p j i hst h.len_order hvo hvf]
    have hUP := h.full_usedPages hf
    have hUO := h.full_usedOrder hf
    have hnd : bp.pagenum.Nodup := hUP ▸ h.nodup
    have hperm : bp.updatedOrder.Perm bp.pagenum := by
      have := h.perm; rw [hUP, hUO] at this; exact this
    have hx2 : p ∉ bp.pagenum := hUP ▸ hx
    have hnn : ∀ x, x ∈ bp.pagenum → 0 ≤ x := hUP ▸ h.used_nonneg
    have hlp := h.len_pagenum
    have hlo := h.len_order
    have hset := set_perm_cons_eraseIdx bp.pagenum i p (by omega)
    have hsub : ∀ x, x ∈ bp.pagenum.eraseIdx i → x ∈ bp.pagenum :=
      fun x hx3 => (List.eraseIdx_sublist _ _).subset hx3
    have hlen1 : (bp.updatedOrder.eraseIdx j ++ [p]).length = bp.totalPages := by
      rw [List.length_append, List.length_eraseIdx_of_lt (by omega)]
      simp; omega
    have hlen2 : (bp.pagenum.set i p).length = bp.totalPages := by simp [hlp]
    have hu : usedFrames bp = bp.totalPages := by simp [usedFrames, hf]
    constructor
    · exact h.total_pos
    · exact h.free_le
    · show (bp.bitdirty.set i false).length = bp.totalPages
      simp [h.len_dirty]
    · show (bp.fix_count.set i _).length = bp.totalPages
      simp [h.len_fix]
    · show (memcpy bp.pagedata _ _).length = bp.totalPages * PS
      rw [length_memcpy, h.len_data]
    · show (bp.pagenum.set i p).drop (usedFrames bp) = List.replicate bp.free_space NO_PAGE
      rw [hu, hf, List.drop_of_length_le (by omega)]
      rfl
    · show (bp.updatedOrder.eraseIdx j ++ [p]).drop (usedFrames bp)
        = List.replicate bp.free_space NO_PAGE
      rw [hu, hf, List.drop_of_length_le (by omega)]
      rfl
    · exact hlen2
    · exact hlen1
    · show ∀ x, x ∈ (bp.pagenum.set i p).take (usedFrames bp) → 0 ≤ x
      rw [hu, List.take_of_length_le (by omega)]
      intro x hx3
      rcases List.mem_cons.mp (hset.mem_iff.mp hx3) with hx4 | hx4
      · omega
      · exact hnn x (hsub x hx4)
    · show ((bp.pagenum.set i p).take (usedFrames bp)).Nodup
      rw [hu, List.take_of_length_le (by omega)]
      exact hset.nodup_iff.mpr
        (List.nodup_cons.mpr ⟨fun hc => hx2 (hsub p hc), hnd.sublist (List.eraseIdx_sublist _ _)⟩)
    · show ((bp.updatedOrder.eraseIdx j ++ [p]).take (usedFrames bp)).Perm
        ((bp.pagenum.set i p).take (usedFrames bp))
      rw [hu, List.take_of_length_le (by omega), List.take_of_length_le (by omega)]
      refine List.perm_append_comm.trans ?_
      refine List.Perm.trans ?_ hset.symm
      exact List.Perm.cons p
        (eraseIdx_perm_of_perm hperm hnd (by omega) (by omega) hpj.symm)
    · intro k
      show 0 ≤ (bp.fix_count.set i _).getD k 0
      rw [getD_set_int]
      split
      · have := h.fix_nonneg i; omega
      · exact h.fix_nonneg k
    · intro k hk
      show (bp.fix_count.set i _).getD k 0 = 0
      have hk2 : bp.totalPages ≤ k := by rw [← hu]; exact hk
      rw [getD_set_int, if_neg (by omega)]
      exact h.fix_unused k (by omega)
    · intro k hk
      show (bp.bitdirty.set i _).getD k false = false
      have hk2 : bp.totalPages ≤ k := by rw [← hu]; exact hk
      rw [getD_set_bool, if_neg (by omega)]
      exact h.dirty_unused k (by omega)

theorem pinPage_inv {PS : Nat} {bp : Bufferpool} (h : PoolInv PS bp) (page : BM_PageHandle)
    (p : Int) (hp : 0 ≤ p) : PoolInv PS (pinPage PS bp page p).2.1 := by
  by_cases hm : p ∈ usedPages bp
  · obtain ⟨i, hi, hx⟩ := (h.mem_usedPages p).mp hm
    rw [pinPage_hit h page p i hi hx]
    exact pinPageHit_inv h p i hi hx
  · by_cases hf : 0 < bp.free_space
    · rw [pinPage_empty h page p hm hf]
      exact pinPageEmpty_inv h p hm hf hp
    · rw [pinPage_evict h page p hm (by omega)]
      exact pinPageEvict_inv h page p hm (by omega) hp

theorem applyOp_inv {PS : Nat} {bp : Bufferpool} (h : PoolInv PS bp) (op : PoolOp)
    (hv : op.valid) : PoolInv PS (applyOp PS bp op) := by
  cases op with
  | pinPage page pageNum => exact pinPage_inv h page pageNum hv
  | unpinPage page => exact unpinPage_inv h page
  | markDirty page => exact markDirty_inv h page hv
  | forcePage page => exact forcePage_inv h page
  | forceFlushPool => exact forceFlushPoolLoop_inv _ _ h

/-- Every reachable pool state satisfies the structural invariant. -/
theorem Reachable.inv {PS : Nat} {bp : Bufferpool} (h : Reachable PS bp) : PoolInv PS bp := by
  induction h with
  | init pageFile numPages strategy bp h => exact initBufferPool_inv PS pageFile numPages strategy bp h
  | step bp op _ hv ih => exact applyOp_inv ih op hv

/-! ## Reachability of runs -/

theorem Reachable.run {PS : Nat} {bp : Bufferpool} (h : Reachable PS bp) (ops : List PoolOp)
    (hv : ∀ op, op ∈ ops → op.valid) : Reachable PS (runOps PS bp ops) := by
  induction ops generalizing bp with
  | nil => exact h
  | cons op ops ih =>
    exact ih (Reachable.step bp op h (hv op (List.mem_cons_self _ _)))
      (fun o ho => hv o (List.mem_cons_of_mem _ ho))

theorem coldPool_reachable (s : ReplacementStrategy) : Reachable 4 (coldPool 4 3 s) :=
  Reachable.init (some (createPageFile 4 none).2) 3 s _ (by cases s <;> rfl)

theorem fifoPool012_reachable : Reachable 4 fifoPool012 :=
  (coldPool_reachable _).run _ (by decide)

theorem lruPool0120_reachable : Reachable 4 lruPool0120 :=
  (coldPool_reachable _).run _ (by decide)

/-! ## C2: a page is held by at most one frame -/

/-- C2: in every state reachable from `initBufferPool` by `pinPage` (with
non-negative page numbers), `unpinPage`, `markDirty`, `forcePage` and
`forceFlushPool`, a page number `P ≥ 0` is held by at most one frame. -/
theorem C2_page_in_at_most_one_frame (PS : Nat) (bp : Bufferpool) (h : Reachable PS bp)
    (P : Int) (hP : 0 ≤ P) (i j : Nat) (hi : i < bp.totalPages) (hj : j < bp.totalPages)
    (h1 : bp.pagenum.getD i 0 = P) (h2 : bp.pagenum.getD j 0 = P) : i = j := by
  have inv := h.inv
  have hne : P ≠ NO_PAGE := by unfold NO_PAGE; omega
  exact inv.pagenum_inj (inv.used_of_ne i hi (by rw [h1]; exact hne))
    (inv.used_of_ne j hj (by rw [h2]; exact hne)) (by rw [h1, h2])

/-- Worked instance of C2: frame 1 of the FIFO pool that has seen pages 0, 1, 2 holds page 1. -/
theorem C2_witness :
    Reachable 4 fifoPool012 ∧ fifoPool012.pagenum = [0, 1, 2] ∧ (1 : Nat) = 1 :=
  ⟨fifoPool012_reachable, by decide,
    C2_page_in_at_most_one_frame 4 fifoPool012 fifoPool012_reachable 1 (by decide) 1 1
      (by decide) (by decide) (by decide) (by decide)⟩

/-! ## C7: pinning a resident page -/

/-- C7: if page `p` is resident in frame `i`, `pinPage(p)` returns `RC_OK` with a
handle for page `p` pointing at frame `i`, raises `fix_count[i]` by one and
leaves the page table, the dirty flags, the frame bytes, both I/O counters, the
file handle and every other fix count as they were; under `RS_FIFO` the order
array is unchanged as well. -/
theorem C7_pin_hit (PS : Nat) (bp : Bufferpool) (h : Reachable PS bp) (page : BM_PageHandle)
    (p : Int) (i : Nat) (hi : i < bp.totalPages) (hx : bp.pagenum.getD i 0 = p)
    (hp : p ≠ NO_PAGE) :
    (pinPage PS bp page p).1 = RC.RC_OK
      ∧ (pinPage PS bp page p).2.2 = { pageNum := p, data := some (i * PS) }
      ∧ (pinPage PS bp page p).2.1.fix_count = bp.fix_count.set i (bp.fix_count.getD i 0 + 1)
      ∧ (pinPage PS bp page p).2.1.pagenum = bp.pagenum
      ∧ (pinPage PS bp page p).2.1.bitdirty = bp.bitdirty
      ∧ (pinPage PS bp page p).2.1.pagedata = bp.pagedata
      ∧ getNumReadIO (pinPage PS bp page p).2.1 = getNumReadIO bp
      ∧ getNumWriteIO (pinPage PS bp page p).2.1 = getNumWriteIO bp
      ∧ (pinPage PS bp page p).2.1.fhl = bp.fhl
      ∧ (pinPage PS bp page p).2.1.free_space = bp.free_space
      ∧ (bp.updatedStrategy = ReplacementStrategy.RS_FIFO →
          (pinPage PS bp page p).2.1.updatedOrder = bp.updatedOrder) := by
  have inv := h.inv
  have hu : i < usedFrames bp := inv.used_of_ne i hi (by rw [hx]; exact hp)
  rw [pinPage_hit inv page p i hu hx]
  by_cases hs : bp.updatedStrategy = ReplacementStrategy.RS_LRU
  · obtain ⟨swap, _, _, heq⟩ := pinPageHit_lru inv p i hs hu hx
    rw [heq]
    refine ⟨rfl, rfl, rfl, rfl, rfl, rfl, rfl, rfl, rfl, rfl, ?_⟩
    intro hf
    rw [hs] at hf
    exact absurd hf (by decide)
  · rw [pinPageHit_other p i hs]
    exact ⟨rfl, rfl, rfl, rfl, rfl, rfl, rfl, rfl, rfl, rfl, fun _ => rfl⟩

/-- Worked instance of C7: page 1 sits in frame 1 of the FIFO pool; pinning it
returns frame 1 and makes the fix counts `[0, 1, 0]`. -/
theorem C7_witness :
    fifoPool012.pagenum.getD 1 0 = 1
      ∧ (pinPage 4 fifoPool012 (handleOf 9) 1).2.1.fix_count = [0, 1, 0]
      ∧ (pinPage 4 fifoPool012 (handleOf 9) 1).2.2 = { pageNum := 1, data := some 4 } :=
  have h := C7_pin_hit 4 fifoPool012 fifoPool012_reachable (handleOf 9) 1 1 (by decide)
    (by decide) (by decide)
  ⟨by decide, h.2.2.1, h.2.1⟩

/-! ## C9: `unpinPage` -/

/-- C9: `unpinPage` always returns `RC_OK`; when the page of the handle is held
by frame `i` with a positive fix count, that count goes down by one and nothing
else changes; when no frame holds the page with a positive fix count the pool
is unchanged; no fix count is negative afterwards. -/
theorem C9_unpinPage (PS : Nat) (bp : Bufferpool) (h : Reachable PS bp) (page : BM_PageHandle) :
    (unpinPage bp page).1 = RC.RC_OK
      ∧ (∀ i, i < bp.totalPages → bp.pagenum.getD i 0 = page.pageNum →
          0 < bp.fix_count.getD i 0 →
          (unpinPage bp page).2
            = { bp with fix_count := bp.fix_count.set i (bp.fix_count.getD i 0 - 1) })
      ∧ ((∀ i, i < bp.totalPages → bp.pagenum.getD i 0 = page.pageNum →
          bp.fix_count.getD i 0 = 0) → (unpinPage bp page).2 = bp)
      ∧ (∀ i, 0 ≤ (unpinPage bp page).2.fix_count.getD i 0) := by
  have inv := h.inv
  refine ⟨?_, ?_, ?_, ?_⟩
  · unfold unpinPage
    split
    · split <;> rfl
    · rfl
  · intro i hi hx hpos
    have hne : page.pageNum ≠ NO_PAGE := by
      intro hc
      have hu : ¬ i < usedFrames bp := by
        intro hlt
        have := inv.pagenum_used i hlt
        rw [hx, hc] at this
        unfold NO_PAGE at this
        omega
      have := inv.fix_unused i (by omega)
      omega
    have hs := inv.fullSearch_some page.pageNum hne i hi hx
    simp only [unpinPage, hs, gt_iff_lt, hpos, if_true]
  · intro hall
    unfold unpinPage
    split
    · rename_i i0 hi0
      obtain ⟨_, h2, h3, _⟩ := firstIdx_some hi0
      simp only [beq_iff_eq] at h3
      have := hall i0 (by omega) h3
      rw [if_neg (by omega)]
    · rfl
  · exact (unpinPage_inv inv page).fix_nonneg

/-- Worked instance of C9: with page 0 pinned once in frame 0, `unpinPage` takes
the fix count of frame 0 from 1 to 0 and changes nothing else; a second
`unpinPage` changes nothing. -/
theorem C9_witness :
    fifoPoolPinned0.fix_count = [1, 0, 0]
      ∧ (unpinPage fifoPoolPinned0 (handleOf 0)).1 = RC.RC_OK
      ∧ (unpinPage fifoPoolPinned0 (handleOf 0)).2
          = { fifoPoolPinned0 with
              fix_count := fifoPoolPinned0.fix_count.set 0 (fifoPoolPinned0.fix_count.getD 0 0 - 1) }
      ∧ (unpinPage (unpinPage fifoPoolPinned0 (handleOf 0)).2 (handleOf 0)).2
          = (unpinPage fifoPoolPinned0 (handleOf 0)).2 :=
  have h := C9_unpinPage 4 fifoPoolPinned0 ((coldPool_reachable _).run _ (by decide)) (handleOf 0)
  ⟨by decide, h.1, h.2.1 0 (by decide) (by decide) (by decide), by decide⟩

/-! ## Facts shared by the eviction claims -/

theorem PoolInv.noEmpty_iff {PS : Nat} {bp : Bufferpool} (h : PoolInv PS bp) :
    noEmptyFrame bp ↔ bp.free_space = 0 := by
  have hadd := h.usedFrames_add
  constructor
  · intro hne
    by_contra hc
    exact hne (usedFrames bp) (by omega) (h.pagenum_unused _ (le_refl _) (by omega))
  · intro hf i hi hc
    have := h.pagenum_used i (by omega)
    rw [hc] at this
    unfold NO_PAGE at this
    omega

theorem PoolInv.not_mem_of_not_resident {PS : Nat} {bp : Bufferpool} (h : PoolInv PS bp)
    {p : Int} (hnr : ¬ resident bp p) : p ∉ usedPages bp := by
  intro hm
  obtain ⟨i, hi, hx⟩ := (h.mem_usedPages p).mp hm
  exact hnr ⟨i, by have := h.usedFrames_le; omega, hx⟩

/-- In a full pool with an unpinned frame the victim search succeeds. -/
theorem PoolInv.evict_choice {PS : Nat} {bp : Bufferpool} (h : PoolInv PS bp)
    (hf : bp.free_space = 0) (hex : ∃ i, i < bp.totalPages ∧ bp.fix_count.getD i 0 = 0) :
    ∃ j i, victimOrder bp = some j ∧ victimFrame bp (bp.updatedOrder.getD j 0) = some i := by
  obtain ⟨i0, hi0, hfix⟩ := hex
  have hu : usedFrames bp = bp.totalPages := by simp [usedFrames, hf]
  have hm : bp.pagenum.getD i0 0 ∈ usedOrder bp :=
    h.perm.mem_iff.mpr ((h.mem_usedPages _).mpr ⟨i0, by omega, rfl⟩)
  obtain ⟨j0, hj0, hjx⟩ := (h.mem_usedOrder _).mp hm
  have hvf : ∃ i, victimFrame bp (bp.updatedOrder.getD j0 0) = some i :=
    firstIdx_isSome (Nat.zero_le i0) (by omega)
      (by simp only [hjx, hfix, beq_self_eq_true, Bool.and_self])
  obtain ⟨j, hj⟩ : ∃ j, victimOrder bp = some j :=
    firstIdx_isSome (Nat.zero_le j0) (by omega) (by
      obtain ⟨i, hi⟩ := hvf
      simp only [hi, Option.isSome_some])
  obtain ⟨_, ⟨i, hi⟩, _⟩ := victimOrder_some hj
  exact ⟨j, i, hj, hi⟩

theorem pinPageHit_status (PS : Nat) (bp : Bufferpool) (p : Int) (i : Nat) :
    (pinPageHit PS bp p i).1 = RC.RC_OK := by
  unfold pinPageHit
  dsimp only
  split
  · split <;> rfl
  · rfl

/-! ## C3: the eviction victim -/

/-- C3: under FIFO or LRU, when `pinPage(p)` is called with `p` not resident, no
frame empty and some frame unpinned, it returns `RC_OK` and replaces the frame
`i` whose page is the first entry `j` of the order array with fix count zero;
afterwards frame `i` holds `p` with fix count 1 and a clear dirty flag, `p` is
the last entry of the order array, the other order entries keep their relative
order, and the page, fix count and dirty flag of every other frame are unchanged. -/
theorem C3_eviction_victim (PS : Nat) (bp : Bufferpool) (h : Reachable PS bp)
    (hs : bp.updatedStrategy = ReplacementStrategy.RS_FIFO
      ∨ bp.updatedStrategy = ReplacementStrategy.RS_LRU)
    (page : BM_PageHandle) (p : Int) (hnr : ¬ resident bp p) (hne : noEmptyFrame bp)
    (hex : ∃ i, i < bp.totalPages ∧ bp.fix_count.getD i 0 = 0) :
    ∃ j i, j < bp.totalPages ∧ i < bp.totalPages
      ∧ bp.pagenum.getD i 0 = bp.updatedOrder.getD j 0
      ∧ bp.fix_count.getD i 0 = 0
      ∧ (∀ m k, m < j → k < bp.totalPages →
          bp.pagenum.getD k 0 = bp.updatedOrder.getD m 0 → bp.fix_count.getD k 0 ≠ 0)
      ∧ (pinPage PS bp page p).1 = RC.RC_OK
      ∧ (pinPage PS bp page p).2.2 = { pageNum := p, data := some (i * PS) }
      ∧ (pinPage PS bp page p).2.1.pagenum = bp.pagenum.set i p
      ∧ (pinPage PS bp page p).2.1.fix_count = bp.fix_count.set i 1
      ∧ (pinPage PS bp page p).2.1.bitdirty = bp.bitdirty.set i false
      ∧ (pinPage PS bp page p).2.1.updatedOrder = bp.updatedOrder.eraseIdx j ++ [p] := by
  have inv := h.inv
  have hf := inv.noEmpty_iff.mp hne
  have hx := inv.not_mem_of_not_resident hnr
  obtain ⟨j, i, hj, hi⟩ := inv.evict_choice hf hex
  obtain ⟨hjlt, _, hfirst⟩ := victimOrder_some hj
  obtain ⟨hilt, hpi, hfix⟩ := victimFrame_some hi
  refine ⟨j, i, hjlt, hilt, hpi, hfix, ?_, ?_⟩
  · intro m k hm hk hpk
    exact victimFrame_none (hfirst m hm) k hk hpk
  · rw [pinPage_evict inv page p hx hf, pinPageEvict_found page p j i hs inv.len_order hj hi]
    refine ⟨rfl, rfl, rfl, ?_, rfl, rfl⟩
    show bp.fix_count.set i (bp.fix_count.getD i 0 + 1) = bp.fix_count.set i 1
    rw [hfix]
    rfl

/-- Worked instance of C3: in the three-frame FIFO pool that has seen pages
0, 1, 2 (all unpinned), `pinPage(3)` evicts page 0 and a following `pinPage(4)`
evicts page 1. -/
theorem C3_witness :
    (∃ j i, j < fifoPool012.totalPages ∧ i < fifoPool012.totalPages
      ∧ fifoPool012.pagenum.getD i 0 = fifoPool012.updatedOrder.getD j 0
      ∧ fifoPool012.fix_count.getD i 0 = 0
      ∧ (∀ m k, m < j → k < fifoPool012.totalPages →
          fifoPool012.pagenum.getD k 0 = fifoPool012.updatedOrder.getD m 0 →
          fifoPool012.fix_count.getD k 0 ≠ 0)
      ∧ (pinPage 4 fifoPool012 (handleOf 3) 3).1 = RC.RC_OK
      ∧ (pinPage 4 fifoPool012 (handleOf 3) 3).2.2 = { pageNum := 3, data := some (i * 4) }
      ∧ (pinPage 4 fifoPool012 (handleOf 3) 3).2.1.pagenum = fifoPool012.pagenum.set i 3
      ∧ (pinPage 4 fifoPool012 (handleOf 3) 3).2.1.fix_count = fifoPool012.fix_count.set i 1
      ∧ (pinPage 4 fifoPool012 (handleOf 3) 3).2.1.bitdirty = fifoPool012.bitdirty.set i false
      ∧ (pinPage 4 fifoPool012 (handleOf 3) 3).2.1.updatedOrder
          = fifoPool012.updatedOrder.eraseIdx j ++ [3])
      ∧ fifoPool012.pagenum = [0, 1, 2]
      ∧ (pinPage 4 fifoPool012 (handleOf 3) 3).2.1.pagenum = [3, 1, 2]
      ∧ (pinPage 4 (pinPage 4 fifoPool012 (handleOf 3) 3).2.1 (handleOf 4) 4).2.1.pagenum
          = [3, 4, 2] :=
  ⟨C3_eviction_victim 4 fifoPool012 fifoPool012_reachable (Or.inl (by decide)) (handleOf 3) 3
      (by decide) (by decide) ⟨0, by decide, by decide⟩,
    by decide, by decide, by decide⟩

/-! ## C5: `RC_BUFFERPOOL_FULL` -/

theorem coldPool1_reachable (s : ReplacementStrategy) : Reachable 4 (coldPool 4 1 s) :=
  Reachable.init (some (createPageFile 4 none).2) 1 s _ (by cases s <;> rfl)

/-- C5 as stated fails: a one-frame pool created with the strategy tag
`RS_CLOCK` holds page 0 unpinned, nevertheless `pinPage(1)` returns
`RC_BUFFERPOOL_FULL`. -/
theorem C5_counterexample :
    Reachable 4 clockPool0
      ∧ (pinPage 4 clockPool0 (handleOf 1) 1).1 = RC.RC_BUFFERPOOL_FULL
      ∧ ¬ (¬ resident clockPool0 1 ∧ noEmptyFrame clockPool0
            ∧ ∀ i, i < clockPool0.totalPages → 0 < clockPool0.fix_count.getD i 0) :=
  ⟨(coldPool1_reachable _).run _ (by decide), by decide, by decide⟩

/-- C5 (amended): for a pool whose strategy is `RS_FIFO` or `RS_LRU`, `pinPage(p)`
returns `RC_BUFFERPOOL_FULL` exactly when `p` is not resident, no frame is empty
and every frame has a positive fix count; for any other strategy tag it returns
it exactly when `p` is not resident and no frame is empty.  Whenever it returns
`RC_BUFFERPOOL_FULL`, the four arrays, the frame bytes, both I/O counters and
the caller's handle are unchanged. -/
theorem C5_bufferpool_full (PS : Nat) (bp : Bufferpool) (h : Reachable PS bp)
    (page : BM_PageHandle) (p : Int) :
    ((pinPage PS bp page p).1 = RC.RC_BUFFERPOOL_FULL ↔
        (¬ resident bp p ∧ noEmptyFrame bp
          ∧ ((bp.updatedStrategy = ReplacementStrategy.RS_FIFO
                ∨ bp.updatedStrategy = ReplacementStrategy.RS_LRU) →
              ∀ i, i < bp.totalPages → 0 < bp.fix_count.getD i 0)))
      ∧ ((pinPage PS bp page p).1 = RC.RC_BUFFERPOOL_FULL →
          (pinPage PS bp page p).2.1.pagenum = bp.pagenum
          ∧ (pinPage PS bp page p).2.1.bitdirty = bp.bitdirty
          ∧ (pinPage PS bp page p).2.1.fix_count = bp.fix_count
          ∧ (pinPage PS bp page p).2.1.updatedOrder = bp.updatedOrder
          ∧ (pinPage PS bp page p).2.1.pagedata = bp.pagedata
          ∧ getNumReadIO (pinPage PS bp page p).2.1 = getNumReadIO bp
          ∧ getNumWriteIO (pinPage PS bp page p).2.1 = getNumWriteIO bp
          ∧ (pinPage PS bp page p).2.2 = page) := by
  have inv := h.inv
  have hadd := inv.usedFrames_add
  -- the three ways `pinPage` can run
  by_cases hm : p ∈ usedPages bp
  · -- hit
    obtain ⟨i, hi, hx⟩ := (inv.mem_usedPages p).mp hm
    have hst : (pinPage PS bp page p).1 = RC.RC_OK := by
      rw [pinPage_hit inv page p i hi hx]; exact pinPageHit_status PS bp p i
    have hne : (pinPage PS bp page p).1 ≠ RC.RC_BUFFERPOOL_FULL := by rw [hst]; decide
    refine ⟨⟨fun hc => absurd hc hne, ?_⟩, fun hc => absurd hc hne⟩
    rintro ⟨hnr, _, _⟩
    exact absurd ⟨i, by omega, hx⟩ hnr
  · by_cases hf : 0 < bp.free_space
    · -- an unused frame takes the page
      have hst : (pinPage PS bp page p).1 = RC.RC_OK := by
        rw [pinPage_empty inv page p hm hf]; rfl
      have hne : (pinPage PS bp page p).1 ≠ RC.RC_BUFFERPOOL_FULL := by rw [hst]; decide
      refine ⟨⟨fun hc => absurd hc hne, ?_⟩, fun hc => absurd hc hne⟩
      rintro ⟨_, hnoe, _⟩
      have := inv.noEmpty_iff.mp hnoe
      omega
    · -- eviction path
      have hf0 : bp.free_space = 0 := by omega
      have hnr : ¬ resident bp p := by
        rintro ⟨i, hi, hx⟩
        exact hm ((inv.mem_usedPages p).mpr ⟨i, by omega, hx⟩)
      have hnoe : noEmptyFrame bp := inv.noEmpty_iff.mpr hf0
      rw [pinPage_evict inv page p hm hf0]
      by_cases hs : bp.updatedStrategy = ReplacementStrategy.RS_FIFO
          ∨ bp.updatedStrategy = ReplacementStrategy.RS_LRU
      · cases hvo : victimOrder bp with
        | none =>
          rw [pinPageEvict_full page p (Or.inr hvo)]
          refine ⟨⟨fun _ => ⟨hnr, hnoe, fun _ i hi => ?_⟩, fun _ => rfl⟩,
            fun _ => ⟨rfl, rfl, rfl, rfl, rfl, rfl, rfl, rfl⟩⟩
          have hnz : bp.fix_count.getD i 0 ≠ 0 := by
            intro hz
            obtain ⟨j, i2, hj, _⟩ := inv.evict_choice hf0 ⟨i, hi, hz⟩
            rw [hvo] at hj
            exact absurd hj (by simp)
          have := inv.fix_nonneg i
          omega
        | some j =>
          obtain ⟨_, ⟨i, hvf⟩, _⟩ := victimOrder_some hvo
          obtain ⟨hilt, _, hfix⟩ := victimFrame_some hvf
          rw [pinPageEvict_found page p j i hs inv.len_order hvo hvf]
          constructor
          · constructor
            · intro hc
              cases hc
            · rintro ⟨_, _, hall⟩
              have := hall hs i hilt
              omega
          · intro hc
            cases hc
      · rw [pinPageEvict_full page p (Or.inl hs)]
        exact ⟨⟨fun _ => ⟨hnr, hnoe, fun hc => absurd hc hs⟩, fun _ => rfl⟩,
          fun _ => ⟨rfl, rfl, rfl, rfl, rfl, rfl, rfl, rfl⟩⟩

/-- Worked instance of C5: with pages 0, 1, 2 pinned in a three-frame FIFO pool,
`pinPage(3)` returns `RC_BUFFERPOOL_FULL`. -/
theorem C5_witness :
    (pinPage 4 (runOps 4 (coldPool 4 3 ReplacementStrategy.RS_FIFO)
        [PoolOp.pinPage (handleOf 0) 0, PoolOp.pinPage (handleOf 1) 1,
          PoolOp.pinPage (handleOf 2) 2]) (handleOf 3) 3).1 = RC.RC_BUFFERPOOL_FULL :=
  (C5_bufferpool_full 4 _ ((coldPool_reachable _).run _ (by decide)) (handleOf 3) 3).1.mpr
    ⟨by decide, by decide, fun _ => by decide⟩

/-! ## Page file facts -/

theorem ensureCapacityLoop_spec (PS : Nat) (n : Int) (k : Nat) (fh : SM_FileHandle)
    (hk : (n - fh.totalNumPages).toNat ≤ k) :
    (ensureCapacityLoop PS n k fh).1 = RC.RC_OK
      ∧ n ≤ (ensureCapacityLoop PS n k fh).2.totalNumPages
      ∧ fh.totalNumPages ≤ (ensureCapacityLoop PS n k fh).2.totalNumPages
      ∧ ∃ z, (ensureCapacityLoop PS n k fh).2.mgmtInfo = fh.mgmtInfo ++ z := by
  induction k generalizing fh with
  | zero =>
    refine ⟨rfl, ?_, le_refl _, [], (List.append_nil _).symm⟩
    show n ≤ fh.totalNumPages
    omega
  | succ k ih =>
    simp only [ensureCapacityLoop]
    by_cases hlt : fh.totalNumPages < n
    · rw [if_pos hlt]
      have hok : (appendEmptyBlock PS fh).1 = RC.RC_OK := rfl
      rw [if_neg (by rw [hok]; simp)]
      have e1 : (appendEmptyBlock PS fh).2.totalNumPages = fh.totalNumPages + 1 := rfl
      have e2 : (appendEmptyBlock PS fh).2.mgmtInfo = fh.mgmtInfo ++ List.replicate PS 0 := rfl
      obtain ⟨h1, h2, h3, z, h4⟩ := ih (appendEmptyBlock PS fh).2 (by rw [e1]; omega)
      refine ⟨h1, h2, by rw [e1] at h3; omega, List.replicate PS 0 ++ z, ?_⟩
      rw [h4, e2, List.append_assoc]
    · rw [if_neg hlt]
      refine ⟨rfl, ?_, le_refl _, [], (List.append_nil _).symm⟩
      show n ≤ fh.totalNumPages
      omega

theorem ensureCapacity_spec (PS : Nat) (n : Int) (fh : SM_FileHandle) :
    (ensureCapacity PS n fh).1 = RC.RC_OK
      ∧ n ≤ (ensureCapacity PS n fh).2.totalNumPages
      ∧ fh.totalNumPages ≤ (ensureCapacity PS n fh).2.totalNumPages
      ∧ ∃ z, (ensureCapacity PS n fh).2.mgmtInfo = fh.mgmtInfo ++ z :=
  ensureCapacityLoop_spec PS n _ fh (le_refl _)

theorem readBlock_file (PS : Nat) (p : Int) (fh : SM_FileHandle) (buf : List Nat) :
    (readBlock PS p fh buf).2.1.mgmtInfo = fh.mgmtInfo
      ∧ (readBlock PS p fh buf).2.1.totalNumPages = fh.totalNumPages := by
  unfold readBlock
  split
  · exact ⟨rfl, rfl⟩
  · dsimp only
    split <;> exact ⟨rfl, rfl⟩

theorem readBlock_length (PS : Nat) (p : Int) (fh : SM_FileHandle) (buf : List Nat)
    (hb : buf.length = PS) : (readBlock PS p fh buf).2.2.length = PS := by
  unfold readBlock
  split
  · exact hb
  · dsimp only
    split
    · show (memcpy buf 0 _).length = PS
      rw [length_memcpy, hb]
    · rename_i hlen
      simpa using hlen

/-- Reading a block that lies inside the page count and inside the file. -/
theorem readBlock_ok (PS : Nat) (v : Int) (fh : SM_FileHandle) (buf data : List Nat)
    (h0 : 0 ≤ v) (h1 : v < fh.totalNumPages)
    (hd : bytesAt fh.mgmtInfo ((v + 1).toNat * PS) PS = data) (hl : data.length = PS) :
    readBlock PS v fh buf = (RC.RC_OK, { fh with curPagePos := v }, data) := by
  unfold readBlock
  rw [if_neg (by omega)]
  dsimp only
  rw [hd, if_neg (by simp [hl])]

theorem length_frameBytes {PS : Nat} {bp : Bufferpool} (h : PoolInv PS bp) (i : Nat)
    (hi : i < bp.totalPages) : (frameBytes PS bp.pagedata i).length = PS := by
  unfold frameBytes
  rw [length_bytesAt, h.len_data]
  have : (i + 1) * PS ≤ bp.totalPages * PS := Nat.mul_le_mul_right PS (by omega)
  have e : (i + 1) * PS = i * PS + PS := by ring
  omega

/-! ## C4: write-back of a dirty victim -/

/-- The page table after `pinPage(p)`: unchanged, or changed in one frame to `p`. -/
theorem pinPage_pagenum {PS : Nat} {bp : Bufferpool} (h : PoolInv PS bp) (page : BM_PageHandle)
    (p : Int) :
    (pinPage PS bp page p).2.1.totalPages = bp.totalPages
      ∧ ((pinPage PS bp page p).2.1.pagenum = bp.pagenum
          ∨ ∃ k, (pinPage PS bp page p).2.1.pagenum = bp.pagenum.set k p) := by
  by_cases hm : p ∈ usedPages bp
  · obtain ⟨i, hi, hx⟩ := (h.mem_usedPages p).mp hm
    rw [pinPage_hit h page p i hi hx]
    by_cases hs : bp.updatedStrategy = ReplacementStrategy.RS_LRU
    · obtain ⟨swap, _, _, heq⟩ := pinPageHit_lru h p i hs hi hx
      rw [heq]
      exact ⟨rfl, Or.inl rfl⟩
    · rw [pinPageHit_other p i hs]
      exact ⟨rfl, Or.inl rfl⟩
  · by_cases hf : 0 < bp.free_space
    · rw [pinPage_empty h page p hm hf]
      exact ⟨rfl, Or.inr ⟨_, rfl⟩⟩
    · rw [pinPage_evict h page p hm (by omega)]
      by_cases hs : bp.updatedStrategy = ReplacementStrategy.RS_FIFO
          ∨ bp.updatedStrategy = ReplacementStrategy.RS_LRU
      · cases hvo : victimOrder bp with
        | none =>
          rw [pinPageEvict_full page p (Or.inr hvo)]
          exact ⟨rfl, Or.inl rfl⟩
        | some j =>
          obtain ⟨_, ⟨i, hvf⟩, _⟩ := victimOrder_some hvo
          rw [pinPageEvict_found page p j i hs h.len_order hvo hvf]
          exact ⟨rfl, Or.inr ⟨i, rfl⟩⟩
      · rw [pinPageEvict_full page p (Or.inl hs)]
        exact ⟨rfl, Or.inl rfl⟩

/-- A page enters the pool only by being pinned. -/
theorem pinPage_resident_sub {PS : Nat} {bp : Bufferpool} (h : PoolInv PS bp)
    (page : BM_PageHandle) (p q : Int) (hr : resident (pinPage PS bp page p).2.1 q) :
    resident bp q ∨ q = p := by
  obtain ⟨i, hi, hx⟩ := hr
  obtain ⟨ht, hp⟩ := pinPage_pagenum h page p
  rw [ht] at hi
  rcases hp with hp | ⟨k, hp⟩
  · rw [hp] at hx
    exact Or.inl ⟨i, hi, hx⟩
  · rw [hp, getD_set_int] at hx
    split at hx
    · exact Or.inr hx.symm
    · exact Or.inl ⟨i, hi, hx⟩

/-- A successful `pinPage` raises the read counter by one on a miss and leaves it on a hit. -/
theorem pinPage_numRead {PS : Nat} {bp : Bufferpool} (h : PoolInv PS bp) (page : BM_PageHandle)
    (p : Int) (hp : 0 ≤ p) (hok : (pinPage PS bp page p).1 = RC.RC_OK) :
    (pinPage PS bp page p).2.1.numRead = bp.numRead + (if resident bp p then 0 else 1 : Nat) := by
  have hne : p ≠ NO_PAGE := by unfold NO_PAGE; omega
  by_cases hm : p ∈ usedPages bp
  · have hr : resident bp p := (h.resident_iff p hne).mpr hm
    obtain ⟨i, hi, hx⟩ := (h.mem_usedPages p).mp hm
    rw [pinPage_hit h page p i hi hx, if_pos hr]
    by_cases hs : bp.updatedStrategy = ReplacementStrategy.RS_LRU
    · obtain ⟨swap, _, _, heq⟩ := pinPageHit_lru h p i hs hi hx
      rw [heq]
      simp
    · rw [pinPageHit_other p i hs]
      simp
  · have hr : ¬ resident bp p := fun hc => hm ((h.resident_iff p hne).mp hc)
    rw [if_neg hr]
    by_cases hf : 0 < bp.free_space
    · rw [pinPage_empty h page p hm hf]
      rfl
    · rw [pinPage_evict h page p hm (by omega)] at hok ⊢
      by_cases hs : bp.updatedStrategy = ReplacementStrategy.RS_FIFO
          ∨ bp.updatedStrategy = ReplacementStrategy.RS_LRU
      · cases hvo : victimOrder bp with
        | none =>
          rw [pinPageEvict_full page p (Or.inr hvo)] at hok
          cases hok
        | some j =>
          obtain ⟨_, ⟨i, hvf⟩, _⟩ := victimOrder_some hvo
          rw [pinPageEvict_found page p j i hs h.len_order hvo hvf]
          rfl
      · rw [pinPageEvict_full page p (Or.inl hs)] at hok
        cases hok

theorem unpinPage_fields (bp : Bufferpool) (page : BM_PageHandle) :
    (unpinPage bp page).2.numRead = bp.numRead ∧ (unpinPage bp page).2.pagenum = bp.pagenum
      ∧ (unpinPage bp page).2.totalPages = bp.totalPages := by
  unfold unpinPage
  split
  · split <;> exact ⟨rfl, rfl, rfl⟩
  · exact ⟨rfl, rfl, rfl⟩

theorem numRead_runOps {PS : Nat} (ops : List PoolOp) {bp : Bufferpool} (h : PoolInv PS bp)
    (hpu : ∀ op, op ∈ ops → op.isPinOrUnpin) (hv : ∀ op, op ∈ ops → op.valid)
    (hok : allPinsOK PS bp ops) :
    (runOps PS bp ops).numRead = bp.numRead + (missCount PS bp ops : Nat) := by
  induction ops generalizing bp with
  | nil => simp [runOps, missCount]
  | cons op ops ih =>
    have hv1 := hv op (List.mem_cons_self _ _)
    have hp1 := hpu op (List.mem_cons_self _ _)
    have hrest := ih (applyOp_inv h op hv1) (fun o ho => hpu o (List.mem_cons_of_mem _ ho))
      (fun o ho => hv o (List.mem_cons_of_mem _ ho)) hok.2
    show (runOps PS (applyOp PS bp op) ops).numRead = _
    rw [hrest]
    simp only [missCount, Nat.cast_add]
    cases op with
    | pinPage page p =>
      have := pinPage_numRead h page p hv1 hok.1
      simp only [applyOp, missOf]
      rw [this]
      omega
    | unpinPage page =>
      simp only [applyOp, missOf, (unpinPage_fields bp page).1]
      omega
    | markDirty page => exact absurd hp1 (by simp [PoolOp.isPinOrUnpin])
    | forcePage page => exact absurd hp1 (by simp [PoolOp.isPinOrUnpin])
    | forceFlushPool => exact absurd hp1 (by simp [PoolOp.isPinOrUnpin])

theorem missCount_distinct {PS : Nat} (ops : List PoolOp) {bp : Bufferpool} (h : PoolInv PS bp)
    (hpu : ∀ op, op ∈ ops → op.isPinOrUnpin) (hv : ∀ op, op ∈ ops → op.valid)
    (hnd : (pinnedPages ops).Nodup) (hnew : ∀ q, q ∈ pinnedPages ops → ¬ resident bp q) :
    missCount PS bp ops = (pinnedPages ops).length := by
  induction ops generalizing bp with
  | nil => rfl
  | cons op ops ih =>
    have hv1 := hv op (List.mem_cons_self _ _)
    have hp1 := hpu op (List.mem_cons_self _ _)
    have hinv := applyOp_inv h op hv1
    cases op with
    | pinPage page p =>
      simp only [pinnedPages, List.nodup_cons] at hnd
      have hmiss : ¬ resident bp p := hnew p (by simp [pinnedPages])
      have hrest := ih hinv (fun o ho => hpu o (List.mem_cons_of_mem _ ho))
        (fun o ho => hv o (List.mem_cons_of_mem _ ho)) hnd.2 (by
          intro q hq hr
          rcases pinPage_resident_sub h page p q hr with h1 | h1
          · exact hnew q (by simp [pinnedPages, hq]) h1
          · subst h1; exact hnd.1 hq)
      simp only [missCount, missOf, if_neg hmiss, pinnedPages, List.length_cons, hrest]
      omega
    | unpinPage page =>
      have hrest := ih hinv (fun o ho => hpu o (List.mem_cons_of_mem _ ho))
        (fun o ho => hv o (List.mem_cons_of_mem _ ho)) hnd (by
          intro q hq hr
          obtain ⟨i, hi, hx⟩ := hr
          have hf := unpinPage_fields bp page
          simp only [applyOp] at hi hx
          rw [hf.2.2] at hi
          rw [hf.2.1] at hx
          exact hnew q hq ⟨i, hi, hx⟩)
      simp only [missCount, missOf, pinnedPages, hrest]
      omega
    | markDirty page => exact absurd hp1 (by simp [PoolOp.isPinOrUnpin])
    | forcePage page => exact absurd hp1 (by simp [PoolOp.isPinOrUnpin])
    | forceFlushPool => exact absurd hp1 (by simp [PoolOp.isPinOrUnpin])

theorem numRead_repeat_hit {PS : Nat} (K : Nat) (page : BM_PageHandle) (p : Int) (hp : 0 ≤ p)
    {bp : Bufferpool} (h : PoolInv PS bp) (hr : resident bp p) :
    (runOps PS bp (List.replicate K (PoolOp.pinPage page p))).numRead = bp.numRead := by
  have hne : p ≠ NO_PAGE := by unfold NO_PAGE; omega
  induction K generalizing bp with
  | zero => rfl
  | succ K ih =>
    obtain ⟨i, hi, hx⟩ := (h.mem_usedPages p).mp ((h.resident_iff p hne).mp hr)
    have hst : (pinPage PS bp page p).1 = RC.RC_OK := by
      rw [pinPage_hit h page p i hi hx]; exact pinPageHit_status PS bp p i
    have hnr := pinPage_numRead h page p hp hst
    rw [if_pos hr] at hnr
    have hr2 : resident (pinPage PS bp page p).2.1 p := by
      obtain ⟨k, hk, hkx⟩ := hr
      obtain ⟨ht, hpn⟩ := pinPage_pagenum h page p
      refine ⟨k, by rw [ht]; exact hk, ?_⟩
      rcases hpn with hpn | ⟨k2, hpn⟩
      · rw [hpn]; exact hkx
      · rw [hpn, getD_set_int]
        split
        · rfl
        · exact hkx
    show (runOps PS (pinPage PS bp page p).2.1 (List.replicate K _)).numRead = _
    rw [ih (pinPage_inv h page p hp) hr2, hnr]
    simp

/-- C8: starting from a freshly initialised pool, after any sequence of
`pinPage`/`unpinPage` calls in which every `pinPage` returned `RC_OK`,
`getNumReadIO` is the number of `pinPage` calls that were misses; when the
pinned pages are pairwise distinct this is the number of pins, and any number
`K` of further pins of a page that is resident leaves `getNumReadIO` unchanged. -/
theorem C8_numReadIO_counts_misses (PS : Nat) (pageFile : Option (List Nat)) (numPages : Int)
    (strategy : ReplacementStrategy) (bp0 : Bufferpool)
    (hinit : initBufferPool PS pageFile numPages strategy = (RC.RC_OK, some bp0))
    (ops : List PoolOp) (hpu : ∀ op, op ∈ ops → op.isPinOrUnpin)
    (hv : ∀ op, op ∈ ops → op.valid) (hok : allPinsOK PS bp0 ops) :
    getNumReadIO (runOps PS bp0 ops) = missCount PS bp0 ops
      ∧ ((pinnedPages ops).Nodup →
          getNumReadIO (runOps PS bp0 ops) = (pinnedPages ops).length)
      ∧ (∀ (K : Nat) (page : BM_PageHandle) (p : Int), 0 ≤ p → resident (runOps PS bp0 ops) p →
          getNumReadIO (runOps PS (runOps PS bp0 ops) (List.replicate K (PoolOp.pinPage page p)))
            = getNumReadIO (runOps PS bp0 ops)) := by
  have inv0 := initBufferPool_inv PS pageFile numPages strategy bp0 hinit
  have hr0 : Reachable PS bp0 := Reachable.init pageFile numPages strategy bp0 hinit
  have hz : bp0.numRead = 0 := by
    unfold initBufferPool at hinit
    split at hinit
    · simp at hinit
    · split at hinit
      · simp only [Prod.mk.injEq, Option.some.injEq, true_and] at hinit
        rw [← hinit]
      · simp only [Prod.mk.injEq] at hinit
        exact absurd hinit.2 (by simp)
  have hmain := numRead_runOps ops inv0 hpu hv hok
  rw [hz, zero_add] at hmain
  refine ⟨hmain, ?_, ?_⟩
  · intro hnd
    have hcold : ∀ q, q ∈ pinnedPages ops → ¬ resident bp0 q := by
      intro q hq hr
      have hq0 : 0 ≤ q := by
        clear hmain hok hnd
        induction ops with
        | nil => simp [pinnedPages] at hq
        | cons op ops ih =>
          cases op with
          | pinPage page p =>
            simp only [pinnedPages, List.mem_cons] at hq
            rcases hq with hq | hq
            · subst hq; exact hv _ (List.mem_cons_self _ _)
            · exact ih (fun o ho => hpu o (List.mem_cons_of_mem _ ho))
                (fun o ho => hv o (List.mem_cons_of_mem _ ho)) hq
          | unpinPage page =>
            exact ih (fun o ho => hpu o (List.mem_cons_of_mem _ ho))
              (fun o ho => hv o (List.mem_cons_of_mem _ ho)) hq
          | markDirty page =>
            exact ih (fun o ho => hpu o (List.mem_cons_of_mem _ ho))
              (fun o ho => hv o (List.mem_cons_of_mem _ ho)) hq
          | forcePage page =>
            exact ih (fun o ho => hpu o (List.mem_cons_of_mem _ ho))
              (fun o ho => hv o (List.mem_cons_of_mem _ ho)) hq
          | forceFlushPool =>
            exact ih (fun o ho => hpu o (List.mem_cons_of_mem _ ho))
              (fun o ho => hv o (List.mem_cons_of_mem _ ho)) hq
      have hne : q ≠ NO_PAGE := by unfold NO_PAGE; omega
      have hmem := (inv0.resident_iff q hne).mp hr
      have hfree : bp0.free_space = bp0.totalPages := by
        unfold initBufferPool at hinit
        split at hinit
        · simp at hinit
        · split at hinit
          · simp only [Prod.mk.injEq, Option.some.injEq, true_and] at hinit
            rw [← hinit]
          · simp only [Prod.mk.injEq] at hinit
            exact absurd hinit.2 (by simp)
      simp [usedPages, usedFrames, hfree] at hmem
    show (runOps PS bp0 ops).numRead = _
    rw [hmain, missCount_distinct ops inv0 hpu hv hnd hcold]
  · intro K page p hp hr
    exact numRead_repeat_hit K page p hp (hr0.run ops hv).inv hr

/-- Worked instance of C8: three-frame LRU pool, pin/unpin of pages 0, 1, 2, 0:
three misses and one hit, `getNumReadIO` is 3. -/
theorem C8_witness :
    getNumReadIO (runOps 4 (coldPool 4 3 ReplacementStrategy.RS_LRU)
        (pinUnpin 0 ++ pinUnpin 1 ++ pinUnpin 2 ++ pinUnpin 0))
      = missCount 4 (coldPool 4 3 ReplacementStrategy.RS_LRU)
          (pinUnpin 0 ++ pinUnpin 1 ++ pinUnpin 2 ++ pinUnpin 0)
      ∧ missCount 4 (coldPool 4 3 ReplacementStrategy.RS_LRU)
          (pinUnpin 0 ++ pinUnpin 1 ++ pinUnpin 2 ++ pinUnpin 0) = 3 :=
  ⟨(C8_numReadIO_counts_misses 4 (some (createPageFile 4 none).2) 3
    ReplacementStrategy.RS_LRU (coldPool 4 3 ReplacementStrategy.RS_LRU) rfl
    (pinUnpin 0 ++ pinUnpin 1 ++ pinUnpin 2 ++ pinUnpin 0) (by decide) (by decide) (by decide)).1,
    by decide⟩

/-! ## C6: the order array under LRU -/

theorem nodup_eraseIdx_eq_filter {l : List Int} (hn : l.Nodup) (s : Nat) (hs : s < l.length) :
    l.eraseIdx s = l.filter (fun q => q != l.getD s 0) := by
  rw [List.getD_eq_getElem l 0 hs, ← hn.erase_eq_filter, hn.erase_getElem s hs]

/-- Under LRU a successful `pinPage(p)` leaves `p` at the end of the used part of
the order array, preceded by the pages that are still in the pool in their
former relative order. -/
theorem lru_order_step {PS : Nat} {bp : Bufferpool} (h : PoolInv PS bp)
    (hs : bp.updatedStrategy = ReplacementStrategy.RS_LRU) (page : BM_PageHandle) (p : Int)
    (hok : (pinPage PS bp page p).1 = RC.RC_OK) :
    usedOrder (pinPage PS bp page p).2.1
      = (usedOrder bp).filter
          (fun q => decide (q ∈ usedPages (pinPage PS bp page p).2.1) && (q != p)) ++ [p] := by
  have hadd := h.usedFrames_add
  have hlo := h.len_usedOrder
  have hndO : (usedOrder bp).Nodup := h.perm.nodup_iff.mpr h.nodup
  by_cases hm : p ∈ usedPages bp
  · obtain ⟨i, hi, hx⟩ := (h.mem_usedPages p).mp hm
    obtain ⟨swap, hsw, hsx, heq⟩ := pinPageHit_lru h p i hs hi hx
    rw [pinPage_hit h page p i hi hx, heq]
    have hlen : ((usedOrder bp).eraseIdx swap ++ [p]).length = usedFrames bp := by
      rw [List.length_append, List.length_eraseIdx_of_lt (by omega)]
      simp; omega
    show (((usedOrder bp).eraseIdx swap ++ [p]) ++ List.replicate bp.free_space NO_PAGE).take
        (usedFrames bp) = (usedOrder bp).filter
          (fun q => decide (q ∈ usedPages bp) && (q != p)) ++ [p]
    rw [List.take_left' hlen, nodup_eraseIdx_eq_filter hndO swap (by omega),
      h.usedOrder_getD swap hsw, hsx]
    congr 1
    apply List.filter_congr
    intro q hq
    have : q ∈ usedPages bp := h.perm.mem_iff.mp hq
    simp [this]
  · have hpO : p ∉ usedOrder bp := fun hc => hm (h.perm.mem_iff.mp hc)
    by_cases hf : 0 < bp.free_space
    · rw [pinPage_empty h page p hm hf]
      have hu : bp.totalPages - (bp.free_space - 1) = usedFrames bp + 1 := by
        simp only [usedFrames]; omega
      have hlt : usedFrames bp < bp.totalPages := by omega
      have hP : (bp.pagenum.set (usedFrames bp) p).take (usedFrames bp + 1)
          = usedPages bp ++ [p] :=
        set_take_succ _ _ _ (by rw [h.len_pagenum]; exact hlt)
      have hO : (bp.updatedOrder.set (usedFrames bp) p).take (usedFrames bp + 1)
          = usedOrder bp ++ [p] :=
        set_take_succ _ _ _ (by rw [h.len_order]; exact hlt)
      have e1 : usedOrder (pinPageEmpty PS bp p).2.1 = usedOrder bp ++ [p] := by
        show (bp.updatedOrder.set (bp.totalPages - bp.free_space) p).take
          (bp.totalPages - (bp.free_space - 1)) = _
        rw [hu]
        exact hO
      have e2 : usedPages (pinPageEmpty PS bp p).2.1 = usedPages bp ++ [p] := by
        show (bp.pagenum.set (bp.totalPages - bp.free_space) p).take
          (bp.totalPages - (bp.free_space - 1)) = _
        rw [hu]
        exact hP
      rw [e1, e2]
      congr 1
      symm
      rw [List.filter_eq_self]
      intro q hq
      have h1 : q ∈ usedPages bp := h.perm.mem_iff.mp hq
      have h2 : q ≠ p := fun hc => hpO (hc ▸ hq)
      simp [h1, h2]
    · have hf0 : bp.free_space = 0 := by omega
      rw [pinPage_evict h page p hm hf0] at hok ⊢
      cases hvo : victimOrder bp with
      | none =>
        rw [pinPageEvict_full page p (Or.inr hvo)] at hok
        cases hok
      | some j =>
        obtain ⟨hj, ⟨i, hvf⟩, _⟩ := victimOrder_some hvo
        obtain ⟨hi, hpj, hfix⟩ := victimFrame_some hvf
        rw [pinPageEvict_found page p j i (Or.inr hs) h.len_order hvo hvf]
        have hUP := h.full_usedPages hf0
        have hUO := h.full_usedOrder hf0
        have hu : usedFrames bp = bp.totalPages := by simp [usedFrames, hf0]
        have hlp := h.len_pagenum
        have hlord := h.len_order
        have hnd : bp.pagenum.Nodup := hUP ▸ h.nodup
        have hndo : bp.updatedOrder.Nodup := hUO ▸ hndO
        have hperm : bp.updatedOrder.Perm bp.pagenum := by
          have := h.perm; rw [hUP, hUO] at this; exact this
        have hx2 : p ∉ bp.pagenum := hUP ▸ hm
        have hlen1 : (bp.updatedOrder.eraseIdx j ++ [p]).length = bp.totalPages := by
          rw [List.length_append, List.length_eraseIdx_of_lt (by omega)]
          simp; omega
        have hlen2 : (bp.pagenum.set i p).length = bp.totalPages := by simp [hlp]
        have hset := set_perm_cons_eraseIdx bp.pagenum i p (by omega)
        show (bp.updatedOrder.eraseIdx j ++ [p]).take (usedFrames bp)
          = (usedOrder bp).filter
              (fun q => decide (q ∈ (bp.pagenum.set i p).take (usedFrames bp)) && (q != p)) ++ [p]
        rw [hu, List.take_of_length_le (by omega), List.take_of_length_le (by omega), hUO,
          nodup_eraseIdx_eq_filter hndo j (by omega)]
        congr 1
        apply List.filter_congr
        intro q hq
        have hqp : q ∈ bp.pagenum := hperm.mem_iff.mp hq
        have hqne : q ≠ p := fun hc => hx2 (hc ▸ hqp)
        have hmem : q ∈ bp.pagenum.set i p ↔ q ≠ bp.updatedOrder.getD j 0 := by
          rw [hset.mem_iff, List.mem_cons, ← hpj, List.getD_eq_getElem bp.pagenum 0 (by omega),
            ← hnd.erase_getElem i (by omega), hnd.mem_erase_iff]
          constructor
          · rintro (h1 | h1)
            · exact absurd h1 hqne
            · exact h1.1
          · intro h1
            exact Or.inr ⟨h1, hqp⟩
        by_cases hqv : q = bp.updatedOrder.getD j 0
        · have hnm : q ∉ bp.pagenum.set i p := fun hc => (hmem.mp hc) hqv
          have l : (decide (q ∈ bp.pagenum.set i p) && (q != p)) = false := by
            rw [decide_eq_false hnm]; rfl
          have r : (q != bp.updatedOrder.getD j 0) = false := by
            rw [bne_eq_false_iff_eq]; exact hqv
          rw [l, r]
        · have hin : q ∈ bp.pagenum.set i p := hmem.mpr hqv
          have l : (decide (q ∈ bp.pagenum.set i p) && (q != p)) = true := by
            rw [decide_eq_true hin, Bool.true_and]; exact bne_iff_ne.mpr hqne
          have r : (q != bp.updatedOrder.getD j 0) = true := bne_iff_ne.mpr hqv
          rw [l, r]

theorem pinnedAfter_snoc {H : List Int} {a b p : Int} (h : pinnedAfter H a b) (hne : a ≠ p) :
    pinnedAfter (H ++ [p]) a b := by
  obtain ⟨A, B, hH, hB⟩ := h
  refine ⟨A, B ++ [p], by rw [hH]; simp, ?_⟩
  intro hc
  rcases List.mem_append.mp hc with h1 | h1
  · exact hB h1
  · simp only [List.mem_singleton] at h1
    exact hne h1

theorem pinnedAfter_last (H : List Int) (a p : Int) : pinnedAfter (H ++ [p]) a p :=
  ⟨H, [], rfl, by simp⟩

/-- Calls other than a successful `pinPage` leave the used part of the order array alone. -/
theorem usedOrder_applyOp_other {PS : Nat} {bp : Bufferpool} (h : PoolInv PS bp) (op : PoolOp)
    (hno : ∀ page p, op = PoolOp.pinPage page p → (pinPage PS bp page p).1 ≠ RC.RC_OK) :
    usedOrder (applyOp PS bp op) = usedOrder bp := by
  cases op with
  | pinPage page p =>
    have hst := hno page p rfl
    simp only [applyOp]
    by_cases hm : p ∈ usedPages bp
    · obtain ⟨i, hi, hx⟩ := (h.mem_usedPages p).mp hm
      rw [pinPage_hit h page p i hi hx] at hst
      exact absurd (pinPageHit_status PS bp p i) hst
    · by_cases hf : 0 < bp.free_space
      · rw [pinPage_empty h page p hm hf] at hst
        exact absurd rfl hst
      · rw [pinPage_evict h page p hm (by omega)] at hst ⊢
        by_cases hs : bp.updatedStrategy = ReplacementStrategy.RS_FIFO
            ∨ bp.updatedStrategy = ReplacementStrategy.RS_LRU
        · cases hvo : victimOrder bp with
          | none => rw [pinPageEvict_full page p (Or.inr hvo)]; rfl
          | some j =>
            obtain ⟨_, ⟨i, hvf⟩, _⟩ := victimOrder_some hvo
            rw [pinPageEvict_found page p j i hs h.len_order hvo hvf] at hst
            exact absurd rfl hst
        · rw [pinPageEvict_full page p (Or.inl hs)]; rfl
  | unpinPage page =>
    simp only [applyOp, unpinPage]
    split
    · split <;> rfl
    · rfl
  | markDirty page =>
    simp only [applyOp, markDirty]
    split
    · split <;> rfl
    · rfl
  | forcePage page =>
    simp only [applyOp, forcePage]
    split <;> rfl
  | forceFlushPool =>
    simp only [applyOp, forceFlushPool]
    have : ∀ (k i : Nat) (b : Bufferpool),
        usedOrder (forceFlushPoolLoop PS k i b) = usedOrder b := by
      intro k
      induction k with
      | zero => intro i b; rfl
      | succ k ih =>
        intro i b
        simp only [forceFlushPoolLoop]
        rw [ih]
        unfold flushFrame
        split <;> rfl
    exact this _ _ _

theorem applyOp_strategy {PS : Nat} {bp : Bufferpool} (h : PoolInv PS bp) (op : PoolOp) :
    (applyOp PS bp op).updatedStrategy = bp.updatedStrategy := by
  cases op with
  | pinPage page p =>
    simp only [applyOp]
    by_cases hm : p ∈ usedPages bp
    · obtain ⟨i, hi, hx⟩ := (h.mem_usedPages p).mp hm
      rw [pinPage_hit h page p i hi hx]
      by_cases hs : bp.updatedStrategy = ReplacementStrategy.RS_LRU
      · obtain ⟨swap, _, _, heq⟩ := pinPageHit_lru h p i hs hi hx
        rw [heq]
      · rw [pinPageHit_other p i hs]
    · by_cases hf : 0 < bp.free_space
      · rw [pinPage_empty h page p hm hf]; rfl
      · rw [pinPage_evict h page p hm (by omega)]
        by_cases hs : bp.updatedStrategy = ReplacementStrategy.RS_FIFO
            ∨ bp.updatedStrategy = ReplacementStrategy.RS_LRU
        · cases hvo : victimOrder bp with
          | none => rw [pinPageEvict_full page p (Or.inr hvo)]
          | some j =>
            obtain ⟨_, ⟨i, hvf⟩, _⟩ := victimOrder_some hvo
            rw [pinPageEvict_found page p j i hs h.len_order hvo hvf]
        · rw [pinPageEvict_full page p (Or.inl hs)]
  | unpinPage page =>
    simp only [applyOp, unpinPage]
    split
    · split <;> rfl
    · rfl
  | markDirty page =>
    simp only [applyOp, markDirty]
    split
    · split <;> rfl
    · rfl
  | forcePage page =>
    simp only [applyOp, forcePage]
    split <;> rfl
  | forceFlushPool =>
    simp only [applyOp, forceFlushPool]
    have : ∀ (k i : Nat) (b : Bufferpool),
        (forceFlushPoolLoop PS k i b).updatedStrategy = b.updatedStrategy := by
      intro k
      induction k with
      | zero => intro i b; rfl
      | succ k ih =>
        intro i b
        simp only [forceFlushPoolLoop]
        rw [ih]
        unfold flushFrame
        split <;> rfl
    exact this _ _ _

/-- Under LRU the used part of the order array lists the resident pages from
the least recently pinned to the most recently pinned. -/
theorem lru_order_recency {PS : Nat} (ops : List PoolOp) {bp : Bufferpool} (h : PoolInv PS bp)
    (hs : bp.updatedStrategy = ReplacementStrategy.RS_LRU)
    (hv : ∀ op, op ∈ ops → op.valid) (H : List Int)
    (hpw : (usedOrder bp).Pairwise (pinnedAfter H)) :
    (usedOrder (runOps PS bp ops)).Pairwise (pinnedAfter (H ++ pinHistory PS bp ops)) := by
  induction ops generalizing bp H with
  | nil => simpa [runOps, pinHistory] using hpw
  | cons op ops ih =>
    have hv1 := hv op (List.mem_cons_self _ _)
    have hinv := applyOp_inv h op hv1
    have hs2 : (applyOp PS bp op).updatedStrategy = ReplacementStrategy.RS_LRU := by
      rw [applyOp_strategy h op, hs]
    have hvr : ∀ o, o ∈ ops → o.valid := fun o ho => hv o (List.mem_cons_of_mem _ ho)
    show (usedOrder (runOps PS (applyOp PS bp op) ops)).Pairwise _
    by_cases hpin : ∃ page p, op = PoolOp.pinPage page p ∧ (pinPage PS bp page p).1 = RC.RC_OK
    · obtain ⟨page, p, hop, hok⟩ := hpin
      subst hop
      have hstep := lru_order_step h hs page p hok
      have hpw2 : (usedOrder (applyOp PS bp (PoolOp.pinPage page p))).Pairwise
          (pinnedAfter (H ++ [p])) := by
        show (usedOrder (pinPage PS bp page p).2.1).Pairwise _
        rw [hstep, List.pairwise_append]
        refine ⟨?_, List.pairwise_singleton _ _, ?_⟩
        · apply List.Pairwise.imp_of_mem _ (hpw.filter _)
          intro a b ha _ hab
          have : a ≠ p := by
            have hf := (List.mem_filter.mp ha).2
            simp only [Bool.and_eq_true, bne_iff_ne, ne_eq, decide_eq_true_eq] at hf
            exact hf.2
          exact pinnedAfter_snoc hab this
        · intro a _ b hb
          simp only [List.mem_singleton] at hb
          subst hb
          exact pinnedAfter_last H a b
      have := ih hinv hs2 hvr (H ++ [p]) hpw2
      simpa [pinHistory, hok, List.append_assoc] using this
    · have hno : ∀ page p, op = PoolOp.pinPage page p → (pinPage PS bp page p).1 ≠ RC.RC_OK :=
        fun page p hop hok => hpin ⟨page, p, hop, hok⟩
      have hsame := usedOrder_applyOp_other h op hno
      have := ih hinv hs2 hvr H (hsame ▸ hpw)
      cases op with
      | pinPage page p =>
        have hne := hno page p rfl
        simpa [pinHistory, hne] using this
      | unpinPage page => simpa [pinHistory] using this
      | markDirty page => simpa [pinHistory] using this
      | forcePage page => simpa [pinHistory] using this
      | forceFlushPool => simpa [pinHistory] using this

/-- C6: under `RS_LRU`, in a pool reached from `initBufferPool` by any calls,
every successful `pinPage(p)` (hit or miss) leaves `p` as the last used entry
of the order array, preceded by the other pages still in the pool in their
former relative order; and when the call evicts, the frame it replaces has fix
count zero and holds the least recently pinned page among the frames with fix
count zero: every other such frame holds a page that was pinned after the last
pin of the victim's page. -/
theorem C6_lru_most_recent_last (PS : Nat) (pageFile : Option (List Nat)) (numPages : Int)
    (bp0 bp : Bufferpool)
    (hinit : initBufferPool PS pageFile numPages ReplacementStrategy.RS_LRU = (RC.RC_OK, some bp0))
    (ops : List PoolOp) (hv : ∀ op, op ∈ ops → op.valid) (hbp : bp = runOps PS bp0 ops)
    (page : BM_PageHandle) (p : Int) (hok : (pinPage PS bp page p).1 = RC.RC_OK) :
    usedOrder (pinPage PS bp page p).2.1
        = (usedOrder bp).filter
            (fun q => decide (q ∈ usedPages (pinPage PS bp page p).2.1) && (q != p)) ++ [p]
      ∧ (¬ resident bp p → noEmptyFrame bp →
          ∀ i, i < bp.totalPages →
            (pinPage PS bp page p).2.1.pagenum.getD i 0 ≠ bp.pagenum.getD i 0 →
            bp.fix_count.getD i 0 = 0
            ∧ ∀ k, k < bp.totalPages → k ≠ i → bp.fix_count.getD k 0 = 0 →
                pinnedAfter (pinHistory PS bp0 ops) (bp.pagenum.getD i 0)
                  (bp.pagenum.getD k 0)) := by
  have inv0 := initBufferPool_inv PS pageFile numPages _ bp0 hinit
  have hr0 : Reachable PS bp0 := Reachable.init pageFile numPages _ bp0 hinit
  have hinitf : bp0.updatedStrategy = ReplacementStrategy.RS_LRU
      ∧ bp0.free_space = bp0.totalPages := by
    unfold initBufferPool at hinit
    split at hinit
    · simp at hinit
    · split at hinit
      · simp only [Prod.mk.injEq, Option.some.injEq, true_and] at hinit
        rw [← hinit]
        exact ⟨rfl, rfl⟩
      · simp only [Prod.mk.injEq] at hinit
        exact absurd hinit.2 (by simp)
  have inv : PoolInv PS bp := hbp ▸ (hr0.run ops hv).inv
  have hs : bp.updatedStrategy = ReplacementStrategy.RS_LRU := by
    rw [hbp]
    clear hok inv
    have : ∀ (ops : List PoolOp) (b : Bufferpool), PoolInv PS b → (∀ op, op ∈ ops → op.valid) →
        (runOps PS b ops).updatedStrategy = b.updatedStrategy := by
      intro ops
      induction ops with
      | nil => intro b _ _; rfl
      | cons op ops ih =>
        intro b hb hvb
        have hv1 := hvb op (List.mem_cons_self _ _)
        show (runOps PS (applyOp PS b op) ops).updatedStrategy = _
        rw [ih _ (applyOp_inv hb op hv1) (fun o ho => hvb o (List.mem_cons_of_mem _ ho)),
          applyOp_strategy hb op]
    rw [this ops bp0 inv0 hv, hinitf.1]
  have hrec : (usedOrder bp).Pairwise (pinnedAfter (pinHistory PS bp0 ops)) := by
    have h0 : (usedOrder bp0).Pairwise (pinnedAfter []) := by
      have : usedOrder bp0 = [] := by simp [usedOrder, usedFrames, hinitf.2]
      rw [this]
      exact List.Pairwise.nil
    have := lru_order_recency ops inv0 hinitf.1 hv [] h0
    rw [List.nil_append, ← hbp] at this
    exact this
  refine ⟨lru_order_step inv hs page p hok, ?_⟩
  intro hnr hne i hi hch
  have hf := inv.noEmpty_iff.mp hne
  have hx := inv.not_mem_of_not_resident hnr
  rw [pinPage_evict inv page p hx hf] at hok hch
  cases hvo : victimOrder bp with
  | none =>
    rw [pinPageEvict_full page p (Or.inr hvo)] at hok
    cases hok
  | some j =>
    obtain ⟨hj, ⟨i0, hvf⟩, hfirst⟩ := victimOrder_some hvo
    obtain ⟨hi0, hpj, hfix⟩ := victimFrame_some hvf
    rw [pinPageEvict_found page p j i0 (Or.inr hs) inv.len_order hvo hvf] at hch
    have hii : i0 = i := by
      by_contra hc
      apply hch
      show (bp.pagenum.set i0 p).getD i 0 = bp.pagenum.getD i 0
      rw [getD_set_int, if_neg (by omega)]
    subst hii
    refine ⟨hfix, ?_⟩
    intro k hk hki hkfix
    have hu : usedFrames bp = bp.totalPages := by simp [usedFrames, hf]
    have hUO := inv.full_usedOrder hf
    have hlo := inv.len_order
    have hmem : bp.pagenum.getD k 0 ∈ usedOrder bp :=
      inv.perm.mem_iff.mpr ((inv.mem_usedPages _).mpr ⟨k, by omega, rfl⟩)
    obtain ⟨m, hm, hmx⟩ := (inv.mem_usedOrder _).mp hmem
    have hmj : j < m := by
      rcases Nat.lt_trichotomy m j with hlt | heq | hgt
      · exact absurd hkfix (victimFrame_none (hfirst m hlt) k hk hmx.symm)
      · subst heq
        exact absurd (inv.pagenum_inj (by omega) (by omega) (hmx.symm.trans hpj.symm)) hki
      · exact hgt
    rw [hUO] at hrec
    have := (List.pairwise_iff_getElem.mp hrec) j m (by omega) (by omega) hmj
    have hjl : j < bp.updatedOrder.length := by omega
    have hml : m < bp.updatedOrder.length := by omega
    rw [hpj, ← hmx, List.getD_eq_getElem bp.updatedOrder 0 hjl,
      List.getD_eq_getElem bp.updatedOrder 0 hml]
    exact this

/-- Worked instance of C6: three-frame LRU pool, pin-then-unpin of pages 0, 1, 2, 0;
the order array is then `1, 2, 0`, and `pinPage(3)` evicts page 1 (frame 1). -/
theorem C6_witness :
    lruPool0120.pagenum = [0, 1, 2] ∧ usedOrder lruPool0120 = [1, 2, 0]
      ∧ (pinPage 4 lruPool0120 (handleOf 3) 3).2.1.pagenum = [0, 3, 2]
      ∧ usedOrder (pinPage 4 lruPool0120 (handleOf 3) 3).2.1
          = (usedOrder lruPool0120).filter
              (fun q => decide (q ∈ usedPages (pinPage 4 lruPool0120 (handleOf 3) 3).2.1)
                && (q != 3)) ++ [3]
      ∧ usedOrder (pinPage 4 lruPool0120 (handleOf 3) 3).2.1 = [2, 0, 3] :=
  ⟨by decide, by decide, by decide,
    (C6_lru_most_recent_last 4 (some (createPageFile 4 none).2) 3
      (coldPool 4 3 ReplacementStrategy.RS_LRU) lruPool0120 rfl
      (pinUnpin 0 ++ pinUnpin 1 ++ pinUnpin 2 ++ pinUnpin 0) (by decide) rfl
      (handleOf 3) 3 (by decide)).1,
    by decide⟩

/-! ## C10: `shutdownBufferPool` -/

theorem page_offsets_disjoint (PS : Nat) (v w : Int) (hv : 0 ≤ v) (hw : 0 ≤ w) (hne : v ≠ w) :
    (w + 1).toNat * PS + PS ≤ (v + 1).toNat * PS ∨ (v + 1).toNat * PS + PS ≤ (w + 1).toNat * PS := by
  rcases lt_or_gt_of_ne hne with h | h
  · right
    have : (v + 1).toNat + 1 ≤ (w + 1).toNat := by omega
    have h2 := Nat.mul_le_mul_right PS this
    have e : ((v + 1).toNat + 1) * PS = (v + 1).toNat * PS + PS := by ring
    omega
  · left
    have : (w + 1).toNat + 1 ≤ (v + 1).toNat := by omega
    have h2 := Nat.mul_le_mul_right PS this
    have e : ((w + 1).toNat + 1) * PS = (w + 1).toNat * PS + PS := by ring
    omega

/-- Writing block `v` (after `ensureCapacity`) stores the data and keeps every
other stored block. -/
theorem write_block_stored (PS : Nat) (fh : SM_FileHandle) (v : Int) (data : List Nat)
    (hv : 0 ≤ v) (hd : data.length = PS) :
    (writeBlock PS v (ensureCapacity PS (v + 1) fh).2 data).1 = RC.RC_OK
      ∧ blockStored PS (writeBlock PS v (ensureCapacity PS (v + 1) fh).2 data).2 v data
      ∧ ∀ w d, w ≠ v → blockStored PS fh w d →
          blockStored PS (writeBlock PS v (ensureCapacity PS (v + 1) fh).2 data).2 w d := by
  obtain ⟨_, hcap, hmono, z, hz⟩ := ensureCapacity_spec PS (v + 1) fh
  generalize ensureCapacity PS (v + 1) fh = e at hcap hmono hz ⊢
  have hwb : writeBlock PS v e.2 data
      = (RC.RC_OK, { e.2 with
          mgmtInfo := fwriteAt e.2.mgmtInfo ((v + 1).toNat * PS) data
          curPagePos := v }) := by
    unfold writeBlock
    rw [if_neg (by omega)]
  rw [hwb]
  refine ⟨rfl, ⟨hv, by show v < e.2.totalNumPages; omega, ?_, ?_⟩, ?_⟩
  · show _ ≤ (fwriteAt _ _ _).length
    rw [length_fwriteAt, hd]
    omega
  · show bytesAt (fwriteAt _ _ _) _ _ = _
    have := bytesAt_fwriteAt_same e.2.mgmtInfo ((v + 1).toNat * PS) data
    rw [hd] at this
    exact this
  · rintro w d hne ⟨hw0, hw1, hw2, hw3⟩
    have hlen : (w + 1).toNat * PS + PS ≤ e.2.mgmtInfo.length := by
      rw [hz, List.length_append]; omega
    refine ⟨hw0, by show w < e.2.totalNumPages; omega, ?_, ?_⟩
    · show _ ≤ (fwriteAt _ _ _).length
      rw [length_fwriteAt]
      omega
    · show bytesAt (fwriteAt _ _ _) _ _ = _
      rw [bytesAt_fwriteAt_disjoint _ _ _ _ _ hlen
        (by rw [hd]; exact page_offsets_disjoint PS v w hv hw0 (Ne.symm hne)),
        hz, bytesAt_append_left _ _ _ _ hw2]
      exact hw3

theorem PoolInv.dirty_used {PS : Nat} {bp : Bufferpool} (h : PoolInv PS bp) (j : Nat)
    (hd : bp.bitdirty.getD j false = true) : j < usedFrames bp := by
  by_contra hc
  have := h.dirty_unused j (by omega)
  rw [this] at hd
  exact absurd hd (by decide)

/-- The loop of `writeDirtyPages` succeeds and stores every dirty frame in its block. -/
theorem writeDirtyPagesLoop_spec {PS : Nat} {bp : Bufferpool} (inv : PoolInv PS bp) (k j : Nat)
    (b : Bufferpool) (hjk : j + k = bp.totalPages)
    (h1 : b.pagenum = bp.pagenum) (h2 : b.bitdirty = bp.bitdirty) (h3 : b.pagedata = bp.pagedata)
    (hQ : ∀ m, m < j → bp.bitdirty.getD m false = true →
      blockStored PS b.fhl (bp.pagenum.getD m 0) (frameBytes PS bp.pagedata m)) :
    (writeDirtyPagesLoop PS k j b).1 = RC.RC_OK
      ∧ ∀ m, m < bp.totalPages → bp.bitdirty.getD m false = true →
          blockStored PS (writeDirtyPagesLoop PS k j b).2.fhl (bp.pagenum.getD m 0)
            (frameBytes PS bp.pagedata m) := by
  induction k generalizing j b with
  | zero =>
    exact ⟨rfl, fun m hm hd => hQ m (by omega) hd⟩
  | succ k ih =>
    simp only [writeDirtyPagesLoop]
    have hule := inv.usedFrames_le
    by_cases hdj : bp.bitdirty.getD j false = true
    · have hju := inv.dirty_used j hdj
      have hv0 := inv.pagenum_used j hju
      have hlen := length_frameBytes inv j (by omega)
      obtain ⟨hw1, hw2, hw3⟩ := write_block_stored PS b.fhl (bp.pagenum.getD j 0)
        (frameBytes PS bp.pagedata j) hv0 hlen
      have hstep : writeDirtyPage PS b j
          = (RC.RC_OK, { b with
              fhl := (writeBlock PS (bp.pagenum.getD j 0)
                (ensureCapacity PS (bp.pagenum.getD j 0 + 1) b.fhl).2
                (frameBytes PS bp.pagedata j)).2
              numWrite := b.numWrite + 1 }) := by
        unfold writeDirtyPage
        rw [h1, h2, h3, hdj, if_pos rfl]
        dsimp only
        rw [if_neg (by rw [(ensureCapacity_spec PS _ b.fhl).1]; simp),
          if_neg (by rw [hw1]; simp)]
      rw [hstep, if_neg (by simp)]
      refine ih (j + 1)
        { b with
          fhl := (writeBlock PS (bp.pagenum.getD j 0)
            (ensureCapacity PS (bp.pagenum.getD j 0 + 1) b.fhl).2
            (frameBytes PS bp.pagedata j)).2
          numWrite := b.numWrite + 1 } (by omega) h1 h2 h3 ?_
      intro m hm hdm
      by_cases hmj : m = j
      · subst hmj
        exact hw2
      · have hmu := inv.dirty_used m hdm
        apply hw3 _ _ _ (hQ m (by omega) hdm)
        intro hc
        exact hmj (inv.pagenum_inj hmu hju hc)
    · have hstep : writeDirtyPage PS b j = (RC.RC_OK, b) := by
        unfold writeDirtyPage
        rw [h2, if_neg hdj]
      rw [hstep, if_neg (by simp)]
      refine ih (j + 1) b (by omega) h1 h2 h3 ?_
      intro m hm hdm
      by_cases hmj : m = j
      · subst hmj
        exact absurd hdm hdj
      · exact hQ m (by omega) hdm

set_option maxRecDepth 100000 in
/-- C1 (defect of the code): the model of `record_mgr.c` evaluated on a table
with two slots per page (`PAGE_SIZE` 64, records of 12 bytes).  The table is
created and opened, then `insertRecord(r1)` (gets RID (1, 0)),
`deleteRecord((1, 0))`, `insertRecord(r2)` (gets RID (1, 1)) all return
`RC_OK`.  The next `insertRecord(r3)` returns `RC_OK` and assigns RID (1, 2),
a slot number equal to the number of slots per page, and the immediately
following `getRecord` of that RID returns `RC_RECORD_NOT_FOUND`. -/
theorem C1_insert_then_get_fails :
    slotsPerPage 64 12 = 2
      ∧ (createTable 64 (List.replicate 64 0) none (stringSchema 12)).1 = RC.RC_OK
      ∧ (openTable 64 (createTable 64 (List.replicate 64 0) none (stringSchema 12)).2).1
          = RC.RC_OK
      ∧ (insertRecord 64 (freshTable 64 12) (constRecord 12 1)).1 = RC.RC_OK
      ∧ (insertRecord 64 (freshTable 64 12) (constRecord 12 1)).2.2.id = { page := 1, slot := 0 }
      ∧ (deleteRecord 64 (insertRecord 64 (freshTable 64 12) (constRecord 12 1)).2.1
          { page := 1, slot := 0 }).1 = RC.RC_OK
      ∧ (insertRecord 64
          (deleteRecord 64 (insertRecord 64 (freshTable 64 12) (constRecord 12 1)).2.1
            { page := 1, slot := 0 }).2 (constRecord 12 2)).1 = RC.RC_OK
      ∧ (insertRecord 64 (tableInsDelIns 64 12) (constRecord 12 3)).1 = RC.RC_OK
      ∧ (insertRecord 64 (tableInsDelIns 64 12) (constRecord 12 3)).2.2.id
          = { page := 1, slot := 2 }
      ∧ (getRecord 64 (insertRecord 64 (tableInsDelIns 64 12) (constRecord 12 3)).2.1
          (insertRecord 64 (tableInsDelIns 64 12) (constRecord 12 3)).2.2.id
          (constRecord 12 0)).1 = RC.RC_RECORD_NOT_FOUND := by
  decide

/-! ## Forced writes (`forcePage`, `forceFlushPool`) -/

theorem forcePage_file (bp : Bufferpool) (page : BM_PageHandle) :
    (forcePage bp page).2.fhl = bp.fhl ∧ (forcePage bp page).2.pagedata = bp.pagedata := by
  unfold forcePage
  split <;> exact ⟨rfl, rfl⟩

/-- C11 (evaluation at the failing input): page 0 is pinned in frame 0 of a
three-frame pool over a fresh page file, the frame holds the bytes `1 2 3 4`
and is dirty.  `forcePage` returns `RC_OK`, clears the dirty flag and counts one
write, but the page file is left as it was: block 0 does not exist afterwards
(`readBlock` fails), and after `unpinPage` and `shutdownBufferPool` the closed
file still holds no byte of the frame. -/
theorem C11_forcePage_writes_nothing :
    frameBytes 4 fifoPoolStored0.pagedata 0 = [1, 2, 3, 4]
    ∧ fifoPoolStored0.bitdirty.getD 0 false = true
    ∧ fifoPoolStored0.fhl.mgmtInfo = [0, 0, 0, 0]
    ∧ (forcePage fifoPoolStored0 (handleOf 0)).1 = RC.RC_OK
    ∧ (forcePage fifoPoolStored0 (handleOf 0)).2.bitdirty.getD 0 false = false
    ∧ (forcePage fifoPoolStored0 (handleOf 0)).2.numWrite = fifoPoolStored0.numWrite + 1
    ∧ frameBytes 4 (forcePage fifoPoolStored0 (handleOf 0)).2.pagedata 0 = [1, 2, 3, 4]
    ∧ (forcePage fifoPoolStored0 (handleOf 0)).2.fhl.mgmtInfo = [0, 0, 0, 0]
    ∧ (readBlock 4 0 (forcePage fifoPoolStored0 (handleOf 0)).2.fhl [0, 0, 0, 0]).1
        = RC.RC_READ_NON_EXISTING_PAGE
    ∧ (shutdownBufferPool 4 [0, 0, 0, 0]
        (unpinPage (forcePage fifoPoolStored0 (handleOf 0)).2 (handleOf 0)).2).1 = RC.RC_OK
    ∧ (shutdownBufferPool 4 [0, 0, 0, 0]
        (unpinPage (forcePage fifoPoolStored0 (handleOf 0)).2 (handleOf 0)).2).2.fhl.mgmtInfo
        = [48, 0, 0, 0] := by
  decide

/-- C12 (evaluation at the failing input): in `fifoPoolRestored0` page 0 sits
dirty and unpinned in frame 1 with the bytes `5 6 7 8`, and block 0 of the
file (byte offset `PAGE_SIZE`) holds the older bytes `1 2 3 4`.
`forceFlushPool` returns `RC_OK` and writes the frame at byte offset
`0 * PAGE_SIZE`, over the header page; `readBlock(0)` afterwards returns
`RC_OK` with the old bytes `1 2 3 4`.  On the pool `fifoPoolStored0` after
`unpinPage(0)`, whose file has no block yet, `readBlock(0)` after the flush
fails with `RC_READ_NON_EXISTING_PAGE`. -/
theorem C12_forceFlushPool_wrong_block :
    fifoPoolRestored0.pagenum.getD 1 0 = 0
    ∧ fifoPoolRestored0.fix_count.getD 1 0 = 0
    ∧ fifoPoolRestored0.bitdirty.getD 1 false = true
    ∧ frameBytes 4 fifoPoolRestored0.pagedata 1 = [5, 6, 7, 8]
    ∧ fifoPoolRestored0.fhl.mgmtInfo = [0, 0, 0, 0, 1, 2, 3, 4]
    ∧ (forceFlushPool 4 fifoPoolRestored0).1 = RC.RC_OK
    ∧ (forceFlushPool 4 fifoPoolRestored0).2.fhl.mgmtInfo = [5, 6, 7, 8, 1, 2, 3, 4]
    ∧ (readBlock 4 0 (forceFlushPool 4 fifoPoolRestored0).2.fhl [0, 0, 0, 0]).1 = RC.RC_OK
    ∧ (readBlock 4 0 (forceFlushPool 4 fifoPoolRestored0).2.fhl [0, 0, 0, 0]).2.2 = [1, 2, 3, 4]
    ∧ (forceFlushPool 4 (unpinPage fifoPoolStored0 (handleOf 0)).2).1 = RC.RC_OK
    ∧ (forceFlushPool 4 (unpinPage fifoPoolStored0 (handleOf 0)).2).2.fhl.mgmtInfo = [1, 2, 3, 4]
    ∧ (readBlock 4 0 (forceFlushPool 4 (unpinPage fifoPoolStored0 (handleOf 0)).2).2.fhl
        [0, 0, 0, 0]).1 = RC.RC_READ_NON_EXISTING_PAGE := by
  decide
theorem flushFrame_fields (PS : Nat) (b : Bufferpool) (i : Nat) :
    (flushFrame PS b i).pagenum = b.pagenum ∧ (flushFrame PS b i).fix_count = b.fix_count
    ∧ (flushFrame PS b i).updatedOrder = b.updatedOrder
    ∧ (flushFrame PS b i).pagedata = b.pagedata
    ∧ (flushFrame PS b i).totalPages = b.totalPages
    ∧ (flushFrame PS b i).free_space = b.free_space
    ∧ (flushFrame PS b i).numRead = b.numRead
    ∧ (flushFrame PS b i).fhl.totalNumPages = b.fhl.totalNumPages := by
  unfold flushFrame
  split <;> simp

theorem flushFrame_dirty (PS : Nat) (b : Bufferpool) (i j : Nat) :
    (flushFrame PS b i).bitdirty.getD j false
      = if j = i ∧ b.fix_count.getD i 0 = 0 then false else b.bitdirty.getD j false := by
  unfold flushFrame
  by_cases h : b.fix_count.getD i 0 = 0 ∧ b.bitdirty.getD i false = true
  · rw [if_pos h]
    show (b.bitdirty.set i false).getD j false = _
    rw [getD_set_bool]
    by_cases hj : j = i
    · subst hj
      by_cases hl : j < b.bitdirty.length
      · rw [if_pos ⟨rfl, hl⟩, if_pos ⟨rfl, h.1⟩]
      · have := List.getD_eq_default b.bitdirty false (not_lt.mp hl)
        rw [h.2] at this
        cases this
    · have : ¬ i = j := fun e => hj e.symm
      simp only [this, false_and, if_false, hj]
  · rw [if_neg h]
    by_cases hj : j = i
    · subst hj
      by_cases hf : b.fix_count.getD j 0 = 0
      · simp only [true_and, hf, if_true]
        cases hd : b.bitdirty.getD j false
        · rfl
        · exact absurd ⟨hf, hd⟩ h
      · simp only [hf, and_false, if_false]
    · simp only [hj, false_and, if_false]

theorem flushFrame_numWrite (PS : Nat) (b : Bufferpool) (i : Nat) :
    (flushFrame PS b i).numWrite
      = b.numWrite
        + (if (decide (b.fix_count.getD i 0 = 0) && b.bitdirty.getD i false) = true
            then 1 else 0) := by
  unfold flushFrame
  by_cases h : b.fix_count.getD i 0 = 0 ∧ b.bitdirty.getD i false = true
  · rw [if_pos h]
    have hc : (decide (b.fix_count.getD i 0 = 0) && b.bitdirty.getD i false) = true := by
      rw [h.2, decide_eq_true h.1]; rfl
    rw [if_pos hc]
  · rw [if_neg h]
    have hc : ¬ ((decide (b.fix_count.getD i 0 = 0) && b.bitdirty.getD i false) = true) := by
      intro hc
      rw [Bool.and_eq_true, decide_eq_true_eq] at hc
      exact h hc
    rw [if_neg hc, Int.add_zero]

theorem forceFlushPoolLoop_spec (PS : Nat) (k : Nat) :
    ∀ (i : Nat) (b : Bufferpool),
      (forceFlushPoolLoop PS k i b).pagenum = b.pagenum
      ∧ (forceFlushPoolLoop PS k i b).fix_count = b.fix_count
      ∧ (forceFlushPoolLoop PS k i b).updatedOrder = b.updatedOrder
      ∧ (forceFlushPoolLoop PS k i b).pagedata = b.pagedata
      ∧ (forceFlushPoolLoop PS k i b).totalPages = b.totalPages
      ∧ (forceFlushPoolLoop PS k i b).free_space = b.free_space
      ∧ (forceFlushPoolLoop PS k i b).numRead = b.numRead
      ∧ (forceFlushPoolLoop PS k i b).fhl.totalNumPages = b.fhl.totalNumPages
      ∧ (∀ j, (forceFlushPoolLoop PS k i b).bitdirty.getD j false
          = if i ≤ j ∧ j < i + k ∧ b.fix_count.getD j 0 = 0 then false
            else b.bitdirty.getD j false)
      ∧ (forceFlushPoolLoop PS k i b).numWrite
          = b.numWrite + (((List.range' i k).filter
              (fun j => decide (b.fix_count.getD j 0 = 0) && b.bitdirty.getD j false)).length : Nat) := by
  induction k with
  | zero =>
    intro i b
    refine ⟨rfl, rfl, rfl, rfl, rfl, rfl, rfl, rfl, ?_, ?_⟩
    · intro j
      have : ¬ (i ≤ j ∧ j < i + 0 ∧ b.fix_count.getD j 0 = 0) := by omega
      simp only [forceFlushPoolLoop, this, if_false]
    · simp [forceFlushPoolLoop]
  | succ k ih =>
    intro i b
    obtain ⟨f1, f2, f3, f4, f5, f6, f7, f8⟩ := flushFrame_fields PS b i
    obtain ⟨h1, h2, h3, h4, h5, h6, h7, h8, h9, h10⟩ := ih (i + 1) (flushFrame PS b i)
    simp only [forceFlushPoolLoop]
    refine ⟨h1.trans f1, h2.trans f2, h3.trans f3, h4.trans f4, h5.trans f5, h6.trans f6,
      h7.trans f7, h8.trans f8, ?_, ?_⟩
    · intro j
      rw [h9 j, f2, flushFrame_dirty]
      by_cases hj : j = i
      · subst hj
        by_cases hf : b.fix_count.getD j 0 = 0
        · have a1 : ¬ (j + 1 ≤ j ∧ j < j + 1 + k ∧ b.fix_count.getD j 0 = 0) := by omega
          have a2 : (j ≤ j ∧ j < j + (k + 1) ∧ b.fix_count.getD j 0 = 0) := ⟨le_refl _, by omega, hf⟩
          rw [if_neg a1, if_pos ⟨rfl, hf⟩, if_pos a2]
        · simp only [hf, and_false, if_false]
      · by_cases hc : i + 1 ≤ j ∧ j < i + 1 + k ∧ b.fix_count.getD j 0 = 0
        · have a2 : (i ≤ j ∧ j < i + (k + 1) ∧ b.fix_count.getD j 0 = 0) :=
            ⟨by omega, by omega, hc.2.2⟩
          simp only [hc, a2, and_self, if_true]
        · have a2 : ¬ (i ≤ j ∧ j < i + (k + 1) ∧ b.fix_count.getD j 0 = 0) := by
            intro h; exact hc ⟨by omega, by omega, h.2.2⟩
          simp only [hc, a2, if_false, hj, false_and]
    · rw [h10, flushFrame_numWrite, f2]
      have hfil : (List.range' (i + 1) k).filter
            (fun j => decide (b.fix_count.getD j 0 = 0) && (flushFrame PS b i).bitdirty.getD j false)
          = (List.range' (i + 1) k).filter
            (fun j => decide (b.fix_count.getD j 0 = 0) && b.bitdirty.getD j false) := by
        apply List.filter_congr
        intro j hj
        have : i + 1 ≤ j := (List.mem_range'_1.mp hj).1
        rw [flushFrame_dirty]
        have : ¬ (j = i ∧ b.fix_count.getD i 0 = 0) := by omega
        simp only [this, if_false]
      rw [hfil, List.range'_succ, List.filter_cons]
      by_cases hc : (decide (b.fix_count.getD i 0 = 0) && b.bitdirty.getD i false) = true
      · simp only [hc, if_true, List.length_cons]; push_cast; ring
      · simp only [hc, if_false]; simp

/-- C13: `forceFlushPool` returns `RC_OK`; afterwards every frame with fix count
zero is clean, every frame with a positive fix count has the dirty flag it had,
`numWrite` has grown by the number of frames that were dirty with fix count
zero, and the page numbers, fix counts, order array and frame bytes (and the
frame counters and `numRead`) are the ones from before the call. -/
theorem C13_forceFlushPool_bookkeeping (PS : Nat) (bp : Bufferpool) :
    (forceFlushPool PS bp).1 = RC.RC_OK
    ∧ (∀ i, i < bp.totalPages → bp.fix_count.getD i 0 = 0 →
        (forceFlushPool PS bp).2.bitdirty.getD i false = false)
    ∧ (∀ i, i < bp.totalPages → 0 < bp.fix_count.getD i 0 →
        (forceFlushPool PS bp).2.bitdirty.getD i false = bp.bitdirty.getD i false)
    ∧ getNumWriteIO (forceFlushPool PS bp).2 = getNumWriteIO bp + (flushCount bp : Nat)
    ∧ (forceFlushPool PS bp).2.pagenum = bp.pagenum
    ∧ (forceFlushPool PS bp).2.fix_count = bp.fix_count
    ∧ (forceFlushPool PS bp).2.updatedOrder = bp.updatedOrder
    ∧ (forceFlushPool PS bp).2.pagedata = bp.pagedata
    ∧ (forceFlushPool PS bp).2.totalPages = bp.totalPages
    ∧ (forceFlushPool PS bp).2.free_space = bp.free_space
    ∧ getNumReadIO (forceFlushPool PS bp).2 = getNumReadIO bp := by
  obtain ⟨h1, h2, h3, h4, h5, h6, h7, _, h9, h10⟩ := forceFlushPoolLoop_spec PS bp.totalPages 0 bp
  refine ⟨rfl, ?_, ?_, ?_, h1, h2, h3, h4, h5, h6, h7⟩
  · intro i hi hf
    show (forceFlushPoolLoop PS bp.totalPages 0 bp).bitdirty.getD i false = false
    rw [h9 i]
    have : (0 ≤ i ∧ i < 0 + bp.totalPages ∧ bp.fix_count.getD i 0 = 0) := ⟨by omega, by omega, hf⟩
    simp only [this, and_self, if_true]
  · intro i hi hf
    show (forceFlushPoolLoop PS bp.totalPages 0 bp).bitdirty.getD i false = _
    rw [h9 i]
    have : ¬ (0 ≤ i ∧ i < 0 + bp.totalPages ∧ bp.fix_count.getD i 0 = 0) := by
      intro h; omega
    simp only [this, if_false]
  · show (forceFlushPoolLoop PS bp.totalPages 0 bp).numWrite = bp.numWrite + _
    rw [h10]
    simp only [flushCount, List.range_eq_range']

/-- C13 at a worked pool: `fifoPoolRestored0` holds page 0 dirty and unpinned in
frame 1; the flush clears the flag and counts one write. -/
theorem C13_witness :
    flushCount fifoPoolRestored0 = 1
    ∧ (forceFlushPool 4 fifoPoolRestored0).2.bitdirty = [false, false, false]
    ∧ ((forceFlushPool 4 fifoPoolRestored0).1 = RC.RC_OK
    ∧ (∀ i, i < fifoPoolRestored0.totalPages → fifoPoolRestored0.fix_count.getD i 0 = 0 →
        (forceFlushPool 4 fifoPoolRestored0).2.bitdirty.getD i false = false)
    ∧ (∀ i, i < fifoPoolRestored0.totalPages → 0 < fifoPoolRestored0.fix_count.getD i 0 →
        (forceFlushPool 4 fifoPoolRestored0).2.bitdirty.getD i false
          = fifoPoolRestored0.bitdirty.getD i false)
    ∧ getNumWriteIO (forceFlushPool 4 fifoPoolRestored0).2
        = getNumWriteIO fifoPoolRestored0 + (flushCount fifoPoolRestored0 : Nat)
    ∧ (forceFlushPool 4 fifoPoolRestored0).2.pagenum = fifoPoolRestored0.pagenum
    ∧ (forceFlushPool 4 fifoPoolRestored0).2.fix_count = fifoPoolRestored0.fix_count
    ∧ (forceFlushPool 4 fifoPoolRestored0).2.updatedOrder = fifoPoolRestored0.updatedOrder
    ∧ (forceFlushPool 4 fifoPoolRestored0).2.pagedata = fifoPoolRestored0.pagedata
    ∧ (forceFlushPool 4 fifoPoolRestored0).2.totalPages = fifoPoolRestored0.totalPages
    ∧ (forceFlushPool 4 fifoPoolRestored0).2.free_space = fifoPoolRestored0.free_space
    ∧ getNumReadIO (forceFlushPool 4 fifoPoolRestored0).2 = getNumReadIO fifoPoolRestored0) :=
  ⟨by decide, by decide, C13_forceFlushPool_bookkeeping 4 fifoPoolRestored0⟩

/-! ## What a successful `pinPage` leaves behind -/

theorem readBlock_eof (PS : Nat) (p : Int) (fh : SM_FileHandle) (buf : List Nat)
    (h : p < 0 ∨ fh.totalNumPages ≤ p) :
    readBlock PS p fh buf = (RC.RC_READ_NON_EXISTING_PAGE, fh, buf) := by
  unfold readBlock
  rw [if_pos (by omega)]

/-- A hit: only the fix count of the frame (and, under LRU, the order array) changes. -/
theorem pinPage_hit_fields {PS : Nat} {bp : Bufferpool} (h : PoolInv PS bp) (page : BM_PageHandle)
    (p : Int) (i : Nat) (hi : i < usedFrames bp) (hx : bp.pagenum.getD i 0 = p) :
    (pinPage PS bp page p).1 = RC.RC_OK
    ∧ (pinPage PS bp page p).2.2 = { pageNum := p, data := some (i * PS) }
    ∧ (pinPage PS bp page p).2.1.fix_count = bp.fix_count.set i (bp.fix_count.getD i 0 + 1)
    ∧ (pinPage PS bp page p).2.1.pagenum = bp.pagenum
    ∧ (pinPage PS bp page p).2.1.bitdirty = bp.bitdirty
    ∧ (pinPage PS bp page p).2.1.pagedata = bp.pagedata
    ∧ (pinPage PS bp page p).2.1.fhl = bp.fhl
    ∧ (pinPage PS bp page p).2.1.totalPages = bp.totalPages
    ∧ (pinPage PS bp page p).2.1.free_space = bp.free_space
    ∧ (pinPage PS bp page p).2.1.updatedStrategy = bp.updatedStrategy
    ∧ (pinPage PS bp page p).2.1.numRead = bp.numRead
    ∧ (pinPage PS bp page p).2.1.numWrite = bp.numWrite := by
  rw [pinPage_hit h page p i hi hx]
  by_cases hs : bp.updatedStrategy = ReplacementStrategy.RS_LRU
  · obtain ⟨swap, _, _, he⟩ := pinPageHit_lru h p i hs hi hx
    rw [he]
    exact ⟨rfl, rfl, rfl, rfl, rfl, rfl, rfl, rfl, rfl, rfl, rfl, rfl⟩
  · rw [pinPageHit_other p i hs]
    exact ⟨rfl, rfl, rfl, rfl, rfl, rfl, rfl, rfl, rfl, rfl, rfl, rfl⟩

/-- A successful miss: the page replaces the content of one frame `i` that had
fix count zero; a dirty victim is written to its block first. -/
theorem pinPage_miss_fields {PS : Nat} {bp : Bufferpool} (h : PoolInv PS bp) (page : BM_PageHandle)
    (p : Int) (hx : p ∉ usedPages bp) (hok : (pinPage PS bp page p).1 = RC.RC_OK) :
    ∃ i, i < bp.totalPages
    ∧ bp.fix_count.getD i 0 = 0
    ∧ (usedFrames bp ≤ i ∨ bp.free_space = 0)
    ∧ (pinPage PS bp page p).2.2 = { pageNum := p, data := some (i * PS) }
    ∧ (pinPage PS bp page p).2.1.fix_count = bp.fix_count.set i (bp.fix_count.getD i 0 + 1)
    ∧ (pinPage PS bp page p).2.1.pagenum = bp.pagenum.set i p
    ∧ (pinPage PS bp page p).2.1.bitdirty = bp.bitdirty.set i false
    ∧ (pinPage PS bp page p).2.1.pagedata
        = memcpy bp.pagedata (i * PS) (readBlock PS p bp.fhl (List.replicate PS 0)).2.2
    ∧ (pinPage PS bp page p).2.1.fhl
        = (if bp.bitdirty.getD i false then
            (writeBlock PS (bp.pagenum.getD i 0)
              (ensureCapacity PS (bp.pagenum.getD i 0 + 1)
                (readBlock PS p bp.fhl (List.replicate PS 0)).2.1).2
              (frameBytes PS bp.pagedata i)).2
          else (readBlock PS p bp.fhl (List.replicate PS 0)).2.1)
    ∧ (pinPage PS bp page p).2.1.totalPages = bp.totalPages
    ∧ (pinPage PS bp page p).2.1.updatedStrategy = bp.updatedStrategy
    ∧ (pinPage PS bp page p).2.1.numRead = bp.numRead + 1 := by
  have hadd := h.usedFrames_add
  by_cases hf : 0 < bp.free_space
  · rw [pinPage_empty h page p hx hf]
    have hu : bp.totalPages - bp.free_space = usedFrames bp := rfl
    have hd : bp.bitdirty.getD (usedFrames bp) false = false := h.dirty_unused _ (le_refl _)
    refine ⟨usedFrames bp, by omega, h.fix_unused _ (le_refl _), Or.inl (le_refl _), ?_, ?_, ?_,
      ?_, ?_, ?_, rfl, rfl, rfl⟩
    · simp only [pinPageEmpty, hu]
    · simp only [pinPageEmpty, hu]
    · simp only [pinPageEmpty, hu]
    · simp only [pinPageEmpty, hu]
    · simp only [pinPageEmpty, hu]
    · rw [hd]; simp only [pinPageEmpty, Bool.false_eq_true, if_false]
  · have hf0 : bp.free_space = 0 := by omega
    rw [pinPage_evict h page p hx hf0] at hok ⊢
    by_cases hst : bp.updatedStrategy = ReplacementStrategy.RS_FIFO
        ∨ bp.updatedStrategy = ReplacementStrategy.RS_LRU
    swap
    · rw [pinPageEvict_full page p (Or.inl hst)] at hok
      cases hok
    cases hvo : victimOrder bp with
    | none =>
      rw [pinPageEvict_full page p (Or.inr hvo)] at hok
      cases hok
    | some j =>
      obtain ⟨_, ⟨i, hvf⟩, _⟩ := victimOrder_some hvo
      obtain ⟨hi1, _, hi3⟩ := victimFrame_some hvf
      rw [pinPageEvict_found page p j i hst h.len_order hvo hvf]
      exact ⟨i, hi1, hi3, Or.inr hf0, rfl, rfl, rfl, rfl, rfl, rfl, rfl, rfl, rfl⟩

theorem ensureCapacityLoop_total (PS : Nat) (n : Int) (k : Nat) (fh : SM_FileHandle)
    (hk : (n - fh.totalNumPages).toNat ≤ k) :
    (ensureCapacityLoop PS n k fh).2.totalNumPages = max fh.totalNumPages n := by
  induction k generalizing fh with
  | zero =>
    show fh.totalNumPages = _
    omega
  | succ k ih =>
    simp only [ensureCapacityLoop]
    by_cases hlt : fh.totalNumPages < n
    · rw [if_pos hlt]
      have hok : (appendEmptyBlock PS fh).1 = RC.RC_OK := rfl
      rw [if_neg (by rw [hok]; simp)]
      have e1 : (appendEmptyBlock PS fh).2.totalNumPages = fh.totalNumPages + 1 := rfl
      rw [ih (appendEmptyBlock PS fh).2 (by rw [e1]; omega), e1]
      omega
    · rw [if_neg hlt]
      show fh.totalNumPages = _
      omega

theorem ensureCapacity_total (PS : Nat) (n : Int) (fh : SM_FileHandle) :
    (ensureCapacity PS n fh).2.totalNumPages = max fh.totalNumPages n :=
  ensureCapacityLoop_total PS n _ fh (le_refl _)

theorem writeBlock_total (PS : Nat) (q : Int) (fh : SM_FileHandle) (b : List Nat) :
    (writeBlock PS q fh b).2.totalNumPages = fh.totalNumPages := by
  unfold writeBlock
  split <;> rfl

/-! ## `pinPage` of a page past the end of the file -/

theorem attrPos_step_width (dt : DataType) (tl acc : Int) :
    (if dt = DataType.DT_STRING then acc + tl
      else acc + attrPosSizes.getD dt.toInt.toNat 0) = acc + onDiskWidth dt tl := by
  cases dt <;> rfl

theorem attrSize_eq_onDiskWidth (dt : DataType) (tl : Int) : attrSize dt tl = onDiskWidth dt tl := by
  cases dt <;> rfl

theorem widthSum_succ (S : Schema) (k : Nat) :
    widthSum S (k + 1)
      = widthSum S k + onDiskWidth (S.dataTypes.getD k DataType.DT_INT) (S.typeLength.getD k 0) := by
  simp only [widthSum, List.range_succ, List.map_append, List.sum_append, List.map_cons,
    List.map_nil, List.sum_cons, List.sum_nil, add_zero]

theorem getAttrPosLoop_widthSum (S : Schema) (k : Nat) :
    ∀ i, getAttrPosLoop S k i (widthSum S i) = widthSum S (i + k) := by
  induction k with
  | zero => intro i; rfl
  | succ k ih =>
    intro i
    simp only [getAttrPosLoop]
    rw [attrPos_step_width, ← widthSum_succ, ih (i + 1)]
    congr 1
    omega

theorem recordSizeLoop_widthSum (S : Schema) (k : Nat) :
    ∀ i, recordSizeLoop S k i (widthSum S i) = widthSum S (i + k) := by
  induction k with
  | zero => intro i; rfl
  | succ k ih =>
    intro i
    simp only [recordSizeLoop]
    rw [attrSize_eq_onDiskWidth, ← widthSum_succ, ih (i + 1)]
    congr 1
    omega

theorem getAttrPos_valid (S : Schema) (i : Nat) (hi : (i : Int) < S.numAttr) :
    getAttrPos S (i : Int) = widthSum S i := by
  unfold getAttrPos
  rw [if_neg (by omega)]
  have := getAttrPosLoop_widthSum S i 0
  simp only [Nat.zero_add] at this
  rw [Int.toNat_ofNat]
  exact this

/-- C20: for an attribute number in range `getAttrPos` is the sum of the on-disk
widths (INT 4, FLOAT 4, BOOL 1, STRING `typeLength`) of the attributes before
it, as long as the sums the loop passes through (the widths of the first `k`
attributes, `k <= attrNum`) are non-negative C `int` values, so that no
addition of the code, made in `size_t` for a STRING and in `int` otherwise,
leaves the range of `int`; out of range it is `-1`. -/
theorem C20_getAttrPos (schema : Schema) (attrNum : Int) :
    (0 ≤ attrNum → attrNum < schema.numAttr →
      (∀ k : Nat, k ≤ attrNum.toNat →
        0 ≤ widthSum schema k ∧ widthSum schema k ≤ 2147483647) →
      getAttrPos schema attrNum = widthSum schema attrNum.toNat)
    ∧ ((attrNum < 0 ∨ schema.numAttr ≤ attrNum) → getAttrPos schema attrNum = -1) := by
  constructor
  · intro h0 h1 _
    have := getAttrPos_valid schema attrNum.toNat (by omega)
    rwa [Int.toNat_of_nonneg h0] at this
  · intro h
    unfold getAttrPos
    rw [if_pos (by omega)]

/-- C20 on the schema `(a : INT, b : STRING(5), c : FLOAT, d : BOOL)`: the
offset of `d` is `4 + 5 + 4 = 13`, and attribute number 4 is out of range. -/
theorem C20_witness :
    widthSum mixedSchema 3 = 13
    ∧ getAttrPos mixedSchema 3 = widthSum mixedSchema (3 : Int).toNat
    ∧ getAttrPos mixedSchema 4 = -1 :=
  ⟨by decide,
    (C20_getAttrPos mixedSchema 3).1 (by decide) (by decide)
      (fun k hk => by
        have hk3 : k ≤ 3 := hk
        interval_cases k <;> decide),
    (C20_getAttrPos mixedSchema 4).2 (by decide)⟩

theorem decodeInt_encodeInt (n : Int) (h1 : -2147483648 ≤ n) (h2 : n < 2147483648) :
    decodeInt (encodeInt n) = n := by
  unfold decodeInt encodeInt
  simp only [List.getD_cons_zero, List.getD_cons_succ]
  have hu : ((n % 4294967296).toNat : Int) = n % 4294967296 :=
    Int.toNat_of_nonneg (Int.emod_nonneg _ (by decide))
  generalize (n % 4294967296).toNat = u at hu
  have hlt : (u : Int) < 4294967296 := by rw [hu]; exact Int.emod_lt_of_pos _ (by decide)
  have hsum : u % 256 + 256 * (u / 256 % 256) + 65536 * (u / 65536 % 256)
      + 16777216 * (u / 16777216 % 256) = u := by omega
  rw [hsum]
  split
  · omega
  · omega

theorem length_encodeInt (n : Int) : (encodeInt n).length = 4 := rfl

theorem readInt_writeInt (mem : List Nat) (off : Nat) (n : Int) (hlen : off + 4 ≤ mem.length)
    (h1 : -2147483648 ≤ n) (h2 : n < 2147483648) : readInt (writeInt mem off n) off = n := by
  unfold readInt writeInt
  have := bytesAt_memcpy_same mem off (encodeInt n) (by rw [length_encodeInt]; exact hlen)
  rw [length_encodeInt] at this
  rw [this, decodeInt_encodeInt n h1 h2]

theorem readWord_encode (mem : List Nat) (off : Nat) (bits : Nat) (hlen : off + 4 ≤ mem.length)
    (hb : bits < 4294967296) : readWord (memcpy mem off (encodeInt bits)) off = bits := by
  unfold readWord
  have := bytesAt_memcpy_same mem off (encodeInt bits) (by rw [length_encodeInt]; exact hlen)
  rw [length_encodeInt] at this
  rw [this]
  unfold encodeInt
  simp only [List.getD_cons_zero, List.getD_cons_succ]
  have hu : (((bits : Int) % 4294967296).toNat) = bits := by omega
  rw [hu]
  omega

theorem takeWhile_append_zeros (t : List Nat) (k : Nat) (ht : ∀ c ∈ t, c ≠ 0) :
    (t ++ List.replicate k 0).takeWhile (fun c => c != 0) = t := by
  induction t with
  | nil =>
    cases k with
    | zero => rfl
    | succ k => simp [List.replicate_succ, List.takeWhile]
  | cons a t ih =>
    have ha : a ≠ 0 := ht a (List.mem_cons_self _ _)
    have : (a != 0) = true := by simpa using ha
    rw [List.cons_append, List.takeWhile_cons, this, if_pos rfl,
      ih (fun c hc => ht c (List.mem_cons_of_mem _ hc))]

theorem takeWhile_ne_zero_all (l : List Nat) : ∀ c ∈ l.takeWhile (fun c => c != 0), c ≠ 0 := by
  intro c hc
  have := List.mem_takeWhile_imp hc
  simpa using this

/-- The buffer that `getAttr` returns for a string holds, as a C string on its
first `n` bytes, the C string of the `n` stored bytes. -/
theorem strncpy_buffer_cstring (bs : List Nat) (n : Nat) (hbs : bs.length ≤ n) :
    ((strncpyBytes (bs.takeWhile (fun c => c != 0)) n ++ [0]).take n).takeWhile (fun c => c != 0)
      = bs.takeWhile (fun c => c != 0) := by
  have hle : (bs.takeWhile (fun c => c != 0)).length ≤ n :=
    le_trans (List.takeWhile_sublist _).length_le hbs
  unfold strncpyBytes
  rw [List.take_of_length_le hle, List.take_append_of_le_length (by simp; omega),
    List.take_of_length_le (by simp; omega)]
  exact takeWhile_append_zeros _ _ (takeWhile_ne_zero_all bs)

theorem onDiskWidth_nonneg (S : Schema) (hL : ∀ i, 0 ≤ S.typeLength.getD i 0) (i : Nat) :
    0 ≤ onDiskWidth (S.dataTypes.getD i DataType.DT_INT) (S.typeLength.getD i 0) := by
  have := hL i
  cases S.dataTypes.getD i DataType.DT_INT <;> simp only [onDiskWidth] <;> omega

theorem widthSum_mono (S : Schema) (hL : ∀ i, 0 ≤ S.typeLength.getD i 0) (i j : Nat)
    (h : i < j) :
    widthSum S i + onDiskWidth (S.dataTypes.getD i DataType.DT_INT) (S.typeLength.getD i 0)
      ≤ widthSum S j := by
  induction j with
  | zero => omega
  | succ j ih =>
    rw [widthSum_succ S j]
    have hw := onDiskWidth_nonneg S hL j
    by_cases hij : i = j
    · subst hij; exact le_refl _
    · have := ih (by omega)
      omega

theorem widthSum_nonneg (S : Schema) (hL : ∀ i, 0 ≤ S.typeLength.getD i 0) (i : Nat) :
    0 ≤ widthSum S i := by
  induction i with
  | zero => exact le_refl _
  | succ i ih =>
    rw [widthSum_succ]
    have := onDiskWidth_nonneg S hL i
    omega

theorem widthSum_le_recordSize (S : Schema) :
    widthSum S S.numAttr.toNat ≤ getRecordSize S := by
  unfold getRecordSize
  have h := recordSizeLoop_widthSum S S.numAttr.toNat 0
  simp only [Nat.zero_add] at h
  have h0 : widthSum S 0 = 0 := rfl
  rw [h0] at h
  rw [h]
  have hlt := Int.tmod_lt_of_pos (widthSum S S.numAttr.toNat) (show (0 : Int) < 4 by decide)
  dsimp only
  split
  · omega
  · exact le_refl _

/-- What `setAttr` stores: at most the attribute's width, at the attribute's offset. -/
theorem setAttr_data (S : Schema) (R : Record) (i : Nat) (v : Value) (hi : (i : Int) < S.numAttr) :
    ∃ bs : List Nat,
      bs.length
        ≤ (onDiskWidth (S.dataTypes.getD i DataType.DT_INT) (S.typeLength.getD i 0)).toNat
      ∧ setAttr R S (i : Int) v
          = (RC.RC_OK, { R with data := memcpy R.data (widthSum S i).toNat bs }) := by
  unfold setAttr
  rw [if_neg (by omega), getAttrPos_valid S i hi, Int.toNat_ofNat]
  cases hdt : S.dataTypes.getD i DataType.DT_INT with
  | DT_INT => exact ⟨encodeInt v.asInt, by simp [onDiskWidth, length_encodeInt], rfl⟩
  | DT_FLOAT => exact ⟨encodeInt v.asFloat, by simp [onDiskWidth, length_encodeInt], rfl⟩
  | DT_STRING =>
    refine ⟨v.asString.take (S.typeLength.getD i 0).toNat, ?_, rfl⟩
    simp only [onDiskWidth, List.length_take]
    omega
  | DT_BOOL => exact ⟨[if v.asBool then 1 else 0], by simp [onDiskWidth], rfl⟩

theorem getAttr_valid (S : Schema) (R : Record) (i : Nat) (hi : (i : Int) < S.numAttr) :
    getAttr R S (i : Int)
      = match S.dataTypes.getD i DataType.DT_INT with
        | DataType.DT_STRING =>
          (RC.RC_OK, some (Value.stringV
            (strncpyBytes ((bytesAt R.data (widthSum S i).toNat
              (S.typeLength.getD i 0).toNat).takeWhile (fun c => c != 0))
              (S.typeLength.getD i 0).toNat ++ [0])))
        | DataType.DT_INT =>
          (RC.RC_OK, some (Value.intV (decodeInt (bytesAt R.data (widthSum S i).toNat 4))))
        | DataType.DT_FLOAT => (RC.RC_OK, some (Value.floatV (readWord R.data (widthSum S i).toNat)))
        | DataType.DT_BOOL =>
          (RC.RC_OK, some (Value.boolV
            (decide ((bytesAt R.data (widthSum S i).toNat 1).getD 0 0 ≠ 0)))) := by
  unfold getAttr
  rw [if_neg (by omega), getAttrPos_valid S i hi, Int.toNat_ofNat]
  rfl

/-- The value `getAttr` returns depends on the bytes of the attribute only. -/
theorem getAttr_congr (S : Schema) (R1 R2 : Record) (i : Nat) (hi : (i : Int) < S.numAttr)
    (h : bytesAt R1.data (widthSum S i).toNat
          (onDiskWidth (S.dataTypes.getD i DataType.DT_INT) (S.typeLength.getD i 0)).toNat
        = bytesAt R2.data (widthSum S i).toNat
          (onDiskWidth (S.dataTypes.getD i DataType.DT_INT) (S.typeLength.getD i 0)).toNat) :
    getAttr R1 S (i : Int) = getAttr R2 S (i : Int) := by
  rw [getAttr_valid S R1 i hi, getAttr_valid S R2 i hi]
  cases hdt : S.dataTypes.getD i DataType.DT_INT with
  | DT_INT =>
    rw [hdt] at h
    have h4 : bytesAt R1.data (widthSum S i).toNat 4 = bytesAt R2.data (widthSum S i).toNat 4 := h
    simp only [h4]
  | DT_FLOAT =>
    rw [hdt] at h
    have h4 : bytesAt R1.data (widthSum S i).toNat 4 = bytesAt R2.data (widthSum S i).toNat 4 := h
    simp only [readWord, h4]
  | DT_STRING =>
    rw [hdt] at h
    simp only [onDiskWidth] at h
    simp only [h]
  | DT_BOOL =>
    rw [hdt] at h
    have h1 : bytesAt R1.data (widthSum S i).toNat 1 = bytesAt R2.data (widthSum S i).toNat 1 := h
    simp only [h1]

/-- The bytes of attribute `i` lie inside a record of `getRecordSize` bytes. -/
theorem attr_in_record (S : Schema) (hL : ∀ i, 0 ≤ S.typeLength.getD i 0) (i : Nat)
    (hi : (i : Int) < S.numAttr) :
    widthSum S i + onDiskWidth (S.dataTypes.getD i DataType.DT_INT) (S.typeLength.getD i 0)
      ≤ getRecordSize S := by
  have h1 := widthSum_le_recordSize S
  by_cases he : i + 1 = S.numAttr.toNat
  · rw [← he, widthSum_succ] at h1
    exact h1
  · have := widthSum_mono S hL i S.numAttr.toNat (by omega)
    omega

/-- Reading an attribute right after setting it. -/
theorem getAttr_setAttr_same (S : Schema) (hL : ∀ i, 0 ≤ S.typeLength.getD i 0) (R : Record)
    (i : Nat) (v : Value) (hi : (i : Int) < S.numAttr)
    (hR : getRecordSize S ≤ R.data.length)
    (hv : v.fits (S.dataTypes.getD i DataType.DT_INT) (S.typeLength.getD i 0).toNat) :
    ∃ w, getAttr (setAttr R S (i : Int) v).2 S (i : Int) = (RC.RC_OK, some w)
      ∧ w.dt = S.dataTypes.getD i DataType.DT_INT
      ∧ w.sameAs (S.typeLength.getD i 0).toNat v := by
  have hin := attr_in_record S hL i hi
  have hpos := widthSum_nonneg S hL i
  have hLi := hL i
  rw [getAttr_valid S _ i hi]
  unfold setAttr
  rw [if_neg (by omega), getAttrPos_valid S i hi, Int.toNat_ofNat]
  cases hdt : S.dataTypes.getD i DataType.DT_INT with
  | DT_INT =>
    rw [hdt] at hv hin
    simp only [onDiskWidth] at hin
    cases v with
    | intV n =>
      obtain ⟨_, h1, h2⟩ := hv
      refine ⟨Value.intV n, ?_, rfl, rfl⟩
      have := readInt_writeInt R.data (widthSum S i).toNat n (by omega) h1 h2
      unfold readInt at this
      simp only [Value.asInt, this]
    | floatV b => exact absurd hv.1 (by decide)
    | stringV s => exact absurd hv.1 (by decide)
    | boolV b => exact absurd hv (by simp [Value.fits])
  | DT_FLOAT =>
    rw [hdt] at hv hin
    simp only [onDiskWidth] at hin
    cases v with
    | intV n => exact absurd hv.1 (by decide)
    | floatV b =>
      obtain ⟨_, h1⟩ := hv
      refine ⟨Value.floatV b, ?_, rfl, rfl⟩
      have := readWord_encode R.data (widthSum S i).toNat b (by omega) h1
      simp only [Value.asFloat, this]
    | stringV s => exact absurd hv.1 (by decide)
    | boolV b => exact absurd hv (by simp [Value.fits])
  | DT_STRING =>
    rw [hdt] at hv hin
    simp only [onDiskWidth] at hin
    cases v with
    | intV n => exact absurd hv.1 (by decide)
    | floatV b => exact absurd hv.1 (by decide)
    | stringV s =>
      obtain ⟨_, h1⟩ := hv
      have hlen : (s.take (S.typeLength.getD i 0).toNat).length = (S.typeLength.getD i 0).toNat := by
        rw [List.length_take]; omega
      have hb := bytesAt_memcpy_same R.data (widthSum S i).toNat
        (s.take (S.typeLength.getD i 0).toNat) (by rw [hlen]; omega)
      rw [hlen] at hb
      refine ⟨_, rfl, rfl, ?_⟩
      simp only [Value.asString, hb, Value.sameAs]
      exact strncpy_buffer_cstring _ _ (le_of_eq hlen)
    | boolV b => exact absurd hv (by simp [Value.fits])
  | DT_BOOL =>
    rw [hdt] at hv hin
    simp only [onDiskWidth] at hin
    cases v with
    | intV n => exact absurd hv.1 (by decide)
    | floatV b => exact absurd hv.1 (by decide)
    | stringV s => exact absurd hv.1 (by decide)
    | boolV b =>
      have hb := bytesAt_memcpy_same R.data (widthSum S i).toNat [if b then 1 else 0]
        (by simp only [List.length_singleton]; omega)
      simp only [List.length_singleton] at hb
      refine ⟨Value.boolV b, ?_, rfl, rfl⟩
      simp only [Value.asBool, hb]
      cases b <;> rfl

/-- Setting attribute `j` leaves the value of another attribute `i` as it was. -/
theorem getAttr_setAttr_other (S : Schema) (hL : ∀ i, 0 ≤ S.typeLength.getD i 0) (R : Record)
    (i j : Nat) (v : Value) (hi : (i : Int) < S.numAttr) (hj : (j : Int) < S.numAttr)
    (hij : i ≠ j) :
    getAttr (setAttr R S (j : Int) v).2 S (i : Int) = getAttr R S (i : Int) := by
  obtain ⟨bs, hbs, he⟩ := setAttr_data S R j v hj
  rw [he]
  apply getAttr_congr S _ _ i hi
  apply bytesAt_memcpy_disjoint
  have hwi := onDiskWidth_nonneg S hL i
  have hwj := onDiskWidth_nonneg S hL j
  have hpi := widthSum_nonneg S hL i
  have hpj := widthSum_nonneg S hL j
  rcases Nat.lt_or_gt_of_ne hij with h | h
  · have := widthSum_mono S hL i j h
    left; omega
  · have := widthSum_mono S hL j i h
    right; omega

theorem setAttr_length (S : Schema) (R : Record) (j : Nat) (v : Value)
    (hj : (j : Int) < S.numAttr) : (setAttr R S (j : Int) v).2.data.length = R.data.length := by
  obtain ⟨bs, _, he⟩ := setAttr_data S R j v hj
  rw [he]
  exact length_memcpy _ _ _

theorem setAttrs_snoc (S : Schema) (v : Nat → Value) (l : List Nat) (j : Nat) (R : Record) :
    setAttrs S v (l ++ [j]) R = (setAttr (setAttrs S v l R) S (j : Int) (v j)).2 := by
  simp only [setAttrs, List.foldl_append, List.foldl_cons, List.foldl_nil]

/-- After a sequence of `setAttr` calls, one per attribute number of `order`
(value `v i` for attribute `i`), each attribute that occurs in `order` reads
back as its value. -/
theorem setAttrs_spec (S : Schema) (hL : ∀ i, 0 ≤ S.typeLength.getD i 0) (v : Nat → Value)
    (hv : ∀ i : Nat, (i : Int) < S.numAttr →
      (v i).fits (S.dataTypes.getD i DataType.DT_INT) (S.typeLength.getD i 0).toNat)
    (R : Record) (hR : getRecordSize S ≤ R.data.length) (order : List Nat) :
    (∀ j ∈ order, (j : Int) < S.numAttr) →
      (setAttrs S v order R).data.length = R.data.length
      ∧ ∀ i ∈ order, ∃ w, getAttr (setAttrs S v order R) S (i : Int) = (RC.RC_OK, some w)
          ∧ w.dt = S.dataTypes.getD i DataType.DT_INT
          ∧ w.sameAs (S.typeLength.getD i 0).toNat (v i) := by
  induction order using List.reverseRecOn with
  | nil =>
    intro _
    exact ⟨rfl, fun i hi => absurd hi (List.not_mem_nil i)⟩
  | append_singleton l j ih =>
    intro hord
    have hj : (j : Int) < S.numAttr := hord j (by simp)
    obtain ⟨hlen, hget⟩ := ih (fun k hk => hord k (by simp [hk]))
    rw [setAttrs_snoc]
    refine ⟨by rw [setAttr_length S _ j _ hj, hlen], ?_⟩
    intro i hi
    by_cases hij : i = j
    · subst hij
      exact getAttr_setAttr_same S hL _ i (v i) hj (by rw [hlen]; exact hR) (hv i hj)
    · rw [getAttr_setAttr_other S hL _ i j (v j) (hord i hi) hj hij]
      have : i ∈ l := by
        rcases List.mem_append.mp hi with h | h
        · exact h
        · exact absurd (List.mem_singleton.mp h) hij
      exact hget i this

/-- C19: let `schema` have non-negative type lengths and a record size
`getRecordSize(schema)` that is a C `int` (the additions of `getRecordSize` and
`getAttrPos`, made in `size_t` and stored in an `int`, then stay in the range
of `int`), and let `record` hold (at
least) `getRecordSize(schema)` bytes; let `setAttr` be called once for each
attribute `i` with a value `v i` of the attribute's type, in any order
(`order` is a permutation of the attribute numbers).  Then `getAttr` on every
attribute `i` returns `RC_OK` with a value of type `dataTypes[i]` equal to
`v i`, strings being compared as C strings on their first `typeLength[i]`
bytes. -/
theorem C19_attr_round_trip (schema : Schema) (record : Record) (v : Nat → Value)
    (order : List Nat)
    (hL : ∀ i, 0 ≤ schema.typeLength.getD i 0)
    (hR : getRecordSize schema ≤ record.data.length)
    (hperm : order.Perm (List.range schema.numAttr.toNat))
    (hv : ∀ i : Nat, (i : Int) < schema.numAttr →
      (v i).fits (schema.dataTypes.getD i DataType.DT_INT) (schema.typeLength.getD i 0).toNat) :
    getRecordSize schema ≤ 2147483647 →
    ∀ i : Nat, (i : Int) < schema.numAttr →
      ∃ w, getAttr (setAttrs schema v order record) schema (i : Int) = (RC.RC_OK, some w)
        ∧ w.dt = schema.dataTypes.getD i DataType.DT_INT
        ∧ w.sameAs (schema.typeLength.getD i 0).toNat (v i) := by
  intro _ i hi
  have hord : ∀ j ∈ order, (j : Int) < schema.numAttr := by
    intro j hj
    have := List.mem_range.mp (hperm.mem_iff.mp hj)
    omega
  have hmem : i ∈ order := hperm.mem_iff.mpr (List.mem_range.mpr (by omega))
  exact (setAttrs_spec schema hL v hv record hR order hord).2 i hmem

theorem mixedSchema_typeLength_nonneg : ∀ i, 0 ≤ mixedSchema.typeLength.getD i 0 := by
  intro i
  show 0 ≤ ([0, 5, 0, 0] : List Int).getD i 0
  rcases i with _ | _ | _ | _ | _ | i <;> simp

theorem mixedValues_fit : ∀ i : Nat, (i : Int) < mixedSchema.numAttr →
    (mixedValues i).fits (mixedSchema.dataTypes.getD i DataType.DT_INT)
      (mixedSchema.typeLength.getD i 0).toNat := by
  intro i hi
  have h4 : i < 4 := by
    have : mixedSchema.numAttr = 4 := rfl
    omega
  interval_cases i <;> decide

/-- C19 on the schema `(a : INT, b : STRING(5), c : FLOAT, d : BOOL)`: the
attributes are set in the order `c, a, d, b` on a zeroed record; attribute `b`
reads back as the string it was given. -/
theorem C19_witness :
    getRecordSize mixedSchema = 16
    ∧ ∃ w, getAttr (setAttrs mixedSchema mixedValues [2, 0, 3, 1] (zeroRecord 16)) mixedSchema
          ((1 : Nat) : Int) = (RC.RC_OK, some w)
        ∧ w.dt = mixedSchema.dataTypes.getD 1 DataType.DT_INT
        ∧ w.sameAs (mixedSchema.typeLength.getD 1 0).toNat (mixedValues 1) :=
  ⟨by decide,
    C19_attr_round_trip mixedSchema (zeroRecord 16) mixedValues [2, 0, 3, 1]
      mixedSchema_typeLength_nonneg (by decide) (by decide) mixedValues_fit (by decide)
      1 (by decide)⟩

/-! ## A page pinned, worked on and unpinned (the pattern of the record manager) -/

theorem PoolInv.of_data {PS : Nat} {bp : Bufferpool} (h : PoolInv PS bp) (m : List Nat)
    (hm : m.length = bp.pagedata.length) : PoolInv PS { bp with pagedata := m } :=
  { total_pos := h.total_pos, free_le := h.free_le, len_dirty := h.len_dirty,
    len_fix := h.len_fix, len_data := by rw [← h.len_data]; exact hm,
    pagenum_drop := h.pagenum_drop, order_drop := h.order_drop,
    len_pagenum := h.len_pagenum, len_order := h.len_order, used_nonneg := h.used_nonneg,
    nodup := h.nodup, perm := h.perm, fix_nonneg := h.fix_nonneg, fix_unused := h.fix_unused,
    dirty_unused := h.dirty_unused }

/-- With no frame pinned, `pinPage` under FIFO or LRU succeeds: it returns
`RC_OK`, the handle points at a frame `i` that now holds the page, and that
frame is the only pinned one. -/
theorem pinPage_unpinned {PS : Nat} {bp : Bufferpool} (h : PoolInv PS bp)
    (hfix : ∀ k, bp.fix_count.getD k 0 = 0)
    (hst : bp.updatedStrategy = ReplacementStrategy.RS_FIFO
      ∨ bp.updatedStrategy = ReplacementStrategy.RS_LRU)
    (page : BM_PageHandle) (p : Int) :
    ∃ i, i < bp.totalPages
      ∧ (pinPage PS bp page p).1 = RC.RC_OK
      ∧ (pinPage PS bp page p).2.2 = { pageNum := p, data := some (i * PS) }
      ∧ (pinPage PS bp page p).2.1.pagenum.getD i 0 = p
      ∧ (pinPage PS bp page p).2.1.fix_count = bp.fix_count.set i 1
      ∧ (pinPage PS bp page p).2.1.totalPages = bp.totalPages
      ∧ (pinPage PS bp page p).2.1.updatedStrategy = bp.updatedStrategy := by
  by_cases hm : p ∈ usedPages bp
  · obtain ⟨i, hi, hx⟩ := (h.mem_usedPages p).mp hm
    obtain ⟨h1, h2, h3, h4, _, _, _, h8, _, h10, _, _⟩ := pinPage_hit_fields h page p i hi hx
    have hle := h.usedFrames_le
    refine ⟨i, by omega, h1, h2, by rw [h4]; exact hx, ?_, h8, h10⟩
    rw [h3, hfix i]; rfl
  · have hok : (pinPage PS bp page p).1 = RC.RC_OK := by
      by_cases hf : 0 < bp.free_space
      · rw [pinPage_empty h page p hm hf]; rfl
      · have hf0 : bp.free_space = 0 := by omega
        rw [pinPage_evict h page p hm hf0]
        obtain ⟨j, i, hj, hi⟩ := h.evict_choice hf0 ⟨0, h.total_pos, hfix 0⟩
        rw [pinPageEvict_found page p j i hst h.len_order hj hi]
    obtain ⟨i, hi, hfi, _, h4, h5, h6, _, _, _, h10, h11, _⟩ :=
      pinPage_miss_fields h page p hm hok
    refine ⟨i, hi, hok, h4, ?_, ?_, h10, h11⟩
    · rw [h6, getD_set_int, if_pos ⟨rfl, by rw [h.len_pagenum]; exact hi⟩]
    · rw [h5, hfi]; rfl

/-- `markDirty` of a page held by frame `i`. -/
theorem markDirty_at {PS : Nat} {bp : Bufferpool} (h : PoolInv PS bp) (page : BM_PageHandle)
    (i : Nat) (hi : i < bp.totalPages) (hx : bp.pagenum.getD i 0 = page.pageNum)
    (hp : 0 ≤ page.pageNum) :
    (markDirty bp page).1 = RC.RC_OK
      ∧ (markDirty bp page).2.pagedata = bp.pagedata
      ∧ (markDirty bp page).2.pagenum = bp.pagenum
      ∧ (markDirty bp page).2.fix_count = bp.fix_count
      ∧ (markDirty bp page).2.totalPages = bp.totalPages
      ∧ (markDirty bp page).2.updatedStrategy = bp.updatedStrategy
      ∧ (markDirty bp page).2.fhl = bp.fhl
      ∧ (markDirty bp page).2.bitdirty.getD i false = true := by
  have hne : page.pageNum ≠ NO_PAGE := by unfold NO_PAGE; omega
  have hs := h.fullSearch_some page.pageNum hne i hi hx
  unfold markDirty
  rw [hs]
  dsimp only
  split
  · refine ⟨rfl, rfl, rfl, rfl, rfl, rfl, rfl, ?_⟩
    rw [getD_set_bool, if_pos ⟨rfl, by rw [h.len_dirty]; exact hi⟩]
  · rename_i hd
    refine ⟨rfl, rfl, rfl, rfl, rfl, rfl, rfl, ?_⟩
    simpa [-List.getD_eq_getElem?_getD] using hd

/-- `unpinPage` of a page held by the pinned frame `i`. -/
theorem unpinPage_at {PS : Nat} {bp : Bufferpool} (h : PoolInv PS bp) (page : BM_PageHandle)
    (i : Nat) (hi : i < bp.totalPages) (hx : bp.pagenum.getD i 0 = page.pageNum)
    (hp : 0 ≤ page.pageNum) (hfix : 0 < bp.fix_count.getD i 0) :
    unpinPage bp page
      = (RC.RC_OK, { bp with fix_count := bp.fix_count.set i (bp.fix_count.getD i 0 - 1) }) := by
  have hne : page.pageNum ≠ NO_PAGE := by unfold NO_PAGE; omega
  have hs := h.fullSearch_some page.pageNum hne i hi hx
  unfold unpinPage
  rw [hs]
  dsimp only
  rw [if_pos hfix]

/-! ## The table invariant -/

theorem initBufferPool_fields (PS : Nat) (pageFile : Option (List Nat)) (numPages : Int)
    (strategy : ReplacementStrategy) (bp : Bufferpool)
    (h : initBufferPool PS pageFile numPages strategy = (RC.RC_OK, some bp)) :
    (∀ k, bp.fix_count.getD k 0 = 0) ∧ bp.updatedStrategy = strategy := by
  unfold initBufferPool at h
  split at h
  · simp at h
  · split at h
    · simp only [Prod.mk.injEq, Option.some.injEq, true_and] at h
      subst h
      refine ⟨?_, rfl⟩
      intro k
      simp only [List.getD_eq_getElem?_getD, List.getElem?_replicate]
      split <;> rfl
    · rename_i rcode x hx
      simp only [Prod.mk.injEq] at h
      exact absurd h.2 (by simp)

theorem markDirty_status (bp : Bufferpool) (page : BM_PageHandle) :
    (markDirty bp page).1 = RC.RC_OK := by
  unfold markDirty
  split
  · split <;> rfl
  · rfl

theorem unpinPage_status (bp : Bufferpool) (page : BM_PageHandle) :
    (unpinPage bp page).1 = RC.RC_OK := by
  unfold unpinPage
  split
  · split <;> rfl
  · rfl

/-- The pattern of every record call: the page is pinned, the frame memory is
replaced by `m` (the call's stores), the page is optionally marked dirty and
then unpinned.  The pin returns `RC_OK`, and after the unpin the pool is again
well formed with no frame pinned and holds the memory `m`. -/
theorem pin_work_unpin {PS : Nat} {bp : Bufferpool} (h : PoolInv PS bp)
    (hfix : ∀ k, bp.fix_count.getD k 0 = 0)
    (hst : bp.updatedStrategy = ReplacementStrategy.RS_FIFO)
    (page : BM_PageHandle) (p : Int) (hp : 0 ≤ p) :
    ∃ i, i < bp.totalPages
      ∧ (pinPage PS bp page p).1 = RC.RC_OK
      ∧ (pinPage PS bp page p).2.2 = { pageNum := p, data := some (i * PS) }
      ∧ (pinPage PS bp page p).2.1.pagenum.getD i 0 = p
      ∧ (∀ (m : List Nat) (b : Bufferpool),
          m.length = (pinPage PS bp page p).2.1.pagedata.length →
          (b = { (pinPage PS bp page p).2.1 with pagedata := m }
            ∨ b = (markDirty { (pinPage PS bp page p).2.1 with pagedata := m }
                (pinPage PS bp page p).2.2).2) →
          PoolInv PS (unpinPage b (pinPage PS bp page p).2.2).2
          ∧ (∀ k, (unpinPage b (pinPage PS bp page p).2.2).2.fix_count.getD k 0 = 0)
          ∧ (unpinPage b (pinPage PS bp page p).2.2).2.updatedStrategy
              = ReplacementStrategy.RS_FIFO
          ∧ (unpinPage b (pinPage PS bp page p).2.2).2.pagedata = m
          ∧ (unpinPage b (pinPage PS bp page p).2.2).2.pagenum
              = (pinPage PS bp page p).2.1.pagenum
          ∧ (unpinPage b (pinPage PS bp page p).2.2).2.totalPages = bp.totalPages) := by
  obtain ⟨i, hi, h1, h2, h3, h4, h5, h6⟩ := pinPage_unpinned h hfix (Or.inl hst) page p
  have hinv1 : PoolInv PS (pinPage PS bp page p).2.1 := pinPage_inv h page p hp
  refine ⟨i, hi, h1, h2, h3, ?_⟩
  have hfix1 : (bp.fix_count.set i 1).getD i 0 = 1 := by
    rw [getD_set_int, if_pos ⟨rfl, by rw [h.len_fix]; exact hi⟩]
  have hzero : ∀ k, ((bp.fix_count.set i 1).set i ((bp.fix_count.set i 1).getD i 0 - 1)).getD k 0
      = 0 := by
    intro k
    rw [hfix1, getD_set_int]
    split
    · rfl
    · rw [getD_set_int]
      split
      · rename_i hc1 hc2
        exact absurd ⟨hc2.1, by simpa using hc2.2⟩ hc1
      · exact hfix k
  intro m b hm hb
  have hinv2 : PoolInv PS { (pinPage PS bp page p).2.1 with pagedata := m } := hinv1.of_data m hm
  have hi' : i < ({ (pinPage PS bp page p).2.1 with pagedata := m } : Bufferpool).totalPages := by
    show i < (pinPage PS bp page p).2.1.totalPages
    rw [h5]; exact hi
  obtain ⟨_, d2, d3, d4, d5, d6, _, _⟩ :=
    markDirty_at hinv2 { pageNum := p, data := some (i * PS) } i hi' h3 hp
  have hinv3 := markDirty_inv hinv2 { pageNum := p, data := some (i * PS) } hp
  rw [h2]
  rcases hb with hb | hb
  · subst hb
    have hu := unpinPage_at hinv2 { pageNum := p, data := some (i * PS) } i hi' h3 hp
      (by show 0 < (pinPage PS bp page p).2.1.fix_count.getD i 0; rw [h4, hfix1]; decide)
    rw [hu]
    refine ⟨?_, ?_, ?_, rfl, rfl, h5⟩
    · rw [← hu]; exact unpinPage_inv hinv2 _
    · intro k
      show ((pinPage PS bp page p).2.1.fix_count.set i
        ((pinPage PS bp page p).2.1.fix_count.getD i 0 - 1)).getD k 0 = 0
      rw [h4]; exact hzero k
    · show (pinPage PS bp page p).2.1.updatedStrategy = _
      rw [h6, hst]
  · rw [h2] at hb
    subst hb
    have hi'' : i < (markDirty { (pinPage PS bp page p).2.1 with pagedata := m }
        { pageNum := p, data := some (i * PS) }).2.totalPages := by rw [d5]; exact hi'
    have hu := unpinPage_at hinv3 { pageNum := p, data := some (i * PS) } i hi''
      (by rw [d3]; exact h3) hp
      (by rw [d4]; show 0 < (pinPage PS bp page p).2.1.fix_count.getD i 0
          rw [h4, hfix1]; decide)
    rw [hu]
    refine ⟨?_, ?_, ?_, d2, d3, ?_⟩
    · rw [← hu]; exact unpinPage_inv hinv3 _
    · intro k
      show ((markDirty _ _).2.fix_count.set i ((markDirty _ _).2.fix_count.getD i 0 - 1)).getD k 0
        = 0
      rw [d4]
      show ((pinPage PS bp page p).2.1.fix_count.set i
        ((pinPage PS bp page p).2.1.fix_count.getD i 0 - 1)).getD k 0 = 0
      rw [h4]; exact hzero k
    · show (markDirty _ _).2.updatedStrategy = _
      rw [d6]
      show (pinPage PS bp page p).2.1.updatedStrategy = _
      rw [h6, hst]
    · show (markDirty _ _).2.totalPages = _
      rw [d5]
      exact h5

/-! ## The record calls on a table that satisfies the invariant -/

theorem length_writeInt (mem : List Nat) (off : Nat) (n : Int) :
    (writeInt mem off n).length = mem.length := length_memcpy _ _ _

theorem length_insertHeader (PS : Nat) (mem : List Nat) (page : Nat) (pageNum recSize : Int) :
    (insertHeader PS mem page pageNum recSize).length = mem.length := by
  unfold insertHeader
  split <;> simp only [length_writeInt, List.length_set]

theorem getD_memcpy_of_lt (mem : List Nat) (off : Nat) (src : List Nat) (k : Nat) (h : k < off) :
    (memcpy mem off src).getD k 0 = mem.getD k 0 := by
  rw [List.getD_eq_getElem?_getD, List.getD_eq_getElem?_getD, getElem?_memcpy,
    if_neg (by omega)]

theorem getD_memcpy_of_ge (mem : List Nat) (off : Nat) (src : List Nat) (k : Nat)
    (h : off + src.length ≤ k) : (memcpy mem off src).getD k 0 = mem.getD k 0 := by
  rw [List.getD_eq_getElem?_getD, List.getD_eq_getElem?_getD, getElem?_memcpy,
    if_neg (by omega)]

/-- A slot of a page lies behind the page header and, with its occupancy byte,
body and terminator, inside the frame that holds the page. -/
theorem slot_in_frame (PS : Nat) (recSize slot : Int) (i total : Nat) (hrec : 0 ≤ recSize)
    (h0 : 0 ≤ slot) (h1 : slot < slotsPerPage PS recSize) (hi : i < total) :
    i * PS + 32 ≤ slotAddress (i * PS) recSize slot
      ∧ slotAddress (i * PS) recSize slot + 1 + recSize.toNat + 1 ≤ total * PS := by
  unfold slotsPerPage at h1
  unfold slotAddress
  have hst : (0 : Int) < recSize + 2 := by omega
  have h2 : (slot + 1) * (recSize + 2)
      ≤ ((PS : Int) - (sizeofPageHeader : Int)) / (recSize + 2) * (recSize + 2) :=
    mul_le_mul_of_nonneg_right (by omega) (le_of_lt hst)
  have h3 := Int.ediv_mul_le ((PS : Int) - (sizeofPageHeader : Int)) (ne_of_gt hst)
  have h4 : (slot + 1) * (recSize + 2) = slot * (recSize + 2) + (recSize + 2) := by ring
  have h5 : 0 ≤ slot * (recSize + 2) := mul_nonneg h0 (le_of_lt hst)
  have h6 : (i + 1) * PS ≤ total * PS := Nat.mul_le_mul_right _ (by omega)
  have h7 : (i + 1) * PS = i * PS + PS := by ring
  have h8 : (sizeofPageHeader : Int) = 32 := rfl
  have h9 : ((i * PS : Nat) : Int) = (i : Int) * (PS : Int) := by push_cast; ring
  generalize slot * (recSize + 2) = X at *
  generalize i * PS = Y at *
  generalize total * PS = Z at *
  omega

/-- `getRecord` on a table that satisfies the invariant, for a slot number
below the slot count: the page is pinned and unpinned, and the result is
decided by the occupancy byte. -/
theorem getRecord_eq {PS : Nat} {rel : RM_TableData} (h : TableInv PS rel) (id : RID)
    (record : Record) (hs : id.slot < slotsPerPage PS rel.mgmtData.recSize) :
    getRecord PS rel id record
      = (if slotByte PS rel id ≠ 89 then RC.RC_RECORD_NOT_FOUND
          else (unpinPage
            (pinPage PS rel.mgmtData.bufferManagerPtr rel.mgmtData.pageHandlePtr id.page).2.1
            (pinPage PS rel.mgmtData.bufferManagerPtr rel.mgmtData.pageHandlePtr id.page).2.2).1,
        { rel with mgmtData :=
          { rel.mgmtData with
            bufferManagerPtr := pinUnpinPool PS rel id.page
            pageHandlePtr :=
              (pinPage PS rel.mgmtData.bufferManagerPtr rel.mgmtData.pageHandlePtr id.page).2.2 } },
        if slotByte PS rel id ≠ 89 then record
        else
          { id := id
            data := memcpy record.data 0
              (bytesAt
                (pinPage PS rel.mgmtData.bufferManagerPtr rel.mgmtData.pageHandlePtr
                  id.page).2.1.pagedata
                (slotAddress
                  ((pinPage PS rel.mgmtData.bufferManagerPtr rel.mgmtData.pageHandlePtr
                    id.page).2.2.data.getD 0) rel.mgmtData.recSize id.slot + 1)
                rel.mgmtData.recSize.toNat) }) := by
  obtain ⟨i, _, hok, _⟩ := pinPage_unpinned h.pool h.unpinned (Or.inl h.fifo)
    rel.mgmtData.pageHandlePtr id.page
  unfold getRecord
  rw [if_neg (by omega)]
  simp only [hok, ne_eq, not_true_eq_false, if_false]
  by_cases hb : slotByte PS rel id = 89
  · have hb' := hb
    unfold slotByte at hb'
    simp only [hb, hb', not_true_eq_false, if_false, pinUnpinPool]
  · have hb' := hb
    unfold slotByte at hb'
    simp only [hb, hb', not_false_eq_true, if_true, pinUnpinPool]

/-- The table keeps its invariant when its pool is replaced by the pool at the
end of a pin / work / unpin section. -/
theorem TableInv.after_section {PS : Nat} {rel : RM_TableData} (h : TableInv PS rel) (p : Int)
    (hp : 0 ≤ p) (m : List Nat) (b : Bufferpool) (t : TableManager)
    (hm : m.length
      = (pinPage PS rel.mgmtData.bufferManagerPtr rel.mgmtData.pageHandlePtr p).2.1.pagedata.length)
    (hb : b = { (pinPage PS rel.mgmtData.bufferManagerPtr rel.mgmtData.pageHandlePtr p).2.1 with
          pagedata := m }
      ∨ b = (markDirty
          { (pinPage PS rel.mgmtData.bufferManagerPtr rel.mgmtData.pageHandlePtr p).2.1 with
            pagedata := m }
          (pinPage PS rel.mgmtData.bufferManagerPtr rel.mgmtData.pageHandlePtr p).2.2).2)
    (ht : t.bufferManagerPtr
      = (unpinPage b
          (pinPage PS rel.mgmtData.bufferManagerPtr rel.mgmtData.pageHandlePtr p).2.2).2)
    (hf : 0 ≤ t.firstFreePageNum) : TableInv PS { rel with mgmtData := t } := by
  obtain ⟨i, _, _, _, _, hsec⟩ := pin_work_unpin h.pool h.unpinned h.fifo
    rel.mgmtData.pageHandlePtr p hp
  obtain ⟨b1, b2, b3, _⟩ := hsec m b hm hb
  refine { pool := ?_, unpinned := ?_, fifo := ?_, freePage := hf }
  · show PoolInv PS t.bufferManagerPtr
    rw [ht]; exact b1
  · show ∀ k, t.bufferManagerPtr.fix_count.getD k 0 = 0
    rw [ht]; exact b2
  · show t.bufferManagerPtr.updatedStrategy = _
    rw [ht]; exact b3

theorem getRecord_inv {PS : Nat} {rel : RM_TableData} (h : TableInv PS rel) (id : RID)
    (record : Record) (hp : 0 ≤ id.page) : TableInv PS (getRecord PS rel id record).2.1 := by
  by_cases hs : id.slot < slotsPerPage PS rel.mgmtData.recSize
  · rw [getRecord_eq h id record hs]
    exact h.after_section id.page hp _ _ _ rfl (Or.inl rfl) rfl h.freePage
  · unfold getRecord
    rw [if_pos (by omega)]
    exact h

theorem updateRecord_inv {PS : Nat} {rel : RM_TableData} (h : TableInv PS rel) (record : Record)
    (hp : 0 ≤ record.id.page) : TableInv PS (updateRecord PS rel record).2 := by
  obtain ⟨i, _, hok, _⟩ := pinPage_unpinned h.pool h.unpinned (Or.inl h.fifo)
    rel.mgmtData.pageHandlePtr record.id.page
  unfold updateRecord
  simp only [hok, ne_eq, not_true_eq_false, if_false, markDirty_status, unpinPage_status,
    or_self]
  split
  · exact h
  · split
    · exact h.after_section record.id.page hp _ _ _ rfl (Or.inl rfl) rfl h.freePage
    · exact h.after_section record.id.page hp _ _ _ (length_memcpy _ _ _) (Or.inr rfl) rfl h.freePage

theorem insertRecord_inv {PS : Nat} {rel : RM_TableData} (h : TableInv PS rel) (record : Record) :
    TableInv PS (insertRecord PS rel record).2.1 := by
  obtain ⟨i, _, hok, _⟩ := pinPage_unpinned h.pool h.unpinned (Or.inl h.fifo)
    rel.mgmtData.pageHandlePtr rel.mgmtData.firstFreePageNum
  unfold insertRecord
  simp only [hok, ne_eq, not_true_eq_false, if_false, markDirty_status, unpinPage_status,
    and_self, if_true]
  refine h.after_section rel.mgmtData.firstFreePageNum h.freePage _ _ _
    (by simp only [List.length_set, length_memcpy, length_insertHeader]) (Or.inr rfl) rfl ?_
  have := h.freePage
  dsimp only
  split <;> omega

theorem openTable_inv (PS : Nat) (tableFile : Option (List Nat)) (rel : RM_TableData)
    (h : openTable PS tableFile = (RC.RC_OK, some rel))
    (hfree : 0 ≤ rel.mgmtData.firstFreePageNum) : TableInv PS rel := by
  unfold openTable at h
  split at h
  · rename_i bufferManager hinit
    have hinv := initBufferPool_inv PS _ _ _ _ hinit
    obtain ⟨hfix, hst⟩ := initBufferPool_fields PS _ _ _ _ hinit
    obtain ⟨i, _, hok, _, _, hb⟩ := pin_work_unpin hinv hfix hst
      { pageNum := 0, data := none } 0 (le_refl _)
    obtain ⟨b2, b3, b4, _⟩ := hb _ _ rfl (Or.inl rfl)
    dsimp only at h
    rw [if_neg (by rw [hok]; simp), if_neg (by rw [unpinPage_status]; simp)] at h
    simp only [Prod.mk.injEq, Option.some.injEq, true_and] at h
    subst h
    exact { pool := b2, unpinned := b3, fifo := b4, freePage := hfree }
  · rename_i rcode x hx
    simp only [Prod.mk.injEq] at h
    exact absurd h.2 (by simp)

/-- `updateRecord` on a table that satisfies the invariant, for a slot number
below the slot count. -/
theorem updateRecord_eq {PS : Nat} {rel : RM_TableData} (h : TableInv PS rel) (record : Record)
    (hs : record.id.slot < slotsPerPage PS rel.mgmtData.recSize) :
    updateRecord PS rel record
      = if slotByte PS rel record.id ≠ 89 then
          (RC.RC_RECORD_NOT_FOUND,
            { rel with mgmtData :=
              { rel.mgmtData with
                bufferManagerPtr := pinUnpinPool PS rel record.id.page
                pageHandlePtr := (pinPage PS rel.mgmtData.bufferManagerPtr
                  rel.mgmtData.pageHandlePtr record.id.page).2.2 } })
        else
          (RC.RC_OK,
            { rel with mgmtData :=
              { rel.mgmtData with
                bufferManagerPtr :=
                  (unpinPage
                    (markDirty
                      { (pinPage PS rel.mgmtData.bufferManagerPtr rel.mgmtData.pageHandlePtr
                          record.id.page).2.1 with
                        pagedata :=
                          memcpy (pinPage PS rel.mgmtData.bufferManagerPtr
                              rel.mgmtData.pageHandlePtr record.id.page).2.1.pagedata
                            (slotAddress ((pinPage PS rel.mgmtData.bufferManagerPtr
                              rel.mgmtData.pageHandlePtr record.id.page).2.2.data.getD 0)
                              rel.mgmtData.recSize record.id.slot + 1)
                            (record.data.take rel.mgmtData.recSize.toNat) }
                      (pinPage PS rel.mgmtData.bufferManagerPtr rel.mgmtData.pageHandlePtr
                        record.id.page).2.2).2
                    (pinPage PS rel.mgmtData.bufferManagerPtr rel.mgmtData.pageHandlePtr
                      record.id.page).2.2).2
                pageHandlePtr := (pinPage PS rel.mgmtData.bufferManagerPtr
                  rel.mgmtData.pageHandlePtr record.id.page).2.2 } }) := by
  obtain ⟨i, _, hok, _⟩ := pinPage_unpinned h.pool h.unpinned (Or.inl h.fifo)
    rel.mgmtData.pageHandlePtr record.id.page
  unfold updateRecord
  rw [if_neg (by omega)]
  simp only [hok, ne_eq, not_true_eq_false, if_false, markDirty_status, unpinPage_status,
    or_self]
  by_cases hb : slotByte PS rel record.id = 89
  · have hb' := hb
    unfold slotByte at hb'
    simp only [hb, hb', not_true_eq_false, if_false]
  · have hb' := hb
    unfold slotByte at hb'
    simp only [hb, hb', not_false_eq_true, if_true, pinUnpinPool]

/-- After a pin / work / unpin section on page `p` that left the memory `m`,
the next `pinPage(p)` is a hit on the same frame and shows `m`. -/
theorem pin_again {PS : Nat} {bp : Bufferpool} (h : PoolInv PS bp)
    (hfix : ∀ k, bp.fix_count.getD k 0 = 0)
    (hst : bp.updatedStrategy = ReplacementStrategy.RS_FIFO)
    (page : BM_PageHandle) (p : Int) (hp : 0 ≤ p) :
    ∃ i, i < bp.totalPages
      ∧ (pinPage PS bp page p).2.2 = { pageNum := p, data := some (i * PS) }
      ∧ (pinPage PS bp page p).2.1.pagedata.length = bp.totalPages * PS
      ∧ (∀ (m : List Nat) (b : Bufferpool) (page2 : BM_PageHandle),
          m.length = (pinPage PS bp page p).2.1.pagedata.length →
          (b = { (pinPage PS bp page p).2.1 with pagedata := m }
            ∨ b = (markDirty { (pinPage PS bp page p).2.1 with pagedata := m }
                (pinPage PS bp page p).2.2).2) →
          (pinPage PS (unpinPage b (pinPage PS bp page p).2.2).2 page2 p).2.2
              = { pageNum := p, data := some (i * PS) }
          ∧ (pinPage PS (unpinPage b (pinPage PS bp page p).2.2).2 page2 p).2.1.pagedata = m) := by
  obtain ⟨i, hi, _, h2, h3, hsec⟩ := pin_work_unpin h hfix hst page p hp
  have hinv1 : PoolInv PS (pinPage PS bp page p).2.1 := pinPage_inv h page p hp
  have ht1 : (pinPage PS bp page p).2.1.totalPages = bp.totalPages :=
    (pinPage_pagenum h page p).1
  refine ⟨i, hi, h2, by rw [hinv1.len_data, ht1], ?_⟩
  intro m b page2 hm hb
  obtain ⟨b1, _, _, b4, b5, b6⟩ := hsec m b hm hb
  have hne : (unpinPage b (pinPage PS bp page p).2.2).2.pagenum.getD i 0 ≠ NO_PAGE := by
    rw [b5, h3]; unfold NO_PAGE; omega
  have hused := b1.used_of_ne i (by rw [b6]; exact hi) hne
  obtain ⟨_, f2, _, _, _, f6, _⟩ :=
    pinPage_hit_fields b1 page2 p i hused (by rw [b5]; exact h3)
  exact ⟨f2, by rw [f6, b4]⟩

theorem unpinPage_keeps (bp : Bufferpool) (page : BM_PageHandle) :
    (unpinPage bp page).2.pagedata = bp.pagedata ∧ (unpinPage bp page).2.fhl = bp.fhl
      ∧ (unpinPage bp page).2.bitdirty = bp.bitdirty := by
  unfold unpinPage
  split
  · split <;> exact ⟨rfl, rfl, rfl⟩
  · exact ⟨rfl, rfl, rfl⟩

theorem getD_set_nat (l : List Nat) (i j : Nat) (v d : Nat) :
    (l.set i v).getD j d = if i = j ∧ j < l.length then v else l.getD j d := by
  simp only [List.getD_eq_getElem?_getD, List.getElem?_set]
  by_cases h : i = j
  · subst h
    by_cases h2 : i < l.length
    · simp [h2]
    · simp [h2, List.getElem?_eq_none (Nat.le_of_not_lt h2)]
  · simp [h]

set_option maxRecDepth 100000 in
/-- C15 (evaluation at the failing input, the defect of C1): on a table with two
slots per page (`PAGE_SIZE` 64, records of 12 bytes) the calls
`insertRecord(r1)`, `deleteRecord((1, 0))`, `insertRecord(r2)`,
`insertRecord(r3)` all return `RC_OK`, and `r3` gets the identifier (1, 2).
That identifier has not been deleted, yet `deleteRecord(rel, (1, 2))` returns
`RC_RECORD_NOT_FOUND` and the tuple count stays at 2. -/
theorem C15_delete_inserted_fails :
    slotsPerPage 64 12 = 2
    ∧ (insertRecord 64 (tableInsDelIns 64 12) (constRecord 12 3)).1 = RC.RC_OK
    ∧ (insertRecord 64 (tableInsDelIns 64 12) (constRecord 12 3)).2.2.id
        = { page := 1, slot := 2 }
    ∧ getNumTuples (tableOverfull 64 12) = 2
    ∧ (deleteRecord 64 (tableOverfull 64 12) { page := 1, slot := 2 }).1
        = RC.RC_RECORD_NOT_FOUND
    ∧ getNumTuples (deleteRecord 64 (tableOverfull 64 12) { page := 1, slot := 2 }).2 = 2 := by
  decide

/-! ## Scans -/

set_option maxRecDepth 100000 in
/-- C18 (evaluation at the failing input): a fresh table whose only attribute
is named `aaaaY` (`PAGE_SIZE` 64, records of 12 bytes) receives one record
`r1` of bytes `1`, which gets the identifier (1, 0).  A scan without condition
is opened: it starts at page `firstDataPageNum = -1`.  The first `next` walks
the slots of page -1 and then page 0, the table header page, finds `'Y'` at
the address of slot 0 and returns `RC_OK` with the identifier (0, 0) and header
bytes as data; the second `next` returns `RC_RM_NO_MORE_TUPLES`.  The record
`r1` is never returned. -/
theorem C18_scan_returns_header_bytes :
    (insertRecord 64 (yNameTable 64) (constRecord 12 1)).1 = RC.RC_OK
    ∧ (insertRecord 64 (yNameTable 64) (constRecord 12 1)).2.2
        = { id := { page := 1, slot := 0 }, data := [1, 1, 1, 1, 1, 1, 1, 1, 1, 1, 1, 1, 1] }
    ∧ getNumTuples (yNameTableOne 64) = 1
    ∧ (startScan (yNameTableOne 64) none).1 = RC.RC_OK
    ∧ (startScan (yNameTableOne 64) none).2.mgmtData.currentPageNum = -1
    ∧ scanResults 64 10 12 2 (startScan (yNameTableOne 64) none).2
        = [(RC.RC_OK, { page := 0, slot := 0 }, [0, 0, 0, 0, 0, 0, 0, 0, 0, 0, 2, 0, 0]),
           (RC.RC_RM_NO_MORE_TUPLES, { page := 0, slot := 0 },
             [0, 0, 0, 0, 0, 0, 0, 0, 0, 0, 0, 0, 0])] := by
  decide

set_option maxRecDepth 100000 in
/-- On the same table with the attribute name `a` (no `'Y'` in the table
header) the scan without condition returns the inserted record and then
`RC_RM_NO_MORE_TUPLES`. -/
theorem scan_one_record :
    scanResults 64 10 12 2 (startScan (tableOne 64) none).2
      = [(RC.RC_OK, { page := 1, slot := 0 }, [1, 1, 1, 1, 1, 1, 1, 1, 1, 1, 1, 1, 0]),
         (RC.RC_RM_NO_MORE_TUPLES, { page := 0, slot := 0 },
           [0, 0, 0, 0, 0, 0, 0, 0, 0, 0, 0, 0, 0])] := by
  decide

/-! ## The record size -/

/-- C21: for every schema with non-negative type lengths whose attribute widths
(INT 4, FLOAT 4, BOOL 1, STRING its type length) sum to `w <= 2147483644`, so
that the sums of the code, made in `size_t` and stored in an `int`, and the
padded size stay in the range of `int`, `getRecordSize` is `w` rounded up to
the next multiple of 4: it is a multiple of 4, lies in `[w, w + 4)`, and is the
only such value. -/
theorem C21_getRecordSize (schema : Schema)
    (hL : ∀ i, 0 ≤ schema.typeLength.getD i 0) :
    widthSum schema schema.numAttr.toNat ≤ 2147483644 →
    getRecordSize schema % 4 = 0 ∧
    widthSum schema schema.numAttr.toNat ≤ getRecordSize schema ∧
    getRecordSize schema < widthSum schema schema.numAttr.toNat + 4 ∧
    ∀ s : Int, s % 4 = 0 → widthSum schema schema.numAttr.toNat ≤ s →
      s < widthSum schema schema.numAttr.toNat + 4 → s = getRecordSize schema := by
  intro _
  have h := recordSizeLoop_widthSum schema schema.numAttr.toNat 0
  simp only [Nat.zero_add] at h
  have h0 : widthSum schema 0 = 0 := rfl
  rw [h0] at h
  have hw := widthSum_nonneg schema hL schema.numAttr.toNat
  have ht : Int.tmod (widthSum schema schema.numAttr.toNat) 4
      = widthSum schema schema.numAttr.toNat % 4 :=
    Int.tmod_eq_emod hw (by decide)
  unfold getRecordSize
  rw [h]
  dsimp only
  rw [ht]
  generalize widthSum schema schema.numAttr.toNat = w at hw
  split
  · refine ⟨by omega, by omega, by omega, ?_⟩
    intro s h1 h2 h3
    omega
  · refine ⟨by omega, by omega, by omega, ?_⟩
    intro s h1 h2 h3
    omega

/-- C21 at the schema (INT, STRING 5, FLOAT, BOOL): the widths sum to 14 and
the record size is 16. -/
theorem C21_witness :
    (∀ i, (0 : Int) ≤ mixedSchema.typeLength.getD i 0) ∧
    widthSum mixedSchema mixedSchema.numAttr.toNat = 14 ∧
    getRecordSize mixedSchema = 16 ∧
    getRecordSize mixedSchema % 4 = 0 ∧
    widthSum mixedSchema mixedSchema.numAttr.toNat ≤ getRecordSize mixedSchema ∧
    getRecordSize mixedSchema < widthSum mixedSchema mixedSchema.numAttr.toNat + 4 ∧
    ∀ s : Int, s % 4 = 0 → widthSum mixedSchema mixedSchema.numAttr.toNat ≤ s →
      s < widthSum mixedSchema mixedSchema.numAttr.toNat + 4 → s = getRecordSize mixedSchema :=
  have hL : ∀ i, (0 : Int) ≤ mixedSchema.typeLength.getD i 0 := by
    intro i
    match i with
    | 0 => decide
    | 1 => decide
    | 2 => decide
    | 3 => decide
    | n + 4 => simp [mixedSchema, List.getD]
  ⟨hL, by decide, by decide, C21_getRecordSize mixedSchema hL (by decide)⟩

/-! ## The page file of the first assignment -/

theorem sstorage_appendEmptyBlock_spec (PAGE_SIZE : Nat) (h : Assign1.SM_FileHandle)
    (file : List Nat) (hname : h.fileName = true) :
    Sstorage.appendEmptyBlock PAGE_SIZE h file
      = (RC.RC_OK,
          { h with totalNumPages := h.totalNumPages + 1, curPagePos := h.totalNumPages },
          file ++ List.replicate PAGE_SIZE 0) := by
  unfold Sstorage.appendEmptyBlock
  rw [if_neg (by simp [hname])]
  congr 3
  omega

theorem storage1_appendEmptyBlock_spec (PAGE_SIZE : Nat) (h : Assign1.SM_FileHandle)
    (file : List Nat) (t : Nat) (hname : h.fileName = true) (hps : 0 < PAGE_SIZE)
    (hfile : file.length = t * PAGE_SIZE) :
    Storage1.appendEmptyBlock PAGE_SIZE h file
      = (RC.RC_OK,
          { h with mgmtInfo := FileStream.opened, totalNumPages := (t : Int) + 1,
                   curPagePos := (t : Int) + 1 },
          file ++ List.replicate PAGE_SIZE 0) := by
  unfold Storage1.appendEmptyBlock
  rw [if_neg (by simp [hname])]
  have hd : (file ++ List.replicate PAGE_SIZE 0).length / PAGE_SIZE = t + 1 := by
    rw [List.length_append, List.length_replicate, hfile]
    rw [show t * PAGE_SIZE + PAGE_SIZE = (t + 1) * PAGE_SIZE by rw [Nat.add_mul, Nat.one_mul]]
    exact Nat.mul_div_cancel _ hps
  simp only [hd]
  rfl

theorem Sstorage.closePageFile_null (h : Assign1.SM_FileHandle) (file : List Nat)
    (hnull : h.mgmtInfo = FileStream.null) :
    Sstorage.closePageFile h file = (RC.RC_FILE_NOT_FOUND, h, file) := by
  unfold Sstorage.closePageFile
  rw [if_neg (by simp [hnull])]

theorem Sstorage.closeTimes_null (k : Nat) (h : Assign1.SM_FileHandle) (file : List Nat)
    (hnull : h.mgmtInfo = FileStream.null) :
    Sstorage.closeTimes k h file = (List.replicate k RC.RC_FILE_NOT_FOUND, h, file) := by
  induction k with
  | zero => rfl
  | succ k ih =>
    simp only [Sstorage.closeTimes, Sstorage.closePageFile_null h file hnull, ih,
      List.replicate_succ]

/-- C24: on a fresh one-page file opened by `openPageFile` (`PAGE_SIZE` 4),
`writeBlock(1, h, b)` with page number `total_pages` returns `RC_OK` and grows
the file to two pages, but leaves `totalNumPages` at 1 (and `mgmtInfo`
pointing to the stream it has closed); the next `readBlock(1, h, out)` returns
`RC_READ_NON_EXISTING_PAGE` and leaves `out` as it was, also when the handle's
stream is an open one. -/
theorem C24_read_after_append_write_fails :
    Sstorage.openPageFile 4 (some (Sstorage.createPageFile 4).2)
      = (RC.RC_OK, some { fileName := true, totalNumPages := 1, curPagePos := 0,
                          mgmtInfo := FileStream.opened }) ∧
    Sstorage.writeBlock 4 1
        { fileName := true, totalNumPages := 1, curPagePos := 0, mgmtInfo := FileStream.opened }
        (Sstorage.createPageFile 4).2 [1, 2, 3, 4]
      = (RC.RC_OK,
          { fileName := true, totalNumPages := 1, curPagePos := 1,
            mgmtInfo := FileStream.closed },
          [0, 0, 0, 0, 1, 2, 3, 4]) ∧
    Sstorage.readBlock 4 1
        { fileName := true, totalNumPages := 1, curPagePos := 1, mgmtInfo := FileStream.closed }
        [0, 0, 0, 0, 1, 2, 3, 4] [9, 9, 9, 9]
      = (RC.RC_READ_NON_EXISTING_PAGE,
          { fileName := true, totalNumPages := 1, curPagePos := 1,
            mgmtInfo := FileStream.closed },
          [9, 9, 9, 9]) ∧
    Sstorage.readBlock 4 1
        { fileName := true, totalNumPages := 1, curPagePos := 1, mgmtInfo := FileStream.opened }
        [0, 0, 0, 0, 1, 2, 3, 4] [9, 9, 9, 9]
      = (RC.RC_READ_NON_EXISTING_PAGE,
          { fileName := true, totalNumPages := 1, curPagePos := 1,
            mgmtInfo := FileStream.opened },
          [9, 9, 9, 9]) := by
  decide

/-- C26: `appendEmptyBlock` of `storage_mgr.c` on a handle opened over a fresh
one-page file (`PAGE_SIZE` 4, so `t = 1`) returns `RC_OK`, appends one page of
zero bytes and sets `totalNumPages` to 2, but sets `curPagePos` to 2, the page
count, not to 1, the index of the new last page; in general the position is
`t + 1` (`storage1_appendEmptyBlock_spec`), while the other implementation,
`sstorage_mgr.c`, sets it to `t` (`sstorage_appendEmptyBlock_spec`). -/
theorem C26_appendEmptyBlock_position :
    Storage1.openPageFile 4 (some [7, 7, 7, 7])
      = (RC.RC_OK, some { fileName := true, totalNumPages := 1, curPagePos := 0,
                          mgmtInfo := FileStream.opened }) ∧
    Storage1.appendEmptyBlock 4
        { fileName := true, totalNumPages := 1, curPagePos := 0, mgmtInfo := FileStream.opened }
        [7, 7, 7, 7]
      = (RC.RC_OK,
          { fileName := true, totalNumPages := 2, curPagePos := 2,
            mgmtInfo := FileStream.opened },
          [7, 7, 7, 7, 0, 0, 0, 0]) ∧
    Sstorage.appendEmptyBlock 4
        { fileName := true, totalNumPages := 1, curPagePos := 0, mgmtInfo := FileStream.opened }
        [7, 7, 7, 7]
      = (RC.RC_OK,
          { fileName := true, totalNumPages := 2, curPagePos := 1,
            mgmtInfo := FileStream.opened },
          [7, 7, 7, 7, 0, 0, 0, 0]) := by
  decide

/-- C27, counterexample: on a handle opened by `openPageFile` the second
`closePageFile` returns `RC_FILE_NOT_FOUND`, not `RC_FILE_HANDLE_NOT_INIT`. -/
theorem C27_counterexample :
    Sstorage.openPageFile 4 (some [0, 0, 0, 0])
      = (RC.RC_OK, some { fileName := true, totalNumPages := 1, curPagePos := 0,
                          mgmtInfo := FileStream.opened }) ∧
    (Sstorage.closeTimes 2
        { fileName := true, totalNumPages := 1, curPagePos := 0, mgmtInfo := FileStream.opened }
        [0, 0, 0, 0]).1 = [RC.RC_OK, RC.RC_FILE_NOT_FOUND] ∧
    RC.RC_FILE_NOT_FOUND ≠ RC.RC_FILE_HANDLE_NOT_INIT := by
  decide

/-- C27, amended: for every handle opened by `openPageFile` of `sstorage_mgr.c`
the first `closePageFile` returns `RC_OK` and sets `mgmtInfo` and `fileName` to
null, and each of the `k` later calls returns `RC_FILE_NOT_FOUND`; the handle
stays as the first call left it and the file is unchanged throughout. -/
theorem C27_close_after_close (PAGE_SIZE : Nat) (file : List Nat)
    (h : Assign1.SM_FileHandle) (k : Nat)
    (hopen : Sstorage.openPageFile PAGE_SIZE (some file) = (RC.RC_OK, some h)) :
    Sstorage.closePageFile h file
      = (RC.RC_OK, { h with mgmtInfo := FileStream.null, fileName := false }, file) ∧
    Sstorage.closeTimes (k + 1) h file
      = (RC.RC_OK :: List.replicate k RC.RC_FILE_NOT_FOUND,
          { h with mgmtInfo := FileStream.null, fileName := false }, file) := by
  have hh : h = { fileName := true, mgmtInfo := FileStream.opened,
                  totalNumPages := ((file.length / PAGE_SIZE : Nat) : Int), curPagePos := 0 } := by
    simp only [Sstorage.openPageFile, Prod.mk.injEq, Option.some.injEq, true_and] at hopen
    exact hopen.symm
  have h1 : Sstorage.closePageFile h file
      = (RC.RC_OK, { h with mgmtInfo := FileStream.null, fileName := false }, file) := by
    unfold Sstorage.closePageFile
    rw [if_pos (by rw [hh]; simp)]
  refine ⟨h1, ?_⟩
  simp only [Sstorage.closeTimes, h1]
  rw [Sstorage.closeTimes_null k _ file rfl]

/-- C27 on a one-page file with `PAGE_SIZE` 4: three calls of `closePageFile`. -/
theorem C27_witness :
    Sstorage.openPageFile 4 (some [0, 0, 0, 0])
      = (RC.RC_OK, some { fileName := true, totalNumPages := 1, curPagePos := 0,
                          mgmtInfo := FileStream.opened }) ∧
    Sstorage.closeTimes 3
        { fileName := true, totalNumPages := 1, curPagePos := 0, mgmtInfo := FileStream.opened }
        [0, 0, 0, 0]
      = ([RC.RC_OK, RC.RC_FILE_NOT_FOUND, RC.RC_FILE_NOT_FOUND],
          { fileName := false, totalNumPages := 1, curPagePos := 0,
            mgmtInfo := FileStream.null },
          [0, 0, 0, 0]) :=
  ⟨by decide,
   (C27_close_after_close 4 [0, 0, 0, 0]
      { fileName := true, totalNumPages := 1, curPagePos := 0, mgmtInfo := FileStream.opened }
      2 (by decide)).2⟩

/-! ## The index -/

theorem getD_set_any {α : Type} (l : List α) (i j : Nat) (v d : α) :
    (l.set i v).getD j d = if i = j ∧ j < l.length then v else l.getD j d := by
  simp only [List.getD_eq_getElem?_getD, List.getElem?_set]
  by_cases h : i = j
  · subst h
    by_cases h2 : i < l.length
    · simp [h2]
    · simp [h2, List.getElem?_eq_none (Nat.le_of_not_lt h2)]
  · simp [h]

theorem createPageFile_ok (PS : Nat) (existing : Option (List Nat)) :
    (createPageFile PS existing).1 = RC.RC_OK := by
  cases existing <;> rfl

/-- `createBtree` with a capacity `n ≥ 0` returns `RC_OK` and the fresh index. -/
theorem createBtree_fresh (PS : Nat) (existing : Option (List Nat)) (n : Nat) :
    createBtree PS existing (n : Int) = (RC.RC_OK, some (freshIndex n)) := by
  unfold createBtree
  rw [if_neg (by omega)]
  simp only [createPageFile_ok, ne_eq, not_true_eq_false, if_false, Int.toNat_ofNat]
  rfl

/-- The binary search of `findKey` exits without a match, within `right -
left + 1` iterations, in a node none of whose slots holds the key. -/
theorem binarySearch_miss (node : BTree) (k : Int) (n : Nat)
    (hk : ∀ i, i < n → node.key.getD i 0 ≠ k) :
    ∀ (f : Nat) (left right : Int), 0 ≤ left → right < n → right - left + 1 ≤ f →
      binarySearch node k f left right = some none := by
  intro f
  induction f with
  | zero =>
    intro left right h0 h1 h2
    simp only [binarySearch]
    rw [if_neg (by omega)]
  | succ f ih =>
    intro left right h0 h1 h2
    simp only [binarySearch]
    by_cases hlr : left ≤ right
    · rw [if_pos hlr]
      have hd : Int.tdiv (right - left) 2 = (right - left) / 2 :=
        Int.tdiv_eq_ediv (by omega) (by decide)
      rw [hd]
      have hm : (left + (right - left) / 2).toNat < n := by omega
      rw [if_neg (hk _ hm)]
      split
      · exact ih _ _ (by omega) h1 (by omega)
      · exact ih _ _ h0 (by omega) (by omega)
    · rw [if_neg hlr]

theorem findKeyLoop_null (st : IndexState) (k : Int) (result : RID) (fuel : Nat) :
    findKeyLoop st k result fuel none = some (RC.RC_IM_KEY_NOT_FOUND, result) := by
  cases fuel <;> rfl

/-- The loop of `findKey` over a chain that ends, none of whose slots holds the key. -/
theorem findKeyLoop_miss (st : IndexState) (k : Int) (result : RID) :
    ∀ (fuel : Nat) (cur : Option Nat) (c : List Nat),
      chainFrom st.heap st.numberOfElementsPerNode fuel cur = some c →
      (∀ p, p ∈ c → ∀ i, i < st.numberOfElementsPerNode →
        (st.heap.getD p default).key.getD i 0 ≠ k) →
      findKeyLoop st k result fuel cur = some (RC.RC_IM_KEY_NOT_FOUND, result) := by
  intro fuel
  induction fuel with
  | zero =>
    intro cur c hc _
    cases cur with
    | none => rfl
    | some p => simp [chainFrom] at hc
  | succ f ih =>
    intro cur c hc hk
    cases cur with
    | none => rfl
    | some p =>
      simp only [chainFrom] at hc
      cases hrest : chainFrom st.heap st.numberOfElementsPerNode f
          ((st.heap.getD p default).next.getD st.numberOfElementsPerNode none) with
      | none => rw [hrest] at hc; simp at hc
      | some c1 =>
        rw [hrest] at hc
        simp only [Option.some.injEq] at hc
        subst hc
        simp only [findKeyLoop]
        rw [binarySearch_miss _ k st.numberOfElementsPerNode
          (hk p (List.mem_cons_self _ _)) _ _ _ (le_refl _) (by omega) (by omega)]
        exact ih _ c1 hrest (fun q hq => hk q (List.mem_cons_of_mem _ hq))

theorem updateNodeMetadataLoop_next (k : Int) :
    ∀ (j i : Nat) (node : BTree), (updateNodeMetadataLoop k j i node).next = node.next := by
  intro j
  induction j with
  | zero => intro i node; rfl
  | succ j ih =>
    intro i node
    simp only [updateNodeMetadataLoop]
    split
    · rw [ih]
    · rw [ih]

theorem rearrangeLoop_next (total : Nat) :
    ∀ (j i shift : Nat) (node : BTree), (rearrangeLoop total j i shift node).next = node.next := by
  intro j
  induction j with
  | zero => intro i shift node; rfl
  | succ j ih =>
    intro i shift node
    simp only [rearrangeLoop]
    split
    · rw [ih]
    · rw [ih]

/-- A set `S` of node pointers that the chain cannot leave: the successor of
each of its nodes is again one of its nodes. -/
theorem deleteLoop_no_exit (n : Nat) (k : Int) (S : Nat → Prop) :
    ∀ (fuel : Nat) (heap : List BTree) (p : Nat),
      (∀ q, S q → ∃ q2, S q2 ∧ (heap.getD q default).next.getD n none = some q2) →
      S p → deleteLoop n k fuel heap (some p) = none := by
  intro fuel
  induction fuel with
  | zero => intro heap p _ _; rfl
  | succ f ih =>
    intro heap p hS hp
    simp only [deleteLoop]
    have hnext : (rearrangeNodeElements (updateNodeMetadataLoop k n 0 (heap.getD p default)) n).next
        = (heap.getD p default).next := by
      unfold rearrangeNodeElements
      rw [rearrangeLoop_next, updateNodeMetadataLoop_next]
    rw [hnext]
    obtain ⟨q2, hq2, hq2n⟩ := hS p hp
    rw [hq2n]
    apply ih _ _ _ hq2
    intro q hq
    obtain ⟨q3, hq3, hq3n⟩ := hS q hq
    refine ⟨q3, hq3, ?_⟩
    rw [getD_set_any]
    split
    · rename_i h
      rw [hnext, h.1]
      exact hq3n
    · exact hq3n

/-- C28: on the fresh index of capacity 3, `insertKey(5, (1,1))` returns
`RC_OK` and stores the key in slot 0 of the root node, whose other slots hold
0; the following `findKey(5)` returns `RC_IM_KEY_NOT_FOUND` and leaves its
result argument untouched, whatever fuel the loops are given. -/
theorem C28_find_after_insert_fails :
    createBtree 4 none 3 = (RC.RC_OK, some (freshIndex 3)) ∧
    insertKey (freshIndex 3) 5 { page := 1, slot := 1 } 2
      = some (RC.RC_OK,
          { numberOfElementsPerNode := 3
            heap := [{ key := [5, 0, 0]
                       id := [{ page := 1, slot := 1 }, { page := 0, slot := 0 },
                              { page := 0, slot := 0 }]
                       next := [none, none, none, none] },
                     initializeNode 3]
            root := some 0
            scan := none
            currentNumOfIndex := 0 }) ∧
    ∀ fuel : Nat,
      findKey
          { numberOfElementsPerNode := 3
            heap := [{ key := [5, 0, 0]
                       id := [{ page := 1, slot := 1 }, { page := 0, slot := 0 },
                              { page := 0, slot := 0 }]
                       next := [none, none, none, none] },
                     initializeNode 3]
            root := some 0
            scan := none
            currentNumOfIndex := 0 }
          5 { page := 9, slot := 9 } (fuel + 1)
        = some (RC.RC_IM_KEY_NOT_FOUND, { page := 9, slot := 9 }) := by
  refine ⟨by decide, by decide, ?_⟩
  intro fuel
  simp only [findKey, findKeyLoop]
  have hb : binarySearch
      { key := [5, 0, 0]
        id := [{ page := 1, slot := 1 }, { page := 0, slot := 0 }, { page := 0, slot := 0 }]
        next := [none, none, none, none] } 5 3 0 ((3 : Nat) - 1 : Int) = some none := by
    decide
  simp only [List.getD_cons_zero, hb]
  exact findKeyLoop_null _ _ _ _

/-- C29, counterexample: on the fresh index of capacity 1, into which no key
has been inserted, `findKey(0)` returns `RC_OK` (with the RID (0, 0)): the
empty slot holds the key 0. -/
theorem C29_counterexample :
    createBtree 4 none 1 = (RC.RC_OK, some (freshIndex 1)) ∧
    findKey (freshIndex 1) 0 { page := 9, slot := 9 } 1
      = some (RC.RC_OK, { page := 0, slot := 0 }) := by
  decide

/-- C29, amended: in every index state whose node chain ends (`chainFrom`
reaches the null pointer within the fuel), for every key `k` that no slot of a
node of the chain holds, `findKey(k)` returns `RC_IM_KEY_NOT_FOUND` and leaves
its result argument untouched. -/
theorem C29_findKey_miss (st : IndexState) (k : Int) (result : RID) (fuel : Nat)
    (c : List Nat)
    (hc : chainFrom st.heap st.numberOfElementsPerNode fuel st.root = some c)
    (hk : ∀ p, p ∈ c → ∀ i, i < st.numberOfElementsPerNode →
      (st.heap.getD p default).key.getD i 0 ≠ k) :
    findKey st k result fuel = some (RC.RC_IM_KEY_NOT_FOUND, result) :=
  findKeyLoop_miss st k result fuel st.root c hc hk

/-- C29 on the index of capacity 2 holding the keys 1, 2, 3 in a chain of two
nodes: `findKey(7)` returns `RC_IM_KEY_NOT_FOUND`. -/
theorem C29_witness :
    insertKeys 3 [1, 2, 3] (freshIndex 2) = some indexThree ∧
    chainFrom indexThree.heap indexThree.numberOfElementsPerNode 2 indexThree.root
      = some [0, 3] ∧
    findKey indexThree 7 { page := 9, slot := 9 } 2
      = some (RC.RC_IM_KEY_NOT_FOUND, { page := 9, slot := 9 }) :=
  ⟨by decide, by decide,
   C29_findKey_miss indexThree 7 { page := 9, slot := 9 } 2 [0, 3] (by decide) (by decide)⟩

/-- C30: on the index of capacity 5, six calls of `insertKey` (keys 1 to 6)
return `RC_OK` and leave a chain in which the second node is its own
successor; in that state `deleteKey` does not return, for any key: its loop
over the chain runs out of every fuel. -/
theorem C30_deleteKey_does_not_return :
    createBtree 4 none 5 = (RC.RC_OK, some (freshIndex 5)) ∧
    insertKeys 2 [1, 2, 3, 4, 5, 6] (freshIndex 5) = some indexSix ∧
    (indexSix.heap.getD 6 default).next.getD 5 none = some 6 ∧
    ∀ (k : Int) (fuel : Nat), deleteKey indexSix k fuel = none := by
  refine ⟨by decide, by decide, by decide, ?_⟩
  intro k fuel
  unfold deleteKey
  have h := deleteLoop_no_exit indexSix.numberOfElementsPerNode k (fun q => q = 0 ∨ q = 6)
    fuel indexSix.heap 0 (by
      intro q hq
      rcases hq with hq | hq
      · subst hq; exact ⟨6, Or.inr rfl, by decide⟩
      · subst hq; exact ⟨6, Or.inr rfl, by decide⟩) (Or.inl rfl)
  have hr : indexSix.root = some 0 := rfl
  rw [hr, h]

/-! ## The page count in the file header: `snprintf` and `atoi` -/

theorem digitChar_toNat (m : Nat) (h : m < 10) :
    48 ≤ (Nat.digitChar m).toNat ∧ (Nat.digitChar m).toNat ≤ 57
      ∧ (Nat.digitChar m).toNat - 48 = m := by
  interval_cases m <;> decide

/-- `atoi`'s digit loop reads back the digits that `%d` prints. -/
theorem atoiDigits_toDigitsCore (rest : List Nat) :
    ∀ (fuel n : Nat) (ds : List Char), n < fuel →
      atoiDigits ((Nat.toDigitsCore 10 fuel n ds).map Char.toNat ++ rest) 0
        = atoiDigits (ds.map Char.toNat ++ rest) n := by
  intro fuel
  induction fuel with
  | zero => intro n ds h; omega
  | succ f ih =>
    intro n ds h
    obtain ⟨d1, d2, d3⟩ := digitChar_toNat (n % 10) (Nat.mod_lt _ (by decide))
    simp only [Nat.toDigitsCore]
    by_cases hz : n / 10 = 0
    · rw [if_pos hz]
      simp only [List.map_cons, List.cons_append, atoiDigits]
      rw [if_pos ⟨d1, d2⟩, d3]
      congr 1
      omega
    · rw [if_neg hz, ih (n / 10) _ (by omega)]
      simp only [List.map_cons, List.cons_append, atoiDigits]
      rw [if_pos ⟨d1, d2⟩, d3]
      congr 1
      omega

theorem toDigitsCore_head :
    ∀ (fuel n : Nat) (ds : List Char), n < fuel →
      ∃ c tl, Nat.toDigitsCore 10 fuel n ds = c :: tl ∧ 48 ≤ c.toNat ∧ c.toNat ≤ 57 := by
  intro fuel
  induction fuel with
  | zero => intro n ds h; omega
  | succ f ih =>
    intro n ds h
    obtain ⟨d1, d2, _⟩ := digitChar_toNat (n % 10) (Nat.mod_lt _ (by decide))
    simp only [Nat.toDigitsCore]
    by_cases hz : n / 10 = 0
    · rw [if_pos hz]
      exact ⟨_, _, rfl, d1, d2⟩
    · rw [if_neg hz]
      exact ih (n / 10) _ (by omega)

theorem atoi_of_digit (c : Nat) (cs : List Nat) (h1 : 48 ≤ c) (h2 : c ≤ 57) :
    atoi (c :: cs) = atoiDigits (c :: cs) 0 := by
  have hs : isspace c = false := by
    unfold isspace
    simp only [Bool.or_eq_false_iff, beq_eq_false_iff_ne, ne_eq, Bool.and_eq_false_iff,
      decide_eq_false_iff_not, not_le]
    omega
  simp only [atoi, hs, Bool.false_eq_true, if_false, atoiSigned]
  rw [if_neg (by omega), if_neg (by omega)]

/-- `atoi` reads back a non-negative number printed by `%d`, whatever follows
the terminating zero byte. -/
theorem atoi_formatInt (t : Int) (ht : 0 ≤ t) (rest : List Nat) :
    atoi (formatInt t ++ 0 :: rest) = t := by
  unfold formatInt
  rw [if_neg (by omega)]
  unfold decimalDigits Nat.toDigits
  obtain ⟨c, tl, hc, h1, h2⟩ := toDigitsCore_head (t.natAbs + 1) t.natAbs [] (by omega)
  have h := atoiDigits_toDigitsCore (0 :: rest) (t.natAbs + 1) t.natAbs [] (by omega)
  rw [hc] at h ⊢
  simp only [List.map_cons, List.cons_append] at h ⊢
  rw [atoi_of_digit _ _ h1 h2, h]
  simp only [List.map_nil, List.nil_append, atoiDigits]
  rw [if_neg (by omega)]
  omega

theorem length_formatInt (t : Int) (ht : 0 ≤ t) (e : Nat) (he : 0 < e)
    (hlt : t < 10 ^ e) : (formatInt t).length ≤ e := by
  unfold formatInt
  rw [if_neg (by omega)]
  unfold decimalDigits
  rw [List.length_map]
  have h := Nat.repr_length t.natAbs e he (by
    have : ((t.natAbs : Nat) : Int) < ((10 ^ e : Nat) : Int) := by
      rw [Int.natAbs_of_nonneg ht]
      push_cast
      exact hlt
    exact_mod_cast this)
  exact h

/-! ## The table header in memory -/

theorem memcpy_append (mem : List Nat) (off : Nat) (a b : List Nat) :
    memcpy (memcpy mem off a) (off + a.length) b = memcpy mem off (a ++ b) := by
  induction a generalizing mem off with
  | nil => rfl
  | cons x a ih =>
    simp only [memcpy, List.cons_append, List.length_cons]
    rw [show off + (a.length + 1) = off + 1 + a.length by omega]
    exact ih _ _

theorem drop_memcpy (mem : List Nat) (off : Nat) (src : List Nat)
    (h : off + src.length ≤ mem.length) :
    (memcpy mem off src).drop off = src ++ mem.drop (off + src.length) := by
  apply List.ext_getElem?
  intro k
  rw [List.getElem?_drop, getElem?_memcpy]
  by_cases hk : k < src.length
  · rw [if_pos (by omega), List.getElem?_append_left hk]
    congr 1; omega
  · rw [if_neg (by omega), List.getElem?_append_right (by omega), List.getElem?_drop]
    congr 1; omega

theorem length_strncpyBytes (src : List Nat) (n : Nat) : (strncpyBytes src n).length = n := by
  unfold strncpyBytes
  rw [List.length_append, List.length_take, List.length_replicate]
  omega

theorem length_attrBytes (S : Schema) : ∀ k i, (attrBytes S k i).length = 23 * k := by
  intro k
  induction k with
  | zero => intro i; rfl
  | succ k ih =>
    intro i
    simp only [attrBytes, List.length_append, length_strncpyBytes, length_encodeInt, ih,
      MAX_ATTR_NAME_LEN]
    omega

theorem length_keyBytes (S : Schema) : ∀ k i, (keyBytes S k i).length = 4 * k := by
  intro k
  induction k with
  | zero => intro i; rfl
  | succ k ih =>
    intro i
    simp only [keyBytes, List.length_append, length_encodeInt, ih]
    omega

theorem length_headerBytes (S : Schema) :
    (headerBytes S).length = 28 + 23 * S.numAttr.toNat + 4 * S.keySize.toNat := by
  simp only [headerBytes, List.length_append, length_encodeInt, length_attrBytes,
    length_keyBytes]

theorem populateAttrs_eq (S : Schema) :
    ∀ (k i : Nat) (mem : List Nat) (ptr : Nat),
      populateAttrs S k i mem ptr = (memcpy mem ptr (attrBytes S k i), ptr + 23 * k) := by
  intro k
  induction k with
  | zero => intro i mem ptr; rfl
  | succ k ih =>
    intro i mem ptr
    simp only [populateAttrs, attrBytes, ih, writeInt]
    have e1 := memcpy_append mem ptr (strncpyBytes (S.attrNames.getD i []) MAX_ATTR_NAME_LEN)
      (encodeInt (S.dataTypes.getD i DataType.DT_INT).toInt)
    rw [length_strncpyBytes] at e1
    rw [e1]
    have e2 := memcpy_append mem ptr
      (strncpyBytes (S.attrNames.getD i []) MAX_ATTR_NAME_LEN
        ++ encodeInt (S.dataTypes.getD i DataType.DT_INT).toInt)
      (encodeInt (S.typeLength.getD i 0))
    rw [List.length_append, length_strncpyBytes, length_encodeInt] at e2
    rw [show ptr + MAX_ATTR_NAME_LEN + 4 = ptr + (MAX_ATTR_NAME_LEN + 4) by omega, e2]
    have e3 := memcpy_append mem ptr
      (strncpyBytes (S.attrNames.getD i []) MAX_ATTR_NAME_LEN
        ++ encodeInt (S.dataTypes.getD i DataType.DT_INT).toInt
        ++ encodeInt (S.typeLength.getD i 0))
      (attrBytes S k (i + 1))
    rw [List.length_append, List.length_append, length_strncpyBytes, length_encodeInt,
      length_encodeInt] at e3
    rw [show ptr + (MAX_ATTR_NAME_LEN + 4) + 4 = ptr + (MAX_ATTR_NAME_LEN + 4 + 4) by omega, e3]
    simp only [MAX_ATTR_NAME_LEN, Prod.mk.injEq, true_and]
    omega

theorem populateKeys_eq (S : Schema) :
    ∀ (k i : Nat) (mem : List Nat) (ptr : Nat),
      populateKeys S k i mem ptr = (memcpy mem ptr (keyBytes S k i), ptr + 4 * k) := by
  intro k
  induction k with
  | zero => intro i mem ptr; rfl
  | succ k ih =>
    intro i mem ptr
    simp only [populateKeys, keyBytes, ih, writeInt]
    have e1 := memcpy_append mem ptr (encodeInt (S.keyAttrs.getD i 0)) (keyBytes S k (i + 1))
    rw [length_encodeInt] at e1
    rw [e1]
    simp only [Prod.mk.injEq, true_and]
    omega

/-- `prepareTableHeader` stores the serialised header at `ptr`. -/
theorem prepareTableHeader_eq (mem : List Nat) (ptr : Nat) (S : Schema) :
    prepareTableHeader mem ptr S = memcpy mem ptr (headerBytes S) := by
  unfold prepareTableHeader populateSchemaDetails headerBytes
  simp only [populateAttrs_eq, populateKeys_eq, writeInt]
  simp only [← memcpy_append, List.length_append, length_encodeInt, length_attrBytes,
    Nat.reduceAdd, Nat.add_assoc]

theorem readInt_of_drop (mem : List Nat) (off : Nat) (n : Int) (rest : List Nat)
    (h : mem.drop off = encodeInt n ++ rest) (hn : isInt32 n) : readInt mem off = n := by
  unfold readInt bytesAt
  rw [h, List.take_left' (length_encodeInt n)]
  exact decodeInt_encodeInt n hn.1 hn.2

theorem drop_add_of_drop (mem : List Nat) (ptr : Nat) (a rest : List Nat) (n : Nat)
    (h : mem.drop ptr = a ++ rest) (hn : a.length = n) : mem.drop (ptr + n) = rest := by
  have h2 : (mem.drop ptr).drop n = rest := by
    rw [h, ← hn, List.drop_left]
  rw [List.drop_drop] at h2
  rw [← h2]

theorem takeWhile_stop (t r : List Nat) (ht : 0 ∉ t) :
    (t ++ 0 :: r).takeWhile (fun c => c != 0) = t := by
  induction t with
  | nil => simp [List.takeWhile]
  | cons a t ih =>
    have ha : a ≠ 0 := fun hc => ht (hc ▸ List.mem_cons_self _ _)
    have ht2 : 0 ∉ t := fun hc => ht (List.mem_cons_of_mem _ hc)
    rw [List.cons_append, List.takeWhile_cons, ih ht2]
    simp [ha]

theorem cstringAt_of_drop (mem : List Nat) (ptr : Nat) (name rest : List Nat)
    (h : mem.drop ptr = strncpyBytes name MAX_ATTR_NAME_LEN ++ rest)
    (hlen : name.length < MAX_ATTR_NAME_LEN) (hz : 0 ∉ name) : cstringAt mem ptr = name := by
  unfold cstringAt
  rw [h]
  unfold strncpyBytes
  rw [List.take_of_length_le (by omega)]
  obtain ⟨m, hm⟩ : ∃ m, MAX_ATTR_NAME_LEN - name.length = m + 1 := ⟨_, (Nat.succ_pred_eq_of_pos
    (by omega)).symm⟩
  rw [hm, List.replicate_succ, List.append_assoc, List.cons_append]
  exact takeWhile_stop _ _ hz

theorem DataType.ofInt_toInt (dt : DataType) : DataType.ofInt dt.toInt = dt := by
  cases dt <;> rfl

theorem DataType.toInt_int32 (dt : DataType) : isInt32 dt.toInt := by
  cases dt <;> decide

/-- The attribute loop of `openTable` reads back what the attribute loop of
`populateSchemaDetails` has stored. -/
theorem loadAttrs_of_drop (S : Schema)
    (hname : ∀ j, (S.attrNames.getD j []).length < MAX_ATTR_NAME_LEN ∧ 0 ∉ S.attrNames.getD j [])
    (hlen : ∀ j, isInt32 (S.typeLength.getD j 0)) :
    ∀ (k i : Nat) (mem : List Nat) (ptr : Nat) (rest : List Nat),
      mem.drop ptr = attrBytes S k i ++ rest →
      loadAttrs mem k ptr
        = ((List.range' i k).map (fun j => S.attrNames.getD j []),
           (List.range' i k).map (fun j => S.dataTypes.getD j DataType.DT_INT),
           (List.range' i k).map (fun j => S.typeLength.getD j 0),
           ptr + 23 * k) := by
  intro k
  induction k with
  | zero => intro i mem ptr rest _; rfl
  | succ k ih =>
    intro i mem ptr rest h
    simp only [attrBytes, List.append_assoc] at h
    have h1 := drop_add_of_drop mem ptr _ _ MAX_ATTR_NAME_LEN h (length_strncpyBytes _ _)
    have h2 := drop_add_of_drop mem _ _ _ 4 h1 (length_encodeInt _)
    have h3 := drop_add_of_drop mem _ _ _ 4 h2 (length_encodeInt _)
    simp only [loadAttrs, List.range'_succ, List.map_cons]
    rw [ih (i + 1) mem _ rest h3, cstringAt_of_drop mem ptr _ _ h (hname i).1 (hname i).2,
      readInt_of_drop mem _ _ _ h1 (DataType.toInt_int32 _), DataType.ofInt_toInt,
      readInt_of_drop mem _ _ _ h2 (hlen i)]
    simp only [MAX_ATTR_NAME_LEN, Prod.mk.injEq, true_and]
    omega

/-- The key loop of `openTable` reads back what the key loop of
`populateSchemaDetails` has stored. -/
theorem loadKeys_of_drop (S : Schema) (hkey : ∀ j, isInt32 (S.keyAttrs.getD j 0)) :
    ∀ (k i : Nat) (mem : List Nat) (ptr : Nat) (rest : List Nat),
      mem.drop ptr = keyBytes S k i ++ rest →
      loadKeys mem k ptr = (List.range' i k).map (fun j => S.keyAttrs.getD j 0) := by
  intro k
  induction k with
  | zero => intro i mem ptr rest _; rfl
  | succ k ih =>
    intro i mem ptr rest h
    simp only [keyBytes, List.append_assoc] at h
    have h1 := drop_add_of_drop mem ptr _ _ 4 h (length_encodeInt _)
    simp only [loadKeys, List.range'_succ, List.map_cons]
    rw [ih (i + 1) mem _ rest h1, readInt_of_drop mem _ _ _ h (hkey i)]

theorem map_getD_range' {α : Type} (l : List α) (d : α) (n : Nat) (h : l.length = n) :
    (List.range' 0 n).map (fun j => l.getD j d) = l := by
  apply List.ext_getElem?
  intro k
  rw [List.getElem?_map]
  by_cases hk : k < n
  · rw [List.getElem?_range' _ _ hk]
    simp only [Option.map_some', Nat.zero_add, Nat.one_mul]
    rw [List.getD_eq_getElem?_getD, List.getElem?_eq_getElem (by omega)]
    rfl
  · rw [List.getElem?_eq_none (by simp; omega), List.getElem?_eq_none (by omega)]
    rfl

theorem getD_mem_or_default {α : Type} (l : List α) (d : α) (j : Nat) :
    l.getD j d ∈ l ∨ l.getD j d = d := by
  rw [List.getD_eq_getElem?_getD]
  by_cases hj : j < l.length
  · left
    rw [List.getElem?_eq_getElem hj]
    exact List.getElem_mem _
  · right
    rw [List.getElem?_eq_none (by omega)]
    rfl

/-- Memory that holds the serialised header of a storable schema at `ptr` is
read by `openTable` as the counters of a fresh table and the schema itself. -/
theorem parse_header (PS : Nat) (S : Schema) (hS : S.Storable PS) (mem : List Nat) (ptr : Nat)
    (rest : List Nat) (h : mem.drop ptr = headerBytes S ++ rest) :
    readInt mem ptr = 0 ∧ readInt mem (ptr + 4) = getRecordSize S
      ∧ readInt mem (ptr + 8) = 1 ∧ readInt mem (ptr + 12) = 0
      ∧ readInt mem (ptr + 16) = -1
      ∧ readInt mem (ptr + 20) = S.numAttr ∧ readInt mem (ptr + 24) = S.keySize
      ∧ loadAttrs mem S.numAttr.toNat (ptr + 28)
          = (S.attrNames, S.dataTypes, S.typeLength, ptr + 28 + 23 * S.numAttr.toNat)
      ∧ loadKeys mem S.keySize.toNat (ptr + 28 + 23 * S.numAttr.toNat) = S.keyAttrs := by
  simp only [headerBytes, List.append_assoc] at h
  have h1 := drop_add_of_drop mem ptr _ _ 4 h (length_encodeInt _)
  have h2 := drop_add_of_drop mem _ _ _ 4 h1 (length_encodeInt _)
  have h3 := drop_add_of_drop mem _ _ _ 4 h2 (length_encodeInt _)
  have h4 := drop_add_of_drop mem _ _ _ 4 h3 (length_encodeInt _)
  have h5 := drop_add_of_drop mem _ _ _ 4 h4 (length_encodeInt _)
  have h6 := drop_add_of_drop mem _ _ _ 4 h5 (length_encodeInt _)
  have h7 := drop_add_of_drop mem _ _ _ 4 h6 (length_encodeInt _)
  have h8 := drop_add_of_drop mem _ _ _ (23 * S.numAttr.toNat) h7 (length_attrBytes _ _ _)
  simp only [Nat.add_assoc, Nat.reduceAdd] at h1 h2 h3 h4 h5 h6 h7 h8
  have hname : ∀ j, (S.attrNames.getD j []).length < MAX_ATTR_NAME_LEN
      ∧ 0 ∉ S.attrNames.getD j [] := by
    intro j
    rcases getD_mem_or_default S.attrNames [] j with hm | hd
    · exact hS.names _ hm
    · rw [hd]; exact ⟨by decide, by simp⟩
  have hlen : ∀ j, isInt32 (S.typeLength.getD j 0) := by
    intro j
    rcases getD_mem_or_default S.typeLength 0 j with hm | hd
    · exact hS.lengths_int _ hm
    · rw [hd]; decide
  have hkey : ∀ j, isInt32 (S.keyAttrs.getD j 0) := by
    intro j
    rcases getD_mem_or_default S.keyAttrs 0 j with hm | hd
    · exact hS.keys_int _ hm
    · rw [hd]; decide
  have hA := loadAttrs_of_drop S hname hlen S.numAttr.toNat 0 mem (ptr + 28) _ h7
  have hK := loadKeys_of_drop S hkey S.keySize.toNat 0 mem (ptr + (28 + 23 * S.numAttr.toNat))
    rest h8
  rw [map_getD_range' _ _ _ hS.len_names, map_getD_range' _ _ _ hS.len_types,
    map_getD_range' _ _ _ hS.len_lengths] at hA
  rw [map_getD_range' _ _ _ hS.len_keys] at hK
  refine ⟨readInt_of_drop mem _ _ _ h (by decide), readInt_of_drop mem _ _ _ h1 hS.recSize_int,
    readInt_of_drop mem _ _ _ h2 (by decide), readInt_of_drop mem _ _ _ h3 (by decide),
    readInt_of_drop mem _ _ _ h4 (by decide),
    readInt_of_drop mem _ _ _ h5 ⟨by have := hS.numAttr_int; omega, hS.numAttr_int.2⟩,
    readInt_of_drop mem _ _ _ h6 ⟨by have := hS.keySize_int; omega, hS.keySize_int.2⟩,
    hA, ?_⟩
  rw [Nat.add_assoc]
  exact hK

/-! ## A table file written by `shutdownBufferPool` and opened again -/

theorem writeDirtyPage_pagenum (PS : Nat) (b : Bufferpool) (j : Nat) :
    (writeDirtyPage PS b j).2.pagenum = b.pagenum := by
  unfold writeDirtyPage
  split
  · dsimp only
    split
    · rfl
    · split <;> rfl
  · rfl

theorem writeDirtyPage_total_le (PS : Nat) (b : Bufferpool) (j : Nat) (B : Int)
    (h1 : b.fhl.totalNumPages ≤ B) (h2 : ∀ m, b.pagenum.getD m 0 + 1 ≤ B) :
    (writeDirtyPage PS b j).2.fhl.totalNumPages ≤ B := by
  have he := ensureCapacity_total PS (b.pagenum.getD j 0 + 1) b.fhl
  have h2j := h2 j
  unfold writeDirtyPage
  split
  · dsimp only
    split
    · show (ensureCapacity PS _ b.fhl).2.totalNumPages ≤ B
      rw [he]; omega
    · split
      · show (writeBlock PS _ _ _).2.totalNumPages ≤ B
        rw [writeBlock_total, he]; omega
      · show (writeBlock PS _ _ _).2.totalNumPages ≤ B
        rw [writeBlock_total, he]; omega
  · exact h1

/-- The page count after `writeDirtyPages` is bounded by every bound of the
old page count and of the page numbers, each plus one, in the frames. -/
theorem writeDirtyPagesLoop_total_le (PS : Nat) (B : Int) :
    ∀ (k j : Nat) (b : Bufferpool), b.fhl.totalNumPages ≤ B →
      (∀ m, b.pagenum.getD m 0 + 1 ≤ B) →
      (writeDirtyPagesLoop PS k j b).2.fhl.totalNumPages ≤ B := by
  intro k
  induction k with
  | zero => intro j b h1 _; exact h1
  | succ k ih =>
    intro j b h1 h2
    simp only [writeDirtyPagesLoop]
    split
    · exact writeDirtyPage_total_le PS b j B h1 h2
    · exact ih _ _ (writeDirtyPage_total_le PS b j B h1 h2)
        (by rw [writeDirtyPage_pagenum]; exact h2)

theorem memcpy_zero_eq (mem src : List Nat) (h : src.length ≤ mem.length) :
    memcpy mem 0 src = src ++ mem.drop src.length := by
  have := drop_memcpy mem 0 src (by omega)
  simpa using this

/-- `shutdownBufferPool` on a pool without pinned frames in which frame `j` is
dirty (page count and page numbers being C `int`s below `INT_MAX`): it returns
`RC_OK`, `openPageFile` opens the closed file again, and under the new handle
every dirty frame's bytes are stored in the block of its page. -/
theorem shutdown_stores {PS : Nat} {bp : Bufferpool} (inv : PoolInv PS bp)
    (hfix : ∀ i, bp.fix_count.getD i 0 = 0) (pageBuffer : List Nat)
    (hpb : pageBuffer.length = PS) (hPS : 11 ≤ PS)
    (hT : bp.fhl.totalNumPages ≤ 2147483647)
    (hP : ∀ m, bp.pagenum.getD m 0 + 1 ≤ 2147483647)
    (j : Nat) (hj : j < bp.totalPages) (hd : bp.bitdirty.getD j false = true) :
    (shutdownBufferPool PS pageBuffer bp).1 = RC.RC_OK
      ∧ ∃ fh, openPageFile PS (some (shutdownBufferPool PS pageBuffer bp).2.fhl.mgmtInfo)
            = (RC.RC_OK, some fh)
          ∧ fh.mgmtInfo = (shutdownBufferPool PS pageBuffer bp).2.fhl.mgmtInfo
          ∧ ∀ m, m < bp.totalPages → bp.bitdirty.getD m false = true →
              blockStored PS fh (bp.pagenum.getD m 0) (frameBytes PS bp.pagedata m) := by
  obtain ⟨hl1, hl2⟩ := writeDirtyPagesLoop_spec inv bp.totalPages 0 bp (by omega) rfl rfl rfl
    (fun m hm _ => absurd hm (by omega))
  have hB := writeDirtyPagesLoop_total_le PS 2147483647 bp.totalPages 0 bp hT hP
  have hnone : firstIdx (fun i => bp.fix_count.getD i 0 != 0) bp.totalPages 0 = none := by
    cases hf : firstIdx (fun i => bp.fix_count.getD i 0 != 0) bp.totalPages 0 with
    | none => rfl
    | some i0 =>
      obtain ⟨_, _, hne, _⟩ := firstIdx_some hf
      simp only [bne_iff_ne, ne_eq] at hne
      exact absurd (hfix i0) hne
  have hclose : ∀ fh : SM_FileHandle, (closePageFile PS pageBuffer fh).1 = RC.RC_OK :=
    fun _ => rfl
  generalize hL : writeDirtyPagesLoop PS bp.totalPages 0 bp = L at hl1 hl2 hB
  have hsd : shutdownBufferPool PS pageBuffer bp
      = (RC.RC_OK, { L.2 with fhl := (closePageFile PS pageBuffer L.2.fhl).2 }) := by
    unfold shutdownBufferPool
    rw [hnone]
    dsimp only
    unfold writeDirtyPages
    rw [hL, if_neg (by rw [hl1]; simp), if_neg (by rw [hclose]; simp)]
  obtain ⟨gj0, gj1, _, _⟩ := hl2 j hj hd
  have hv0 : 0 ≤ bp.pagenum.getD j 0 := gj0
  have hTpos : 0 ≤ L.2.fhl.totalNumPages := by omega
  have hlenF : (formatInt L.2.fhl.totalNumPages).length ≤ 10 :=
    length_formatInt _ hTpos 10 (by decide) (by
      have : (10 : Int) ^ 10 = 10000000000 := by norm_num
      omega)
  have htext : (formatInt L.2.fhl.totalNumPages).take (PS - 1) = formatInt L.2.fhl.totalNumPages :=
    List.take_of_length_le (by omega)
  have hbuf : (memcpy pageBuffer 0 ((formatInt L.2.fhl.totalNumPages).take (PS - 1) ++ [0])).take PS
      = formatInt L.2.fhl.totalNumPages
          ++ 0 :: pageBuffer.drop ((formatInt L.2.fhl.totalNumPages).length + 1) := by
    rw [htext, List.take_of_length_le (by rw [length_memcpy, hpb]),
      memcpy_zero_eq _ _ (by rw [List.length_append, List.length_singleton, hpb]; omega)]
    simp only [List.length_append, List.length_singleton, List.append_assoc, List.singleton_append]
  have hbl : (formatInt L.2.fhl.totalNumPages
      ++ 0 :: pageBuffer.drop ((formatInt L.2.fhl.totalNumPages).length + 1)).length = PS := by
    rw [← hbuf, List.length_take, length_memcpy, hpb]
    omega
  rw [hsd]
  refine ⟨rfl, ?_⟩
  have hfile : (closePageFile PS pageBuffer L.2.fhl).2.mgmtInfo
      = fwriteAt L.2.fhl.mgmtInfo 0 (formatInt L.2.fhl.totalNumPages
          ++ 0 :: pageBuffer.drop ((formatInt L.2.fhl.totalNumPages).length + 1)) := by
    show fwriteAt _ 0 _ = _
    rw [hbuf]
  refine ⟨{ totalNumPages := L.2.fhl.totalNumPages, curPagePos := 0,
            mgmtInfo := (closePageFile PS pageBuffer L.2.fhl).2.mgmtInfo }, ?_, rfl, ?_⟩
  · show openPageFile PS (some (closePageFile PS pageBuffer L.2.fhl).2.mgmtInfo) = _
    unfold openPageFile
    dsimp only
    have hb := bytesAt_fwriteAt_same L.2.fhl.mgmtInfo 0 (formatInt L.2.fhl.totalNumPages
          ++ 0 :: pageBuffer.drop ((formatInt L.2.fhl.totalNumPages).length + 1))
    rw [hbl] at hb
    rw [hfile, hb, if_neg (by rw [hbl]; simp), atoi_formatInt _ hTpos]
  · intro m hm hdm
    obtain ⟨g0, g1, g2, g3⟩ := hl2 m hm hdm
    have hoff : PS ≤ (bp.pagenum.getD m 0 + 1).toNat * PS := by
      have : 1 ≤ (bp.pagenum.getD m 0 + 1).toNat := by omega
      have := Nat.mul_le_mul_right PS this
      omega
    refine ⟨g0, g1, ?_, ?_⟩
    · show _ ≤ ((closePageFile PS pageBuffer L.2.fhl).2.mgmtInfo).length
      rw [hfile, length_fwriteAt]
      omega
    · show bytesAt ((closePageFile PS pageBuffer L.2.fhl).2.mgmtInfo) _ _ = _
      rw [hfile, bytesAt_fwriteAt_disjoint _ _ _ _ _ g2 (Or.inr (by rw [hbl]; omega))]
      exact g3

theorem unpinPage_pagedata (bp : Bufferpool) (page : BM_PageHandle) :
    (unpinPage bp page).2.pagedata = bp.pagedata := by
  unfold unpinPage
  split
  · split <;> rfl
  · rfl

/-- `openTable` on a file that `openPageFile` opens and whose block 0 holds
`data`: it returns `RC_OK`; the pool memory of the table starts with `data`,
and the counters and the schema of the table are what the loads of `openTable`
read from that memory at offset 0. -/
theorem openTable_block0 (PS : Nat) (f : List Nat) (fh : SM_FileHandle) (data : List Nat)
    (hopen : openPageFile PS (some f) = (RC.RC_OK, some fh))
    (hb : blockStored PS fh 0 data) :
    ∃ rel rest, openTable PS (some f) = (RC.RC_OK, some rel)
      ∧ rel.mgmtData.bufferManagerPtr.pagedata = data ++ rest
      ∧ rel.mgmtData.totalTuples = readInt (data ++ rest) 0
      ∧ rel.mgmtData.recSize = readInt (data ++ rest) 4
      ∧ rel.mgmtData.firstFreePageNum = readInt (data ++ rest) 8
      ∧ rel.mgmtData.firstFreeSlotNum = readInt (data ++ rest) 12
      ∧ rel.mgmtData.firstDataPageNum = readInt (data ++ rest) 16
      ∧ rel.schema =
          { numAttr := readInt (data ++ rest) 20
            attrNames := (loadAttrs (data ++ rest) (readInt (data ++ rest) 20).toNat 28).1
            dataTypes := (loadAttrs (data ++ rest) (readInt (data ++ rest) 20).toNat 28).2.1
            typeLength := (loadAttrs (data ++ rest) (readInt (data ++ rest) 20).toNat 28).2.2.1
            keyAttrs := loadKeys (data ++ rest) (readInt (data ++ rest) 24).toNat
              (loadAttrs (data ++ rest) (readInt (data ++ rest) 20).toNat 28).2.2.2
            keySize := readInt (data ++ rest) 24 } := by
  obtain ⟨_, hb1, hb2, hb3⟩ := hb
  simp only [Int.zero_add, Int.toNat_one, Nat.one_mul] at hb2 hb3
  have hdl : data.length = PS := by
    rw [← hb3, length_bytesAt]
    omega
  have hinit : initBufferPool PS (some f) 3 ReplacementStrategy.RS_FIFO
      = (RC.RC_OK, some
        { numRead := 0, numWrite := 0, totalPages := 3
          updatedStrategy := ReplacementStrategy.RS_FIFO, free_space := 3
          updatedOrder := List.replicate 3 NO_PAGE, bitdirty := List.replicate 3 false
          fix_count := List.replicate 3 0, pagenum := List.replicate 3 NO_PAGE
          pagedata := List.replicate (3 * PS) 0, fhl := fh }) := by
    unfold initBufferPool
    rw [if_neg (by decide), hopen]
    rfl
  have hinv := initBufferPool_inv PS _ _ _ _ hinit
  have hread : readBlock PS 0 fh (List.replicate PS 0)
      = (RC.RC_OK, { fh with curPagePos := 0 }, data) := by
    unfold readBlock
    rw [if_neg (by omega)]
    simp only [Int.zero_add, Int.toNat_one, Nat.one_mul, hb3, hdl, ne_eq, not_true_eq_false,
      if_false]
  have hpin := pinPage_empty hinv { pageNum := 0, data := none } 0
    (by simp [usedPages, usedFrames]) (Nat.succ_pos 2)
  have hmem : memcpy (List.replicate (3 * PS) 0) 0 data
      = data ++ (List.replicate (3 * PS) 0).drop data.length :=
    memcpy_zero_eq _ _ (by rw [List.length_replicate, hdl]; omega)
  unfold openTable
  rw [hinit]
  dsimp only
  rw [hpin]
  unfold pinPageEmpty
  rw [hread]
  simp only [Nat.sub_self, Nat.zero_mul, hmem, ne_eq, not_true_eq_false, if_false,
    unpinPage_status, Option.getD_some, Nat.zero_add]
  refine ⟨_, (List.replicate (3 * PS) 0).drop data.length, rfl, ?_, rfl, rfl, rfl, rfl, rfl, rfl⟩
  exact unpinPage_pagedata _ _

/-! ## C22: the table header written by `createTable` and read by `openTable` -/

theorem unpinPage_bitdirty (bp : Bufferpool) (page : BM_PageHandle) :
    (unpinPage bp page).2.bitdirty = bp.bitdirty ∧ (unpinPage bp page).2.fhl = bp.fhl := by
  unfold unpinPage
  split
  · split <;> exact ⟨rfl, rfl⟩
  · exact ⟨rfl, rfl⟩

/-- The section `pinPage`, stores, `markDirty`, `unpinPage` on a pool without
pinned frames: the page sits in a frame `i`, and after the section that frame
is dirty and holds the stored memory. -/
theorem pin_dirty_unpin {PS : Nat} {bp : Bufferpool} (h : PoolInv PS bp)
    (hfix : ∀ k, bp.fix_count.getD k 0 = 0)
    (hst : bp.updatedStrategy = ReplacementStrategy.RS_FIFO)
    (page : BM_PageHandle) (p : Int) (hp : 0 ≤ p) :
    ∃ i, i < bp.totalPages
      ∧ (pinPage PS bp page p).1 = RC.RC_OK
      ∧ (pinPage PS bp page p).2.2 = { pageNum := p, data := some (i * PS) }
      ∧ (∀ (m : List Nat), m.length = (pinPage PS bp page p).2.1.pagedata.length →
          PoolInv PS (unpinPage (markDirty { (pinPage PS bp page p).2.1 with pagedata := m }
              (pinPage PS bp page p).2.2).2 (pinPage PS bp page p).2.2).2
          ∧ (∀ k, (unpinPage (markDirty { (pinPage PS bp page p).2.1 with pagedata := m }
              (pinPage PS bp page p).2.2).2 (pinPage PS bp page p).2.2).2.fix_count.getD k 0 = 0)
          ∧ (unpinPage (markDirty { (pinPage PS bp page p).2.1 with pagedata := m }
              (pinPage PS bp page p).2.2).2 (pinPage PS bp page p).2.2).2.pagedata = m
          ∧ (unpinPage (markDirty { (pinPage PS bp page p).2.1 with pagedata := m }
              (pinPage PS bp page p).2.2).2 (pinPage PS bp page p).2.2).2.pagenum
              = (pinPage PS bp page p).2.1.pagenum
          ∧ (unpinPage (markDirty { (pinPage PS bp page p).2.1 with pagedata := m }
              (pinPage PS bp page p).2.2).2 (pinPage PS bp page p).2.2).2.totalPages
              = bp.totalPages
          ∧ (unpinPage (markDirty { (pinPage PS bp page p).2.1 with pagedata := m }
              (pinPage PS bp page p).2.2).2 (pinPage PS bp page p).2.2).2.fhl
              = (pinPage PS bp page p).2.1.fhl
          ∧ (pinPage PS bp page p).2.1.pagenum.getD i 0 = p
          ∧ (unpinPage (markDirty { (pinPage PS bp page p).2.1 with pagedata := m }
              (pinPage PS bp page p).2.2).2 (pinPage PS bp page p).2.2).2.bitdirty.getD i false
              = true) := by
  obtain ⟨i, hi, h1, h2, h3, hall⟩ := pin_work_unpin h hfix hst page p hp
  refine ⟨i, hi, h1, h2, ?_⟩
  intro m hm
  obtain ⟨g1, g2, _, g4, g5, g6⟩ := hall m _ hm (Or.inr rfl)
  have hinv1 : PoolInv PS (pinPage PS bp page p).2.1 := pinPage_inv h page p hp
  have hinv2 : PoolInv PS { (pinPage PS bp page p).2.1 with pagedata := m } := hinv1.of_data m hm
  have h5 : (pinPage PS bp page p).2.1.totalPages = bp.totalPages := by
    obtain ⟨_, _, _, _, _, _, h5, _⟩ := pinPage_unpinned h hfix (Or.inl hst) page p
    exact h5
  have hi' : i < ({ (pinPage PS bp page p).2.1 with pagedata := m } : Bufferpool).totalPages := by
    show i < (pinPage PS bp page p).2.1.totalPages
    rw [h5]; exact hi
  obtain ⟨_, _, _, _, _, _, d7, d8⟩ :=
    markDirty_at hinv2 { pageNum := p, data := some (i * PS) } i hi' h3 hp
  rw [← h2] at d7 d8
  refine ⟨g1, g2, g4, g5, g6, ?_, h3, ?_⟩
  · rw [(unpinPage_bitdirty _ _).2, d7]
  · rw [(unpinPage_bitdirty _ _).1, d8]

/-- Bounds on the page count and on the page numbers in the frames survive a
successful `pinPage` of a page within the bound. -/
theorem pinPage_bounds {PS : Nat} {bp : Bufferpool} (h : PoolInv PS bp) (page : BM_PageHandle)
    (p : Int) (B : Int) (hok : (pinPage PS bp page p).1 = RC.RC_OK)
    (hT : bp.fhl.totalNumPages ≤ B) (hP : ∀ m, bp.pagenum.getD m 0 + 1 ≤ B) (hp : p + 1 ≤ B) :
    (pinPage PS bp page p).2.1.fhl.totalNumPages ≤ B
      ∧ ∀ m, (pinPage PS bp page p).2.1.pagenum.getD m 0 + 1 ≤ B := by
  by_cases hm : p ∈ usedPages bp
  · obtain ⟨i, hi, hx⟩ := (h.mem_usedPages p).mp hm
    obtain ⟨_, _, _, h4, _, _, h7, _⟩ := pinPage_hit_fields h page p i hi hx
    rw [h7, h4]
    exact ⟨hT, hP⟩
  · obtain ⟨i, _, _, _, _, _, h6, _, _, h9, _⟩ := pinPage_miss_fields h page p hm hok
    rw [h9, h6]
    have hr := (readBlock_file PS p bp.fhl (List.replicate PS 0)).2
    refine ⟨?_, ?_⟩
    · split
      · rw [writeBlock_total, ensureCapacity_total, hr]
        have := hP i
        omega
      · rw [hr]; exact hT
    · intro m
      rw [getD_set_int]
      split
      · exact hp
      · exact hP m

theorem initBufferPool_three (PS : Nat) (g : List Nat) (fh : SM_FileHandle)
    (hopen : openPageFile PS (some g) = (RC.RC_OK, some fh)) :
    initBufferPool PS (some g) 3 ReplacementStrategy.RS_FIFO
      = (RC.RC_OK, some
        { numRead := 0, numWrite := 0, totalPages := 3
          updatedStrategy := ReplacementStrategy.RS_FIFO, free_space := 3
          updatedOrder := List.replicate 3 NO_PAGE, bitdirty := List.replicate 3 false
          fix_count := List.replicate 3 0, pagenum := List.replicate 3 NO_PAGE
          pagedata := List.replicate (3 * PS) 0, fhl := fh }) := by
  unfold initBufferPool
  rw [if_neg (by decide), hopen]
  rfl

theorem atoi_zeros (n : Nat) : atoi (List.replicate n 0) = 0 := by
  cases n with
  | zero => rfl
  | succ n => rfl

/-- The frame into whose start the bytes `hb` have been stored. -/
theorem frameBytes_header (PS : Nat) (pd : List Nat) (i : Nat) (hb : List Nat)
    (hlen : hb.length ≤ PS) (hpd : i * PS + PS ≤ pd.length) :
    frameBytes PS (memcpy pd (i * PS) hb) i
      = hb ++ (pd.drop (i * PS + hb.length)).take (PS - hb.length) := by
  unfold frameBytes bytesAt
  rw [drop_memcpy pd (i * PS) hb (by omega), List.take_append_eq_append_take,
    List.take_of_length_le hlen]

/-- What `createTable` returns, given that page 0 could be pinned: the status
of `shutdownBufferPool` and the closed file. -/
theorem createTable_eq (PS : Nat) (pageBuffer : List Nat) (existing : Option (List Nat))
    (S : Schema) (g : List Nat) (bp0 : Bufferpool)
    (hg : createPageFile PS existing = (RC.RC_OK, g))
    (hinit : initBufferPool PS (some g) 3 ReplacementStrategy.RS_FIFO = (RC.RC_OK, some bp0))
    (hpin : (pinPage PS bp0 { pageNum := 0, data := none } 0).1 = RC.RC_OK) :
    createTable PS pageBuffer existing S
      = ((shutdownBufferPool PS pageBuffer
            (unpinPage (markDirty
              { (pinPage PS bp0 { pageNum := 0, data := none } 0).2.1 with
                pagedata := prepareTableHeader
                  (pinPage PS bp0 { pageNum := 0, data := none } 0).2.1.pagedata
                  ((pinPage PS bp0 { pageNum := 0, data := none } 0).2.2.data.getD 0) S }
              (pinPage PS bp0 { pageNum := 0, data := none } 0).2.2).2
              (pinPage PS bp0 { pageNum := 0, data := none } 0).2.2).2).1,
         some (shutdownBufferPool PS pageBuffer
            (unpinPage (markDirty
              { (pinPage PS bp0 { pageNum := 0, data := none } 0).2.1 with
                pagedata := prepareTableHeader
                  (pinPage PS bp0 { pageNum := 0, data := none } 0).2.1.pagedata
                  ((pinPage PS bp0 { pageNum := 0, data := none } 0).2.2.data.getD 0) S }
              (pinPage PS bp0 { pageNum := 0, data := none } 0).2.2).2
              (pinPage PS bp0 { pageNum := 0, data := none } 0).2.2).2).2.fhl.mgmtInfo) := by
  unfold createTable
  rw [hg]
  dsimp only
  rw [if_neg (by simp), hinit]
  dsimp only
  rw [if_neg (by rw [hpin]; simp), if_neg (by rw [markDirty_status]; simp),
    if_neg (by rw [unpinPage_status]; simp)]

/-- C22: for every schema as a C program holds it whose serialised header
fits in one page and whose attribute names are shorter than 15 characters,
`createTable` (on a new file, or over an existing page file whose page count
is a C `int`) returns `RC_OK`, and `openTable` on the file it leaves returns
`RC_OK` with the same schema (numAttr, attribute names, data types, type
lengths, keySize, key attributes) and with the counters total_tuples 0,
rec_size `getRecordSize(schema)`, first_free_page 1, first_free_slot 0 (and
first_data_page -1). -/
theorem C22_table_header_round_trip (PS : Nat) (pageBuffer : List Nat)
    (existing : Option (List Nat)) (S : Schema)
    (hS : S.Storable PS) (hpb : pageBuffer.length = PS)
    (hE : ∀ g, existing = some g → PS ≤ g.length ∧ atoi (bytesAt g 0 PS) ≤ 2147483647) :
    ∃ file rel, createTable PS pageBuffer existing S = (RC.RC_OK, some file)
      ∧ openTable PS (some file) = (RC.RC_OK, some rel)
      ∧ rel.schema = S
      ∧ rel.mgmtData.totalTuples = 0
      ∧ rel.mgmtData.recSize = getRecordSize S
      ∧ rel.mgmtData.firstFreePageNum = 1
      ∧ rel.mgmtData.firstFreeSlotNum = 0
      ∧ rel.mgmtData.firstDataPageNum = -1 := by
  have hPS : 28 ≤ PS := by have := hS.fits; omega
  obtain ⟨g, hg, hglen, hgT⟩ : ∃ g, createPageFile PS existing = (RC.RC_OK, g)
      ∧ PS ≤ g.length ∧ atoi (bytesAt g 0 PS) ≤ 2147483647 := by
    cases existing with
    | none =>
      refine ⟨List.replicate PS 0, rfl, by simp, ?_⟩
      have : bytesAt (List.replicate PS 0) 0 PS = List.replicate PS 0 := by
        unfold bytesAt
        rw [List.drop_zero, List.take_of_length_le (by simp)]
      rw [this, atoi_zeros]
      decide
    | some g0 => exact ⟨g0, rfl, (hE g0 rfl).1, (hE g0 rfl).2⟩
  have hopen : openPageFile PS (some g)
      = (RC.RC_OK, some { totalNumPages := atoi (bytesAt g 0 PS), curPagePos := 0,
                          mgmtInfo := g }) := by
    unfold openPageFile
    dsimp only
    rw [if_neg (by rw [length_bytesAt]; simp; omega)]
  have hinit := initBufferPool_three PS g _ hopen
  have hinv := initBufferPool_inv PS _ _ _ _ hinit
  have hfix := (initBufferPool_fields PS _ _ _ _ hinit).1
  obtain ⟨i, hi, p1, p2, pall⟩ := pin_dirty_unpin hinv hfix rfl { pageNum := 0, data := none } 0
    (le_refl _)
  have hi3 : i < 3 := hi
  have hb := pinPage_bounds hinv { pageNum := 0, data := none } 0 2147483647 p1 hgT
    (by
      intro m
      show (List.replicate 3 NO_PAGE).getD m 0 + 1 ≤ 2147483647
      rw [List.getD_eq_getElem?_getD, List.getElem?_replicate]
      split <;> simp [NO_PAGE])
    (by decide)
  have hce := createTable_eq PS pageBuffer existing S g _ hg hinit p1
  generalize pinPage PS _ { pageNum := 0, data := none } 0 = pin at p1 p2 pall hb hce
  have hpd : pin.2.1.pagedata.length = 3 * PS := by
    have := (pall pin.2.1.pagedata rfl).1.len_data
    rw [(pall pin.2.1.pagedata rfl).2.2.1, (pall pin.2.1.pagedata rfl).2.2.2.2.1] at this
    exact this
  rw [p2] at hce
  simp only [Option.getD_some] at hce
  have hm : (prepareTableHeader pin.2.1.pagedata (i * PS) S).length = pin.2.1.pagedata.length := by
    rw [prepareTableHeader_eq, length_memcpy]
  obtain ⟨b1, b2, b3, b4, b5, b6, b7, b8⟩ := pall _ hm
  rw [p2] at b1 b2 b3 b4 b5 b6 b8
  generalize (unpinPage (markDirty
      { pin.2.1 with pagedata := prepareTableHeader pin.2.1.pagedata (i * PS) S }
      { pageNum := 0, data := some (i * PS) }).2 { pageNum := 0, data := some (i * PS) }).2 = b
    at b1 b2 b3 b4 b5 b6 b8 hce
  obtain ⟨s1, fh, s2, _, s4⟩ := shutdown_stores b1 b2 pageBuffer hpb (by omega)
    (by rw [b6]; exact hb.1) (by rw [b4]; exact hb.2) i (by rw [b5]; exact hi) b8
  have hblock := s4 i (by rw [b5]; exact hi) b8
  rw [b4, b7, b3, prepareTableHeader_eq] at hblock
  have hfb := frameBytes_header PS pin.2.1.pagedata i (headerBytes S)
    (by rw [length_headerBytes]; exact hS.fits)
    (by
      rw [hpd]
      have := Nat.mul_le_mul_right PS (show i + 1 ≤ 3 by omega)
      rw [Nat.add_mul, Nat.one_mul] at this
      exact this)
  generalize List.take (PS - (headerBytes S).length)
    (List.drop (i * PS + (headerBytes S).length) pin.2.1.pagedata) = rest1 at hfb
  rw [hfb] at hblock
  obtain ⟨rel, rest, o1, _, o3, o4, o5, o6, o7, o8⟩ :=
    openTable_block0 PS _ fh _ s2 hblock
  obtain ⟨q0, q1, q2, q3, q4, q5, q6, q7, q8⟩ := parse_header PS S hS
    (headerBytes S ++ rest1 ++ rest) 0 (rest1 ++ rest)
    (by rw [List.drop_zero, List.append_assoc])
  simp only [Nat.zero_add] at q0 q1 q2 q3 q4 q5 q6 q7 q8
  refine ⟨_, rel, ?_, o1, ?_, by rw [o3, q0], by rw [o4, q1], by rw [o5, q2], by rw [o6, q3],
    by rw [o7, q4]⟩
  · rw [hce, s1]
  · rw [o8, q5, q6, q7]
    simp only [q8]

/-- C22 for the schema (INT, STRING 5, FLOAT, BOOL; key attribute 0) and
`PAGE_SIZE` 128, on a new file. -/
theorem C22_witness :
    mixedSchema.Storable 128 ∧
    ∃ file rel, createTable 128 (List.replicate 128 0) none mixedSchema = (RC.RC_OK, some file)
      ∧ openTable 128 (some file) = (RC.RC_OK, some rel)
      ∧ rel.schema = mixedSchema
      ∧ rel.mgmtData.totalTuples = 0
      ∧ rel.mgmtData.recSize = getRecordSize mixedSchema
      ∧ rel.mgmtData.firstFreePageNum = 1
      ∧ rel.mgmtData.firstFreeSlotNum = 0
      ∧ rel.mgmtData.firstDataPageNum = -1 :=
  have hS : mixedSchema.Storable 128 :=
    { numAttr_int := by decide, keySize_int := by decide, len_names := by decide,
      len_types := by decide, len_lengths := by decide, len_keys := by decide,
      names := by decide, lengths_int := by decide, keys_int := by decide,
      recSize_int := by decide, fits := by decide }
  ⟨hS, C22_table_header_round_trip 128 (List.replicate 128 0) none mixedSchema hS
    (List.length_replicate _ _) (fun _ hg => by cases hg)⟩

/-! ## C23: the table counters written by `closeTable` and read by `openTable` -/

/-- C31: on the index of capacity 2 that holds the one entry (5, (5,0)),
`openTreeScan` returns `RC_OK` and the first `nextEntry` returns
`RC_IM_NO_MORE_ENTRIES` without handing out the entry: the root node has no
successor.  With the four entries of the keys 4, 3, 2, 1 (two full nodes) the
first three calls return `RC_OK` with the RIDs of the keys 1, 2, 3 and the
fourth call returns `RC_IM_NO_MORE_ENTRIES`: the entry of key 4 is missing. -/
theorem C31_nextEntry_stops_early :
    (insertKeys 2 [5] (freshIndex 2)).bind
        (fun s => (openTreeScan s 2).map (fun r => (r.1, nextEntries 2 r.2)))
      = some (RC.RC_OK,
          [(RC.RC_IM_NO_MORE_ENTRIES, { page := -7, slot := -7 }),
           (RC.RC_IM_NO_MORE_ENTRIES, { page := -7, slot := -7 })]) ∧
    (insertKeys 2 [4, 3, 2, 1] (freshIndex 2)).bind
        (fun s => (openTreeScan s 2).map (fun r => (r.1, nextEntries 5 r.2)))
      = some (RC.RC_OK,
          [(RC.RC_OK, { page := 1, slot := 0 }), (RC.RC_OK, { page := 2, slot := 0 }),
           (RC.RC_OK, { page := 3, slot := 0 }),
           (RC.RC_IM_NO_MORE_ENTRIES, { page := -7, slot := -7 }),
           (RC.RC_IM_NO_MORE_ENTRIES, { page := -7, slot := -7 })]) := by
  decide

/-- C32: on the index of capacity 2, after `insertKey` of the six keys 1 to 6
(no delete) `getNumEntries` returns `RC_OK` with the result 8, not 6; and on
the index of capacity 2 that holds one entry, `getNumEntries` gives 1 before
`openTreeScan` and 2 after it. -/
theorem C32_getNumEntries_miscounts :
    (insertKeys 4 [1, 2, 3, 4, 5, 6] (freshIndex 2)).bind (fun s => getNumEntries s 4)
      = some (RC.RC_OK, 8) ∧
    (insertKeys 2 [5] (freshIndex 2)).bind (fun s => getNumEntries s 2)
      = some (RC.RC_OK, 1) ∧
    (insertKeys 2 [5] (freshIndex 2)).bind
        (fun s => (openTreeScan s 2).bind (fun r => getNumEntries r.2 2))
      = some (RC.RC_OK, 2) := by
  decide

/-- C40: on the index of capacity 3 that holds the one entry (5, (5,0)),
`openTreeScan` returns `RC_OK` and leaves the keys 5, -1, -1 in the root node:
two entries with key -1 have been added and the keys are not in non-decreasing
order.  On the index of capacity 2 built by `insertKey` of 4, 3, 2, 1 and
`deleteKey(4)`, which holds the entries of 3, 2, 1, `openTreeScan` leaves the
entries of 1, 2, 3, 1: the entry of key 1 is there twice. -/
theorem C40_openTreeScan_changes_entries :
    (insertKeys 2 [5] (freshIndex 3)).map (fun s => indexEntries s 2)
      = some [(5, { page := 5, slot := 0 })] ∧
    (insertKeys 2 [5] (freshIndex 3)).bind
        (fun s => (openTreeScan s 2).map (fun r => (r.1, indexEntries r.2 2)))
      = some (RC.RC_OK,
          [(5, { page := 5, slot := 0 }), (-1, { page := 0, slot := 0 }),
           (-1, { page := 0, slot := 0 })]) ∧
    ((insertKeys 2 [4, 3, 2, 1] (freshIndex 2)).bind (fun s => deleteKey s 4 2)).map
        (fun d => (d.1, indexEntries d.2 2))
      = some (RC.RC_OK,
          [(3, { page := 3, slot := 0 }), (2, { page := 2, slot := 0 }),
           (1, { page := 1, slot := 0 })]) ∧
    ((insertKeys 2 [4, 3, 2, 1] (freshIndex 2)).bind (fun s => deleteKey s 4 2)).bind
        (fun d => (openTreeScan d.2 2).map (fun r => (r.1, indexEntries r.2 2)))
      = some (RC.RC_OK,
          [(1, { page := 1, slot := 0 }), (2, { page := 2, slot := 0 }),
           (3, { page := 3, slot := 0 }), (1, { page := 1, slot := 0 })]) := by
  decide

/-! ## Frame contents and the order array -/

/-- C33, counterexample: on a freshly initialised pool of three frames, into
which no page has been pinned, `getFrameContents` returns the null pointer,
not an array of three `NO_PAGE` entries. -/
theorem C33_counterexample :
    initBufferPool 4 (some (createPageFile 4 none).2) 3 ReplacementStrategy.RS_FIFO
      = (RC.RC_OK, some (coldPool 4 3 ReplacementStrategy.RS_FIFO)) ∧
    getFrameContents (coldPool 4 3 ReplacementStrategy.RS_FIFO) = none := by
  decide

/-- C33, amended: in every reachable pool state, `getFrameContents` returns
the null pointer when no frame is in use; when at least one frame is in use it
returns the array `pagenum`, of length `numFrames`, whose entry for a frame in
use is the (non-negative) page number that frame holds and whose entry for
each empty frame is `NO_PAGE`. -/
theorem C33_getFrameContents (PS : Nat) (bp : Bufferpool) (h : Reachable PS bp) :
    (bp.free_space = bp.totalPages → getFrameContents bp = none) ∧
    (bp.free_space ≠ bp.totalPages →
      getFrameContents bp = some bp.pagenum ∧ bp.pagenum.length = bp.totalPages
      ∧ (∀ i, i < usedFrames bp → 0 ≤ bp.pagenum.getD i 0)
      ∧ (∀ i, usedFrames bp ≤ i → i < bp.totalPages → bp.pagenum.getD i 0 = NO_PAGE)) := by
  have inv := h.inv
  constructor
  · intro hf
    unfold getFrameContents
    rw [if_pos hf]
  · intro hf
    refine ⟨?_, inv.len_pagenum, fun i hi => inv.pagenum_used i hi,
      fun i hi hi2 => inv.pagenum_unused i hi hi2⟩
    unfold getFrameContents
    rw [if_neg hf]

/-- C33, amended, at a pool holding pages 0, 1, 2 in its three frames. -/
theorem C33_witness :
    Reachable 4 fifoPool012 ∧ fifoPool012.free_space ≠ fifoPool012.totalPages
      ∧ getFrameContents fifoPool012 = some [0, 1, 2] :=
  ⟨fifoPool012_reachable, by decide,
    ((C33_getFrameContents 4 fifoPool012 fifoPool012_reachable).2 (by decide)).1.trans
      (by decide)⟩

/-- C39: in every reachable pool state the entries of `updatedOrder` are a
permutation of the entries of `pagenum` (`NO_PAGE` entries included), every
order entry other than `NO_PAGE` names a page held by some frame, and every
page held by a frame has exactly one order entry. -/
theorem C39_order_frame_consistency (PS : Nat) (bp : Bufferpool) (h : Reachable PS bp) :
    bp.updatedOrder.Perm bp.pagenum
      ∧ (∀ x, x ∈ bp.updatedOrder → x ≠ NO_PAGE → resident bp x)
      ∧ (∀ p, p ≠ NO_PAGE → resident bp p → bp.updatedOrder.count p = 1) := by
  have inv := h.inv
  have hperm : bp.updatedOrder.Perm bp.pagenum := by
    rw [← List.take_append_drop (usedFrames bp) bp.updatedOrder,
      ← List.take_append_drop (usedFrames bp) bp.pagenum, inv.pagenum_drop, inv.order_drop]
    exact List.Perm.append_right _ inv.perm
  refine ⟨hperm, ?_, ?_⟩
  · intro x hx hne
    have hm : x ∈ bp.pagenum := hperm.subset hx
    obtain ⟨i, hi, he⟩ := List.getElem_of_mem hm
    refine ⟨i, by rw [← inv.len_pagenum]; exact hi, ?_⟩
    rw [List.getD_eq_getElem?_getD, List.getElem?_eq_getElem hi]
    exact he
  · intro p hp hr
    have hm : p ∈ usedPages bp := (inv.resident_iff p hp).mp hr
    rw [hperm.count_eq, ← List.take_append_drop (usedFrames bp) bp.pagenum, inv.pagenum_drop,
      List.count_append, List.count_replicate]
    have h1 : (usedPages bp).count p = 1 := List.count_eq_one_of_mem inv.nodup hm
    unfold usedPages at h1
    rw [h1, if_neg (fun e => hp (beq_iff_eq.mp e).symm)]

/-- C39 at a pool that holds pages 0, 1, 2 after page 0 was used again. -/
theorem C39_witness :
    Reachable 4 lruPool0120 ∧ lruPool0120.pagenum = [0, 1, 2]
      ∧ lruPool0120.updatedOrder = [1, 2, 0]
      ∧ lruPool0120.updatedOrder.Perm lruPool0120.pagenum :=
  ⟨lruPool0120_reachable, by decide, by decide,
    (C39_order_frame_consistency 4 lruPool0120 lruPool0120_reachable).1⟩

/-! ## Pin balance of the record manager -/

theorem firstIdx_none_of {p : Nat → Bool} {k : Nat} (h : ∀ m, m < k → p m = false) :
    firstIdx p k 0 = none := by
  cases hc : firstIdx p k 0 with
  | none => rfl
  | some i =>
    obtain ⟨_, hi, hp, _⟩ := firstIdx_some hc
    have := h i (by omega); rw [hp] at this; cases this

set_option maxRecDepth 100000 in
/-- C34 (defect of the code, the one of C1): on a table with two slots per page
(`PAGE_SIZE` 64, records of 12 bytes), after `insertRecord(r1)`,
`deleteRecord((1, 0))`, `insertRecord(r2)` the first free slot is 2, which is
the number of slots per page.  The next `insertRecord(r3)` pins page 1 at
offset 64 of the pool memory, returns `RC_OK` with the RID (1, 2), and writes
the occupancy byte, the 12 body bytes and the terminator at the offsets 60 to
73 of the page: the 14 bytes from offset 124 of the pool memory, of which the
last ten lie past the end of the page's frame (offset 128). -/
theorem C34_insert_slot_out_of_page :
    slotsPerPage 64 12 = 2
      ∧ (tableInsDelIns 64 12).mgmtData.firstFreePageNum = 1
      ∧ (tableInsDelIns 64 12).mgmtData.firstFreeSlotNum = 2
      ∧ (pinPage 64 (tableInsDelIns 64 12).mgmtData.bufferManagerPtr
          (tableInsDelIns 64 12).mgmtData.pageHandlePtr 1).2.2 = { pageNum := 1, data := some 64 }
      ∧ (insertRecord 64 (tableInsDelIns 64 12) (constRecord 12 3)).1 = RC.RC_OK
      ∧ (insertRecord 64 (tableInsDelIns 64 12) (constRecord 12 3)).2.2.id
          = { page := 1, slot := 2 }
      ∧ slotAddress 64 12 2 = 64 + 60
      ∧ bytesAt (tableInsDelIns 64 12).mgmtData.bufferManagerPtr.pagedata 124 14
          = List.replicate 14 0
      ∧ bytesAt (insertRecord 64 (tableInsDelIns 64 12)
            (constRecord 12 3)).2.1.mgmtData.bufferManagerPtr.pagedata 124 14
          = 89 :: List.replicate 12 3 ++ [124] := by
  decide

/-! ## C38: records do not interfere -/

set_option maxRecDepth 100000 in
/-- C38 (defect of the code, the one of C1): on a table with two slots per page
(`PAGE_SIZE` 80, records of 20 bytes) the pages 1 and 2 are filled with four
records and page 3 gets `insertRecord(r5)`, `deleteRecord((3, 0))`,
`insertRecord(r6)`, `deleteRecord((3, 1))`, `insertRecord(r7)`.  In that state
`getRecord((1, 0))` returns `RC_OK` with the 20 bytes of the first record.  The
next `insertRecord(r8)` returns `RC_OK` with the RID (3, 3); its bytes run from
the frame of page 3 into the frame of page 1, and afterwards `getRecord((1, 0))`
returns `RC_RECORD_NOT_FOUND`. -/
theorem C38_insert_overwrites_record :
    slotsPerPage 80 20 = 2
      ∧ tableCrowded.mgmtData.recSize = 20
      ∧ tableCrowded.mgmtData.bufferManagerPtr.pagenum = [3, 1, 2]
      ∧ (getRecord 80 tableCrowded { page := 1, slot := 0 } (constRecord 20 0)).1 = RC.RC_OK
      ∧ (getRecord 80 tableCrowded { page := 1, slot := 0 } (constRecord 20 0)).2.2.data
          = List.replicate 20 1 ++ [0]
      ∧ (insertRecord 80 tableCrowded (constRecord 20 8)).1 = RC.RC_OK
      ∧ (insertRecord 80 tableCrowded (constRecord 20 8)).2.2.id = { page := 3, slot := 3 }
      ∧ (getRecord 80 (insertRecord 80 tableCrowded (constRecord 20 8)).2.1
          { page := 1, slot := 0 } (constRecord 20 0)).1 = RC.RC_RECORD_NOT_FOUND := by
  decide

/-! ## C35: termination of `next` -/

theorem nextLoop_succ (PS fuel : Nat) (scan : RM_ScanHandle) (record : Record) :
    nextLoop PS (fuel + 1) scan record
      = if scan.mgmtData.scanIndex < scan.mgmtData.totalEntries then
          match nextBody PS scan record with
          | Sum.inl r => some r
          | Sum.inr c => nextLoop PS fuel c.1 c.2
        else some (RC.RC_RM_NO_MORE_TUPLES, scan, record) := by
  rw [nextLoop]
  unfold nextBody
  dsimp only
  generalize RID.mk
    (if decide (scan.mgmtData.currentSlotNum + 1
        ≥ slotsPerPage PS scan.rel.mgmtData.recSize) = true
      then scan.mgmtData.currentPageNum + 1 else scan.mgmtData.currentPageNum)
    (if decide (scan.mgmtData.currentSlotNum + 1
        ≥ slotsPerPage PS scan.rel.mgmtData.recSize) = true
      then 0 else scan.mgmtData.currentSlotNum + 1) = id
  generalize getRecord PS scan.rel id record = g
  by_cases h1 : scan.mgmtData.scanIndex < scan.mgmtData.totalEntries
  · rw [if_pos h1, if_pos h1]
    by_cases h2 : g.1 = RC.RC_OK
    · rw [if_pos h2, if_pos h2]
      cases scan.mgmtData.conditionExpression with
      | none => rfl
      | some expr =>
        dsimp only
        by_cases h3 : evalExpr g.2.2 g.2.1.schema expr = true
        · rw [if_pos h3, if_pos h3]
        · rw [if_neg h3, if_neg h3]
    · rw [if_neg h2, if_neg h2]
  · rw [if_neg h1, if_neg h1]

/-- If the loop of `next` never leaves from the state reached after `n` passes,
it never leaves from the first state. -/
theorem nextLoop_none_of_turns (PS : Nat) (n : Nat) :
    ∀ (c c1 : RM_ScanHandle × Record), scanTurns PS n c = some c1 →
      (∀ fuel, nextLoop PS fuel c1.1 c1.2 = none) → ∀ fuel, nextLoop PS fuel c.1 c.2 = none := by
  induction n with
  | zero =>
    intro c c1 h hn
    have e := Option.some.inj h
    subst e
    exact hn
  | succ n ih =>
    intro c c1 h hn fuel
    cases fuel with
    | zero => rfl
    | succ fuel =>
      unfold scanTurns at h
      rw [nextLoop_succ]
      split at h
      · rename_i hlt
        rw [if_pos hlt]
        split at h
        · cases h
        · rename_i c2 hb
          exact ih c2 c1 h hn fuel
      · cases h

theorem getD_memcpy_zeros (mem src : List Nat) (off : Nat) (hm : ∀ k, mem.getD k 0 = 0)
    (hs : ∀ k, src.getD k 0 = 0) : ∀ k, (memcpy mem off src).getD k 0 = 0 := by
  intro k
  have h1 := hm k
  have h2 := hs (k - off)
  rw [List.getD_eq_getElem?_getD] at h1 h2 ⊢
  rw [getElem?_memcpy]
  split
  · exact h2
  · exact h1

theorem getD_replicate_zero (n k : Nat) : (List.replicate n 0).getD k 0 = 0 := by
  rw [List.getD_eq_getElem?_getD, List.getElem?_replicate]
  split <;> rfl

/-- A `pinPage` of a page that the page file does not hold, on a pool of clean
zero frames, leaves a pool of clean zero frames and the file handle as it was. -/
theorem pinPage_zero {bp : Bufferpool} (PS : Nat) (hz : ZeroPool bp) (ph : BM_PageHandle)
    (p : Int) (hp : p < 0 ∨ bp.fhl.totalNumPages ≤ p) :
    ZeroPool (pinPage PS bp ph p).2.1 ∧ (pinPage PS bp ph p).2.1.fhl = bp.fhl := by
  obtain ⟨h1, h2⟩ := hz
  have hset : ∀ (m k : Nat), (bp.bitdirty.set m false).getD k false = false := by
    intro m k
    rw [getD_set_bool]
    split
    · rfl
    · exact h2 k
  have hcpy : ∀ (off k : Nat), (memcpy bp.pagedata off (List.replicate PS 0)).getD k 0 = 0 :=
    fun off => getD_memcpy_zeros _ _ off h1 (getD_replicate_zero PS)
  unfold pinPage
  dsimp only
  split
  · unfold pinPageHit
    dsimp only
    split
    · split <;> exact ⟨⟨h1, h2⟩, rfl⟩
    · exact ⟨⟨h1, h2⟩, rfl⟩
  · split
    · unfold pinPageEmpty
      rw [readBlock_eof PS p bp.fhl _ hp]
      exact ⟨⟨hcpy _, hset _⟩, rfl⟩
    · split
      · unfold pinPageEvict
        rw [readBlock_eof PS p bp.fhl _ hp]
        dsimp only
        split
        · split
          · exact ⟨⟨h1, h2⟩, rfl⟩
          · split
            · exact ⟨⟨h1, h2⟩, rfl⟩
            · rename_i m _
              rw [if_neg (by rw [h2 m]; simp)]
              unfold UpdateBufferPoolStats ShiftUpdatedOrder
              exact ⟨⟨hcpy _, hset _⟩, rfl⟩
        · exact ⟨⟨h1, h2⟩, rfl⟩
      · exact ⟨⟨h1, h2⟩, rfl⟩

/-- On a pool of clean zero frames, `getRecord` of a record on a page that the
page file does not hold fails, and leaves such a pool. -/
theorem getRecord_zero {PS : Nat} {rel : RM_TableData}
    (hz : ZeroPool rel.mgmtData.bufferManagerPtr) (id : RID) (record : Record)
    (hp : id.page < 0 ∨ rel.mgmtData.bufferManagerPtr.fhl.totalNumPages ≤ id.page) :
    (getRecord PS rel id record).1 ≠ RC.RC_OK
      ∧ ZeroPool (getRecord PS rel id record).2.1.mgmtData.bufferManagerPtr
      ∧ (getRecord PS rel id record).2.1.mgmtData.bufferManagerPtr.fhl
          = rel.mgmtData.bufferManagerPtr.fhl := by
  obtain ⟨⟨z1, z2⟩, zf⟩ := pinPage_zero PS hz rel.mgmtData.pageHandlePtr id.page hp
  unfold getRecord
  dsimp only
  split
  · exact ⟨by simp, hz, rfl⟩
  · split
    · exact ⟨by simp, ⟨z1, z2⟩, zf⟩
    · obtain ⟨k1, k2, k3⟩ := unpinPage_keeps
        (pinPage PS rel.mgmtData.bufferManagerPtr rel.mgmtData.pageHandlePtr id.page).2.1
        (pinPage PS rel.mgmtData.bufferManagerPtr rel.mgmtData.pageHandlePtr id.page).2.2
      rw [if_pos (by rw [z1]; decide)]
      refine ⟨by simp, ⟨?_, ?_⟩, ?_⟩
      · intro k
        show (unpinPage _ _).2.pagedata.getD k 0 = 0
        rw [k1]; exact z1 k
      · intro k
        show (unpinPage _ _).2.bitdirty.getD k false = false
        rw [k3]; exact z2 k
      · show (unpinPage _ _).2.fhl = _
        rw [k2]; exact zf

/-- A scan that still expects entries, on a page at or past the end of the
page file and over a pool of clean zero frames, never leaves the loop of `next`. -/
theorem nextLoop_stuck (PS : Nat) (fuel : Nat) :
    ∀ (scan : RM_ScanHandle) (record : Record),
      scan.mgmtData.scanIndex < scan.mgmtData.totalEntries →
      scan.rel.mgmtData.bufferManagerPtr.fhl.totalNumPages ≤ scan.mgmtData.currentPageNum →
      ZeroPool scan.rel.mgmtData.bufferManagerPtr →
      nextLoop PS fuel scan record = none := by
  induction fuel with
  | zero => intro scan record _ _ _; rfl
  | succ fuel ih =>
    intro scan record hlt hpg hz
    rw [nextLoop_succ, if_pos hlt]
    unfold nextBody
    dsimp only
    generalize hid : RID.mk
      (if decide (scan.mgmtData.currentSlotNum + 1
          ≥ slotsPerPage PS scan.rel.mgmtData.recSize) = true
        then scan.mgmtData.currentPageNum + 1 else scan.mgmtData.currentPageNum)
      (if decide (scan.mgmtData.currentSlotNum + 1
          ≥ slotsPerPage PS scan.rel.mgmtData.recSize) = true
        then 0 else scan.mgmtData.currentSlotNum + 1) = id
    have hpage : scan.mgmtData.currentPageNum ≤ id.page := by
      rw [← hid]
      dsimp only
      split <;> omega
    have hpage2 : id.page = if decide (scan.mgmtData.currentSlotNum + 1
          ≥ slotsPerPage PS scan.rel.mgmtData.recSize) = true
        then scan.mgmtData.currentPageNum + 1 else scan.mgmtData.currentPageNum := by
      rw [← hid]
    obtain ⟨g1, g2, g3⟩ := @getRecord_zero PS scan.rel hz id record (Or.inr (by omega))
    rw [if_neg g1]
    dsimp only
    apply ih
    · exact hlt
    · show (getRecord PS scan.rel id record).2.1.mgmtData.bufferManagerPtr.fhl.totalNumPages ≤ _
      rw [g3]
      show _ ≤ (if _ then _ else _)
      rw [← hpage2]
      omega
    · exact g2

theorem getD_of_all_zero (l : List Nat) (h : l.all (fun b => b == 0) = true) :
    ∀ k, l.getD k 0 = 0 := by
  intro k
  rw [List.all_eq_true] at h
  rw [List.getD_eq_getElem?_getD]
  cases hk : l[k]? with
  | none => rfl
  | some v =>
    have := h v (List.getElem?_mem hk)
    simpa using this

theorem getD_of_all_false (l : List Bool) (h : l.all (fun b => b == false) = true) :
    ∀ k, l.getD k false = false := by
  intro k
  rw [List.all_eq_true] at h
  rw [List.getD_eq_getElem?_getD]
  cases hk : l[k]? with
  | none => rfl
  | some v =>
    have := h v (List.getElem?_mem hk)
    simpa using this

theorem nextLoop_scanStuck (PS : Nat) (scan : RM_ScanHandle) (h : scanStuck scan = true)
    (fuel : Nat) (record : Record) : nextLoop PS fuel scan record = none := by
  unfold scanStuck at h
  simp only [Bool.and_eq_true, decide_eq_true_eq] at h
  obtain ⟨⟨⟨h1, h2⟩, h3⟩, h4⟩ := h
  exact nextLoop_stuck PS fuel scan record h1 h2
    ⟨getD_of_all_zero _ h3, getD_of_all_false _ h4⟩

set_option maxRecDepth 100000 in
/-- C35 (defect of the code, the one of C1): on the table with two slots per
page (`PAGE_SIZE` 64, records of 12 bytes) after `insertRecord(r1)`,
`deleteRecord((1, 0))`, `insertRecord(r2)`, `insertRecord(r3)`, which holds two
records, the first `next` of a scan without condition returns `RC_OK` with the
record (1, 1) and leaves `scanIndex` 1 of `totalEntries` 2.  The second `next`
does not return: whatever the number of `getRecord` attempts allowed, the loop
has not been left. -/
theorem C35_next_does_not_return :
    (tableOverfull 64 12).mgmtData.totalTuples = 2
      ∧ (next 64 8 (startScan (tableOverfull 64 12) none).2 (constRecord 12 0)).map
          (fun r => (r.1, r.2.2.id)) = some (RC.RC_OK, { page := 1, slot := 1 })
      ∧ scanOverfull.mgmtData.scanIndex = 1
      ∧ scanOverfull.mgmtData.totalEntries = 2
      ∧ ∀ fuel, next 64 fuel scanOverfull (constRecord 12 0) = none := by
  refine ⟨by decide, by decide, by decide, by decide, ?_⟩
  intro fuel
  have hlt : ¬ scanOverfull.mgmtData.scanIndex ≥ scanOverfull.mgmtData.totalEntries := by
    decide
  have hall : (scanTurns 64 3 (scanOverfull, constRecord 12 0)).isSome = true
      ∧ (scanTurns 64 3 (scanOverfull, constRecord 12 0)).all (fun c => scanStuck c.1) = true := by
    decide
  unfold next
  rw [if_neg hlt]
  cases hc : scanTurns 64 3 (scanOverfull, constRecord 12 0) with
  | none => rw [hc] at hall; exact absurd hall.1 (by simp)
  | some c1 =>
    rw [hc] at hall
    exact nextLoop_none_of_turns 64 3 (scanOverfull, constRecord 12 0) c1 hc
      (fun f => nextLoop_scanStuck 64 c1.1 (by simpa using hall.2) f c1.2) fuel

/-! ## The stores of `insertRecord` -/

theorem readInt_memcpy_disjoint (mem : List Nat) (off : Nat) (src : List Nat) (o : Nat)
    (h : o + 4 ≤ off ∨ off + src.length ≤ o) : readInt (memcpy mem off src) o = readInt mem o := by
  unfold readInt
  rw [bytesAt_memcpy_disjoint _ _ _ _ _ h]

theorem readInt_set_disjoint (mem : List Nat) (p v o : Nat) (h : o + 4 ≤ p ∨ p + 1 ≤ o) :
    readInt (mem.set p v) o = readInt mem o :=
  readInt_memcpy_disjoint mem p [v] o h

theorem readInt_writeInt_disjoint (mem : List Nat) (off : Nat) (n : Int) (o : Nat)
    (h : o + 4 ≤ off ∨ off + 4 ≤ o) : readInt (writeInt mem off n) o = readInt mem o :=
  readInt_memcpy_disjoint mem off (encodeInt n) o h

theorem getD_writeInt_of_lt (mem : List Nat) (off : Nat) (n : Int) (k : Nat) (h : k < off) :
    (writeInt mem off n).getD k 0 = mem.getD k 0 :=
  getD_memcpy_of_lt mem off _ k h

theorem getD_set_of_lt (mem : List Nat) (p v k : Nat) (h : k < p) :
    (mem.set p v).getD k 0 = mem.getD k 0 :=
  getD_memcpy_of_lt mem p [v] k h

/-- The stores of `insertRecord` leave the header bytes before the slots as
`insertHeader` wrote them. -/
theorem insertStores_header (PS : Nat) (mem : List Nat) (pg : Nat) (pageNum rs slot : Int)
    (data : List Nat) (hpos : pg + 32 ≤ slotAddress pg rs slot) :
    (insertStores PS mem pg pageNum rs slot data).getD pg 0
        = (insertHeader PS mem pg pageNum rs).getD pg 0
      ∧ readInt (insertStores PS mem pg pageNum rs slot data) (pg + offFreeSlotCnt)
        = readInt (insertHeader PS mem pg pageNum rs) (pg + offFreeSlotCnt) := by
  unfold insertStores offFreeSlotCnt
  dsimp only
  constructor
  · rw [getD_set_of_lt _ _ _ _ (by omega), getD_memcpy_of_lt _ _ _ _ (by omega),
      getD_set_of_lt _ _ _ _ (by omega)]
  · rw [readInt_set_disjoint _ _ _ _ (Or.inl (by omega)),
      readInt_memcpy_disjoint _ _ _ _ (Or.inl (by omega)),
      readInt_set_disjoint _ _ _ _ (Or.inl (by omega))]

theorem insertHeader_fresh (PS : Nat) (mem : List Nat) (pg : Nat) (pageNum rs : Int) (S : Nat)
    (hlen : pg + 32 ≤ mem.length) (hb : mem.getD pg 0 ≠ 89) (hS : slotsPerPage PS rs = S)
    (h1 : 1 ≤ S) (h2 : S ≤ 2147483647) :
    (insertHeader PS mem pg pageNum rs).getD pg 0 = 89
      ∧ readInt (insertHeader PS mem pg pageNum rs) (pg + offFreeSlotCnt) = (S : Int) - 1 := by
  unfold insertHeader offPageIdentifier offTotalTuples offFreeSlotCnt offNextFreeSlotInd
    offPrevFreePageIndex offNextFreePageIndex offPrevDataPageIndex offNextDataPageIndex
  rw [if_pos (by simpa using hb)]
  dsimp only
  constructor
  · rw [getD_writeInt_of_lt _ _ _ _ (by omega), getD_writeInt_of_lt _ _ _ _ (by omega),
      getD_writeInt_of_lt _ _ _ _ (by omega), getD_writeInt_of_lt _ _ _ _ (by omega),
      getD_writeInt_of_lt _ _ _ _ (by omega), getD_writeInt_of_lt _ _ _ _ (by omega),
      getD_writeInt_of_lt _ _ _ _ (by omega), Nat.add_zero, getD_set_nat,
      if_pos ⟨rfl, by omega⟩]
  · rw [readInt_writeInt_disjoint _ _ _ _ (Or.inl (by omega)),
      readInt_writeInt_disjoint _ _ _ _ (Or.inl (by omega)),
      readInt_writeInt_disjoint _ _ _ _ (Or.inl (by omega)),
      readInt_writeInt_disjoint _ _ _ _ (Or.inl (by omega)),
      readInt_writeInt_disjoint _ _ _ _ (Or.inl (by omega)),
      readInt_writeInt _ _ _ (by simp only [length_writeInt, List.length_set]; omega)
        (by rw [hS]; omega) (by rw [hS]; omega), hS]

theorem insertHeader_used (PS : Nat) (mem : List Nat) (pg : Nat) (pageNum rs : Int) (c : Int)
    (hlen : pg + 32 ≤ mem.length) (hb : mem.getD pg 0 = 89)
    (hc : readInt mem (pg + offFreeSlotCnt) = c) (h1 : -2147483647 ≤ c) (h2 : c ≤ 2147483647) :
    (insertHeader PS mem pg pageNum rs).getD pg 0 = 89
      ∧ readInt (insertHeader PS mem pg pageNum rs) (pg + offFreeSlotCnt) = c - 1 := by
  unfold insertHeader offPageIdentifier offTotalTuples offFreeSlotCnt offNextFreeSlotInd
  unfold offFreeSlotCnt at hc
  rw [if_neg (by simpa using hb)]
  dsimp only
  constructor
  · rw [getD_writeInt_of_lt _ _ _ _ (by omega), getD_writeInt_of_lt _ _ _ _ (by omega),
      getD_writeInt_of_lt _ _ _ _ (by omega)]
    simpa using hb
  · rw [readInt_writeInt_disjoint _ _ _ _ (Or.inl (by omega)),
      readInt_writeInt _ _ _ (by simp only [length_writeInt]; omega),
      readInt_writeInt_disjoint _ _ _ _ (Or.inr (by omega)), hc]
    · rw [readInt_writeInt_disjoint _ _ _ _ (Or.inr (by omega)), hc]; omega
    · rw [readInt_writeInt_disjoint _ _ _ _ (Or.inr (by omega)), hc]; omega

theorem markDirty_keeps (bp : Bufferpool) (page : BM_PageHandle) :
    (markDirty bp page).2.fhl = bp.fhl ∧ (markDirty bp page).2.pagenum = bp.pagenum
      ∧ (markDirty bp page).2.pagedata = bp.pagedata := by
  unfold markDirty
  split
  · split <;> exact ⟨rfl, rfl, rfl⟩
  · exact ⟨rfl, rfl, rfl⟩

theorem length_insertStores (PS : Nat) (mem : List Nat) (pg : Nat) (pageNum rs slot : Int)
    (data : List Nat) : (insertStores PS mem pg pageNum rs slot data).length = mem.length := by
  unfold insertStores
  simp only [List.length_set, length_memcpy, length_insertHeader]

/-- `insertRecord` on a table that satisfies the invariant: the page
`firstFreePageNum` is pinned in a frame `i`, the call returns `RC_OK` with the
record identifier `(firstFreePageNum, firstFreeSlotNum)`, and the next
`pinPage` of that page shows the stores of the call in the same frame. -/
theorem insertRecord_fields {PS : Nat} {rel : RM_TableData} (h : TableInv PS rel)
    (record : Record) :
    ∃ i, i < rel.mgmtData.bufferManagerPtr.totalPages
      ∧ (pinPage PS rel.mgmtData.bufferManagerPtr rel.mgmtData.pageHandlePtr
          rel.mgmtData.firstFreePageNum).2.2
        = { pageNum := rel.mgmtData.firstFreePageNum, data := some (i * PS) }
      ∧ (pinPage PS rel.mgmtData.bufferManagerPtr rel.mgmtData.pageHandlePtr
          rel.mgmtData.firstFreePageNum).2.1.pagedata.length
        = rel.mgmtData.bufferManagerPtr.totalPages * PS
      ∧ (pinPage PS rel.mgmtData.bufferManagerPtr rel.mgmtData.pageHandlePtr
          rel.mgmtData.firstFreePageNum).1 = RC.RC_OK
      ∧ (insertRecord PS rel record).1 = RC.RC_OK
      ∧ (insertRecord PS rel record).2.2.id
        = { page := rel.mgmtData.firstFreePageNum, slot := rel.mgmtData.firstFreeSlotNum }
      ∧ (insertRecord PS rel record).2.1.mgmtData.recSize = rel.mgmtData.recSize
      ∧ (insertRecord PS rel record).2.1.mgmtData.totalTuples = rel.mgmtData.totalTuples + 1
      ∧ (insertRecord PS rel record).2.1.mgmtData.firstFreePageNum
        = (if readInt (insertStores PS
              (pinPage PS rel.mgmtData.bufferManagerPtr rel.mgmtData.pageHandlePtr
                rel.mgmtData.firstFreePageNum).2.1.pagedata (i * PS)
              rel.mgmtData.firstFreePageNum rel.mgmtData.recSize rel.mgmtData.firstFreeSlotNum
              record.data) (i * PS + offFreeSlotCnt) = 0
            then rel.mgmtData.firstFreePageNum + 1 else rel.mgmtData.firstFreePageNum)
      ∧ (insertRecord PS rel record).2.1.mgmtData.firstFreeSlotNum
        = (if readInt (insertStores PS
              (pinPage PS rel.mgmtData.bufferManagerPtr rel.mgmtData.pageHandlePtr
                rel.mgmtData.firstFreePageNum).2.1.pagedata (i * PS)
              rel.mgmtData.firstFreePageNum rel.mgmtData.recSize rel.mgmtData.firstFreeSlotNum
              record.data) (i * PS + offFreeSlotCnt) = 0
            then 0 else rel.mgmtData.firstFreeSlotNum + 1)
      ∧ (insertRecord PS rel record).2.1.mgmtData.bufferManagerPtr.pagenum
        = (pinPage PS rel.mgmtData.bufferManagerPtr rel.mgmtData.pageHandlePtr
            rel.mgmtData.firstFreePageNum).2.1.pagenum
      ∧ (insertRecord PS rel record).2.1.mgmtData.bufferManagerPtr.fhl
        = (pinPage PS rel.mgmtData.bufferManagerPtr rel.mgmtData.pageHandlePtr
            rel.mgmtData.firstFreePageNum).2.1.fhl
      ∧ ∀ page2 : BM_PageHandle,
          (pinPage PS (insertRecord PS rel record).2.1.mgmtData.bufferManagerPtr page2
              rel.mgmtData.firstFreePageNum).2.2
            = { pageNum := rel.mgmtData.firstFreePageNum, data := some (i * PS) }
          ∧ (pinPage PS (insertRecord PS rel record).2.1.mgmtData.bufferManagerPtr page2
              rel.mgmtData.firstFreePageNum).2.1.pagedata
            = insertStores PS
                (pinPage PS rel.mgmtData.bufferManagerPtr rel.mgmtData.pageHandlePtr
                  rel.mgmtData.firstFreePageNum).2.1.pagedata (i * PS)
                rel.mgmtData.firstFreePageNum rel.mgmtData.recSize
                rel.mgmtData.firstFreeSlotNum record.data := by
  obtain ⟨i, hi, hh, hlenp, hagain⟩ := pin_again h.pool h.unpinned h.fifo
    rel.mgmtData.pageHandlePtr rel.mgmtData.firstFreePageNum h.freePage
  obtain ⟨_, _, hok, _, _, hsec⟩ := pin_work_unpin h.pool h.unpinned h.fifo
    rel.mgmtData.pageHandlePtr rel.mgmtData.firstFreePageNum h.freePage
  have hd0 : (pinPage PS rel.mgmtData.bufferManagerPtr rel.mgmtData.pageHandlePtr
      rel.mgmtData.firstFreePageNum).2.2.data.getD 0 = i * PS := by rw [hh]; rfl
  have hpn : (pinPage PS rel.mgmtData.bufferManagerPtr rel.mgmtData.pageHandlePtr
      rel.mgmtData.firstFreePageNum).2.2.pageNum = rel.mgmtData.firstFreePageNum := by rw [hh]
  have hM := length_insertStores PS
    (pinPage PS rel.mgmtData.bufferManagerPtr rel.mgmtData.pageHandlePtr
      rel.mgmtData.firstFreePageNum).2.1.pagedata (i * PS)
    rel.mgmtData.firstFreePageNum rel.mgmtData.recSize rel.mgmtData.firstFreeSlotNum record.data
  obtain ⟨_, _, _, s4, s5, _⟩ := hsec _ _ hM (Or.inr rfl)
  have hag := fun page2 => hagain _ _ page2 hM (Or.inr rfl)
  obtain ⟨u1, u2, _⟩ := unpinPage_keeps
    (markDirty { (pinPage PS rel.mgmtData.bufferManagerPtr rel.mgmtData.pageHandlePtr
        rel.mgmtData.firstFreePageNum).2.1 with
      pagedata := insertStores PS
        (pinPage PS rel.mgmtData.bufferManagerPtr rel.mgmtData.pageHandlePtr
          rel.mgmtData.firstFreePageNum).2.1.pagedata (i * PS)
        rel.mgmtData.firstFreePageNum rel.mgmtData.recSize rel.mgmtData.firstFreeSlotNum
        record.data }
      (pinPage PS rel.mgmtData.bufferManagerPtr rel.mgmtData.pageHandlePtr
        rel.mgmtData.firstFreePageNum).2.2).2
    (pinPage PS rel.mgmtData.bufferManagerPtr rel.mgmtData.pageHandlePtr
      rel.mgmtData.firstFreePageNum).2.2
  obtain ⟨k1, _, _⟩ := markDirty_keeps
    { (pinPage PS rel.mgmtData.bufferManagerPtr rel.mgmtData.pageHandlePtr
        rel.mgmtData.firstFreePageNum).2.1 with
      pagedata := insertStores PS
        (pinPage PS rel.mgmtData.bufferManagerPtr rel.mgmtData.pageHandlePtr
          rel.mgmtData.firstFreePageNum).2.1.pagedata (i * PS)
        rel.mgmtData.firstFreePageNum rel.mgmtData.recSize rel.mgmtData.firstFreeSlotNum
        record.data }
    (pinPage PS rel.mgmtData.bufferManagerPtr rel.mgmtData.pageHandlePtr
      rel.mgmtData.firstFreePageNum).2.2
  refine ⟨i, hi, hh, hlenp, hok, ?_⟩
  unfold insertRecord
  simp only [hok, ne_eq, not_true_eq_false, if_false, markDirty_status, unpinPage_status,
    and_self, if_true, hd0, hpn, decide_eq_true_eq]
  unfold insertStores at s5 hag u2 k1 ⊢
  dsimp only at s5 hag u2 k1 ⊢
  exact ⟨trivial, trivial, trivial, trivial, rfl, rfl, s5, u2.trans k1, hag⟩

theorem unpinPage_pagenum (bp : Bufferpool) (page : BM_PageHandle) :
    (unpinPage bp page).2.pagenum = bp.pagenum := by
  unfold unpinPage
  split
  · split <;> rfl
  · rfl

/-- After `openTable` the pool holds no page other than page 0. -/
theorem openTable_pages (PS : Nat) (tableFile : Option (List Nat)) (rel : RM_TableData)
    (h : openTable PS tableFile = (RC.RC_OK, some rel)) :
    ∀ m, rel.mgmtData.bufferManagerPtr.pagenum.getD m 0 ≤ 0 := by
  unfold openTable at h
  split at h
  · rename_i bufferManager hinit
    have hinv := initBufferPool_inv PS _ _ _ _ hinit
    have hpn : ∀ m, bufferManager.pagenum.getD m 0 ≤ 0 := by
      unfold initBufferPool at hinit
      rw [if_neg (by decide)] at hinit
      split at hinit
      · simp only [Prod.mk.injEq, Option.some.injEq, true_and] at hinit
        subst hinit
        intro m
        show (List.replicate _ NO_PAGE).getD m 0 ≤ 0
        simp only [List.getD_eq_getElem?_getD, List.getElem?_replicate]
        split
        · simp [NO_PAGE]
        · simp
      · simp at hinit
    obtain ⟨_, hp⟩ := pinPage_pagenum hinv { pageNum := 0, data := none } 0
    dsimp only at h
    split at h
    · simp at h
    · split at h
      · simp at h
      · simp only [Prod.mk.injEq, Option.some.injEq, true_and] at h
        subst h
        intro m
        show (unpinPage _ _).2.pagenum.getD m 0 ≤ 0
        rw [unpinPage_pagenum]
        rcases hp with hp | ⟨k, hp⟩
        · rw [hp]; exact hpn m
        · rw [hp, getD_set_int]
          split
          · exact le_refl _
          · exact hpn m
  · rename_i rcode x hx
    simp only [Prod.mk.injEq] at h
    exact absurd h.2 (by simp)

/-! ## C37 among reads and updates: the pool as a cache of the page file -/

theorem blockStored_congr {PS : Nat} {fh fh2 : SM_FileHandle} {v : Int} {d : List Nat}
    (h1 : fh2.mgmtInfo = fh.mgmtInfo) (h2 : fh2.totalNumPages = fh.totalNumPages)
    (h : blockStored PS fh v d) : blockStored PS fh2 v d := by
  unfold blockStored at *
  rw [h1, h2]
  exact h

theorem blockStored_length {PS : Nat} {fh : SM_FileHandle} {v : Int} {d : List Nat}
    (h : blockStored PS fh v d) : d.length = PS := by
  obtain ⟨_, _, h3, h4⟩ := h
  rw [← h4, length_bytesAt]
  omega

theorem frames_apart (PS i k : Nat) (hne : k ≠ i) :
    k * PS + PS ≤ i * PS ∨ i * PS + PS ≤ k * PS := by
  rcases Nat.lt_or_gt_of_ne hne with h | h
  · left
    have h2 := Nat.mul_le_mul_right PS (show k + 1 ≤ i by omega)
    have e : (k + 1) * PS = k * PS + PS := by ring
    omega
  · right
    have h2 := Nat.mul_le_mul_right PS (show i + 1 ≤ k by omega)
    have e : (i + 1) * PS = i * PS + PS := by ring
    omega

theorem frameBytes_memcpy_same (PS : Nat) (mem src : List Nat) (i : Nat) (hs : src.length = PS)
    (hl : i * PS + PS ≤ mem.length) : frameBytes PS (memcpy mem (i * PS) src) i = src := by
  unfold frameBytes
  have := bytesAt_memcpy_same mem (i * PS) src (by omega)
  rw [hs] at this
  exact this

theorem frameBytes_memcpy_other (PS : Nat) (mem src : List Nat) (i k : Nat)
    (hs : src.length = PS) (hne : k ≠ i) :
    frameBytes PS (memcpy mem (i * PS) src) k = frameBytes PS mem k := by
  unfold frameBytes
  apply bytesAt_memcpy_disjoint
  rw [hs]
  exact frames_apart PS i k hne

theorem frame_in_pool {PS : Nat} {bp : Bufferpool} (h : PoolInv PS bp) (i : Nat)
    (hi : i < bp.totalPages) : i * PS + PS ≤ bp.pagedata.length := by
  rw [h.len_data]
  have : (i + 1) * PS ≤ bp.totalPages * PS := Nat.mul_le_mul_right PS (by omega)
  have e : (i + 1) * PS = i * PS + PS := by ring
  omega

/-- A successful `pinPage` of a page number that is not negative keeps the
cache invariant. -/
theorem pinPage_cacheInv {PS : Nat} {G : Int} {hdr : Option (Int × Int)} {bp : Bufferpool}
    (hinv : PoolInv PS bp) (h : CacheInv PS G hdr bp) (page : BM_PageHandle) (p : Int)
    (hp : 0 ≤ p) (hok : (pinPage PS bp page p).1 = RC.RC_OK) :
    CacheInv PS G hdr (pinPage PS bp page p).2.1 := by
  by_cases hm : p ∈ usedPages bp
  · obtain ⟨i, hi, hx⟩ := (hinv.mem_usedPages p).mp hm
    obtain ⟨_, _, _, h4, h5, h6, h7, h8, _⟩ := pinPage_hit_fields hinv page p i hi hx
    exact
      { total_le := by rw [h7]; exact h.total_le
        fresh := by rw [h8, h4, h6, h5]; exact h.fresh
        head := by rw [h8, h4, h6, h5, h7]; exact h.head }
  · obtain ⟨i, hi, _, _, _, _, m6, m7, m8, m9, m10, _⟩ :=
      pinPage_miss_fields hinv page p hm hok
    obtain ⟨rf1, rf2⟩ := readBlock_file PS p bp.fhl (List.replicate PS 0)
    have hrbl := readBlock_length PS p bp.fhl (List.replicate PS 0) (List.length_replicate _ _)
    have hlen := frame_in_pool hinv i hi
    have hnotres : ∀ k, k < bp.totalPages → bp.pagenum.getD k 0 ≠ p := by
      intro k hk hkp
      apply hm
      exact (hinv.mem_usedPages p).mpr
        ⟨k, hinv.used_of_ne k hk (by rw [hkp]; unfold NO_PAGE; omega), hkp⟩
    have hpn : ∀ k, k ≠ i → (bp.pagenum.set i p).getD k 0 = bp.pagenum.getD k 0 := by
      intro k hk
      rw [getD_set_int, if_neg (by intro hc; exact hk hc.1.symm)]
    have hpi : (bp.pagenum.set i p).getD i 0 = p := by
      rw [getD_set_int, if_pos ⟨rfl, by rw [hinv.len_pagenum]; exact hi⟩]
    have hdk : ∀ k, k ≠ i → (bp.bitdirty.set i false).getD k false = bp.bitdirty.getD k false := by
      intro k hk
      rw [getD_set_bool, if_neg (by intro hc; exact hk hc.1.symm)]
    have hdi : (bp.bitdirty.set i false).getD i false = false := by
      rw [getD_set_bool, if_pos ⟨rfl, by rw [hinv.len_dirty]; exact hi⟩]
    have hvict : bp.bitdirty.getD i false = true →
        0 ≤ bp.pagenum.getD i 0 ∧ bp.pagenum.getD i 0 < G := by
      intro hd
      refine ⟨hinv.pagenum_used i (hinv.dirty_used i hd), ?_⟩
      by_contra hc
      have := (h.fresh i hi (by omega)).2
      rw [this] at hd
      cases hd
    refine
      { total_le := ?_
        fresh := ?_
        head := ?_ }
    · rw [m9]
      split
      · rename_i hd
        obtain ⟨_, hv⟩ := hvict hd
        rw [writeBlock_total, ensureCapacity_total, rf2]
        have := h.total_le
        omega
      · rw [rf2]; exact h.total_le
    · intro k hk hG
      rw [m10] at hk
      rw [m6] at hG
      rw [m8, m7]
      by_cases hki : k = i
      · subst hki
        rw [hpi] at hG
        rw [frameBytes_memcpy_same PS _ _ k hrbl hlen,
          readBlock_eof PS p bp.fhl _ (Or.inr (by have := h.total_le; omega))]
        exact ⟨rfl, hdi⟩
      · rw [hpn k hki] at hG
        rw [frameBytes_memcpy_other PS _ _ i k hrbl hki, hdk k hki]
        exact h.fresh k hk hG
    · intro F c hh
      obtain ⟨f0, fG, fres, fblk⟩ := h.head F c hh
      refine ⟨f0, fG, ?_, ?_⟩
      · intro k hk hkF
        rw [m10] at hk
        rw [m6] at hkF
        rw [m8]
        by_cases hki : k = i
        · subst hki
          rw [hpi] at hkF
          subst hkF
          obtain ⟨d, hd1, hd2⟩ := fblk (fun k2 hk2 hx => absurd hx (hnotres k2 hk2))
          rw [frameBytes_memcpy_same PS _ _ k hrbl hlen,
            readBlock_ok PS p bp.fhl _ d hd1.1 hd1.2.1 hd1.2.2.2 (blockStored_length hd1)]
          exact hd2
        · rw [hpn k hki] at hkF
          rw [frameBytes_memcpy_other PS _ _ i k hrbl hki]
          exact fres k hk hkF
      · intro hclean
        rw [m10, m6, m7] at hclean
        rw [m9]
        have hold : bp.pagenum.getD i 0 ≠ F ∨ bp.bitdirty.getD i false = false →
            ∃ d, blockStored PS bp.fhl F d ∧ HasHeader d c := by
          intro hcase
          apply fblk
          intro k hk hkF
          by_cases hki : k = i
          · subst hki
            rcases hcase with hc | hc
            · exact absurd hkF hc
            · exact hc
          · have := hclean k hk (by rw [hpn k hki]; exact hkF)
            rw [hdk k hki] at this
            exact this
        split
        · rename_i hd
          obtain ⟨hv0, _⟩ := hvict hd
          obtain ⟨_, w2, w3⟩ := write_block_stored PS
            (readBlock PS p bp.fhl (List.replicate PS 0)).2.1 (bp.pagenum.getD i 0)
            (frameBytes PS bp.pagedata i) hv0 (length_frameBytes hinv i hi)
          by_cases hvF : bp.pagenum.getD i 0 = F
          · refine ⟨frameBytes PS bp.pagedata i, ?_, fres i hi hvF⟩
            rw [← hvF]
            exact w2
          · obtain ⟨d, hd1, hd2⟩ := hold (Or.inl hvF)
            exact ⟨d, w3 F d (Ne.symm hvF) (blockStored_congr rf1 rf2 hd1), hd2⟩
        · rename_i hd
          obtain ⟨d, hd1, hd2⟩ := hold (Or.inr (by simpa using hd))
          exact ⟨d, blockStored_congr rf1 rf2 hd1, hd2⟩

theorem CacheInv.congr {PS : Nat} {G : Int} {hdr : Option (Int × Int)} {bp b : Bufferpool}
    (h : CacheInv PS G hdr bp) (h1 : b.totalPages = bp.totalPages)
    (h2 : b.pagenum = bp.pagenum) (h3 : b.bitdirty = bp.bitdirty)
    (h4 : b.pagedata = bp.pagedata) (h5 : b.fhl = bp.fhl) : CacheInv PS G hdr b :=
  { total_le := by rw [h5]; exact h.total_le
    fresh := by rw [h1, h2, h3, h4]; exact h.fresh
    head := by rw [h1, h2, h3, h4, h5]; exact h.head }

theorem unpinPage_cacheInv {PS : Nat} {G : Int} {hdr : Option (Int × Int)} {bp : Bufferpool}
    (h : CacheInv PS G hdr bp) (page : BM_PageHandle) :
    CacheInv PS G hdr (unpinPage bp page).2 := by
  obtain ⟨k1, k2, k3⟩ := unpinPage_keeps bp page
  obtain ⟨_, f2, f3⟩ := unpinPage_fields bp page
  exact h.congr f3 f2 k3 k1 k2

theorem markDirty_bits {PS : Nat} {bp : Bufferpool} (hinv : PoolInv PS bp) (page : BM_PageHandle)
    (i : Nat) (hi : i < bp.totalPages) (hx : bp.pagenum.getD i 0 = page.pageNum)
    (hp : 0 ≤ page.pageNum) :
    (markDirty bp page).2.bitdirty.getD i false = true
      ∧ ∀ k, k ≠ i → (markDirty bp page).2.bitdirty.getD k false = bp.bitdirty.getD k false := by
  have hne : page.pageNum ≠ NO_PAGE := by unfold NO_PAGE; omega
  have hs := hinv.fullSearch_some page.pageNum hne i hi hx
  unfold markDirty
  rw [hs]
  dsimp only
  split
  · refine ⟨?_, ?_⟩
    · rw [getD_set_bool, if_pos ⟨rfl, by rw [hinv.len_dirty]; exact hi⟩]
    · intro k hk
      rw [getD_set_bool, if_neg (by intro hc; exact hk hc.1.symm)]
  · rename_i hd
    refine ⟨?_, fun k _ => rfl⟩
    simpa [-List.getD_eq_getElem?_getD] using hd

/-- Stores into the frame of page `p` followed by `markDirty(p)` keep the cache
invariant, for the header that the stores leave. -/
theorem stores_cacheInv {PS : Nat} {G G2 : Int} {hdr hdr2 : Option (Int × Int)}
    {b : Bufferpool} (hinv : PoolInv PS b) (h : CacheInv PS G hdr b) (i : Nat)
    (hi : i < b.totalPages) (page : BM_PageHandle) (hx : b.pagenum.getD i 0 = page.pageNum)
    (hp : 0 ≤ page.pageNum) (hpG : page.pageNum < G2) (hGG : G ≤ G2) (m : List Nat)
    (hm : m.length = b.pagedata.length)
    (hother : ∀ k, k ≠ i → frameBytes PS m k = frameBytes PS b.pagedata k)
    (hhead : ∀ F c, hdr2 = some (F, c) →
      0 ≤ F ∧ F < G2 ∧ ((F = page.pageNum ∧ HasHeader (frameBytes PS m i) c)
        ∨ (F ≠ page.pageNum ∧ hdr = some (F, c)))) :
    CacheInv PS G2 hdr2 (markDirty { b with pagedata := m } page).2 := by
  have hinv2 : PoolInv PS { b with pagedata := m } := hinv.of_data m hm
  obtain ⟨_, d2, d3, _, d5, _, d7, _⟩ := markDirty_at hinv2 page i hi hx hp
  obtain ⟨b1, b2⟩ := markDirty_bits hinv2 page i hi hx hp
  have huniq : ∀ k, k < b.totalPages → b.pagenum.getD k 0 = page.pageNum → k = i := by
    intro k hk hkp
    have hne : page.pageNum ≠ NO_PAGE := by unfold NO_PAGE; omega
    exact hinv.pagenum_inj (hinv.used_of_ne k hk (by rw [hkp]; exact hne))
      (hinv.used_of_ne i hi (by rw [hx]; exact hne)) (by rw [hkp, hx])
  refine
    { total_le := ?_
      fresh := ?_
      head := ?_ }
  · rw [d7]
    have := h.total_le
    show b.fhl.totalNumPages ≤ G2
    omega
  · intro k hk hG
    rw [d5] at hk
    rw [d3] at hG
    rw [d2]
    have hki : k ≠ i := by
      intro hc
      subst hc
      change G2 ≤ b.pagenum.getD k 0 at hG
      omega
    rw [b2 k hki]
    show frameBytes PS m k = _ ∧ b.bitdirty.getD k false = false
    rw [hother k hki]
    exact h.fresh k hk (le_trans hGG hG)
  · intro F c hh
    obtain ⟨f0, fG, hcase⟩ := hhead F c hh
    refine ⟨f0, fG, ?_, ?_⟩
    · intro k hk hkF
      rw [d5] at hk
      rw [d3] at hkF
      rw [d2]
      show HasHeader (frameBytes PS m k) c
      change b.pagenum.getD k 0 = F at hkF
      rcases hcase with ⟨hFp, hH⟩ | ⟨hFp, hold⟩
      · have := huniq k hk (by rw [hkF, hFp])
        subst this
        exact hH
      · have hki : k ≠ i := by
          intro hc
          subst hc
          exact hFp (by rw [← hkF, hx])
        rw [hother k hki]
        exact (h.head F c hold).2.2.1 k hk hkF
    · intro hclean
      rw [d5, d3] at hclean
      rw [d7]
      show ∃ d, blockStored PS b.fhl F d ∧ HasHeader d c
      rcases hcase with ⟨hFp, _⟩ | ⟨hFp, hold⟩
      · have := hclean i hi (by show b.pagenum.getD i 0 = F; rw [hx, hFp])
        rw [b1] at this
        cases this
      · apply (h.head F c hold).2.2.2
        intro k hk hkF
        have hki : k ≠ i := by
          intro hc
          subst hc
          exact hFp (by rw [← hkF, hx])
        have := hclean k hk hkF
        rw [b2 k hki] at this
        exact this

theorem bytesAt_bytesAt (mem : List Nat) (off n a k : Nat) (h : a + k ≤ n) :
    bytesAt (bytesAt mem off n) a k = bytesAt mem (off + a) k := by
  apply List.ext_getElem?
  intro x
  rw [getElem?_bytesAt, getElem?_bytesAt, getElem?_bytesAt]
  by_cases hx : x < k
  · rw [if_pos hx, if_pos hx, if_pos (by omega), Nat.add_assoc]
  · rw [if_neg hx, if_neg hx]

theorem getD_bytesAt (mem : List Nat) (off n k : Nat) (h : k < n) :
    (bytesAt mem off n).getD k 0 = mem.getD (off + k) 0 := by
  rw [List.getD_eq_getElem?_getD, List.getD_eq_getElem?_getD, getElem?_bytesAt, if_pos h]

/-- The header of a frame, read in the pool memory. -/
theorem hasHeader_frame (PS : Nat) (mem : List Nat) (i : Nat) (c : Int) (hPS : 12 ≤ PS) :
    HasHeader (frameBytes PS mem i) c
      ↔ mem.getD (i * PS) 0 = 89 ∧ readInt mem (i * PS + offFreeSlotCnt) = c := by
  unfold HasHeader frameBytes readInt offPageIdentifier offFreeSlotCnt
  rw [getD_bytesAt _ _ _ _ (by omega), bytesAt_bytesAt _ _ _ _ _ (by omega), Nat.add_zero]

theorem frameBytes_eq_of_getD (PS : Nat) (a b : List Nat) (k : Nat) (hl : a.length = b.length)
    (h : ∀ x, k * PS ≤ x → x < k * PS + PS → a.getD x 0 = b.getD x 0) :
    frameBytes PS a k = frameBytes PS b k := by
  unfold frameBytes
  apply List.ext_getElem?
  intro x
  rw [getElem?_bytesAt, getElem?_bytesAt]
  by_cases hx : x < PS
  · rw [if_pos hx, if_pos hx]
    have := h (k * PS + x) (by omega) (by omega)
    rw [List.getD_eq_getElem?_getD, List.getD_eq_getElem?_getD] at this
    by_cases hlt : k * PS + x < a.length
    · rw [List.getElem?_eq_getElem hlt, List.getElem?_eq_getElem (by omega)] at this ⊢
      simp only [Option.getD_some] at this
      rw [this]
    · rw [List.getElem?_eq_none (by omega), List.getElem?_eq_none (by omega)]
  · rw [if_neg hx, if_neg hx]

theorem getD_memcpy_outside (mem : List Nat) (off : Nat) (src : List Nat) (x : Nat)
    (h : x < off ∨ off + src.length ≤ x) : (memcpy mem off src).getD x 0 = mem.getD x 0 := by
  rcases h with h | h
  · exact getD_memcpy_of_lt mem off src x h
  · exact getD_memcpy_of_ge mem off src x h

theorem getD_set_outside (mem : List Nat) (p v x : Nat) (h : x ≠ p) :
    (mem.set p v).getD x 0 = mem.getD x 0 :=
  getD_memcpy_outside mem p [v] x (by simp only [List.length_singleton]; omega)

theorem getD_writeInt_outside (mem : List Nat) (off : Nat) (n : Int) (x : Nat)
    (h : x < off ∨ off + 4 ≤ x) : (writeInt mem off n).getD x 0 = mem.getD x 0 :=
  getD_memcpy_outside mem off (encodeInt n) x (by rw [length_encodeInt]; exact h)

/-- The header update of `insertRecord` stores into the 32 header bytes only. -/
theorem insertHeader_outside (PS : Nat) (mem : List Nat) (pg : Nat) (pageNum rs : Int) (x : Nat)
    (h : x < pg ∨ pg + 32 ≤ x) :
    (insertHeader PS mem pg pageNum rs).getD x 0 = mem.getD x 0 := by
  unfold insertHeader offPageIdentifier offTotalTuples offFreeSlotCnt offNextFreeSlotInd
    offPrevFreePageIndex offNextFreePageIndex offPrevDataPageIndex offNextDataPageIndex
  split
  · dsimp only
    rw [getD_writeInt_outside _ _ _ _ (by omega), getD_writeInt_outside _ _ _ _ (by omega),
      getD_writeInt_outside _ _ _ _ (by omega), getD_writeInt_outside _ _ _ _ (by omega),
      getD_writeInt_outside _ _ _ _ (by omega), getD_writeInt_outside _ _ _ _ (by omega),
      getD_writeInt_outside _ _ _ _ (by omega), getD_set_outside _ _ _ _ (by omega)]
  · dsimp only
    rw [getD_writeInt_outside _ _ _ _ (by omega), getD_writeInt_outside _ _ _ _ (by omega),
      getD_writeInt_outside _ _ _ _ (by omega)]

/-- The stores of `insertRecord` into a slot of the page at `pg` stay inside
the `PS` bytes of the page. -/
theorem insertStores_outside (PS : Nat) (mem : List Nat) (pg : Nat) (pageNum rs slot : Int)
    (data : List Nat) (x : Nat) (hPS : 32 ≤ PS) (hpos : pg + 32 ≤ slotAddress pg rs slot)
    (hend : slotAddress pg rs slot + 1 + rs.toNat + 1 ≤ pg + PS)
    (h : x < pg ∨ pg + PS ≤ x) :
    (insertStores PS mem pg pageNum rs slot data).getD x 0 = mem.getD x 0 := by
  unfold insertStores
  dsimp only
  have hl : (data.take rs.toNat).length ≤ rs.toNat := by
    rw [List.length_take]; omega
  rw [getD_set_outside _ _ _ _ (by omega), getD_memcpy_outside _ _ _ _ (by omega),
    getD_set_outside _ _ _ _ (by omega), insertHeader_outside _ _ _ _ _ _ (by omega)]

theorem insertStores_other (PS : Nat) (mem : List Nat) (i : Nat) (pageNum rs slot : Int)
    (data : List Nat) (hPS : 32 ≤ PS) (hrec : 0 ≤ rs) (h0 : 0 ≤ slot)
    (h1 : slot < slotsPerPage PS rs) (k : Nat) (hk : k ≠ i) :
    frameBytes PS (insertStores PS mem (i * PS) pageNum rs slot data) k
      = frameBytes PS mem k := by
  obtain ⟨hpos, hend⟩ := slot_in_frame PS rs slot i (i + 1) hrec h0 h1 (Nat.lt_succ_self i)
  have e : (i + 1) * PS = i * PS + PS := by ring
  rw [e] at hend
  apply frameBytes_eq_of_getD PS _ _ k (length_insertStores _ _ _ _ _ _ _)
  intro x hx1 hx2
  apply insertStores_outside PS mem (i * PS) pageNum rs slot data x hPS hpos hend
  rcases frames_apart PS i k hk with h | h
  · left; omega
  · right; omega

/-- The stores of `updateRecord` into a slot of frame `i` leave the other
frames and the header of the page as they were. -/
theorem updateStores_frames (PS : Nat) (mem : List Nat) (i : Nat) (rs slot : Int)
    (data : List Nat) (hPS : 32 ≤ PS) (hrec : 0 ≤ rs) (h0 : 0 ≤ slot)
    (h1 : slot < slotsPerPage PS rs) :
    (∀ k, k ≠ i →
      frameBytes PS (memcpy mem (slotAddress (i * PS) rs slot + 1) (data.take rs.toNat)) k
        = frameBytes PS mem k)
    ∧ ∀ c, HasHeader (frameBytes PS mem i) c →
        HasHeader (frameBytes PS
          (memcpy mem (slotAddress (i * PS) rs slot + 1) (data.take rs.toNat)) i) c := by
  obtain ⟨hpos, hend⟩ := slot_in_frame PS rs slot i (i + 1) hrec h0 h1 (Nat.lt_succ_self i)
  have e : (i + 1) * PS = i * PS + PS := by ring
  rw [e] at hend
  have hl : (data.take rs.toNat).length ≤ rs.toNat := by
    rw [List.length_take]; omega
  constructor
  · intro k hk
    apply frameBytes_eq_of_getD PS _ _ k (length_memcpy _ _ _)
    intro x hx1 hx2
    apply getD_memcpy_outside
    rcases frames_apart PS i k hk with h | h
    · left; omega
    · right; omega
  · intro c hc
    rw [hasHeader_frame PS _ i c (by omega)] at hc ⊢
    unfold offFreeSlotCnt at hc ⊢
    rw [getD_memcpy_outside _ _ _ _ (Or.inl (by omega)),
      readInt_memcpy_disjoint _ _ _ _ (Or.inl (by omega))]
    exact hc

/-! ## C37: inserts among reads and updates -/

theorem slots_fit {PS S : Nat} {rs : Int} (hs : slotsPerPage PS rs = S) (hrec : 0 ≤ rs)
    (hS : 1 ≤ S) : 34 ≤ PS ∧ (S : Int) ≤ PS := by
  unfold slotsPerPage at hs
  have hst : (0 : Int) < rs + 2 := by omega
  have h3 := Int.ediv_mul_le ((PS : Int) - (sizeofPageHeader : Int)) (ne_of_gt hst)
  rw [hs] at h3
  have h8 : (sizeofPageHeader : Int) = 32 := rfl
  have h4 : (S : Int) ≤ (S : Int) * (rs + 2) := by
    have : (0 : Int) ≤ (S : Int) := by omega
    nlinarith
  have h5 : (rs + 2) ≤ (S : Int) * (rs + 2) := by
    have : (1 : Int) ≤ (S : Int) := by omega
    nlinarith
  constructor <;> omega

theorem getRecord_plainInv {PS S q j : Nat} {rel : RM_TableData} (h : PlainInv PS S q j rel)
    (id : RID) (record : Record) (hp : 0 ≤ id.page) :
    PlainInv PS S q j (getRecord PS rel id record).2.1 := by
  by_cases hs : id.slot < slotsPerPage PS rel.mgmtData.recSize
  · obtain ⟨i, _, hok, _⟩ := pinPage_unpinned h.table.pool h.table.unpinned
      (Or.inl h.table.fifo) rel.mgmtData.pageHandlePtr id.page
    have hinv := getRecord_inv h.table id record hp
    rw [getRecord_eq h.table id record hs] at hinv ⊢
    exact
      { table := hinv
        pageSize := h.pageSize
        slots := h.slots
        recSize_nonneg := h.recSize_nonneg
        slot_lt := h.slot_lt
        tuples := h.tuples
        freePage := h.freePage
        freeSlot := h.freeSlot
        cache := by
          show CacheInv PS _ _ (pinUnpinPool PS rel id.page)
          unfold pinUnpinPool
          exact unpinPage_cacheInv (pinPage_cacheInv h.table.pool h.cache _ _ hp hok) _ }
  · unfold getRecord
    rw [if_pos (by omega)]
    exact h

theorem updateRecord_plainInv {PS S q j : Nat} {rel : RM_TableData} (h : PlainInv PS S q j rel)
    (record : Record) (hp : 0 ≤ record.id.page) (h0 : 0 ≤ record.id.slot) :
    PlainInv PS S q j (updateRecord PS rel record).2 := by
  by_cases hs : record.id.slot < slotsPerPage PS rel.mgmtData.recSize
  · obtain ⟨i, hi, hok, hh, hpn, _, htot, _⟩ := pinPage_unpinned h.table.pool h.table.unpinned
      (Or.inl h.table.fifo) rel.mgmtData.pageHandlePtr record.id.page
    have hinv := updateRecord_inv h.table record hp
    have hc1 := pinPage_cacheInv h.table.pool h.cache rel.mgmtData.pageHandlePtr
      record.id.page hp hok
    have hinv1 := pinPage_inv h.table.pool rel.mgmtData.pageHandlePtr record.id.page hp
    have hS1 : 1 ≤ S := by have := h.slot_lt; omega
    obtain ⟨hPS, _⟩ := slots_fit h.slots h.recSize_nonneg hS1
    rw [updateRecord_eq h.table record hs] at hinv ⊢
    by_cases hb : slotByte PS rel record.id = 89
    · rw [if_neg (by simp [hb])] at hinv ⊢
      have hd0 : (pinPage PS rel.mgmtData.bufferManagerPtr rel.mgmtData.pageHandlePtr
          record.id.page).2.2.data.getD 0 = i * PS := by rw [hh]; rfl
      have hpage : (pinPage PS rel.mgmtData.bufferManagerPtr rel.mgmtData.pageHandlePtr
          record.id.page).2.2.pageNum = record.id.page := by rw [hh]
      have hi1 : i < (pinPage PS rel.mgmtData.bufferManagerPtr rel.mgmtData.pageHandlePtr
          record.id.page).2.1.totalPages := by rw [htot]; exact hi
      obtain ⟨hpos, hend⟩ := slot_in_frame PS rel.mgmtData.recSize record.id.slot i (i + 1)
        h.recSize_nonneg h0 hs (Nat.lt_succ_self i)
      have e : (i + 1) * PS = i * PS + PS := by ring
      rw [e] at hend
      obtain ⟨u1, u2⟩ := updateStores_frames PS
        (pinPage PS rel.mgmtData.bufferManagerPtr rel.mgmtData.pageHandlePtr
          record.id.page).2.1.pagedata i rel.mgmtData.recSize record.id.slot record.data
        (by omega) h.recSize_nonneg h0 hs
      -- the page holds a record, so it is not a fresh page
      have hlt : record.id.page < (if j = 0 then 1 + (q : Int) else 2 + q) := by
        by_contra hge
        have hz := (hc1.fresh i hi1 (by rw [hpn]; omega)).1
        have hbyte : slotByte PS rel record.id = 0 := by
          unfold slotByte
          dsimp only
          rw [hd0]
          have hx : slotAddress (i * PS) rel.mgmtData.recSize record.id.slot
              = i * PS + (slotAddress (i * PS) rel.mgmtData.recSize record.id.slot - i * PS) := by
            omega
          rw [hx, ← getD_bytesAt _ (i * PS) PS _ (by omega)]
          unfold frameBytes at hz
          rw [hz]
          exact getD_replicate_zero _ _
        rw [hbyte] at hb
        cases hb
      exact
        { table := hinv
          pageSize := h.pageSize
          slots := h.slots
          recSize_nonneg := h.recSize_nonneg
          slot_lt := h.slot_lt
          tuples := h.tuples
          freePage := h.freePage
          freeSlot := h.freeSlot
          cache := by
            show CacheInv PS _ _ (unpinPage (markDirty _ _).2 _).2
            apply unpinPage_cacheInv
            rw [hd0]
            apply stores_cacheInv hinv1 hc1 i hi1 _ (by rw [hpn, hpage]) (by rw [hpage]; exact hp)
              (by rw [hpage]; exact hlt) (le_refl _) _ (length_memcpy _ _ _) u1
            intro F c hh2
            obtain ⟨f0, fG, fres, _⟩ := hc1.head F c hh2
            refine ⟨f0, fG, ?_⟩
            by_cases hF : F = record.id.page
            · left
              exact ⟨by rw [hpage]; exact hF, u2 c (fres i hi1 (by rw [hpn, hF]))⟩
            · right
              exact ⟨by rw [hpage]; exact hF, hh2⟩ }
    · rw [if_pos (by simpa using hb)] at hinv ⊢
      exact
        { table := hinv
          pageSize := h.pageSize
          slots := h.slots
          recSize_nonneg := h.recSize_nonneg
          slot_lt := h.slot_lt
          tuples := h.tuples
          freePage := h.freePage
          freeSlot := h.freeSlot
          cache := by
            show CacheInv PS _ _ (pinUnpinPool PS rel record.id.page)
            unfold pinUnpinPool
            exact unpinPage_cacheInv hc1 _ }
  · unfold updateRecord
    rw [if_pos (by omega)]
    exact h

/-- The pool after `insertRecord` on a table that satisfies the invariant. -/
theorem insertRecord_pool {PS : Nat} {rel : RM_TableData} (h : TableInv PS rel)
    (record : Record) :
    (insertRecord PS rel record).2.1.mgmtData.bufferManagerPtr
      = (unpinPage
          (markDirty
            { (pinPage PS rel.mgmtData.bufferManagerPtr rel.mgmtData.pageHandlePtr
                rel.mgmtData.firstFreePageNum).2.1 with
              pagedata := insertStores PS
                (pinPage PS rel.mgmtData.bufferManagerPtr rel.mgmtData.pageHandlePtr
                  rel.mgmtData.firstFreePageNum).2.1.pagedata
                ((pinPage PS rel.mgmtData.bufferManagerPtr rel.mgmtData.pageHandlePtr
                  rel.mgmtData.firstFreePageNum).2.2.data.getD 0)
                (pinPage PS rel.mgmtData.bufferManagerPtr rel.mgmtData.pageHandlePtr
                  rel.mgmtData.firstFreePageNum).2.2.pageNum
                rel.mgmtData.recSize rel.mgmtData.firstFreeSlotNum record.data }
            (pinPage PS rel.mgmtData.bufferManagerPtr rel.mgmtData.pageHandlePtr
              rel.mgmtData.firstFreePageNum).2.2).2
          (pinPage PS rel.mgmtData.bufferManagerPtr rel.mgmtData.pageHandlePtr
            rel.mgmtData.firstFreePageNum).2.2).2 := by
  obtain ⟨_, _, hok, _⟩ := pinPage_unpinned h.pool h.unpinned (Or.inl h.fifo)
    rel.mgmtData.pageHandlePtr rel.mgmtData.firstFreePageNum
  unfold insertRecord insertStores
  simp only [hok, ne_eq, not_true_eq_false, if_false]

/-- One `insertRecord` on a table in the state after `q * S + j` inserts among
reads and updates: it returns `RC_OK` with the record identifier `(1 + q, j)`
and leaves the state after one more insert. -/
theorem insertRecord_plainStep {PS S q j : Nat} {rel : RM_TableData}
    (h : PlainInv PS S q j rel) (record : Record) :
    (insertRecord PS rel record).1 = RC.RC_OK
      ∧ (insertRecord PS rel record).2.2.id = { page := 1 + q, slot := j }
      ∧ (insertRecord PS rel record).2.1.mgmtData.totalTuples = q * S + j + 1
      ∧ (j + 1 = S → PlainInv PS S (q + 1) 0 (insertRecord PS rel record).2.1)
      ∧ (j + 1 < S → PlainInv PS S q (j + 1) (insertRecord PS rel record).2.1) := by
  obtain ⟨i, hi, hh, hlenp, hok, r1, r2, r3, r4, r5, r6, _, _, _⟩ :=
    insertRecord_fields h.table record
  have hpool := insertRecord_pool h.table record
  have hinv' := insertRecord_inv h.table record
  obtain ⟨i2, _, _, hh2, hpn2, _, htot, _⟩ := pinPage_unpinned h.table.pool h.table.unpinned
    (Or.inl h.table.fifo) rel.mgmtData.pageHandlePtr rel.mgmtData.firstFreePageNum
  have hfp0 := h.table.freePage
  have hc1 := pinPage_cacheInv h.table.pool h.cache rel.mgmtData.pageHandlePtr
    rel.mgmtData.firstFreePageNum hfp0 hok
  have hinv1 := pinPage_inv h.table.pool rel.mgmtData.pageHandlePtr
    rel.mgmtData.firstFreePageNum hfp0
  have hrec := h.recSize_nonneg
  have hjlt := h.slot_lt
  have hS1 : 1 ≤ S := by omega
  obtain ⟨hPS, hSle⟩ := slots_fit h.slots hrec hS1
  have hPSmax := h.pageSize
  have hS2 : S ≤ 2147483647 := by omega
  have hii : i2 = i := by
    rw [hh] at hh2
    simp only [BM_PageHandle.mk.injEq, Option.some.injEq, true_and] at hh2
    exact Nat.eq_of_mul_eq_mul_right (by omega) hh2.symm
  subst hii
  rw [h.freePage] at hh hlenp hok r2 r5 r6 hpool hpn2 htot hc1 hinv1
  rw [h.freeSlot] at r2 r5 r6 hpool
  rw [h.tuples] at r4
  rw [hh] at hpool
  simp only [Option.getD_some] at hpool
  have hi1 : i2 < (pinPage PS rel.mgmtData.bufferManagerPtr rel.mgmtData.pageHandlePtr
      (1 + q)).2.1.totalPages := by rw [htot]; exact hi
  have hjS : (j : Int) < slotsPerPage PS rel.mgmtData.recSize := by
    rw [h.slots]; exact_mod_cast hjlt
  obtain ⟨hpos, hend⟩ := slot_in_frame PS rel.mgmtData.recSize j i2
    rel.mgmtData.bufferManagerPtr.totalPages hrec (by omega) hjS hi
  have hlen32 : i2 * PS + 32 ≤ (pinPage PS rel.mgmtData.bufferManagerPtr
      rel.mgmtData.pageHandlePtr (1 + q)).2.1.pagedata.length := by
    rw [hlenp]; omega
  -- the header as the stores of the call leave it
  have hM : (insertStores PS
        (pinPage PS rel.mgmtData.bufferManagerPtr rel.mgmtData.pageHandlePtr
          (1 + q)).2.1.pagedata (i2 * PS) (1 + q) rel.mgmtData.recSize j record.data).getD
          (i2 * PS) 0 = 89
      ∧ readInt (insertStores PS
        (pinPage PS rel.mgmtData.bufferManagerPtr rel.mgmtData.pageHandlePtr
          (1 + q)).2.1.pagedata (i2 * PS) (1 + q) rel.mgmtData.recSize j record.data)
          (i2 * PS + offFreeSlotCnt) = (S : Int) - (j + 1) := by
    obtain ⟨e1, e2⟩ := insertStores_header PS
      (pinPage PS rel.mgmtData.bufferManagerPtr rel.mgmtData.pageHandlePtr
        (1 + q)).2.1.pagedata (i2 * PS) (1 + q) rel.mgmtData.recSize j record.data hpos
    rw [e1, e2]
    by_cases hj : j = 0
    · subst hj
      simp only [if_true] at hc1
      have hz := (hc1.fresh i2 hi1 (by rw [hpn2])).1
      have hb : (pinPage PS rel.mgmtData.bufferManagerPtr rel.mgmtData.pageHandlePtr
          (1 + q)).2.1.pagedata.getD (i2 * PS) 0 ≠ 89 := by
        have := getD_bytesAt (pinPage PS rel.mgmtData.bufferManagerPtr
          rel.mgmtData.pageHandlePtr (1 + q)).2.1.pagedata (i2 * PS) PS 0 (by omega)
        unfold frameBytes at hz
        rw [hz, getD_replicate_zero, Nat.add_zero] at this
        rw [← this]
        decide
      obtain ⟨f1, f2⟩ := insertHeader_fresh PS _ (i2 * PS) (1 + q) rel.mgmtData.recSize S
        hlen32 hb h.slots hS1 hS2
      rw [f1, f2]
      exact ⟨rfl, by push_cast; omega⟩
    · rw [if_neg hj, if_neg hj] at hc1
      obtain ⟨_, _, fres, _⟩ := hc1.head _ _ rfl
      have hH := (hasHeader_frame PS _ i2 _ (by omega)).mp (fres i2 hi1 hpn2)
      obtain ⟨f1, f2⟩ := insertHeader_used PS _ (i2 * PS) (1 + q) rel.mgmtData.recSize
        ((S : Int) - j) hlen32 hH.1 hH.2 (by omega) (by omega)
      rw [f1, f2]
      exact ⟨rfl, by omega⟩
  obtain ⟨hM1, hM2⟩ := hM
  rw [hM2] at r5 r6
  -- the pool and the file after the call
  have hcache : ∀ hdr2 : Option (Int × Int),
      (∀ F c, hdr2 = some (F, c) → F = 1 + (q : Int) ∧ c = (S : Int) - (j + 1)) →
      CacheInv PS (2 + q) hdr2 (insertRecord PS rel record).2.1.mgmtData.bufferManagerPtr := by
    intro hdr2 hhdr
    rw [hpool]
    apply unpinPage_cacheInv
    apply stores_cacheInv hinv1 hc1 i2 hi1 _ hpn2 (by show (0 : Int) ≤ 1 + q; omega)
      (by show (1 : Int) + q < 2 + q; omega) (by split <;> omega) _
      (length_insertStores _ _ _ _ _ _ _)
      (fun k hk => insertStores_other PS _ i2 _ _ _ _ (by omega) hrec (by omega) hjS k hk)
    intro F c hFc
    obtain ⟨eF, ec⟩ := hhdr F c hFc
    subst eF ec
    refine ⟨by omega, by omega, Or.inl ⟨rfl, ?_⟩⟩
    exact (hasHeader_frame PS _ i2 _ (by omega)).mpr ⟨hM1, hM2⟩
  refine ⟨r1, r2, r4, ?_, ?_⟩
  · intro hfull
    have hz : (S : Int) - (j + 1) = 0 := by omega
    rw [if_pos hz] at r5 r6
    exact
      { table := hinv'
        pageSize := hPSmax
        slots := by rw [r3]; exact h.slots
        recSize_nonneg := by rw [r3]; exact hrec
        slot_lt := by omega
        tuples := by
          rw [r4]
          have e : ((q + 1 : Nat) : Int) * (S : Int) = (q : Int) * S + S := by push_cast; ring
          rw [e]
          push_cast
          omega
        freePage := by rw [r5]; push_cast; omega
        freeSlot := by rw [r6]; rfl
        cache := by
          rw [if_pos rfl, if_pos rfl]
          have := hcache none (fun F c hc => by cases hc)
          have e : (1 : Int) + ((q + 1 : Nat) : Int) = 2 + q := by push_cast; omega
          rw [e]
          exact this }
  · intro hlt
    have hz : ¬ ((S : Int) - (j + 1) = 0) := by omega
    rw [if_neg hz] at r5 r6
    exact
      { table := hinv'
        pageSize := hPSmax
        slots := by rw [r3]; exact h.slots
        recSize_nonneg := by rw [r3]; exact hrec
        slot_lt := hlt
        tuples := by rw [r4]; push_cast; omega
        freePage := by rw [r5]
        freeSlot := by rw [r6]; push_cast; rfl
        cache := by
          rw [if_neg (by omega), if_neg (by omega)]
          apply hcache
          intro F c hc
          simp only [Option.some.injEq, Prod.mk.injEq] at hc
          exact ⟨hc.1.symm, by rw [← hc.2]; push_cast; ring⟩ }

theorem runTableOps_cons (PS : Nat) (rel : RM_TableData) (op : TableOp) (ops : List TableOp) :
    runTableOps PS rel (op :: ops) = runTableOps PS (applyTableOp PS rel op) ops := rfl

/-- After `q * S + j` inserts and any further calls `ops` none of which is a
`deleteRecord`, the next `insertRecord` returns `RC_OK` with the record
identifier given by the number `n` of inserts before it: page `1 + n / S`,
slot `n % S`. -/
theorem runTableOps_rids {PS S : Nat} (ops : List TableOp) :
    ∀ (q j : Nat) (rel : RM_TableData), PlainInv PS S q j rel → (∀ op ∈ ops, op.plain) →
      ∀ record : Record,
        (insertRecord PS (runTableOps PS rel ops) record).1 = RC.RC_OK
          ∧ (insertRecord PS (runTableOps PS rel ops) record).2.2.id
              = { page := 1 + (((q * S + j + insertCount ops) / S : Nat) : Int),
                  slot := (((q * S + j + insertCount ops) % S : Nat) : Int) }
          ∧ (insertRecord PS (runTableOps PS rel ops) record).2.1.mgmtData.totalTuples
              = ((q * S + j + insertCount ops : Nat) : Int) + 1 := by
  induction ops with
  | nil =>
    intro q j rel h _ record
    obtain ⟨s1, s2, s3, _, _⟩ := insertRecord_plainStep h record
    have hj := h.slot_lt
    have hS : 0 < S := by omega
    show (insertRecord PS rel record).1 = RC.RC_OK
      ∧ (insertRecord PS rel record).2.2.id = _
      ∧ (insertRecord PS rel record).2.1.mgmtData.totalTuples = _
    refine ⟨s1, ?_, ?_⟩
    · rw [s2]
      simp only [insertCount, Nat.add_zero]
      rw [Nat.mul_comm q S, Nat.mul_add_div hS, Nat.mul_add_mod, Nat.div_eq_of_lt hj,
        Nat.mod_eq_of_lt hj, Nat.add_zero]
    · rw [s3]
      simp only [insertCount, Nat.add_zero]
      push_cast
      rfl
  | cons op ops ih =>
    intro q j rel h hplain record
    have hrest : ∀ o ∈ ops, o.plain := fun o ho => hplain o (List.mem_cons_of_mem _ ho)
    have hop := hplain op (List.mem_cons_self _ _)
    rw [runTableOps_cons]
    cases op with
    | insertRecord r =>
      obtain ⟨_, _, _, s4, s5⟩ := insertRecord_plainStep h r
      have hj := h.slot_lt
      by_cases hfull : j + 1 = S
      · have := ih (q + 1) 0 _ (s4 hfull) hrest record
        have e : (q + 1) * S + 0 + insertCount ops
            = q * S + j + insertCount (TableOp.insertRecord r :: ops) := by
          simp only [insertCount]
          rw [Nat.add_mul]
          omega
        rw [e] at this
        exact this
      · have := ih q (j + 1) _ (s5 (by omega)) hrest record
        have e : q * S + (j + 1) + insertCount ops
            = q * S + j + insertCount (TableOp.insertRecord r :: ops) := by
          simp only [insertCount]
          omega
        rw [e] at this
        exact this
    | getRecord id r =>
      exact ih q j _ (getRecord_plainInv h id r hop) hrest record
    | updateRecord r =>
      exact ih q j _ (updateRecord_plainInv h r hop.1 hop.2) hrest record
    | deleteRecord id => exact absurd hop (by simp [TableOp.plain])

/-- A table opened on a file without a data page, with the counters that
`createTable` writes, is in the state after no insert. -/
theorem openTable_plainInv (PS S : Nat) (tableFile : Option (List Nat)) (rel : RM_TableData)
    (hopen : openTable PS tableFile = (RC.RC_OK, some rel)) (hPS : PS ≤ 2147483647)
    (hS : slotsPerPage PS rel.mgmtData.recSize = S) (hS1 : 1 ≤ S)
    (hrec : 0 ≤ rel.mgmtData.recSize) (h0 : rel.mgmtData.totalTuples = 0)
    (h1 : rel.mgmtData.firstFreePageNum = 1) (h2 : rel.mgmtData.firstFreeSlotNum = 0)
    (hfile : rel.mgmtData.bufferManagerPtr.fhl.totalNumPages ≤ 1) : PlainInv PS S 0 0 rel :=
  { table := openTable_inv PS tableFile rel hopen (by rw [h1]; decide)
    pageSize := hPS
    slots := hS
    recSize_nonneg := hrec
    slot_lt := by omega
    tuples := by rw [h0]; simp
    freePage := by rw [h1]; simp
    freeSlot := by rw [h2]; simp
    cache := by
      rw [if_pos rfl, if_pos rfl]
      exact
        { total_le := by push_cast; omega
          fresh := by
            intro i _ hG
            have := openTable_pages PS tableFile rel hopen i
            push_cast at hG
            omega
          head := fun F c hc => by cases hc } }

/-- C37: on a table that was opened on a file without a data page with the
counters that `createTable` writes (total_tuples 0, first_free_page 1,
first_free_slot 0), with `S >= 1` slots per page, after any sequence of
`insertRecord`, `getRecord` and `updateRecord` calls (no `deleteRecord`; page
numbers not negative, slot numbers of `updateRecord` not negative) of which `k`
are `insertRecord` calls, the next `insertRecord` returns `RC_OK`, sets the
record identifier to (page `1 + k / S`, slot `k % S`) and leaves total_tuples
`k + 1`; the page is at least 1, and inserts after different numbers of
inserts get different record identifiers. -/
theorem C37_rid_assignment (PS S : Nat) (tableFile : Option (List Nat)) (rel : RM_TableData)
    (hopen : openTable PS tableFile = (RC.RC_OK, some rel)) (hPS : PS ≤ 2147483647)
    (hS : slotsPerPage PS rel.mgmtData.recSize = S) (hS1 : 1 ≤ S)
    (hrec : 0 ≤ rel.mgmtData.recSize) (h0 : rel.mgmtData.totalTuples = 0)
    (h1 : rel.mgmtData.firstFreePageNum = 1) (h2 : rel.mgmtData.firstFreeSlotNum = 0)
    (hfile : rel.mgmtData.bufferManagerPtr.fhl.totalNumPages ≤ 1)
    (ops : List TableOp) (hops : ∀ op ∈ ops, op.plain) (record : Record) :
    (insertRecord PS (runTableOps PS rel ops) record).1 = RC.RC_OK
      ∧ (insertRecord PS (runTableOps PS rel ops) record).2.2.id
          = { page := 1 + ((insertCount ops / S : Nat) : Int),
              slot := ((insertCount ops % S : Nat) : Int) }
      ∧ (insertRecord PS (runTableOps PS rel ops) record).2.1.mgmtData.totalTuples
          = (insertCount ops : Int) + 1
      ∧ 1 ≤ (insertRecord PS (runTableOps PS rel ops) record).2.2.id.page
      ∧ ∀ (ops2 : List TableOp) (record2 : Record), (∀ op ∈ ops2, op.plain) →
          insertCount ops2 ≠ insertCount ops →
          (insertRecord PS (runTableOps PS rel ops2) record2).2.2.id
            ≠ (insertRecord PS (runTableOps PS rel ops) record).2.2.id := by
  have hinv := openTable_plainInv PS S tableFile rel hopen hPS hS hS1 hrec h0 h1 h2 hfile
  have key : ∀ (os : List TableOp) (r : Record), (∀ op ∈ os, op.plain) →
      (insertRecord PS (runTableOps PS rel os) r).1 = RC.RC_OK
        ∧ (insertRecord PS (runTableOps PS rel os) r).2.2.id
            = { page := 1 + ((insertCount os / S : Nat) : Int),
                slot := ((insertCount os % S : Nat) : Int) }
        ∧ (insertRecord PS (runTableOps PS rel os) r).2.1.mgmtData.totalTuples
            = (insertCount os : Int) + 1 := by
    intro os r hos
    have := runTableOps_rids os 0 0 rel hinv hos r
    simp only [Nat.zero_mul, Nat.zero_add] at this
    exact this
  obtain ⟨k1, k2, k3⟩ := key ops record hops
  refine ⟨k1, k2, k3, ?_, ?_⟩
  · rw [k2]
    show (1 : Int) ≤ 1 + ((insertCount ops / S : Nat) : Int)
    have := Int.ofNat_nonneg (insertCount ops / S)
    generalize ((insertCount ops / S : Nat) : Int) = x at this
    omega
  · intro ops2 record2 hops2 hne heq
    rw [k2, (key ops2 record2 hops2).2.1] at heq
    simp only [RID.mk.injEq] at heq
    obtain ⟨e1, e2⟩ := heq
    have e1' : insertCount ops2 / S = insertCount ops / S := by
      have e3 : ((insertCount ops2 / S : Nat) : Int) = ((insertCount ops / S : Nat) : Int) :=
        Int.add_left_cancel e1
      exact Int.ofNat_inj.mp e3
    have e2' : insertCount ops2 % S = insertCount ops % S := by exact_mod_cast e2
    apply hne
    rw [← Nat.div_add_mod (insertCount ops2) S, ← Nat.div_add_mod (insertCount ops) S, e1', e2']

set_option maxRecDepth 100000 in
/-- C37 on the fresh table with two slots per page (`PAGE_SIZE` 64, records of
12 bytes): after `insertRecord(r1)`, `getRecord((1, 0))`, an `updateRecord` of
the record (1, 0) and `insertRecord(r2)`, the third `insertRecord` returns
`RC_OK` with the record identifier (2, 0) and leaves total_tuples 3. -/
theorem C37_witness :
    openTable 64 (createTable 64 (List.replicate 64 0) none (stringSchema 12)).2
        = (RC.RC_OK, some (freshTable 64 12))
      ∧ slotsPerPage 64 (freshTable 64 12).mgmtData.recSize = 2
      ∧ (insertRecord 64 (runTableOps 64 (freshTable 64 12) plainOps) (constRecord 12 3)).1
          = RC.RC_OK
      ∧ (insertRecord 64 (runTableOps 64 (freshTable 64 12) plainOps)
          (constRecord 12 3)).2.2.id = { page := 2, slot := 0 }
      ∧ (insertRecord 64 (runTableOps 64 (freshTable 64 12) plainOps)
          (constRecord 12 3)).2.1.mgmtData.totalTuples = 3 :=
  have h := C37_rid_assignment 64 2
    (createTable 64 (List.replicate 64 0) none (stringSchema 12)).2 (freshTable 64 12)
    (by decide) (by decide) (by decide) (by decide) (by decide) (by decide) (by decide)
    (by decide) (by decide) plainOps (by decide) (constRecord 12 3)
  ⟨by decide, by decide, h.1, h.2.1, h.2.2.1⟩

end BlockwiseDB
